import Mathlib

/-!
# Nullkiller AI core: army merge, hero-chain actors, guarded steps, turn loop

A shallow embedding of the parts of `AI/Nullkiller` that the properties below
are about, followed by the theorems.

Conventions of the embedding.

* Pointers are values: a creature pointer is the creature record, an actor
  pointer is an index into the actor arena, a null pointer is `none`.
* `uint64_t` quantities are natural numbers; where the source subtracts two
  unsigned values the wrap-around modulo `2 ^ 64` is written out.
* A call whose behaviour is undefined in C++ (dereferencing `end()`, integer
  division by zero) makes the embedded function return `none`.
* Library calls whose result is only specified up to a contract
  (`boost::sort`) are parameters of the embedding, constrained by that
  contract.
-/

namespace Nullkiller

/-! ## Creature sets (`CCreature`, `CStackInstance`, `CCreatureSet`, `SlotInfo`) -/

/-- Creature type, the pointee of a `const CCreature *`.  Only the members read
by the army manager are kept. -/
structure CCreature where
  idNumber : Nat
  level : Nat
  speed : Nat
  AIValue : Nat
deriving DecidableEq, Repr

/-- One stack of a creature set: creature type and number of units. -/
structure CStackInstance where
  type : CCreature
  count : Nat
deriving DecidableEq, Repr

/-- Modelled from the spec: `CStackInstance::getPower` is library code outside
the army manager; the spec gives the power of a slot as `type.AIValue × count`. -/
def CStackInstance.getPower (s : CStackInstance) : Nat :=
  s.type.AIValue * s.count

/-- Creature set: the stacks in slot order (`Slots()`), and the answer of the
virtual `needsLastStack()` (true for a hero, false for a plain set). -/
structure CCreatureSet where
  slots : List CStackInstance
  needsLastStack : Bool
deriving DecidableEq, Repr

/-- Modelled from the spec: `CCreatureSet::getArmyStrength` is library code; the
spec gives the power of a creature set as the sum over its slots of
`type.AIValue × count`. -/
def CCreatureSet.getArmyStrength (a : CCreatureSet) : Nat :=
  (a.slots.map CStackInstance.getPower).sum

/-- Invariant of a creature set stated by the data model: no slot is empty. -/
def CCreatureSet.valid (a : CCreatureSet) : Prop :=
  ∀ s ∈ a.slots, 0 < s.count

instance (a : CCreatureSet) : Decidable a.valid := by
  unfold CCreatureSet.valid
  infer_instance

/-- Modelled from the spec: `GameConstants::ARMY_SIZE`, the number of slots of a
creature set (`ARMY_SIZE = 7`). -/
def ARMY_SIZE : Nat := 7

/-- Intermediate record of the army merge.  `creature` is a pointer and is null
in a value-initialised `SlotInfo`. -/
structure SlotInfo where
  creature : Option CCreature
  count : Nat
  power : Nat
deriving DecidableEq, Repr

/-- Value-initialised `SlotInfo()`. -/
def SlotInfo.empty : SlotInfo := { creature := none, count := 0, power := 0 }

/-- Level of the creature a slot points to (`slot.creature->level`).  Every slot
built by `getSortedSlots` has a non-null creature. -/
def SlotInfo.level (s : SlotInfo) : Nat :=
  match s.creature with
  | some c => c.level
  | none => 0

/-- Speed of the creature a slot points to (`slot.creature->Speed()`). -/
def SlotInfo.speed (s : SlotInfo) : Nat :=
  match s.creature with
  | some c => c.speed
  | none => 0

/-- Sum of the slot powers of an army, as accumulated by
`howManyReinforcementsCanGet`. -/
def armyPower (army : List SlotInfo) : Nat :=
  (army.map SlotInfo.power).sum

/-! ## `ArmyManager` -/

/-- One iteration of the inner loop of `getSortedSlots`:
`auto & slotInfp = creToPower[type]` finds the entry of the creature or inserts
a value-initialised one, then creature, power and count are updated.  The
`std::map` is an association list; the order of its entries is irrelevant
because the result is sorted afterwards. -/
def creToPowerAdd : List (CCreature × SlotInfo) → CStackInstance → List (CCreature × SlotInfo)
  | [], st =>
      [(st.type, { creature := some st.type
                   count := SlotInfo.empty.count + st.count
                   power := SlotInfo.empty.power + st.getPower })]
  | (k, v) :: rest, st =>
      if k = st.type then
        (k, { creature := some st.type
              count := v.count + st.count
              power := v.power + st.getPower }) :: rest
      else
        (k, v) :: creToPowerAdd rest st

/-- The map `creToPower` after both loops of `getSortedSlots`: the stacks of
`target` are added first, then those of `source`. -/
def creToPower (target source : CCreatureSet) : List (CCreature × SlotInfo) :=
  source.slots.foldl creToPowerAdd (target.slots.foldl creToPowerAdd [])

/-- Comparator given to `boost::sort` in `getSortedSlots`:
`left.power > right.power`. -/
def powerGreater (left right : SlotInfo) : Bool :=
  decide (left.power > right.power)

/-- Contract of `boost::sort(range, comp)` with `comp = powerGreater`: the result
is a rearrangement of the input in which no later element compares before an
earlier one.  The order of elements of equal power is unspecified. -/
structure IsBoostSort (sort : List SlotInfo → List SlotInfo) : Prop where
  perm : ∀ l, (sort l).Perm l
  sorted : ∀ l, (sort l).Pairwise (fun a b => powerGreater b a = false)

/-- `ArmyManager::getSortedSlots`. -/
def getSortedSlots (sort : List SlotInfo → List SlotInfo)
    (target source : CCreatureSet) : List SlotInfo :=
  sort ((creToPower target source).map Prod.snd)

/-- Comparator of `getWeakestCreature`: lower level first, and at equal level
the faster creature first. -/
def weakerThan (left right : SlotInfo) : Bool :=
  if left.level ≠ right.level then decide (left.level < right.level)
  else decide (left.speed > right.speed)

/-- Loop of `std::min_element`: `best` is the index of the smallest element seen
so far and `bestVal` its value, `idx` the index of the head of the rest. -/
def minElementLoop (comp : SlotInfo → SlotInfo → Bool) :
    List SlotInfo → Nat → Nat → SlotInfo → Nat
  | [], _, best, _ => best
  | x :: xs, idx, best, bestVal =>
      if comp x bestVal then minElementLoop comp xs (idx + 1) idx x
      else minElementLoop comp xs (idx + 1) best bestVal

/-- `ArmyManager::getWeakestCreature`: position of the first minimal element,
`none` standing for the `end()` iterator of an empty army. -/
def getWeakestCreature (army : List SlotInfo) : Option Nat :=
  match army with
  | [] => none
  | x :: xs => some (minElementLoop weakerThan xs 1 0 x)

/-- `ArmyManager::getBestArmy`.  `none` is undefined behaviour: `weakest->count`
on the `end()` iterator of an empty army, or `power / count` with `count = 0`. -/
def getBestArmy (sort : List SlotInfo → List SlotInfo)
    (target source : CCreatureSet) : Option (List SlotInfo) :=
  let resultingArmy := getSortedSlots sort target source
  if resultingArmy.length > ARMY_SIZE then
    some (resultingArmy.take ARMY_SIZE)
  else if source.needsLastStack then
    match getWeakestCreature resultingArmy with
    | none => none
    | some i =>
      match resultingArmy[i]? with
      | none => none
      | some weakest =>
        if weakest.count = 1 then
          some (resultingArmy.eraseIdx i)
        else if weakest.count = 0 then
          none
        else
          some (resultingArmy.set i
            { weakest with
              power := weakest.power - weakest.power / weakest.count
              count := weakest.count - 1 })
  else
    some resultingArmy

/-- `ArmyManager::howManyReinforcementsCanGet`. -/
def howManyReinforcementsCanGet (sort : List SlotInfo → List SlotInfo)
    (target source : CCreatureSet) : Option Nat :=
  match getBestArmy sort target source with
  | none => none
  | some bestArmy =>
    let newArmy := armyPower bestArmy
    let oldArmy := target.getArmyStrength
    some (if newArmy > oldArmy then newArmy - oldArmy else 0)

/-- A sort meeting the contract of `boost::sort`, used to evaluate the
embedding on concrete armies: insertion sort by non-increasing power. -/
def sortByPower (l : List SlotInfo) : List SlotInfo :=
  l.insertionSort (fun a b => a.power ≥ b.power)

/-! ## Auxiliary definitions for the army merge -/

/-- Keys of the merge map. -/
def mapKeys (m : List (CCreature × SlotInfo)) : List CCreature := m.map Prod.fst

/-- Sum of a slot measure over the map entries whose key satisfies `p`. -/
def mapSum (f : SlotInfo → Nat) (p : CCreature → Bool) (m : List (CCreature × SlotInfo)) : Nat :=
  ((m.filter (fun e => p e.1)).map (fun e => f e.2)).sum

instance : IsTotal SlotInfo (fun a b => a.power ≥ b.power) :=
  ⟨fun a b => by
    rcases Nat.le_total a.power b.power with h | h
    · exact Or.inr h
    · exact Or.inl h⟩

instance : IsTrans SlotInfo (fun a b => a.power ≥ b.power) :=
  ⟨fun _ _ _ hab hbc => Nat.le_trans hbc hab⟩

/-- Selection of the slots whose creature satisfies `p`. -/
def slotSel (p : CCreature → Bool) (e : SlotInfo) : Bool :=
  match e.creature with
  | some c => p c
  | none => false

/-- Creature types occurring in target or source, each listed once. -/
def mergedTypes (target source : CCreatureSet) : List CCreature :=
  ((target.slots ++ source.slots).map CStackInstance.type).dedup

/-- Number of units of creature `c` in target and source together. -/
def totalCount (target source : CCreatureSet) (c : CCreature) : Nat :=
  (((target.slots ++ source.slots).filter (fun s => decide (s.type = c))).map
    CStackInstance.count).sum

/-- Sum of the powers of the stacks of creature `c` in target and source. -/
def totalPower (target source : CCreatureSet) (c : CCreature) : Nat :=
  (((target.slots ++ source.slots).filter (fun s => decide (s.type = c))).map
    CStackInstance.getPower).sum

/-- Pikeman of scenario S1 (10 power per unit). -/
def pikeman : CCreature := { idNumber := 0, level := 1, speed := 4, AIValue := 10 }

/-- Archer of scenario S1 (16 power per unit). -/
def archer : CCreature := { idNumber := 2, level := 2, speed := 4, AIValue := 16 }

/-- Swordsman of scenario S1 (60 power per unit). -/
def swordsman : CCreature := { idNumber := 6, level := 4, speed := 5, AIValue := 60 }

/-- Halberdier: a level 1 creature worth more than some level 2 creatures. -/
def halberdier : CCreature := { idNumber := 1, level := 1, speed := 5, AIValue := 115 }

/-- Walking dead: a level 2 creature worth less than a halberdier. -/
def walkingDead : CCreature := { idNumber := 58, level := 2, speed := 3, AIValue := 98 }

/-- Target of scenario S1: Pikeman×10, Archer×5. -/
def s1Target : CCreatureSet :=
  { slots := [⟨pikeman, 10⟩, ⟨archer, 5⟩], needsLastStack := true }

/-- Source of scenario S1: Pikeman×4, Swordsman×2, a hero that keeps a last stack. -/
def s1Source : CCreatureSet :=
  { slots := [⟨pikeman, 4⟩, ⟨swordsman, 2⟩], needsLastStack := true }

/-- The source of scenario S1 as a plain creature set without rear guard. -/
def s1Garrison : CCreatureSet :=
  { slots := [⟨pikeman, 4⟩, ⟨swordsman, 2⟩], needsLastStack := false }

/-! ## Actors (`ChainActor`, `HeroActor`, `HeroExchangeMap`) -/

/-- Map coordinate `int3`. -/
structure int3 where
  x : Int
  y : Int
  z : Int
deriving DecidableEq, Repr

/-- Movement medium of a node. -/
inductive EPathfindingLayer where
  | LAND
  | SAIL
  | WATER
  | AIR
deriving DecidableEq, Repr

/-- The members of `CGHeroInstance` read by the actors and the chain pass.  The
hero is itself the creature set `army`. -/
structure CGHeroInstance where
  id : Nat
  tempOwner : Nat
  visitablePos : int3
  boat : Bool
  movement : Nat
  exp : Nat
  maxMovePointsLand : Nat
  maxMovePointsSail : Nat
  army : CCreatureSet
deriving DecidableEq, Repr

/-- `hero->maxMovePoints(layer)`: the land value on land, the water value
otherwise. -/
def CGHeroInstance.maxMovePoints (h : CGHeroInstance) (layer : EPathfindingLayer) : Nat :=
  match layer with
  | EPathfindingLayer.LAND => h.maxMovePointsLand
  | _ => h.maxMovePointsSail

/-- Address of an actor: its index in the actor arena. -/
abbrev ActorPtr := Nat

/-- Data members of `ChainActor`.  Actor pointers are arena addresses; the hero
and the creature set are kept by value. -/
structure ChainActor where
  hero : Option CGHeroInstance
  isMovable : Bool
  chainMask : Nat
  creatureSet : CCreatureSet
  baseActor : ActorPtr
  carrierParent : Option ActorPtr
  otherParent : Option ActorPtr
  allowBattle : Bool
  allowSpellCast : Bool
  allowUseResources : Bool
  battleActor : ActorPtr
  castActor : ActorPtr
  resourceActor : ActorPtr
  initialPosition : int3
  layer : EPathfindingLayer
  initialMovement : Nat
  initialTurn : Nat
  armyValue : Nat
deriving DecidableEq, Repr

/-- Members of `HeroExchangeMap`: the owning hero actor and the two memo tables,
keyed by the address of the other actor. -/
structure HeroExchangeMap where
  actor : ActorPtr
  canExchangeCache : List (ActorPtr × Bool)
  exchangeMap : List (ActorPtr × ActorPtr)
deriving DecidableEq, Repr

/-- All actor objects alive during a turn.  `actors` holds the `ChainActor` part
of every object in address order; a `HeroActor` at address `p` is followed by
its `specialActors` array at `p + 1 .. p + 7`.  `exchangeMaps` holds the
`HeroExchangeMap` owned by each `HeroActor` (the most recent entry for an
address is the current one): an object is a `HeroActor` exactly when it owns
one. -/
structure ActorArena where
  actors : List ChainActor
  exchangeMaps : List (ActorPtr × HeroExchangeMap)
deriving DecidableEq, Repr

/-- Modelled from the spec: `SPECIAL_ACTORS_COUNT`, declared in the header; a
hero has 8 variants, the base actor and 7 special actors. -/
def SPECIAL_ACTORS_COUNT : Nat := 7

/-- `ChainActor::ChainActor(hero, chainMask)`, run on an object whose memory
holds `raw` and whose address is `self`. -/
def ChainActor.ofHero (raw : ChainActor) (self : ActorPtr) (hero : CGHeroInstance)
    (chainMask : Nat) : ChainActor :=
  { raw with
    hero := some hero
    isMovable := true
    chainMask := chainMask
    creatureSet := hero.army
    baseActor := self
    carrierParent := none
    otherParent := none
    initialPosition := hero.visitablePos
    layer := if hero.boat then EPathfindingLayer.SAIL else EPathfindingLayer.LAND
    initialMovement := hero.movement
    initialTurn := 0
    armyValue := hero.army.getArmyStrength }

/-- `ChainActor::ChainActor(carrier, other, heroArmy)`; `carrier` and `other` are
the pointees, `carrierPtr` and `otherPtr` their addresses. -/
def ChainActor.ofExchange (raw : ChainActor) (self : ActorPtr)
    (carrierPtr : ActorPtr) (carrier : ChainActor) (otherPtr : ActorPtr) (other : ChainActor)
    (heroArmy : CCreatureSet) : ChainActor :=
  { raw with
    hero := carrier.hero
    isMovable := true
    creatureSet := heroArmy
    chainMask := carrier.chainMask ||| other.chainMask
    baseActor := self
    carrierParent := some carrierPtr
    otherParent := some otherPtr
    armyValue := heroArmy.getArmyStrength }

/-- `ChainActor::ChainActor(obj, creatureSet, chainMask, initialTurn)`, the
constructor of the immobile actors (town garrison, hill fort, dwelling). -/
def ChainActor.ofObject (raw : ChainActor) (self : ActorPtr) (visitablePos : int3)
    (creatureSet : CCreatureSet) (chainMask : Nat) (initialTurn : Nat) : ChainActor :=
  { raw with
    hero := none
    isMovable := false
    creatureSet := creatureSet
    chainMask := chainMask
    baseActor := self
    carrierParent := none
    otherParent := none
    initialTurn := initialTurn
    initialMovement := 0
    initialPosition := visitablePos
    layer := EPathfindingLayer.LAND
    armyValue := creatureSet.getArmyStrength }

/-- `ChainActor::setBaseActor(base)`; `basePtr` is the address of `base`. -/
def ChainActor.setBaseActor (a : ChainActor) (basePtr : ActorPtr) (base : ChainActor) :
    ChainActor :=
  { a with
    baseActor := basePtr
    hero := base.hero
    layer := base.layer
    initialMovement := base.initialMovement
    initialTurn := base.initialTurn
    armyValue := base.armyValue
    chainMask := base.chainMask
    creatureSet := base.creatureSet
    isMovable := base.isMovable }

/-- Body of the second loop of `HeroActor::setupSpecialActors` for `allActors[i]`,
where `allActors[j]` lives at address `self + j`. -/
def setupPermissions (self : ActorPtr) (i : Nat) (actor : ChainActor) : ChainActor :=
  { actor with
    allowBattle := decide ((i &&& 1) > 0)
    allowSpellCast := decide ((i &&& 2) > 0)
    allowUseResources := decide ((i &&& 4) > 0)
    battleActor := self + (i ||| 1)
    castActor := self + (i ||| 2)
    resourceActor := self + (i ||| 4) }

/-- `HeroActor::setupSpecialActors` for the hero actor `base` at address `self`:
the eight objects `allActors[0 .. SPECIAL_ACTORS_COUNT]` after both loops.
`raw k` is the memory of `specialActors[k]` before the call. -/
def setupSpecialActors (raw : Nat → ChainActor) (self : ActorPtr) (base : ChainActor) :
    List ChainActor :=
  let allActors := base ::
    (List.range SPECIAL_ACTORS_COUNT).map (fun k => (raw k).setBaseActor self base)
  List.zipWith (setupPermissions self) (List.range (SPECIAL_ACTORS_COUNT + 1)) allActors

/-- Allocation and construction of a `HeroActor` whose `ChainActor` part is built
by `mkBase` from its own address: the object and its special actors take the
next free addresses and get an empty `HeroExchangeMap`. -/
def HeroActor.construct (raw : Nat → ChainActor) (arena : ActorArena)
    (mkBase : ActorPtr → ChainActor) : ActorPtr × ActorArena :=
  let self := arena.actors.length
  (self,
    { actors := arena.actors ++ setupSpecialActors raw self (mkBase self)
      exchangeMaps :=
        (self, { actor := self, canExchangeCache := [], exchangeMap := [] }) ::
          arena.exchangeMaps })

/-- `new HeroActor(hero, chainMask, ai)`.  `raw 0` is the memory of the object
itself, `raw (k + 1)` that of `specialActors[k]`. -/
def HeroActor.ofHero (raw : Nat → ChainActor) (arena : ActorArena) (hero : CGHeroInstance)
    (chainMask : Nat) : ActorPtr × ActorArena :=
  HeroActor.construct (fun k => raw (k + 1)) arena
    (fun self => ChainActor.ofHero (raw 0) self hero chainMask)

/-- `new HeroActor(carrier, other, army, ai)`. -/
def HeroActor.ofExchange (raw : Nat → ChainActor) (arena : ActorArena)
    (carrierPtr : ActorPtr) (carrier : ChainActor) (otherPtr : ActorPtr) (other : ChainActor)
    (army : CCreatureSet) : ActorPtr × ActorArena :=
  HeroActor.construct (fun k => raw (k + 1)) arena
    (fun self => ChainActor.ofExchange (raw 0) self carrierPtr carrier otherPtr other army)

/-- Allocation of an immobile actor (`TownGarrisonActor`, `HillFortActor`): a plain
`ChainActor` without special actors and without exchange map. -/
def ChainActor.newObject (raw : ChainActor) (arena : ActorArena) (visitablePos : int3)
    (creatureSet : CCreatureSet) (chainMask : Nat) (initialTurn : Nat) :
    ActorPtr × ActorArena :=
  let self := arena.actors.length
  (self, { arena with
    actors := arena.actors ++
      [ChainActor.ofObject raw self visitablePos creatureSet chainMask initialTurn] })

/-- The `HeroExchangeMap` owned by the object at `p`, if it is a `HeroActor`. -/
def ActorArena.exchangeMapOf (arena : ActorArena) (p : ActorPtr) : Option HeroExchangeMap :=
  arena.exchangeMaps.lookup p

/-- Write-back of the `HeroExchangeMap` owned by the hero actor at `p`. -/
def ActorArena.setExchangeMap (arena : ActorArena) (p : ActorPtr) (em : HeroExchangeMap) :
    ActorArena :=
  { arena with exchangeMaps := (p, em) :: arena.exchangeMaps }

/-- `HeroExchangeMap::canExchange(other)` on the map owned by the hero actor at
`p`: `vstd::getOrCompute` returns the cached answer if there is one, and
otherwise computes, stores and returns it. -/
def HeroExchangeMap.canExchange (sort : List SlotInfo → List SlotInfo) (arena : ActorArena)
    (p other : ActorPtr) : Option (Bool × ActorArena) :=
  match arena.exchangeMapOf p with
  | none => none
  | some em =>
    match em.canExchangeCache.lookup other with
    | some cached => some (cached, arena)
    | none =>
      match arena.actors[em.actor]?, arena.actors[other]? with
      | some actor, some o =>
        if (actor.chainMask &&& o.chainMask) = 0 then
          match howManyReinforcementsCanGet sort actor.creatureSet o.creatureSet with
          | none => none
          | some reinforcment =>
            let result := decide (reinforcment > actor.armyValue / 10)
              || decide (reinforcment > 1000)
            some (result, arena.setExchangeMap p
              { em with canExchangeCache := (other, result) :: em.canExchangeCache })
        else
          some (false, arena.setExchangeMap p
            { em with canExchangeCache := (other, false) :: em.canExchangeCache })
      | _, _ => none

/-- `HeroActor::canExchange(other)`. -/
def HeroActor.canExchange (sort : List SlotInfo → List SlotInfo) (arena : ActorArena)
    (self other : ActorPtr) : Option (Bool × ActorArena) :=
  HeroExchangeMap.canExchange sort arena self other

/-- The virtual call `actor->canExchange(other)`: `HeroActor::canExchange` for a
hero actor, `ChainActor::canExchange` (`isMovable && baseActor->canExchange(other)`)
for any other object.  The base of a movable special actor is a hero actor; a
movable plain actor whose base is again a movable plain actor is never built
and yields `none`. -/
def ChainActor.canExchange (sort : List SlotInfo → List SlotInfo) (arena : ActorArena)
    (self other : ActorPtr) : Option (Bool × ActorArena) :=
  match arena.actors[self]? with
  | none => none
  | some a =>
    match arena.exchangeMapOf self with
    | some _ => HeroActor.canExchange sort arena self other
    | none =>
      if a.isMovable then
        match arena.actors[a.baseActor]? with
        | none => none
        | some b =>
          match arena.exchangeMapOf a.baseActor with
          | some _ => HeroActor.canExchange sort arena a.baseActor other
          | none => if b.isMovable then none else some (false, arena)
      else some (false, arena)

/-- `HeroExchangeMap::pickBestCreatures`: the best army refitted into a fresh
creature set, one slot per entry.  Modelled from the spec: `getFreeSlot` and
`addToSlot` are library code; the best army has at most 7 entries of distinct
creature types, so every entry gets the next free slot. -/
def pickBestCreatures (sort : List SlotInfo → List SlotInfo) (army1 army2 : CCreatureSet) :
    Option CCreatureSet :=
  match getBestArmy sort army1 army2 with
  | none => none
  | some bestArmy =>
    match bestArmy.mapM (fun slotInfo =>
        slotInfo.creature.map (fun c => ({ type := c, count := slotInfo.count } : CStackInstance))) with
    | none => none
    | some slots => some { slots := slots, needsLastStack := false }

/-- `HeroExchangeMap::exchange(other)` on the map owned by the hero actor at `p`. -/
def HeroExchangeMap.exchange (sort : List SlotInfo → List SlotInfo) (raw : Nat → ChainActor)
    (arena : ActorArena) (p other : ActorPtr) : Option (ActorPtr × ActorArena) :=
  match arena.exchangeMapOf p with
  | none => none
  | some em =>
    match em.exchangeMap.lookup other with
    | some result => some (result, arena)
    | none =>
      match arena.actors[em.actor]?, arena.actors[other]? with
      | some actor, some o =>
        match pickBestCreatures sort actor.creatureSet o.creatureSet with
        | none => none
        | some newArmy =>
          let created := HeroActor.ofExchange raw arena em.actor actor other o newArmy
          some (created.1, created.2.setExchangeMap p
            { em with exchangeMap := (other, created.1) :: em.exchangeMap })
      | _, _ => none

/-- `HeroActor::exchange(specialActor, other)` for the hero actor at `self`. -/
def HeroActor.exchange (sort : List SlotInfo → List SlotInfo) (raw : Nat → ChainActor)
    (arena : ActorArena) (self specialActor other : ActorPtr) : Option (ActorPtr × ActorArena) :=
  match arena.actors[other]? with
  | none => none
  | some o =>
    match HeroExchangeMap.exchange sort raw arena self o.baseActor with
    | none => none
    | some (result, arena1) =>
      if specialActor = self then some (result, arena1)
      else if self < specialActor ∧ specialActor ≤ self + SPECIAL_ACTORS_COUNT then
        some (result + 1 + (specialActor - self - 1), arena1)
      else none

/-- `actor->exchange(other)`, that is `exchange(this, other)`, which forwards to
the virtual `baseActor->exchange(specialActor, other)`; the base of every actor
that can exchange is a hero actor. -/
def ChainActor.exchange (sort : List SlotInfo → List SlotInfo) (raw : Nat → ChainActor)
    (arena : ActorArena) (self other : ActorPtr) : Option (ActorPtr × ActorArena) :=
  match arena.actors[self]? with
  | none => none
  | some a =>
    match arena.exchangeMapOf a.baseActor with
    | none => none
    | some _ => HeroActor.exchange sort raw arena a.baseActor self other

/-! ## Path nodes and node storage (`AIPathNode`, `AINodeStorage`) -/

/-- `CGPathNode::ENodeAction`. -/
inductive ENodeAction where
  | UNKNOWN
  | EMBARK
  | DISEMBARK
  | NORMAL
  | BATTLE
  | VISIT
  | BLOCKING_VISIT
  | TELEPORT_NORMAL
  | TELEPORT_BLOCKING_VISIT
  | TELEPORT_BATTLE
deriving DecidableEq, Repr

/-- The special actions a node can carry (`std::shared_ptr<const ISpecialAction>`),
as a tagged value. -/
inductive SpecialAction where
  | quest
  | battle (target : int3)
  | townPortal (town : Nat)
  | other (tag : Nat)
deriving DecidableEq, Repr

/-- Address of a node of the storage: tile, layer and chain slot. -/
structure NodePtr where
  coord : int3
  layer : EPathfindingLayer
  chain : Nat
deriving DecidableEq, Repr

/-- Search node.  `cost` is a `float` in the source and an exact rational here;
`danger` and `armyLoss` are `uint64_t`. -/
structure AIPathNode where
  coord : int3
  layer : EPathfindingLayer
  action : ENodeAction
  turns : Nat
  moveRemains : Int
  cost : ℚ
  locked : Bool
  theNodeBefore : Option NodePtr
  danger : Nat
  armyLoss : Nat
  manaCost : Nat
  chainOther : Option NodePtr
  specialAction : Option SpecialAction
  actor : Option ActorPtr
deriving DecidableEq, Repr

/-- The node array: the chain slots of every tile and layer. -/
abbrev AISharedStorage := int3 → EPathfindingLayer → List AIPathNode

/-- Dereference of a node pointer. -/
def AISharedStorage.node (nodes : AISharedStorage) (p : NodePtr) : Option AIPathNode :=
  (nodes p.coord p.layer)[p.chain]?

/-- Replacement of the chain slots of one tile and layer. -/
def AISharedStorage.setTile (nodes : AISharedStorage) (pos : int3) (layer : EPathfindingLayer)
    (chains : List AIPathNode) : AISharedStorage :=
  fun c l => if c = pos ∧ l = layer then chains else nodes c l

/-- Update of the node behind a pointer. -/
def AISharedStorage.modify (nodes : AISharedStorage) (p : NodePtr)
    (f : AIPathNode → AIPathNode) : AISharedStorage :=
  nodes.setTile p.coord p.layer ((nodes p.coord p.layer).modify f p.chain)

/-- Loop of `AINodeStorage::getOrCreateNode` over the chain slots of a tile,
`idx` being the slot of the head: the slot of the actor if it has one before the
first free slot, else the first free slot, which is given to the actor. -/
def getOrCreateNodeLoop : List AIPathNode → Nat → ActorPtr → Option (Nat × List AIPathNode)
  | [], _, _ => none
  | node :: rest, idx, actor =>
      if node.actor = some actor then some (idx, node :: rest)
      else if node.actor = none then some (idx, { node with actor := some actor } :: rest)
      else
        match getOrCreateNodeLoop rest (idx + 1) actor with
        | none => none
        | some (i, rest1) => some (i, node :: rest1)

/-- `AINodeStorage::getOrCreateNode(pos, layer, actor)`. -/
def getOrCreateNode (nodes : AISharedStorage) (pos : int3) (layer : EPathfindingLayer)
    (actor : ActorPtr) : Option (NodePtr × AISharedStorage) :=
  match getOrCreateNodeLoop (nodes pos layer) 0 actor with
  | none => none
  | some (i, chains) =>
      some ({ coord := pos, layer := layer, chain := i }, nodes.setTile pos layer chains)

/-- `AINodeStorage::commit(destination, source, action, turn, movementLeft, cost)`,
the six-argument overload writing one node from another. -/
def commitNode (destination source : AIPathNode) (action : ENodeAction) (turn : Nat)
    (movementLeft : Int) (cost : ℚ) : AIPathNode :=
  { destination with
    action := action
    cost := cost
    moveRemains := movementLeft
    turns := turn
    armyLoss := source.armyLoss
    manaCost := source.manaCost
    danger := source.danger
    theNodeBefore := source.theNodeBefore
    chainOther := none }

/-- `ExchangeCandidate`: an `AIPathNode` with the two parent nodes. -/
structure ExchangeCandidate extends AIPathNode where
  carrierParent : NodePtr
  otherParent : NodePtr
deriving DecidableEq, Repr

/-- `AINodeStorage::calculateExchange`.  `raw` is the default-constructed
candidate; `maxMovePoints` is `exchangeActor->hero->maxMovePoints(layer)`. -/
def calculateExchange (raw : ExchangeCandidate) (exchangeActor : ActorPtr)
    (maxMovePoints : Nat) (carrierPtr : NodePtr) (carrierParentNode : AIPathNode)
    (otherPtr : NodePtr) (otherParentNode : AIPathNode) : ExchangeCandidate :=
  let candidate : ExchangeCandidate :=
    { raw with
      layer := carrierParentNode.layer
      coord := carrierParentNode.coord
      carrierParent := carrierPtr
      otherParent := otherPtr
      actor := some exchangeActor
      armyLoss := carrierParentNode.armyLoss + otherParentNode.armyLoss
      turns := carrierParentNode.turns
      cost := carrierParentNode.cost + otherParentNode.cost / 1000
      moveRemains := carrierParentNode.moveRemains }
  if carrierParentNode.turns < otherParentNode.turns then
    let moveRemains := maxMovePoints
    let waitingCost : ℚ :=
      (otherParentNode.turns : ℚ) - carrierParentNode.turns - 1
        + (carrierParentNode.moveRemains : ℚ) / (moveRemains : ℚ)
    { candidate with
      turns := otherParentNode.turns
      cost := candidate.cost + waitingCost
      moveRemains := moveRemains }
  else candidate

/-- The members of `AINodeStorage` read by the chain pass. -/
structure ChainPassState where
  heroChainTurn : Nat
  chainMask : Nat
deriving DecidableEq, Repr

/-- The conditions of `calculateHeroChain(carrier, other, result)` that precede
the call of `canExchange`: the carrier still has an army, is not in an unresolved
battle or a blocking visit, and the other side has not lost its army. -/
def carrierMayExchange (carrier other : AIPathNode) (carrierActor otherActor : ChainActor) :
    Bool :=
  decide (carrier.armyLoss < carrierActor.armyValue)
    && (decide (carrier.action ≠ ENodeAction.BATTLE)
        || (carrierActor.allowBattle && carrier.specialAction.isSome))
    && decide (carrier.action ≠ ENodeAction.BLOCKING_VISIT)
    && (decide (other.armyLoss = 0) || decide (other.armyLoss < otherActor.armyValue))

/-- The test `hasLessMp && hasLessExperience` of
`calculateHeroChain(carrier, other, result)`, made when the other actor is
movable; `none` is the dereference of a null hero. -/
def exchangeIsInefficient (carrier other : AIPathNode) (carrierActor otherActor : ChainActor) :
    Option Bool :=
  if otherActor.isMovable then
    match carrierActor.hero, otherActor.hero with
    | some carrierHero, some otherHero =>
      let hasLessMp := decide (carrier.turns > other.turns)
        || (decide (carrier.turns = other.turns)
            && decide (carrier.moveRemains < other.moveRemains))
      let hasLessExperience := decide (carrierHero.exp < otherHero.exp)
      some (hasLessMp && hasLessExperience)
    | _, _ => none
  else some false

/-- The call `calculateExchange(newActor, carrier, other)`, which reads
`newActor->hero->maxMovePoints(layer)` only if the carrier has to wait. -/
def exchangeCandidate (rawCandidate : ExchangeCandidate) (arena : ActorArena)
    (newActor : ActorPtr) (carrierPtr : NodePtr) (carrier : AIPathNode)
    (otherPtr : NodePtr) (other : AIPathNode) : Option ExchangeCandidate :=
  match arena.actors[newActor]? with
  | none => none
  | some newActorObj =>
    match newActorObj.hero with
    | none =>
      if carrier.turns < other.turns then none
      else some (calculateExchange rawCandidate newActor 0 carrierPtr carrier otherPtr other)
    | some hero =>
      some (calculateExchange rawCandidate newActor (hero.maxMovePoints carrier.layer)
        carrierPtr carrier otherPtr other)

/-- `AINodeStorage::calculateHeroChain(carrier, other, result)`: the candidate
appended to `result`, if the exchange is allowed.  `none` is a null
dereference. -/
def calculateHeroChainPair (sort : List SlotInfo → List SlotInfo) (raw : Nat → ChainActor)
    (rawCandidate : ExchangeCandidate) (nodes : AISharedStorage) (arena : ActorArena)
    (carrierPtr otherPtr : NodePtr) (result : List ExchangeCandidate) :
    Option (List ExchangeCandidate × ActorArena) :=
  match nodes.node carrierPtr, nodes.node otherPtr with
  | some carrier, some other =>
    match carrier.actor, other.actor with
    | some carrierActorPtr, some otherActorPtr =>
      match arena.actors[carrierActorPtr]?, arena.actors[otherActorPtr]? with
      | some carrierActor, some otherActor =>
        if carrierMayExchange carrier other carrierActor otherActor then
          match ChainActor.canExchange sort arena carrierActorPtr otherActorPtr with
          | none => none
          | some (false, arena1) => some (result, arena1)
          | some (true, arena1) =>
            match exchangeIsInefficient carrier other carrierActor otherActor with
            | none => none
            | some true => some (result, arena1)
            | some false =>
              match ChainActor.exchange sort raw arena1 carrierActorPtr otherActorPtr with
              | none => none
              | some (newActor, arena2) =>
                match exchangeCandidate rawCandidate arena2 newActor carrierPtr carrier
                    otherPtr other with
                | none => none
                | some candidate => some (result ++ [candidate], arena2)
        else some (result, arena)
      | _, _ => none
    | _, _ => none
  | _, _ => none

/-- One iteration of the loop of
`AINodeStorage::calculateHeroChain(srcNode, variants, result)` for the variant
`nodePtr`. -/
def calculateHeroChainStep (sort : List SlotInfo → List SlotInfo) (raw : Nat → ChainActor)
    (rawCandidate : ExchangeCandidate) (st : ChainPassState) (nodes : AISharedStorage)
    (srcPtr : NodePtr) (acc : List ExchangeCandidate × ActorArena) (nodePtr : NodePtr) :
    Option (List ExchangeCandidate × ActorArena) :=
  match nodes.node srcPtr, nodes.node nodePtr with
  | some srcNode, some node =>
    match node.actor with
    | none => some acc
    | some nodeActorPtr =>
      if nodePtr = srcPtr then some acc
      else
        match srcNode.actor with
        | none => none
        | some srcActorPtr =>
          match acc.2.actors[nodeActorPtr]?, acc.2.actors[srcActorPtr]? with
          | some nodeActor, some srcActor =>
            if (nodeActor.chainMask &&& st.chainMask) = 0
                ∧ (srcActor.chainMask &&& st.chainMask) = 0 then some acc
            else if node.action = ENodeAction.BATTLE
                ∨ node.action = ENodeAction.TELEPORT_BATTLE
                ∨ node.action = ENodeAction.TELEPORT_NORMAL
                ∨ node.action = ENodeAction.TELEPORT_BLOCKING_VISIT then some acc
            else if node.turns > st.heroChainTurn
                ∨ (node.action = ENodeAction.UNKNOWN ∧ nodeActor.hero.isSome = true)
                ∨ (nodeActor.chainMask &&& srcActor.chainMask) ≠ 0 then some acc
            else
              calculateHeroChainPair sort raw rawCandidate nodes acc.2 srcPtr nodePtr acc.1
          | _, _ => none
  | _, _ => none

/-- `AINodeStorage::calculateHeroChain(srcNode, variants, result)`. -/
def calculateHeroChain (sort : List SlotInfo → List SlotInfo) (raw : Nat → ChainActor)
    (rawCandidate : ExchangeCandidate) (st : ChainPassState) (nodes : AISharedStorage)
    (srcPtr : NodePtr) :
    List NodePtr → List ExchangeCandidate × ActorArena →
      Option (List ExchangeCandidate × ActorArena)
  | [], acc => some acc
  | nodePtr :: variants, acc =>
      match calculateHeroChainStep sort raw rawCandidate st nodes srcPtr acc nodePtr with
      | none => none
      | some acc1 => calculateHeroChain sort raw rawCandidate st nodes srcPtr variants acc1

/-! ## Invariants of the actor arena -/

/-- Every actor of `arena` is an actor of `arena1` with the same members: actor
objects are never changed or freed once built. -/
def ArenaExt (arena arena1 : ActorArena) : Prop :=
  ∀ (p : Nat) (a : ChainActor), arena.actors[p]? = some a → arena1.actors[p]? = some a

/-- Invariant of the arenas built by the constructors and by `exchange`:
every actor has the chain mask of its base actor; an exchange map belongs to
the hero actor that owns it; a memoised exchange result is a hero actor whose
eight variants carry the union of the masks of the two exchanged actors. -/
structure ArenaInv (arena : ActorArena) : Prop where
  base : ∀ (p : Nat) (a : ChainActor), arena.actors[p]? = some a →
    ∃ b, arena.actors[a.baseActor]? = some b ∧ b.chainMask = a.chainMask
  owner : ∀ (p : Nat) (em : HeroExchangeMap), arena.exchangeMapOf p = some em → em.actor = p
  memo : ∀ (p : Nat) (em : HeroExchangeMap) (o r : Nat),
    arena.exchangeMapOf p = some em → em.exchangeMap.lookup o = some r →
    ∃ pa oa, arena.actors[p]? = some pa ∧ arena.actors[o]? = some oa ∧
      ∀ k : Nat, k ≤ SPECIAL_ACTORS_COUNT →
        ∃ ra, arena.actors[r + k]? = some ra ∧ ra.chainMask = pa.chainMask ||| oa.chainMask

/-- A movable variant `a` at address `ptr` of a hero actor: its base actor owns
the exchange map `em` and has the same mask, army value and army. -/
structure IsHeroVariant (arena : ActorArena) (ptr : ActorPtr) (a : ChainActor)
    (em : HeroExchangeMap) : Prop where
  actor : arena.actors[ptr]? = some a
  movable : a.isMovable = true
  baseMap : arena.exchangeMapOf a.baseActor = some em
  baseOwner : em.actor = a.baseActor
  baseSame : ∃ b, arena.actors[a.baseActor]? = some b ∧ b.chainMask = a.chainMask ∧
    b.armyValue = a.armyValue ∧ b.creatureSet = a.creatureSet
  own : (arena.exchangeMapOf ptr).isSome = true → a.baseActor = ptr

/-- Memory contents used for freshly allocated objects in examples. -/
def rawActor : ChainActor :=
  { hero := none, isMovable := false, chainMask := 0
    creatureSet := { slots := [], needsLastStack := false }
    baseActor := 0, carrierParent := none, otherParent := none
    allowBattle := false, allowSpellCast := false, allowUseResources := false
    battleActor := 0, castActor := 0, resourceActor := 0
    initialPosition := ⟨0, 0, 0⟩, layer := EPathfindingLayer.LAND
    initialMovement := 0, initialTurn := 0, armyValue := 0 }

/-- The arena after `clear()`. -/
def emptyArena : ActorArena := { actors := [], exchangeMaps := [] }

/-- Hero holding 400 swordsmen (army strength 24000). -/
def heroStrong : CGHeroInstance :=
  { id := 1, tempOwner := 0, visitablePos := ⟨3, 3, 0⟩, boat := false, movement := 1500
    exp := 5000, maxMovePointsLand := 1500, maxMovePointsSail := 1500
    army := { slots := [⟨swordsman, 400⟩], needsLastStack := true } }

/-- Hero holding 100 archers (army strength 1600). -/
def heroWeak : CGHeroInstance :=
  { id := 2, tempOwner := 0, visitablePos := ⟨4, 3, 0⟩, boat := false, movement := 1500
    exp := 100, maxMovePointsLand := 1500, maxMovePointsSail := 1500
    army := { slots := [⟨archer, 100⟩], needsLastStack := true } }

/-- Arena with the two primitive hero actors of `heroStrong` (mask 1, addresses
0 to 7) and `heroWeak` (mask 2, addresses 8 to 15), as `setHeroes` builds it. -/
def twoHeroArena : ActorArena :=
  (HeroActor.ofHero (fun _ => rawActor)
    (HeroActor.ofHero (fun _ => rawActor) emptyArena heroStrong 1).2 heroWeak 2).2

/-- Chain-mask property of an exchange candidate: the actors of its two parent
nodes have disjoint masks and the actor of the candidate carries their union. -/
def MaskProperty (nodes : AISharedStorage) (arena : ActorArena) (c : ExchangeCandidate) :
    Prop :=
  ∃ (carrier other : AIPathNode) (pa pb pm : Nat) (x y m : ChainActor),
    nodes.node c.carrierParent = some carrier ∧ nodes.node c.otherParent = some other ∧
    carrier.actor = some pa ∧ other.actor = some pb ∧ c.actor = some pm ∧
    arena.actors[pa]? = some x ∧ arena.actors[pb]? = some y ∧ arena.actors[pm]? = some m ∧
    x.chainMask &&& y.chainMask = 0 ∧ m.chainMask = x.chainMask ||| y.chainMask

/-- Default-constructed `ExchangeCandidate` used in examples. -/
def rawCandidate0 : ExchangeCandidate :=
  { coord := ⟨-1, -1, -1⟩, layer := EPathfindingLayer.LAND, action := ENodeAction.UNKNOWN
    turns := 255, moveRemains := 0, cost := 0, locked := false, theNodeBefore := none
    danger := 0, armyLoss := 0, manaCost := 0, chainOther := none, specialAction := none
    actor := none
    carrierParent := ⟨⟨-1, -1, -1⟩, EPathfindingLayer.LAND, 0⟩
    otherParent := ⟨⟨-1, -1, -1⟩, EPathfindingLayer.LAND, 0⟩ }

/-- A settled node at tile (3, 3, 0) on land. -/
def meetingNode (actor : ActorPtr) (moveRemains : Int) : AIPathNode :=
  { coord := ⟨3, 3, 0⟩, layer := EPathfindingLayer.LAND, action := ENodeAction.NORMAL
    turns := 0, moveRemains := moveRemains, cost := 0, locked := false, theNodeBefore := none
    danger := 0, armyLoss := 0, manaCost := 0, chainOther := none, specialAction := none
    actor := some actor }

/-- Storage in which the base actors of `heroStrong` (address 0) and `heroWeak`
(address 8) both stand on tile (3, 3, 0). -/
def meetingStorage : AISharedStorage :=
  fun c l =>
    if c = ⟨3, 3, 0⟩ ∧ l = EPathfindingLayer.LAND then [meetingNode 0 1000, meetingNode 8 500]
    else []

/-- Pointer to chain slot `i` of tile (3, 3, 0) on land. -/
def meetingSlot (i : Nat) : NodePtr :=
  { coord := ⟨3, 3, 0⟩, layer := EPathfindingLayer.LAND, chain := i }

/-- The base actor of `heroStrong` in `twoHeroArena` (address 0). -/
def strongBaseActor : ChainActor :=
  { hero := some heroStrong, isMovable := true, chainMask := 1
    creatureSet := heroStrong.army, baseActor := 0, carrierParent := none
    otherParent := none, allowBattle := false, allowSpellCast := false
    allowUseResources := false, battleActor := 1, castActor := 2, resourceActor := 4
    initialPosition := ⟨3, 3, 0⟩, layer := EPathfindingLayer.LAND
    initialMovement := 1500, initialTurn := 0, armyValue := 24000 }

/-- The battle variant of `heroStrong` in `twoHeroArena` (address 1). -/
def strongBattleActor : ChainActor :=
  { hero := some heroStrong, isMovable := true, chainMask := 1
    creatureSet := heroStrong.army, baseActor := 0, carrierParent := none
    otherParent := none, allowBattle := true, allowSpellCast := false
    allowUseResources := false, battleActor := 1, castActor := 3, resourceActor := 5
    initialPosition := ⟨0, 0, 0⟩, layer := EPathfindingLayer.LAND
    initialMovement := 1500, initialTurn := 0, armyValue := 24000 }

/-- The base actor of `heroWeak` in `twoHeroArena` (address 8). -/
def weakBaseActor : ChainActor :=
  { hero := some heroWeak, isMovable := true, chainMask := 2
    creatureSet := heroWeak.army, baseActor := 8, carrierParent := none
    otherParent := none, allowBattle := false, allowSpellCast := false
    allowUseResources := false, battleActor := 9, castActor := 10, resourceActor := 12
    initialPosition := ⟨4, 3, 0⟩, layer := EPathfindingLayer.LAND
    initialMovement := 1500, initialTurn := 0, armyValue := 1600 }

/-! ## Movement rule after destination (`AIMovementAfterDestinationRule`) -/

/-- The members of `PathNodeInfo` read by the rule. -/
structure PathNodeInfo where
  node : NodePtr
  coord : int3
  nodeObject : Option Nat
deriving DecidableEq, Repr

/-- The members of `CDestinationNodeInfo` read and written by the rule. -/
structure CDestinationNodeInfo where
  node : NodePtr
  coord : int3
  action : ENodeAction
  turn : Nat
  movementLeft : Int
  cost : ℚ
  blocked : Bool
  nodeObject : Option Nat
deriving DecidableEq, Repr

/-- Collaborators of `bypassDestinationGuards` that are declared outside the
rule: the guard query of the game callback, the danger and army-loss
estimators of the node storage, `isObjectRemovable`, and the virtual
`ISpecialAction::applyOnDestination` (given the action, the hero, the
destination node and the source node, it returns the destination node). -/
structure GuardEnv where
  getGuardingCreatures : int3 → List Nat
  evaluateDanger : int3 → Option CGHeroInstance → Bool → Nat
  evaluateArmyLoss : Option CGHeroInstance → Nat → Nat → Nat
  isObjectRemovable : Nat → Bool
  applyOnDestination : SpecialAction → Option CGHeroInstance → AIPathNode → AIPathNode →
    AIPathNode

/-- Number of values of a `uint64_t`. -/
def UINT64 : Nat := 2 ^ 64

/-- Unsigned subtraction `a - b` of two `uint64_t` values. -/
def sub64 (a b : Nat) : Nat := (a + UINT64 - b % UINT64) % UINT64

/-- `AINodeStorage::commit(destination, source)`, the two-argument overload: the
node behind `destination.node` after the call.  `none` is a null dereference. -/
def commitDestination (env : GuardEnv) (arena : ActorArena) (nodes : AISharedStorage)
    (destination : CDestinationNodeInfo) (source : PathNodeInfo) : Option AISharedStorage :=
  match nodes.node source.node, nodes.node destination.node with
  | some srcNode, some dstNode0 =>
    let dstNode1 := commitNode dstNode0 srcNode destination.action destination.turn
      destination.movementLeft destination.cost
    let dstNode2 :=
      if srcNode.specialAction.isSome || srcNode.chainOther.isSome then
        { dstNode1 with theNodeBefore := some source.node }
      else dstNode1
    match dstNode2.specialAction, dstNode2.actor with
    | some action, some actorPtr =>
      match arena.actors[actorPtr]? with
      | none => none
      | some actor =>
        some (nodes.modify destination.node
          (fun _ => env.applyOnDestination action actor.hero dstNode2 srcNode))
    | _, _ => some (nodes.modify destination.node (fun _ => dstNode2))
  | _, _ => none

/-- The writes of `bypassDestinationGuards` to the battle node after the commit:
the loss is added to `armyLoss` (a `double` added to a `uint64_t`), `danger` is
raised to the danger of the destination, the `BattleAction` is attached, and
the predecessor is set when the source stands on a removable object. -/
def markBattleNode (env : GuardEnv) (source : PathNodeInfo) (destination : CDestinationNodeInfo)
    (danger loss : Nat) (battleNode : AIPathNode) : AIPathNode :=
  { battleNode with
    armyLoss := (battleNode.armyLoss + loss) % UINT64
    danger := max battleNode.danger danger
    specialAction := some (SpecialAction.battle destination.coord)
    theNodeBefore :=
      if (source.nodeObject.map env.isObjectRemovable) = some true then some source.node
      else battleNode.theNodeBefore }

/-- `AIMovementAfterDestinationRule::bypassDestinationGuards`: the returned flag,
the destination info and the node storage after the call.  `armyValue` and
`armyLoss` are `uint64_t`, so `armyValue - armyLoss` wraps around before it is
converted to `double`; the `double` values are exact here.  `none` is a null
dereference; the actor of the source node, which the source reads at the latest
in `getHero(source.node)`, is looked up once at the start. -/
def bypassDestinationGuards (env : GuardEnv) (arena : ActorArena) (nodes : AISharedStorage)
    (destGuardians : List Nat) (source : PathNodeInfo) (destination : CDestinationNodeInfo) :
    Option (Bool × CDestinationNodeInfo × AISharedStorage) :=
  let srcGuardians := env.getGuardingCreatures source.coord
  if destGuardians.isEmpty then some (false, destination, nodes)
  else
    match nodes.node source.node with
    | none => none
    | some srcNode =>
      let destGuardians1 := destGuardians.filter (fun destGuard => !srcGuardians.contains destGuard)
      let guardsAlreadyBypassed := destGuardians1.isEmpty && !srcGuardians.isEmpty
      match srcNode.actor.bind (fun p => arena.actors[p]?) with
      | none => none
      | some srcActor =>
        if guardsAlreadyBypassed && srcActor.allowBattle then some (true, destination, nodes)
        else
          match nodes.node destination.node with
          | none => none
          | some destNode =>
            match destNode.actor.bind (fun p => arena.actors[p]?) with
            | none => none
            | some destActor =>
              match getOrCreateNode nodes destination.coord destNode.layer
                  destActor.battleActor with
              | none => some (false, destination, nodes)
              | some (battlePtr, nodes1) =>
                match nodes1.node battlePtr, nodes1.node source.node with
                | some battleNode, some srcNode1 =>
                  if battleNode.locked then some (false, destination, nodes1)
                  else
                    let hero := srcActor.hero
                    let danger := env.evaluateDanger destination.coord hero true
                    let actualArmyValue := sub64 srcActor.armyValue srcNode1.armyLoss
                    let loss := env.evaluateArmyLoss hero actualArmyValue danger
                    if loss < actualArmyValue then
                      let destination1 := { destination with node := battlePtr }
                      match commitDestination env arena nodes1 destination1 source with
                      | none => none
                      | some nodes2 =>
                        some (true, destination1,
                          nodes2.modify battlePtr
                            (markBattleNode env source destination danger loss))
                    else some (false, destination, nodes1)
                | _, _ => none

/-! ## Turn loop (`Nullkiller`) -/

/-- Modelled from the spec: `GameConstants::RESOURCE_QUANTITY`, the number of
resource kinds of a `TResources` vector. -/
def RESOURCE_QUANTITY : Nat := 8

/-- Resource vector `TResources`, one signed amount per resource kind. -/
abbrev TResources := Fin RESOURCE_QUANTITY → Int

/-- Value-initialised `TResources()`: all amounts zero. -/
def TResources.zero : TResources := fun _ => 0

/-- Modelled from the spec: `TResources::operator-`, library code; the spec
describes `getFreeResources` as subtracting locked from current. -/
def TResources.sub (a b : TResources) : TResources := fun i => a i - b i

/-- Modelled from the spec: `TResources::operator+=`, library code; locked
amounts accumulate componentwise. -/
def TResources.add (a b : TResources) : TResources := fun i => a i + b i

/-- Modelled from the spec: `TResources::positive()`, library code; the spec
describes it as clamping to non-negative. -/
def TResources.positive (a : TResources) : TResources := fun i => max (a i) 0

/-- `ScanDepth`, with `(int)SMALL = 0`. -/
inductive ScanDepth where
  | SMALL
  | MEDIUM
  | FULL
deriving DecidableEq, Repr

/-- `(ScanDepth)((int)scanDepth + 1)`; `FULL` is never incremented by `makeTurn`. -/
def ScanDepth.next : ScanDepth → ScanDepth
  | ScanDepth.SMALL => ScanDepth.MEDIUM
  | ScanDepth.MEDIUM => ScanDepth.FULL
  | ScanDepth.FULL => ScanDepth.FULL

/-- `HeroRole`. -/
inductive HeroRole where
  | SCOUT
  | MAIN
deriving DecidableEq, Repr

/-- `HeroLockedReason`. -/
inductive HeroLockedReason where
  | NOT_LOCKED
  | STARTUP
  | DEFENCE
deriving DecidableEq, Repr

/-- The members of `Nullkiller` written by `resetAiState`, `lockResources` and
`makeTurn`; heroes are identified by their id. -/
structure NullkillerState where
  lockedResources : TResources
  scanDepth : ScanDepth
  lockedHeroes : List (Nat × HeroLockedReason)

/-- `Nullkiller::resetAiState`. -/
def resetAiState (_ai : NullkillerState) : NullkillerState :=
  { lockedResources := TResources.zero
    scanDepth := ScanDepth.SMALL
    lockedHeroes := [] }

/-- `Nullkiller::lockResources`. -/
def lockResources (ai : NullkillerState) (res : TResources) : NullkillerState :=
  { ai with lockedResources := ai.lockedResources.add res }

/-- `Nullkiller::getFreeResources`; `resourceAmount` is `cb->getResourceAmount()`. -/
def getFreeResources (ai : NullkillerState) (resourceAmount : TResources) : TResources :=
  (resourceAmount.sub ai.lockedResources).positive

/-- A task as seen by `makeTurn`: its priority (a `float`, exact here), and the
role of its hero when `getHero().validAndSet()`. -/
structure TTask where
  priority : ℚ
  heroRole : Option HeroRole
deriving DecidableEq, Repr

/-- `Nullkiller::choseBestTask(tasks)`: `vstd::maxElementByFun`, the first task of
highest priority; `none` stands for dereferencing `end()` of an empty vector. -/
def choseBestTask : List TTask → Option TTask
  | [] => none
  | t :: rest =>
      match choseBestTask rest with
      | none => some t
      | some best => if t.priority < best.priority then some best else some t

/-- Outcome of `bestTask->accept(ai.get())`. -/
inductive AcceptOutcome where
  | completed
  | goalFulfilled
  | failed
  | interrupted
deriving DecidableEq, Repr

/-- What the world answers during one pass of `makeTurn`: whether an
interruption point fires in `updateAiState` or `choseBestTask`, the best tasks
of the seven behaviours, the day, the best task of the startup behaviour,
whether the interruption point before `accept` fires, and the outcome of
`accept`. -/
structure PassWorld where
  interruptedInUpdate : Bool
  behaviourTasks : TTask × TTask × TTask × TTask × TTask × TTask × TTask
  day : Nat
  startupTask : TTask
  interruptedBeforeAccept : Bool
  acceptOutcome : AcceptOutcome

/-- Observable steps of a turn. -/
inductive TurnEvent where
  | updateAiState (pass : Nat)
  | accept (pass : Nat) (task : TTask)
deriving DecidableEq, Repr

/-- How `makeTurn` ends: the pass limit is reached, the best priority is too
low, the executor failed, an interruption propagated, or (never, for a
non-empty task vector) undefined behaviour. -/
inductive TurnEnd where
  | passLimit
  | lowPriority (pass : Nat)
  | acceptFailed (pass : Nat)
  | interrupted (pass : Nat)
  | undefined
deriving DecidableEq, Repr

/-- Priority thresholds `MIN_PRIORITY` and `NEXT_SCAN_MIN_PRIORITY`, declared in
the header, and the build option `AI_TRACE_LEVEL`. -/
structure TurnConstants where
  MIN_PRIORITY : ℚ
  NEXT_SCAN_MIN_PRIORITY : ℚ
  AI_TRACE_LEVEL : Nat

/-- The macro `MAXPASS`. -/
def MAXPASS (k : TurnConstants) : Nat :=
  if k.AI_TRACE_LEVEL ≥ 1 then 1000000 else 30

/-- The vector `bestTasks` of one pass. -/
def bestTasks (w : PassWorld) : List TTask :=
  let (t1, t2, t3, t4, t5, t6, t7) := w.behaviourTasks
  [t1, t2, t3, t4, t5, t6, t7] ++ (if w.day = 1 then [w.startupTask] else [])

/-- The test that makes a pass widen the scan depth and `continue`. -/
def widensScan (k : TurnConstants) (scanDepth : ScanDepth) (bestTask : TTask) : Bool :=
  decide (bestTask.priority < k.NEXT_SCAN_MIN_PRIORITY) && decide (scanDepth ≠ ScanDepth.FULL)
    && (decide ((bestTask.heroRole.getD HeroRole.MAIN) = HeroRole.MAIN)
        || decide (bestTask.priority < k.MIN_PRIORITY))

/-- Result of one execution of the loop body of `makeTurn`: the function returns
or throws (`stop`), or the loop goes on with the next pass (`next`). -/
inductive PassResult where
  | stop (events : List TurnEvent) (ending : TurnEnd)
  | next (events : List TurnEvent) (ai : NullkillerState)

/-- Events of one pass. -/
def PassResult.events : PassResult → List TurnEvent
  | PassResult.stop events _ => events
  | PassResult.next events _ => events

/-- The body of the loop of `makeTurn` for pass `i`. -/
def runPass (k : TurnConstants) (w : PassWorld) (i : Nat) (ai : NullkillerState) :
    PassResult :=
  if w.interruptedInUpdate then
    PassResult.stop [TurnEvent.updateAiState i] (TurnEnd.interrupted i)
  else
    match choseBestTask (bestTasks w) with
    | none => PassResult.stop [TurnEvent.updateAiState i] TurnEnd.undefined
    | some bestTask =>
      if widensScan k ai.scanDepth bestTask then
        PassResult.next [TurnEvent.updateAiState i] { ai with scanDepth := ai.scanDepth.next }
      else if bestTask.priority < k.MIN_PRIORITY then
        PassResult.stop [TurnEvent.updateAiState i] (TurnEnd.lowPriority i)
      else if w.interruptedBeforeAccept then
        PassResult.stop [TurnEvent.updateAiState i] (TurnEnd.interrupted i)
      else
        match w.acceptOutcome with
        | AcceptOutcome.failed =>
          PassResult.stop [TurnEvent.updateAiState i, TurnEvent.accept i bestTask]
            (TurnEnd.acceptFailed i)
        | AcceptOutcome.interrupted =>
          PassResult.stop [TurnEvent.updateAiState i, TurnEvent.accept i bestTask]
            (TurnEnd.interrupted i)
        | AcceptOutcome.goalFulfilled =>
          PassResult.next [TurnEvent.updateAiState i, TurnEvent.accept i bestTask] ai
        | AcceptOutcome.completed =>
          PassResult.next [TurnEvent.updateAiState i, TurnEvent.accept i bestTask] ai

/-- The loop `for(int i = 1; i <= MAXPASS; i++)` of `makeTurn` from pass `i` on,
with `remaining = MAXPASS - i + 1` passes left: the events in order, the way the
turn ends and the final state. -/
def makeTurnLoop (k : TurnConstants) (world : Nat → PassWorld) :
    Nat → Nat → NullkillerState → List TurnEvent × TurnEnd × NullkillerState
  | 0, _, ai => ([], TurnEnd.passLimit, ai)
  | remaining + 1, i, ai =>
      match runPass k (world i) i ai with
      | PassResult.stop events ending => (events, ending, ai)
      | PassResult.next events ai1 =>
        let rest := makeTurnLoop k world remaining (i + 1) ai1
        (events ++ rest.1, rest.2)

/-- `Nullkiller::makeTurn`. -/
def makeTurn (k : TurnConstants) (world : Nat → PassWorld) (ai : NullkillerState) :
    List TurnEvent × TurnEnd × NullkillerState :=
  makeTurnLoop k world (MAXPASS k) 1 (resetAiState ai)

/-- The `updateAiState` calls among the events of a turn. -/
def updateCalls (events : List TurnEvent) : List TurnEvent :=
  events.filter (fun e => match e with
    | TurnEvent.updateAiState _ => true
    | TurnEvent.accept _ _ => false)

/-- The executor invocations among the events of a turn. -/
def acceptCalls (events : List TurnEvent) : List TurnEvent :=
  events.filter (fun e => match e with
    | TurnEvent.updateAiState _ => false
    | TurnEvent.accept _ _ => true)

/-- Example thresholds of a production build (`AI_TRACE_LEVEL = 0`). -/
def productionConstants : TurnConstants :=
  { MIN_PRIORITY := 1 / 100, NEXT_SCAN_MIN_PRIORITY := 2 / 5, AI_TRACE_LEVEL := 0 }

/-- A task of priority 0 without hero, as returned for `Goals::Invalid`. -/
def idleTask : TTask := { priority := 0, heroRole := none }

/-- A world in which no behaviour finds anything worth doing. -/
def idleWorld : Nat → PassWorld := fun _ =>
  { interruptedInUpdate := false
    behaviourTasks := (idleTask, idleTask, idleTask, idleTask, idleTask, idleTask, idleTask)
    day := 2
    startupTask := idleTask
    interruptedBeforeAccept := false
    acceptOutcome := AcceptOutcome.completed }

/-- A state of the turn loop at full scan depth. -/
def fullScanState : NullkillerState :=
  { lockedResources := TResources.zero, scanDepth := ScanDepth.FULL, lockedHeroes := [] }

/-! ## Scenario: a guarded step after an exchange of two battered heroes -/

/-- Archangel: level 7, speed 18. -/
def archangel : CCreature := { idNumber := 13, level := 7, speed := 18, AIValue := 8776 }

/-- Titan: level 7, speed 11. -/
def titan : CCreature := { idNumber := 41, level := 7, speed := 11, AIValue := 7500 }

/-- Hero holding 10 archangels (army strength 87760). -/
def heroCarrier : CGHeroInstance :=
  { id := 3, tempOwner := 0, visitablePos := ⟨3, 3, 0⟩, boat := false, movement := 1500
    exp := 9000, maxMovePointsLand := 1500, maxMovePointsSail := 1500
    army := { slots := [⟨archangel, 10⟩], needsLastStack := true } }

/-- Hero holding 2 titans (army strength 15000). -/
def heroOther : CGHeroInstance :=
  { id := 4, tempOwner := 0, visitablePos := ⟨3, 3, 0⟩, boat := false, movement := 1500
    exp := 100, maxMovePointsLand := 1500, maxMovePointsSail := 1500
    army := { slots := [⟨titan, 2⟩], needsLastStack := true } }

/-- Arena with the primitive actors of `heroCarrier` (mask 1, addresses 0 to 7)
and `heroOther` (mask 2, addresses 8 to 15). -/
def batteredArena : ActorArena :=
  (HeroActor.ofHero (fun _ => rawActor)
    (HeroActor.ofHero (fun _ => rawActor) emptyArena heroCarrier 1).2 heroOther 2).2

/-- Both heroes stand on tile (3, 3, 0); each has lost all but one point of its
army value on the way (`armyLoss = armyValue - 1`). -/
def batteredStorage : AISharedStorage :=
  fun c l =>
    if c = ⟨3, 3, 0⟩ ∧ l = EPathfindingLayer.LAND then
      [{ meetingNode 0 1000 with armyLoss := 87759 },
       { meetingNode 8 500 with armyLoss := 14999 }]
    else []

/-- The chain pass on tile (3, 3, 0) with `heroCarrier` as carrier. -/
def batteredChain : Option (List ExchangeCandidate × ActorArena) :=
  calculateHeroChain sortByPower (fun _ => rawActor) rawCandidate0 ⟨0, 1⟩ batteredStorage
    (meetingSlot 0) [meetingSlot 0, meetingSlot 1] ([], batteredArena)

/-- The arena after that chain pass: the merged hero actor is at addresses 16 to
23. -/
def mergedArena : ActorArena :=
  match batteredChain with
  | some (_, arena) => arena
  | none => emptyArena

/-- An exchange node of the merged actor 16 in chain slot 2 of tile (3, 3, 0)
with the given army loss. -/
def exchangeNodeWith (armyLoss : Nat) : AIPathNode :=
  { meetingNode 16 1000 with armyLoss := armyLoss, chainOther := some (meetingSlot 1) }

/-- The exchange node that `addHeroChain` commits from the candidate of
`batteredChain`: the merged actor 16 with the summed army loss of its parents. -/
def exchangeNode : AIPathNode := exchangeNodeWith 102758

/-- Storage for a step of the merged actor from tile (3, 3, 0) to the guarded
tile (4, 4, 0), whose chain slot 0 was given to the actor by
`calculateNeighbours` and whose chain slot 1 is free. -/
def guardedStorageWith (node : AIPathNode) : AISharedStorage :=
  fun c l =>
    if c = ⟨3, 3, 0⟩ ∧ l = EPathfindingLayer.LAND then
      [{ meetingNode 0 1000 with armyLoss := 87759 },
       { meetingNode 8 500 with armyLoss := 14999 }, node]
    else if c = ⟨4, 4, 0⟩ ∧ l = EPathfindingLayer.LAND then
      [{ meetingNode 16 0 with coord := ⟨4, 4, 0⟩, action := ENodeAction.UNKNOWN },
       { meetingNode 0 0 with coord := ⟨4, 4, 0⟩, action := ENodeAction.UNKNOWN
                              actor := none }]
    else []

/-- The storage of the guarded step from the exchange node of `batteredChain`. -/
def guardedStorage : AISharedStorage := guardedStorageWith exchangeNode

/-- World of the guarded step: tile (4, 4, 0) is guarded by monster 77 of danger
5000, and the army loss is the estimate `danger² / armyValue`. -/
def guardedEnv : GuardEnv :=
  { getGuardingCreatures := fun c => if c = ⟨4, 4, 0⟩ then [77] else []
    evaluateDanger := fun _ _ _ => 5000
    evaluateArmyLoss := fun _ armyValue danger => danger * danger / armyValue
    isObjectRemovable := fun _ => false
    applyOnDestination := fun _ _ dst _ => dst }

/-- Source of the guarded step: the exchange node. -/
def guardedSource : PathNodeInfo :=
  { node := meetingSlot 2, coord := ⟨3, 3, 0⟩, nodeObject := none }

/-- Destination of the guarded step as the host pathfinder passes it. -/
def guardedDestination : CDestinationNodeInfo :=
  { node := ⟨⟨4, 4, 0⟩, EPathfindingLayer.LAND, 0⟩, coord := ⟨4, 4, 0⟩
    action := ENodeAction.BATTLE, turn := 0, movementLeft := 900, cost := 1 / 10
    blocked := false, nodeObject := some 77 }

/-! ## Army exchange between armed instances -/

/-- Number of units of an army: the sum of the slot counts. -/
def armyCount (army : List SlotInfo) : Nat :=
  (army.map SlotInfo.count).sum

/-- Armed map object (`CArmedInstance`): a creature set with an owner
(`tempOwner`, a player colour). -/
structure CArmedInstance where
  tempOwner : Nat
  army : CCreatureSet
deriving DecidableEq, Repr

/-- `ArmyManager::canGetArmy`.  The owner test returns before the reinforcement
is computed; `none` is the undefined behaviour of `getBestArmy`. -/
def canGetArmy (sort : List SlotInfo → List SlotInfo)
    (target source : CArmedInstance) : Option Bool :=
  if target.tempOwner ≠ source.tempOwner then
    some false
  else
    match howManyReinforcementsCanGet sort target.army source.army with
    | none => none
    | some v => some (decide (0 < v))

/-- Griffin: a level 3 creature. -/
def griffin : CCreature := { idNumber := 4, level := 3, speed := 6, AIValue := 351 }

/-- A full army of seven creature types. -/
def sevenTypes : CCreatureSet :=
  { slots := [⟨pikeman, 10⟩, ⟨archer, 5⟩, ⟨swordsman, 2⟩, ⟨halberdier, 1⟩,
      ⟨walkingDead, 1⟩, ⟨archangel, 1⟩, ⟨titan, 1⟩]
    needsLastStack := true }

/-- A hero holding three griffins, an eighth creature type for `sevenTypes`. -/
def griffinHero : CCreatureSet :=
  { slots := [⟨griffin, 3⟩], needsLastStack := true }

/-! ## Node storage state, dominance and the chain pass (`AINodeStorage`) -/

/-- `EHeroChainPass`. -/
inductive EHeroChainPass where
  | INITIAL
  | CHAIN
  | FINAL
deriving DecidableEq, Repr

/-- The data members of `AINodeStorage` used by the chain pass: the node array,
the actor objects, the list `actors` of the primitive actors, the list
`heroChain` of the nodes produced by the last pass, and the pass counters. -/
structure AINodeStorage where
  nodes : AISharedStorage
  arena : ActorArena
  actors : List ActorPtr
  heroChain : List NodePtr
  heroChainPass : EHeroChainPass
  heroChainTurn : Nat
  heroChainMaxTurns : Nat
  chainMask : Nat
  scoutTurnDistanceLimit : Nat

/-- `AINodeStorage::clear`.  The actor objects released by `actors.clear()` stay
in the arena: their addresses are not reused. -/
def AINodeStorage.clear (s : AINodeStorage) : AINodeStorage :=
  { s with
    actors := []
    heroChainPass := EHeroChainPass.INITIAL
    heroChainTurn := 0
    heroChainMaxTurns := 1
    scoutTurnDistanceLimit := 255 }

/-- `AINodeStorage::increaseHeroChainTurnLimit`: the returned flag and the state
after the call. -/
def increaseHeroChainTurnLimit (s : AINodeStorage) : Bool × AINodeStorage :=
  if s.heroChainTurn ≥ s.heroChainMaxTurns then (false, s)
  else (true, { s with heroChainTurn := s.heroChainTurn + 1 })

/-- Body of the loop of `AINodeStorage::hasBetterChain(source, candidateNode,
chains)` for one node of the range: `some true` is `return true`, `some false`
goes on with the next node, `none` is a null dereference.  `before` is the
pointer comparison `&node < candidateNode`; `heroFightingStrength` is the
member of that name of the actor at an address, which no constructor in
`Actors.cpp` assigns. -/
def betterChainNode (heroChainPass : EHeroChainPass) (heroFightingStrength : ActorPtr → ℚ)
    (arena : ActorArena) (candidateNode : AIPathNode) (before : Bool) (node : AIPathNode) :
    Option Bool :=
  if node.actor = candidateNode.actor ∨ node.action = ENodeAction.UNKNOWN then some false
  else
    match node.actor with
    | none => none
    | some nodeActorPtr =>
      match arena.actors[nodeActorPtr]? with
      | none => none
      | some nodeActor =>
        if nodeActor.hero.isNone then some false
        else if node.danger ≤ candidateNode.danger
            ∧ candidateNode.actor = some nodeActor.battleActor
            ∧ node.cost < candidateNode.cost then some true
        else
          match candidateNode.actor with
          | none => none
          | some candidateActorPtr =>
            match arena.actors[candidateActorPtr]? with
            | none => none
            | some candidateActor =>
              if candidateActor.chainMask ≠ nodeActor.chainMask
                  ∧ heroChainPass ≠ EHeroChainPass.FINAL then some false
              else if sub64 nodeActor.armyValue node.armyLoss
                    > sub64 candidateActor.armyValue candidateNode.armyLoss
                  ∧ node.cost ≤ candidateNode.cost then some true
              else if heroChainPass = EHeroChainPass.FINAL
                  ∧ sub64 nodeActor.armyValue node.armyLoss
                    = sub64 candidateActor.armyValue candidateNode.armyLoss
                  ∧ heroFightingStrength nodeActorPtr ≥ heroFightingStrength candidateActorPtr
                  ∧ node.cost ≤ candidateNode.cost
                  ∧ ¬ (heroFightingStrength nodeActorPtr = heroFightingStrength candidateActorPtr
                      ∧ node.cost = candidateNode.cost ∧ before = true) then some true
              else some false

/-- `AINodeStorage::hasBetterChain(source, candidateNode, chains)`: the range is
given as the nodes together with the outcome of `&node < candidateNode`.  The
parameter `source` is read by trace output only. -/
def hasBetterChain (heroChainPass : EHeroChainPass) (heroFightingStrength : ActorPtr → ℚ)
    (arena : ActorArena) (candidateNode : AIPathNode) : List (Bool × AIPathNode) → Option Bool
  | [] => some false
  | (before, node) :: chains =>
      match betterChainNode heroChainPass heroFightingStrength arena candidateNode before
          node with
      | none => none
      | some true => some true
      | some false =>
          hasBetterChain heroChainPass heroFightingStrength arena candidateNode chains

/-- The range `result` as `hasBetterChain` sees it for the candidate at index `i`:
the elements of a vector lie in index order, so `&node < candidateNode` holds for
the elements before index `i`. -/
def batchRange (result : List ExchangeCandidate) (i : Nat) : List (Bool × AIPathNode) :=
  result.enum.map (fun e => (decide (e.1 < i), e.2.toAIPathNode))

/-- The predicate of `cleanupInefectiveChains` for the candidate `chainInfo` at
index `i` of the vector `result`.  `storageBefore` is the outcome of comparing
the address of a node of the node array with the address of a candidate of the
vector. -/
def isInefectiveChain (s : AINodeStorage) (heroFightingStrength : ActorPtr → ℚ)
    (storageBefore : Bool) (result : List ExchangeCandidate) (i : Nat)
    (chainInfo : ExchangeCandidate) : Option Bool :=
  let pos := chainInfo.coord
  let chains := s.nodes pos EPathfindingLayer.LAND
  match hasBetterChain s.heroChainPass heroFightingStrength s.arena chainInfo.toAIPathNode
      (chains.map (fun node => (storageBefore, node))) with
  | none => none
  | some true => some true
  | some false =>
      hasBetterChain s.heroChainPass heroFightingStrength s.arena chainInfo.toAIPathNode
        (batchRange result i)

/-- Loop of `std::remove_if` over a vector whose predicate reads the vector
itself.  The vector is `kept ++ stale ++ rest`: `kept` are the elements already
moved to the front, `rest` the elements not yet tested, `stale` the slots in
between.  An element that stays is move-assigned to the first stale slot, which
leaves a copy without its `shared_ptr` member in its old slot. -/
def removeIfLoop (pred : List ExchangeCandidate → Nat → ExchangeCandidate → Option Bool) :
    List ExchangeCandidate → List ExchangeCandidate → List ExchangeCandidate →
      Option (List ExchangeCandidate)
  | kept, _, [] => some kept
  | kept, stale, x :: rest =>
      match pred (kept ++ (stale ++ x :: rest)) (kept.length + stale.length) x with
      | none => none
      | some true => removeIfLoop pred kept (stale ++ [x]) rest
      | some false =>
          match stale with
          | [] => removeIfLoop pred (kept ++ [x]) [] rest
          | _ :: staleTail =>
              removeIfLoop pred (kept ++ [x])
                (staleTail ++ [{ x with specialAction := none }]) rest

/-- `AINodeStorage::cleanupInefectiveChains`:
`vstd::erase_if(result, pred)` is `result.erase(remove_if(result, pred), end)`. -/
def cleanupInefectiveChains (s : AINodeStorage) (heroFightingStrength : ActorPtr → ℚ)
    (storageBefore : Bool) (result : List ExchangeCandidate) :
    Option (List ExchangeCandidate) :=
  removeIfLoop (isInefectiveChain s heroFightingStrength storageBefore) [] [] result

/-- `getOrCreateNode` for an actor pointer that may be null: a null pointer
compares equal to the actor of the first free slot, which is returned
unchanged. -/
def getOrCreateNodeOpt (nodes : AISharedStorage) (pos : int3) (layer : EPathfindingLayer)
    (actor : Option ActorPtr) : Option (NodePtr × AISharedStorage) :=
  match actor with
  | some a => getOrCreateNode nodes pos layer a
  | none =>
    match (nodes pos layer).findIdx? (fun node => node.actor.isNone) with
    | none => none
    | some i => some ({ coord := pos, layer := layer, chain := i }, nodes)

/-- The writes of `addHeroChain` to an accepted exchange node: the six-argument
`commit` from the carrier, then `theNodeBefore`, `chainOther` and `armyLoss`.
`none` is a dangling carrier pointer. -/
def commitExchangeNode (nodes : AISharedStorage) (exchangePtr : NodePtr)
    (chainInfo : ExchangeCandidate) : Option AISharedStorage :=
  match nodes.node chainInfo.carrierParent with
  | none => none
  | some carrier =>
    let nodes1 := nodes.modify exchangePtr (fun exchangeNode =>
      commitNode exchangeNode carrier carrier.action chainInfo.turns chainInfo.moveRemains
        chainInfo.cost)
    match nodes1.node chainInfo.carrierParent with
    | none => none
    | some carrier1 =>
      let nodes2 :=
        if carrier1.specialAction.isSome ∨ carrier1.chainOther.isSome then
          nodes1.modify exchangePtr (fun exchangeNode =>
            { exchangeNode with theNodeBefore := some chainInfo.carrierParent })
        else nodes1
      some (nodes2.modify exchangePtr (fun exchangeNode =>
        { exchangeNode with
          chainOther := some chainInfo.otherParent
          armyLoss := chainInfo.armyLoss }))

/-- Body of the loop of `AINodeStorage::addHeroChain` for one candidate. -/
def addHeroChainOne (s : AINodeStorage) (chainInfo : ExchangeCandidate) :
    Option AINodeStorage :=
  match s.nodes.node chainInfo.carrierParent with
  | none => none
  | some carrier =>
    match getOrCreateNodeOpt s.nodes carrier.coord carrier.layer chainInfo.actor with
    | none => some s
    | some (exchangePtr, nodes1) =>
      match nodes1.node exchangePtr with
      | none => none
      | some exchangeNode =>
        if exchangeNode.action ≠ ENodeAction.UNKNOWN then some { s with nodes := nodes1 }
        else if exchangeNode.turns ≠ 255 ∧ exchangeNode.cost < chainInfo.cost then
          some { s with nodes := nodes1 }
        else
          match commitExchangeNode nodes1 exchangePtr chainInfo with
          | none => none
          | some nodes2 =>
            some { s with nodes := nodes2, heroChain := s.heroChain ++ [exchangePtr] }

/-- `AINodeStorage::addHeroChain`. -/
def addHeroChain : AINodeStorage → List ExchangeCandidate → Option AINodeStorage
  | s, [] => some s
  | s, chainInfo :: result =>
      match addHeroChainOne s chainInfo with
      | none => none
      | some s1 => addHeroChain s1 result

/-- The vector `existingChains` of the chain pass for one tile and layer: the
nodes with `turns <= heroChainTurn` and a known action, in slot order. -/
def existingChainsOf (heroChainTurn : Nat) (pos : int3) (layer : EPathfindingLayer)
    (chains : List AIPathNode) : List NodePtr :=
  (chains.enum.filter (fun e =>
      decide (e.2.turns ≤ heroChainTurn) && decide (e.2.action ≠ ENodeAction.UNKNOWN))).map
    (fun e => { coord := pos, layer := layer, chain := e.1 })

/-- Second loop of the tile lambda of `AINodeStorage::calculateHeroChain()`: every
movable node of `existingChains` is tried as carrier against all of
`existingChains`. -/
def calculateHeroChainCarriers (sort : List SlotInfo → List SlotInfo)
    (raw : Nat → ChainActor) (rawCandidate : ExchangeCandidate) (st : ChainPassState)
    (nodes : AISharedStorage) (existingChains : List NodePtr) :
    List NodePtr → List ExchangeCandidate × ActorArena →
      Option (List ExchangeCandidate × ActorArena)
  | [], acc => some acc
  | nodePtr :: rest, acc =>
      match nodes.node nodePtr with
      | none => none
      | some node =>
        match node.actor with
        | none => none
        | some actorPtr =>
          match acc.2.actors[actorPtr]? with
          | none => none
          | some actor =>
            if actor.isMovable then
              match calculateHeroChain sort raw rawCandidate st nodes nodePtr existingChains
                  acc with
              | none => none
              | some acc1 =>
                  calculateHeroChainCarriers sort raw rawCandidate st nodes existingChains
                    rest acc1
            else
              calculateHeroChainCarriers sort raw rawCandidate st nodes existingChains rest acc

/-- The tile lambda of `AINodeStorage::calculateHeroChain()` for one tile and
layer: collect the existing chains, build the candidates, remove the ineffective
ones, commit the others. -/
def calculateHeroChainTile (sort : List SlotInfo → List SlotInfo) (raw : Nat → ChainActor)
    (rawCandidate : ExchangeCandidate) (heroFightingStrength : ActorPtr → ℚ)
    (storageBefore : Bool) (layer : EPathfindingLayer) (s : AINodeStorage) (pos : int3) :
    Option AINodeStorage :=
  let existingChains := existingChainsOf s.heroChainTurn pos layer (s.nodes pos layer)
  match calculateHeroChainCarriers sort raw rawCandidate
      { heroChainTurn := s.heroChainTurn, chainMask := s.chainMask } s.nodes existingChains
      existingChains ([], s.arena) with
  | none => none
  | some (newChains, arena1) =>
    match cleanupInefectiveChains { s with arena := arena1 } heroFightingStrength
        storageBefore newChains with
    | none => none
    | some newChains1 => addHeroChain { s with arena := arena1 } newChains1

/-- The loop `foreach_tile_pos` of the chain pass for one layer; `tiles` are the
positions of the map. -/
def calculateHeroChainLayer (sort : List SlotInfo → List SlotInfo) (raw : Nat → ChainActor)
    (rawCandidate : ExchangeCandidate) (heroFightingStrength : ActorPtr → ℚ)
    (storageBefore : Bool) (layer : EPathfindingLayer) :
    List int3 → AINodeStorage → Option AINodeStorage
  | [], s => some s
  | pos :: tiles, s =>
      match calculateHeroChainTile sort raw rawCandidate heroFightingStrength storageBefore
          layer s pos with
      | none => none
      | some s1 =>
          calculateHeroChainLayer sort raw rawCandidate heroFightingStrength storageBefore
            layer tiles s1

/-- `AINodeStorage::calculateHeroChain()`, the chain pass over the layers
`phisycalLayers = {LAND, SAIL}`: the returned flag `heroChain.size()` and the
state after the pass. -/
def calculateHeroChainPass (sort : List SlotInfo → List SlotInfo) (raw : Nat → ChainActor)
    (rawCandidate : ExchangeCandidate) (heroFightingStrength : ActorPtr → ℚ)
    (storageBefore : Bool) (tiles : List int3) (s : AINodeStorage) :
    Option (Bool × AINodeStorage) :=
  let s0 := { s with heroChainPass := EHeroChainPass.CHAIN, heroChain := [] }
  match calculateHeroChainLayer sort raw rawCandidate heroFightingStrength storageBefore
      EPathfindingLayer.LAND tiles s0 with
  | none => none
  | some s1 =>
    match calculateHeroChainLayer sort raw rawCandidate heroFightingStrength storageBefore
        EPathfindingLayer.SAIL tiles s1 with
    | none => none
    | some s2 => some (decide (s2.heroChain.length ≠ 0), s2)

/-! ## Auxiliary predicates for the chain pass -/

/-- The turn of every node of `nodes` is kept in `nodes1`, or brought to at most
`bound`. -/
def TurnsKept (bound : Nat) (nodes nodes1 : AISharedStorage) : Prop :=
  ∀ (q : NodePtr) (n : AIPathNode), nodes.node q = some n →
    ∃ n1, nodes1.node q = some n1 ∧ (n1.turns = n.turns ∨ n1.turns ≤ bound)

/-- Every node listed in `heroChain` has a turn of at most `bound`. -/
def HeroChainTurnsBounded (bound : Nat) (s : AINodeStorage) : Prop :=
  ∀ p ∈ s.heroChain, ∃ n, s.nodes.node p = some n ∧ n.turns ≤ bound

/-- The candidate `c` was built by `calculateExchange` from the carrier node
behind `srcPtr` and another node whose turn is at most `bound`. -/
def IsExchangeOf (rawCandidate : ExchangeCandidate) (nodes : AISharedStorage) (bound : Nat)
    (srcPtr : NodePtr) (c : ExchangeCandidate) : Prop :=
  ∃ (otherPtr : NodePtr) (carrier other : AIPathNode) (newActor : ActorPtr) (mv : Nat),
    nodes.node srcPtr = some carrier ∧ nodes.node otherPtr = some other ∧
    other.turns ≤ bound ∧
    c = calculateExchange rawCandidate newActor mv srcPtr carrier otherPtr other

/-- A chain slot after `resetTile`: no actor, unknown action, turn `0xFF`, and
the largest `float` as cost. -/
def freeNode : AIPathNode :=
  { coord := ⟨3, 3, 0⟩, layer := EPathfindingLayer.LAND, action := ENodeAction.UNKNOWN
    turns := 255, moveRemains := 0, cost := 340282346638528859811704183484516925440
    locked := false, theNodeBefore := none, danger := 0, armyLoss := 0, manaCost := 0
    chainOther := none, specialAction := none, actor := none }

/-- Storage state before a chain pass: `heroStrong` (actor 0) and `heroWeak`
(actor 8) stand on tile (3, 3, 0), whose chain slots 2 and 3 are free. -/
def chainState : AINodeStorage :=
  { nodes := fun c l =>
      if c = ⟨3, 3, 0⟩ ∧ l = EPathfindingLayer.LAND then
        [meetingNode 0 1000, meetingNode 8 500, freeNode, freeNode]
      else []
    arena := twoHeroArena
    actors := [0, 8]
    heroChain := []
    heroChainPass := EHeroChainPass.INITIAL
    heroChainTurn := 0
    heroChainMaxTurns := 1
    chainMask := 1
    scoutTurnDistanceLimit := 255 }

/-- The exchange candidate of `heroStrong` as carrier and `heroWeak` as other on
tile (3, 3, 0), for the merged actor 16. -/
def chainCandidate : ExchangeCandidate :=
  calculateExchange rawCandidate0 16 1500 (meetingSlot 0) (meetingNode 0 1000)
    (meetingSlot 1) (meetingNode 8 500)

/-- The state after `addHeroChain` has committed `chainCandidate`. -/
def chainStateAfter : AINodeStorage :=
  match addHeroChainOne chainState chainCandidate with
  | some s => s
  | none => chainState

/-- The chain pass over the single tile (3, 3, 0) from `chainState`. -/
def chainPassResult : Option (Bool × AINodeStorage) :=
  calculateHeroChainPass sortByPower (fun _ => rawActor) rawCandidate0 (fun _ => 0) false
    [⟨3, 3, 0⟩] chainState

/-- The state after that chain pass. -/
def chainStateChained : AINodeStorage :=
  match chainPassResult with
  | some r => r.2
  | none => chainState

/-- A settled node of the battle variant (actor 17) of the merged actor 16 on the
water tile (5, 5, 0), layer SAIL: no army loss, cost 1. -/
def sailNode : AIPathNode :=
  { coord := ⟨5, 5, 0⟩, layer := EPathfindingLayer.SAIL, action := ENodeAction.NORMAL
    turns := 0, moveRemains := 800, cost := 1, locked := false, theNodeBefore := none
    danger := 0, armyLoss := 0, manaCost := 0, chainOther := none, specialAction := none
    actor := some 17 }

/-- Storage state during a chain pass: the arena holds the merged actor 16 of
`heroStrong` and `heroWeak` (army value 25584, mask 3) with its variants; on the
water tile (5, 5, 0) the SAIL layer holds `sailNode`, and the LAND layer, which
`initialize` never resets on water, holds free slots. -/
def sailState : AINodeStorage :=
  { chainStateChained with
    nodes := fun c l =>
      if c = ⟨5, 5, 0⟩ ∧ l = EPathfindingLayer.SAIL then
        [sailNode, { freeNode with coord := ⟨5, 5, 0⟩, layer := EPathfindingLayer.SAIL }]
      else if c = ⟨5, 5, 0⟩ ∧ l = EPathfindingLayer.LAND then
        [{ freeNode with coord := ⟨5, 5, 0⟩ }, { freeNode with coord := ⟨5, 5, 0⟩ }]
      else []
    heroChain := []
    heroChainPass := EHeroChainPass.CHAIN }

/-- An exchange candidate for the merged actor 16 on the water tile (5, 5, 0),
layer SAIL, with army loss 100 and cost 2. -/
def sailCandidate : ExchangeCandidate :=
  { rawCandidate0 with
    coord := ⟨5, 5, 0⟩, layer := EPathfindingLayer.SAIL, turns := 0, moveRemains := 500
    cost := 2, armyLoss := 100, actor := some 16
    carrierParent := ⟨⟨5, 5, 0⟩, EPathfindingLayer.SAIL, 2⟩
    otherParent := ⟨⟨5, 5, 0⟩, EPathfindingLayer.SAIL, 3⟩ }

/-! ## Town-portal teleportations (`TowmPortalFinder`, `calculateTownPortalTeleportations`) -/

/-- Modelled from the spec: the school levels of a spell, in increasing order
none, basic, advanced, expert (`SecSkillLevel::NONE`). -/
def SecSkillLevel.NONE : Nat := 0

/-- Modelled from the spec: `SecSkillLevel::BASIC`. -/
def SecSkillLevel.BASIC : Nat := 1

/-- Modelled from the spec: `SecSkillLevel::ADVANCED`. -/
def SecSkillLevel.ADVANCED : Nat := 2

/-- Modelled from the spec: `SecSkillLevel::EXPERT`. -/
def SecSkillLevel.EXPERT : Nat := 3

/-- `PlayerRelations`. -/
inductive PlayerRelations where
  | ENEMIES
  | ALLIES
  | SAME_PLAYER
deriving DecidableEq, Repr

/-- The members of `CGTownInstance` read by the node storage.  A town pointer is
the town record; towns differ in their `id`. -/
structure CGTownInstance where
  id : Nat
  tempOwner : Nat
  visitablePos : int3
  visitingHero : Option CGHeroInstance
  garrisonHero : Option CGHeroInstance
deriving DecidableEq, Repr

/-- The game state and constants read by the town-portal enumeration: the
movement cost constant, the spell data of a hero, the towns the callback
reports and the relations between players. -/
structure TownPortalEnv where
  BASE_MOVEMENT_COST : Nat
  getSpellSchoolLevel : CGHeroInstance → Nat
  canCastThisSpell : CGHeroInstance → Bool
  mana : CGHeroInstance → Int
  getSpellCost : CGHeroInstance → Int
  getTownsInfo : List CGTownInstance
  getPlayerRelations : Nat → Nat → PlayerRelations

/-- Conversion of an `int` to `uint64_t`. -/
def toUint64 (i : Int) : Nat := (i % (UINT64 : Int)).toNat

/-- Conversion of an unsigned value to a 32-bit `int` (two's complement). -/
def toInt32 (n : Nat) : Int :=
  if n % 2 ^ 32 < 2 ^ 31 then ((n % 2 ^ 32 : Nat) : Int)
  else ((n % 2 ^ 32 : Nat) : Int) - 2 ^ 32

/-- Modelled from the spec: `int3::dist2dSQ`, the square of the Euclidean distance
of two tiles in the plane. -/
def int3.dist2dSQ (a o : int3) : Int :=
  (a.x - o.x) * (a.x - o.x) + (a.y - o.y) * (a.y - o.y)

/-- Loop of `std::min_element` with the comparison `f(a) < f(b)`. -/
def minElementByFunLoop {α : Type} (f : α → Int) : List α → α → α
  | [], best => best
  | x :: xs, best =>
      if f x < f best then minElementByFunLoop f xs x else minElementByFunLoop f xs best

/-- `vstd::minElementByFun`: the first element with the least value of `f`; `none`
is the `end()` iterator of an empty range. -/
def minElementByFun {α : Type} (f : α → Int) : List α → Option α
  | [] => none
  | x :: xs => some (minElementByFunLoop f xs x)

/-- The data members of `TowmPortalFinder` (the vector `initialNodes` is a
reference to the vector of the caller and is passed with each call). -/
structure TowmPortalFinder where
  townPortalSkillLevel : Nat
  movementNeeded : Nat
  actor : ActorPtr
  hero : CGHeroInstance
  targetTowns : List CGTownInstance

/-- Constructor of `TowmPortalFinder` for an actor with the hero `hero`. -/
def TowmPortalFinder.construct (env : TownPortalEnv) (actor : ActorPtr)
    (hero : CGHeroInstance) (targetTowns : List CGTownInstance) : TowmPortalFinder :=
  { townPortalSkillLevel := env.getSpellSchoolLevel hero
    movementNeeded := env.BASE_MOVEMENT_COST *
      (if env.getSpellSchoolLevel hero ≥ SecSkillLevel.EXPERT then 2 else 3)
    actor := actor
    hero := hero
    targetTowns := targetTowns }

/-- `TowmPortalFinder::actorCanCastTownPortal`. -/
def actorCanCastTownPortal (env : TownPortalEnv) (finder : TowmPortalFinder) : Bool :=
  env.canCastThisSpell finder.hero && decide (env.mana finder.hero ≥ env.getSpellCost finder.hero)

/-- First test of the loop of `getBestInitialNodeForTownPortal`, negated: the node
belongs to a variant of the actor, lies on land and has the movement points
needed (`moveRemains` is converted to `uint64_t` for the comparison). -/
def isTownPortalSource (finder : TowmPortalFinder) (arena : ActorArena) (node : AIPathNode) :
    Option Bool :=
  match node.actor with
  | none => none
  | some a =>
    match arena.actors[a]? with
    | none => none
    | some aiActor =>
      some (!(decide (aiActor.baseActor ≠ finder.actor)
        || decide (node.layer ≠ EPathfindingLayer.LAND)
        || decide (toUint64 node.moveRemains < finder.movementNeeded)))

/-- Second test of the loop of `getBestInitialNodeForTownPortal`, negated: below
the advanced level the target town has to be the town nearest to the node. -/
def isTownInRange (finder : TowmPortalFinder) (node : AIPathNode)
    (targetTown : CGTownInstance) : Option Bool :=
  if finder.townPortalSkillLevel < SecSkillLevel.ADVANCED then
    match minElementByFun (fun t : CGTownInstance => node.coord.dist2dSQ t.visitablePos)
        finder.targetTowns with
    | none => none
    | some nearestTown => some (decide (targetTown = nearestTown))
  else some true

/-- Body of the loop of `TowmPortalFinder::getBestInitialNodeForTownPortal`. -/
def getBestInitialNodeStep (finder : TowmPortalFinder) (nodes : AISharedStorage)
    (arena : ActorArena) (targetTown : CGTownInstance) (bestNode : Option NodePtr)
    (nodePtr : NodePtr) : Option (Option NodePtr) :=
  match nodes.node nodePtr with
  | none => none
  | some node =>
    match isTownPortalSource finder arena node with
    | none => none
    | some false => some bestNode
    | some true =>
      match isTownInRange finder node targetTown with
      | none => none
      | some false => some bestNode
      | some true =>
        match bestNode with
        | none => some (some nodePtr)
        | some best =>
          match nodes.node best with
          | none => none
          | some bestN =>
            if bestN.cost > node.cost then some (some nodePtr) else some bestNode

/-- `TowmPortalFinder::getBestInitialNodeForTownPortal`, started with
`bestNode = nullptr`. -/
def getBestInitialNodeForTownPortal (finder : TowmPortalFinder) (nodes : AISharedStorage)
    (arena : ActorArena) (targetTown : CGTownInstance) :
    List NodePtr → Option NodePtr → Option (Option NodePtr)
  | [], bestNode => some bestNode
  | nodePtr :: initialNodes, bestNode =>
      match getBestInitialNodeStep finder nodes arena targetTown bestNode nodePtr with
      | none => none
      | some bestNode1 =>
          getBestInitialNodeForTownPortal finder nodes arena targetTown initialNodes bestNode1

/-- `TowmPortalFinder::createTownPortalNode`: the optional node and the node array
after the call. -/
def createTownPortalNode (finder : TowmPortalFinder) (s : AINodeStorage)
    (initialNodes : List NodePtr) (targetTown : CGTownInstance) :
    Option (Option NodePtr × AISharedStorage) :=
  match getBestInitialNodeForTownPortal finder s.nodes s.arena targetTown initialNodes
      none with
  | none => none
  | some none => some (none, s.nodes)
  | some (some bestPtr) =>
    match s.arena.actors[finder.actor]? with
    | none => none
    | some actorObj =>
      match getOrCreateNode s.nodes targetTown.visitablePos EPathfindingLayer.LAND
          actorObj.castActor with
      | none => some (none, s.nodes)
      | some (nodePtr, nodes1) =>
        match nodes1.node nodePtr, nodes1.node bestPtr with
        | some node, some bestNode =>
          let movementCost : ℚ :=
            (finder.movementNeeded : ℚ)
              / (finder.hero.maxMovePoints EPathfindingLayer.LAND : ℚ) + bestNode.cost
          if node.action = ENodeAction.UNKNOWN ∨ node.cost > movementCost then
            some (some nodePtr, nodes1.modify nodePtr (fun node =>
              { commitNode node bestNode ENodeAction.TELEPORT_NORMAL bestNode.turns
                  (toInt32 (sub64 (toUint64 bestNode.moveRemains) finder.movementNeeded))
                  movementCost with
                theNodeBefore := some bestPtr
                specialAction := some (SpecialAction.townPortal targetTown.id) }))
          else some (some nodePtr, nodes1)
        | _, _ => none

/-- The set `actorsOfInitial` before ordering: the base actors of the initial
nodes. -/
def baseActorsOf (s : AINodeStorage) : List NodePtr → Option (List ActorPtr)
  | [] => some []
  | p :: rest =>
      match s.nodes.node p with
      | none => none
      | some node =>
        match node.actor with
        | none => none
        | some a =>
          match s.arena.actors[a]? with
          | none => none
          | some aiActor =>
            match baseActorsOf s rest with
            | none => none
            | some l => some (aiActor.baseActor :: l)

/-- The `std::set` `actorsOfInitial` in iteration order: each base actor once, in
address order. -/
def actorsOfInitial (s : AINodeStorage) (initialNodes : List NodePtr) :
    Option (List ActorPtr) :=
  (baseActorsOf s initialNodes).map (fun l => l.dedup.insertionSort (fun a b => a ≤ b))

/-- The map `maskMap` from hero to chain mask, built from the list `actors`.  The
mapped type is `int`; a later entry for the same hero replaces an earlier
one. -/
def townPortalMaskMap (arena : ActorArena) :
    List ActorPtr → List (CGHeroInstance × Int) → Option (List (CGHeroInstance × Int))
  | [], m => some m
  | a :: rest, m =>
      match arena.actors[a]? with
      | none => none
      | some basicActor =>
        match basicActor.hero with
        | none => townPortalMaskMap arena rest m
        | some h => townPortalMaskMap arena rest ((h, toInt32 basicActor.chainMask) :: m)

/-- `maskMap[hero]`: the stored mask, or the value-initialised 0 for a hero
without entry. -/
def maskMapLookup (maskMap : List (CGHeroInstance × Int)) (hero : CGHeroInstance) : Int :=
  match maskMap.lookup hero with
  | some v => v
  | none => 0

/-- The test that makes the loop over the target towns `continue`: the town has a
visiting hero and `sameActorInTown || !heroIsInChain`. -/
def townIsSkipped (maskMap : List (CGHeroInstance × Int)) (actor : ChainActor)
    (targetTown : CGTownInstance) : Bool :=
  match targetTown.visitingHero with
  | none => false
  | some visitingHero =>
    let basicMask := maskMapLookup maskMap visitingHero
    let heroIsInChain := decide ((actor.chainMask &&& toUint64 basicMask) ≠ 0)
    let sameActorInTown := decide (actor.chainMask = toUint64 basicMask)
    sameActorInTown || !heroIsInChain

/-- The loop over the target towns of `calculateTownPortalTeleportations` for one
actor: the storage and the vector `initialNodes` after the loop. -/
def townPortalTowns (finder : TowmPortalFinder) (maskMap : List (CGHeroInstance × Int))
    (actor : ChainActor) :
    List CGTownInstance → AINodeStorage × List NodePtr →
      Option (AINodeStorage × List NodePtr)
  | [], acc => some acc
  | targetTown :: towns, acc =>
      if townIsSkipped maskMap actor targetTown then
        townPortalTowns finder maskMap actor towns acc
      else
        match createTownPortalNode finder acc.1 acc.2 targetTown with
        | none => none
        | some (none, nodes1) =>
            townPortalTowns finder maskMap actor towns ({ acc.1 with nodes := nodes1 }, acc.2)
        | some (some nodePtr, nodes1) =>
            townPortalTowns finder maskMap actor towns
              ({ acc.1 with nodes := nodes1 }, acc.2 ++ [nodePtr])

/-- The loop over `actorsOfInitial` of `calculateTownPortalTeleportations`.  An
actor without non-hostile town ends the whole function. -/
def townPortalActors (env : TownPortalEnv) (maskMap : List (CGHeroInstance × Int)) :
    List ActorPtr → AINodeStorage × List NodePtr → Option (AINodeStorage × List NodePtr)
  | [], acc => some acc
  | actorPtr :: rest, acc =>
      match acc.1.arena.actors[actorPtr]? with
      | none => none
      | some actor =>
        match actor.hero with
        | none => townPortalActors env maskMap rest acc
        | some hero =>
          let towns := env.getTownsInfo.filter (fun t =>
            decide (env.getPlayerRelations hero.tempOwner t.tempOwner
              ≠ PlayerRelations.ENEMIES))
          if towns.length = 0 then some acc
          else
            let townPortalFinder := TowmPortalFinder.construct env actorPtr hero towns
            if actorCanCastTownPortal env townPortalFinder then
              match townPortalTowns townPortalFinder maskMap actor towns acc with
              | none => none
              | some acc1 => townPortalActors env maskMap rest acc1
            else townPortalActors env maskMap rest acc

/-- `AINodeStorage::calculateTownPortalTeleportations(initialNodes)`: the storage
and the vector `initialNodes` after the call. -/
def calculateTownPortalTeleportations (env : TownPortalEnv) (s : AINodeStorage)
    (initialNodes : List NodePtr) : Option (AINodeStorage × List NodePtr) :=
  match actorsOfInitial s initialNodes with
  | none => none
  | some actors =>
    match townPortalMaskMap s.arena s.actors [] with
    | none => none
    | some maskMap => townPortalActors env maskMap actors (s, initialNodes)

/-- The source node `p` of a teleport to `town`: a node of the list that has the
movement points needed and to which `town` is the nearest of the target
towns. -/
def IsNearestSource (finder : TowmPortalFinder) (nodes : AISharedStorage)
    (initialNodes : List NodePtr) (town : CGTownInstance) (p : NodePtr) : Prop :=
  ∃ node, nodes.node p = some node ∧ p ∈ initialNodes ∧ town ∈ finder.targetTowns ∧
    ∀ t ∈ finder.targetTowns,
      node.coord.dist2dSQ town.visitablePos ≤ node.coord.dist2dSQ t.visitablePos

/-! ## A town-portal scenario -/

/-- Game state in which every hero has the given town-portal level and enough
mana, the movement cost constant is 100, and players are hostile to every other
player. -/
def portalEnv (level : Nat) (towns : List CGTownInstance) : TownPortalEnv :=
  { BASE_MOVEMENT_COST := 100
    getSpellSchoolLevel := fun _ => level
    canCastThisSpell := fun _ => true
    mana := fun _ => 20
    getSpellCost := fun _ => 16
    getTownsInfo := towns
    getPlayerRelations := fun a b =>
      if a = b then PlayerRelations.SAME_PLAYER else PlayerRelations.ENEMIES }

/-- Own town next to `heroStrong`, at (4, 3, 0). -/
def nearTown : CGTownInstance :=
  { id := 1, tempOwner := 0, visitablePos := ⟨4, 3, 0⟩, visitingHero := none
    garrisonHero := none }

/-- Own town far from `heroStrong`, at (30, 30, 0). -/
def farTown : CGTownInstance :=
  { id := 2, tempOwner := 0, visitablePos := ⟨30, 30, 0⟩, visitingHero := none
    garrisonHero := none }

/-- Own town at (3, 3, 0), in which `heroStrong` stands. -/
def homeTown : CGTownInstance :=
  { id := 3, tempOwner := 0, visitablePos := ⟨3, 3, 0⟩, visitingHero := some heroStrong
    garrisonHero := none }

/-- Storage state of the INITIAL pass: the initial node of `heroStrong` (actor 0,
500 movement points) on tile (3, 3, 0), and free slots on the town tiles. -/
def portalState : AINodeStorage :=
  { nodes := fun c l =>
      if l = EPathfindingLayer.LAND then
        if c = ⟨3, 3, 0⟩ then [meetingNode 0 500, freeNode]
        else if c = ⟨4, 3, 0⟩ then
          [{ freeNode with coord := ⟨4, 3, 0⟩ }, { freeNode with coord := ⟨4, 3, 0⟩ }]
        else if c = ⟨30, 30, 0⟩ then
          [{ freeNode with coord := ⟨30, 30, 0⟩ }, { freeNode with coord := ⟨30, 30, 0⟩ }]
        else []
      else []
    arena := twoHeroArena
    actors := [0, 8]
    heroChain := []
    heroChainPass := EHeroChainPass.INITIAL
    heroChainTurn := 0
    heroChainMaxTurns := 1
    chainMask := 1
    scoutTurnDistanceLimit := 255 }

/-- The finder of `heroStrong` (actor 0) for the towns `nearTown` and `farTown`
at the given town-portal level. -/
def portalFinder (level : Nat) : TowmPortalFinder :=
  TowmPortalFinder.construct (portalEnv level [nearTown, farTown]) 0 heroStrong
    [nearTown, farTown]

/-! ## Distance limit (`AINodeStorage::isDistanceLimitReached`) -/

/-- `AINodeStorage::isDistanceLimitReached(source, destination)`; `source` is not
read.  `heroRole` is the member of that name of the actor at an address, which
no constructor in `Actors.cpp` assigns; `none` is a null dereference. -/
def isDistanceLimitReached (s : AINodeStorage) (heroRole : ActorPtr → HeroRole)
    (destination : CDestinationNodeInfo) : Option Bool :=
  match s.nodes.node destination.node with
  | none => none
  | some node =>
    if s.heroChainPass = EHeroChainPass.CHAIN ∧ node.turns > s.heroChainTurn then some true
    else
      match s.heroChainPass with
      | EHeroChainPass.FINAL =>
        match node.actor with
        | none => none
        | some actor =>
          if heroRole actor = HeroRole.SCOUT ∧ node.turns > s.scoutTurnDistanceLimit then
            some true
          else some false
      | EHeroChainPass.INITIAL =>
        match node.actor with
        | none => none
        | some actor =>
          if heroRole actor = HeroRole.SCOUT ∧ node.turns > s.scoutTurnDistanceLimit then
            some true
          else some false
      | EHeroChainPass.CHAIN => some false

/-- `(int)scanDepth`. -/
def ScanDepth.toNat : ScanDepth → Nat
  | ScanDepth.SMALL => 0
  | ScanDepth.MEDIUM => 1
  | ScanDepth.FULL => 2

/-- The value `Nullkiller::updateAiState` gives to `cfg.mainTurnDistanceLimit`:
`MAIN_TURN_DISTANCE_LIMIT * ((int)scanDepth + 1)` unless the scan depth is
`FULL`, when the setting keeps its default (`none`). -/
def mainTurnDistanceLimit (MAIN_TURN_DISTANCE_LIMIT : Nat) (scanDepth : ScanDepth) :
    Option Nat :=
  if scanDepth ≠ ScanDepth.FULL then some (MAIN_TURN_DISTANCE_LIMIT * (scanDepth.toNat + 1))
  else none

/-- Storage state in the given pass with the given chain turn and scout limit: on
tile (3, 3, 0) slot 0 holds a node of actor 0 reached after 200 turns and slot 1
a node of actor 8 reached after 1 turn. -/
def distantState (pass : EHeroChainPass) (heroChainTurn scoutLimit : Nat) : AINodeStorage :=
  { chainState with
    nodes := fun c l =>
      if c = ⟨3, 3, 0⟩ ∧ l = EPathfindingLayer.LAND then
        [{ meetingNode 0 1000 with turns := 200 }, { meetingNode 8 500 with turns := 1 }]
      else []
    heroChainPass := pass
    heroChainTurn := heroChainTurn
    scoutTurnDistanceLimit := scoutLimit }

/-- Destination descriptor for chain slot `i` of tile (3, 3, 0). -/
def distantDestination (i : Nat) : CDestinationNodeInfo :=
  { guardedDestination with node := meetingSlot i, coord := ⟨3, 3, 0⟩ }

/-- Roles in which actor 0 (and its variants) is the main hero and every other
actor a scout. -/
def mainThenScouts : ActorPtr → HeroRole :=
  fun a => if a < 8 then HeroRole.MAIN else HeroRole.SCOUT

/-! ## Locked heroes -/

/-- `Nullkiller::getHeroLockedReason`: the reason stored for the hero, or
`NOT_LOCKED` for a hero without entry. -/
def getHeroLockedReason (ai : NullkillerState) (hero : Nat) : HeroLockedReason :=
  match ai.lockedHeroes.lookup hero with
  | some reason => reason
  | none => HeroLockedReason.NOT_LOCKED

/-! ## Artifact value (`PriorityEvaluator.cpp`) -/

/-- `CArtifact::EartClass`. -/
inductive EartClass where
  | ART_SPECIAL
  | ART_TREASURE
  | ART_MINOR
  | ART_MAJOR
  | ART_RELIC
deriving DecidableEq, Repr

/-- What `evaluateArtifactArmyValue` reads of an artifact: whether its type is the
spell scroll, its class, and the values of its bonuses (`int`). -/
structure CArtifactInstance where
  isSpellScroll : Bool
  aClass : EartClass
  landMovement : Int
  morale : Int
  attack : Int
  defence : Int
  knowledge : Int
  spellPower : Int
  luck : Int
deriving DecidableEq, Repr

/-- The sum `statsValue` of `evaluateArtifactArmyValue`, term by term. -/
def artifactStatsValue (art : CArtifactInstance) : Int :=
  4 * art.landMovement
    + 700 * art.morale
    + 700 * art.attack
    + 700 * art.defence
    + 700 * art.knowledge
    + 700 * art.spellPower
    + 700 * art.defence
    + 500 * art.luck

/-- The value `classValue` of `evaluateArtifactArmyValue`. -/
def artifactClassValue (art : CArtifactInstance) : Int :=
  match art.aClass with
  | EartClass.ART_MINOR => 1000
  | EartClass.ART_MAJOR => 3000
  | EartClass.ART_RELIC => 8000
  | EartClass.ART_SPECIAL => 8000
  | _ => 0

/-- `evaluateArtifactArmyValue`; the `int` result is converted to `uint64_t`. -/
def evaluateArtifactArmyValue (art : CArtifactInstance) : Nat :=
  if art.isSpellScroll then 1500
  else
    toUint64 (if artifactStatsValue art > artifactClassValue art then artifactStatsValue art
      else artifactClassValue art)

/-- The value the specification gives to `statsValue`: every bonus counted
once. -/
def artifactStatsValueOnce (art : CArtifactInstance) : Int :=
  4 * art.landMovement + 700 * art.morale + 700 * art.attack + 700 * art.defence
    + 700 * art.knowledge + 700 * art.spellPower + 500 * art.luck

/-- A treasure-class artifact whose only bonus is +3 defence. -/
def shieldOfDefence : CArtifactInstance :=
  { isSpellScroll := false, aClass := EartClass.ART_TREASURE, landMovement := 0, morale := 0
    attack := 0, defence := 3, knowledge := 0, spellPower := 0, luck := 0 }

/-! ## Buying an army (`ArmyManager::getArmyAvailableToBuy`) -/

/-- Largest value of an `int`, the start value of `TResources::operator/`. -/
def INT_MAX : Int := 2147483647

/-- One round of the loop of `TResources::operator/` for the resource kind `i`. -/
def TResources.divStep (a b : TResources) (ret : Int) (i : Nat) : Int :=
  if h : i < RESOURCE_QUANTITY then
    if b ⟨i, h⟩ ≠ 0 then min ret ((a ⟨i, h⟩).tdiv (b ⟨i, h⟩)) else ret
  else ret

/-- Modelled from the spec: `TResources::operator/`, library code; how many times
the cost `b` is affordable with `a`: the smallest truncated quotient over the
resource kinds the cost is not zero in, `INT_MAX` if there is none. -/
def TResources.div (a b : TResources) : Int :=
  (List.range RESOURCE_QUANTITY).foldl (TResources.divStep a b) INT_MAX

/-- Modelled from the spec: `TResources::operator*(int)`, library code; the cost
of `n` units, componentwise. -/
def TResources.mul (a : TResources) (n : Int) : TResources := fun i => a i * n

/-- What `getArmyAvailableToBuy` reads of a dwelling: per tier the number of
creatures on offer and the creature types of the tier. -/
structure CGDwelling where
  creatures : List (Nat × List CCreature)
deriving DecidableEq, Repr

/-- Record `creInfo`; `cre` is null exactly when `creID == -1`. -/
structure creInfo where
  count : Int
  cre : Option CCreature
  level : Int
deriving DecidableEq, Repr

/-- Modelled from the spec: `infoFromDC`, a helper outside the army manager; the
count on offer and the last creature type of the tier, no creature (`creID = -1`)
when the tier lists none. -/
def infoFromDC (dc : Nat × List CCreature) : creInfo :=
  { count := (dc.1 : Int)
    cre := dc.2.getLast?
    level := match dc.2.getLast? with
      | some c => (c.level : Int)
      | none => 0 }

/-- Modelled from the spec: `hero->hasStackAtSlot(hero->getSlotFor(creID))`,
library code; `getSlotFor` gives the slot that holds the creature type when there
is one and a slot without a stack otherwise. -/
def CCreatureSet.hasStackOf (a : CCreatureSet) (c : CCreature) : Bool :=
  a.slots.any (fun s => decide (s.type = c))

/-- Local variables of `getArmyAvailableToBuy`. -/
structure BuyLoop where
  availableRes : TResources
  creaturesInDwellings : List creInfo
  freeHeroSlots : Int

/-- Body of the loop of `getArmyAvailableToBuy` for tier `i`; `cost` is
`cre->cost`. -/
def getArmyAvailableToBuyStep (cost : CCreature → TResources) (hero : CCreatureSet)
    (st : BuyLoop) (i : Nat) (dc : Nat × List CCreature) : BuyLoop :=
  let ci := infoFromDC dc
  match ci.cre with
  | none => st
  | some cre =>
    if ci.count = 0 then st
    else if hero.hasStackOf cre = false ∧ st.freeHeroSlots = 0 then st
    else
      let free := if hero.hasStackOf cre = false then st.freeHeroSlots - 1 else st.freeHeroSlots
      let count := min ci.count (st.availableRes.div (cost cre))
      if count = 0 then { st with freeHeroSlots := free }
      else
        { availableRes := st.availableRes.sub ((cost cre).mul count)
          creaturesInDwellings :=
            st.creaturesInDwellings ++ [{ ci with count := count, level := (i : Int) }]
          freeHeroSlots := free }

/-- The loop of `getArmyAvailableToBuy` over the tiers still to visit. -/
def getArmyAvailableToBuyLoop (cost : CCreature → TResources) (hero : CCreatureSet) :
    BuyLoop → List (Nat × (Nat × List CCreature)) → BuyLoop
  | st, [] => st
  | st, (i, dc) :: rest =>
      getArmyAvailableToBuyLoop cost hero (getArmyAvailableToBuyStep cost hero st i dc) rest

/-- `ArmyManager::getArmyAvailableToBuy`; `availableRes` is
`cb->getResourceAmount()`, the tiers are visited from the last to the first. -/
def getArmyAvailableToBuy (cost : CCreature → TResources) (availableRes : TResources)
    (hero : CCreatureSet) (dwelling : CGDwelling) : List creInfo :=
  (getArmyAvailableToBuyLoop cost hero
    { availableRes := availableRes
      creaturesInDwellings := []
      freeHeroSlots := (ARMY_SIZE : Int) - (hero.slots.length : Int) }
    dwelling.creatures.enum.reverse).creaturesInDwellings

/-- Cost of the units of a list of `creInfo` in resource kind `r`. -/
def totalCost (cost : CCreature → TResources) (l : List creInfo)
    (r : Fin RESOURCE_QUANTITY) : Int :=
  (l.map (fun ci =>
    match ci.cre with
    | some cre => cost cre r * ci.count
    | none => 0)).sum

/-- The entries of a list of `creInfo` whose creature type has no stack in the
hero's army. -/
def newTypes (hero : CCreatureSet) (l : List creInfo) : List creInfo :=
  l.filter (fun ci =>
    match ci.cre with
    | some cre => !hero.hasStackOf cre
    | none => true)

/-- Gremlin: a level 1 creature. -/
def gremlin : CCreature := { idNumber := 28, level := 1, speed := 4, AIValue := 44 }

/-- Stone gargoyle: a level 2 creature. -/
def gargoyle : CCreature := { idNumber := 30, level := 2, speed := 6, AIValue := 165 }

/-- Creature costs in gold (resource kind 6): gremlin 30, gargoyle 160, any other
creature 100. -/
def goldCost : CCreature → TResources := fun c r =>
  if r.val = 6 then (if c = gremlin then 30 else if c = gargoyle then 160 else 100) else 0

/-- Resource vector of `gold` gold and nothing else. -/
def goldOnly (gold : Int) : TResources := fun r => if r.val = 6 then gold else 0

/-- Dwelling offering 100 gremlins in tier 0 and 50 gargoyles in tier 1. -/
def gremlinWorkshop : CGDwelling := { creatures := [(100, [gremlin]), (50, [gargoyle])] }

/-! ## Choice of a task for a behavior (`Nullkiller::choseBestTask`) -/

/-- Result of `choseBestTask(behavior, depth)`: the `Invalid` task or one of the
tasks built from the elementary goals. -/
inductive ChosenTask where
  | Invalid
  | task (t : TTask)
deriving DecidableEq, Repr

/-- The task built from an elementary goal: a copy whose priority is evaluated
when it is not positive. -/
def taskOfGoal (evaluate : TTask → ℚ) (goal : TTask) : TTask :=
  if goal.priority ≤ 0 then { goal with priority := evaluate goal } else goal

/-- `Nullkiller::choseBestTask(behavior, decompositionMaxDepth)`; `decompose` is
`decomposer->decompose` and `evaluate` is `priorityEvaluator->evaluate`.  `none`
is the undefined behaviour of `choseBestTask(tasks)`. -/
def choseBestTaskOfBehavior {Behavior : Type} (decompose : Behavior → Int → List TTask)
    (evaluate : TTask → ℚ) (behavior : Behavior) (decompositionMaxDepth : Int) :
    Option ChosenTask :=
  let elementarGoals := decompose behavior decompositionMaxDepth
  let tasks := elementarGoals.map (taskOfGoal evaluate)
  if tasks.isEmpty then some ChosenTask.Invalid
  else (choseBestTask tasks).map ChosenTask.task

/-! ## Primitive actors (`AINodeStorage::setHeroes`, `setTownsAndDwellings`) -/

/-- The initialiser `uint64_t mask = 1 << n`: the shift is done on the `int` 1.
For `n < 31` the value is `2 ^ n`; for `n = 31` the `int` result is `INT_MIN`,
which converts to `2 ^ 64 - 2 ^ 31`; for `n ≥ 32` the shift is undefined
(`none`). -/
def shiftOneInt (n : Nat) : Option Nat :=
  if n < 31 then some (2 ^ n)
  else if n = 31 then some (toUint64 (toInt32 (2 ^ 31)))
  else none

/-- Body of the loop of `setHeroes`; `aiPlayerID` is `ai->playerID` and `raw p`
the memory of the objects built at address `p`.  The writes to the member `playerID` are
left out, it is not read here. -/
def setHeroesStep (raw : ActorPtr → Nat → ChainActor) (aiPlayerID : Nat) (s : AINodeStorage)
    (hero : CGHeroInstance × HeroRole) : Option AINodeStorage :=
  match shiftOneInt s.actors.length with
  | none => none
  | some mask =>
    let built := HeroActor.ofHero (raw s.arena.actors.length) s.arena hero.1 mask
    let arena :=
      if hero.1.tempOwner ≠ aiPlayerID then
        { built.2 with
          actors := built.2.actors.modify
            (fun a => { a with
              initialMovement := hero.1.maxMovePoints
                (if hero.1.boat then EPathfindingLayer.SAIL else EPathfindingLayer.LAND) })
            built.1 }
      else built.2
    some { s with arena := arena, actors := s.actors ++ [built.1] }

/-- `AINodeStorage::setHeroes`; the heroes in the iteration order of the map. -/
def setHeroes (raw : ActorPtr → Nat → ChainActor) (aiPlayerID : Nat) :
    AINodeStorage → List (CGHeroInstance × HeroRole) → Option AINodeStorage
  | s, [] => some s
  | s, hero :: rest =>
      match setHeroesStep raw aiPlayerID s hero with
      | none => none
      | some s1 => setHeroes raw aiPlayerID s1 rest

/-- What `setTownsAndDwellings` reads of a visitable object. -/
structure CGObjectInstance where
  ID : Nat
  visitablePos : int3
deriving DecidableEq, Repr

/-- Body of the first loop of `setTownsAndDwellings`: the mask is computed for
every town, the `TownGarrisonActor` is built for a town without garrison hero.
`getUpperArmy` is `town->getUpperArmy()`. -/
def setTownsStep (raw : ActorPtr → Nat → ChainActor) (getUpperArmy : CGTownInstance → CCreatureSet)
    (s : AINodeStorage) (town : CGTownInstance) : Option AINodeStorage :=
  match shiftOneInt s.actors.length with
  | none => none
  | some mask =>
    if town.garrisonHero = none then
      let built := ChainActor.newObject (raw s.arena.actors.length 0) s.arena town.visitablePos
        (getUpperArmy town) mask 0
      some { s with arena := built.2, actors := s.actors ++ [built.1] }
    else some s

/-- First loop of `setTownsAndDwellings`. -/
def setTowns (raw : ActorPtr → Nat → ChainActor) (getUpperArmy : CGTownInstance → CCreatureSet) :
    AINodeStorage → List CGTownInstance → Option AINodeStorage
  | s, [] => some s
  | s, town :: rest =>
      match setTownsStep raw getUpperArmy s town with
      | none => none
      | some s1 => setTowns raw getUpperArmy s1 rest

/-- Body of the second loop of `setTownsAndDwellings`.  Modelled from the spec:
the constructor of `HillFortActor` is outside this code; a hill fort is an
immobile actor, built by the `ChainActor` constructor of immobile actors from the
object, the mask, and an army `hillFortArmy`.  `HILL_FORT` is `Obj::HILL_FORT`. -/
def setHillFortsStep (raw : ActorPtr → Nat → ChainActor) (HILL_FORT : Nat)
    (hillFortArmy : CGObjectInstance → CCreatureSet)
    (s : AINodeStorage) (obj : CGObjectInstance) : Option AINodeStorage :=
  if obj.ID = HILL_FORT then
    match shiftOneInt s.actors.length with
    | none => none
    | some mask =>
      let built := ChainActor.newObject (raw s.arena.actors.length 0) s.arena obj.visitablePos
        (hillFortArmy obj) mask 0
      some { s with arena := built.2, actors := s.actors ++ [built.1] }
  else some s

/-- Second loop of `setTownsAndDwellings`. -/
def setHillForts (raw : ActorPtr → Nat → ChainActor) (HILL_FORT : Nat)
    (hillFortArmy : CGObjectInstance → CCreatureSet) :
    AINodeStorage → List CGObjectInstance → Option AINodeStorage
  | s, [] => some s
  | s, obj :: rest =>
      match setHillFortsStep raw HILL_FORT hillFortArmy s obj with
      | none => none
      | some s1 => setHillForts raw HILL_FORT hillFortArmy s1 rest

/-- `AINodeStorage::setTownsAndDwellings`. -/
def setTownsAndDwellings (raw : ActorPtr → Nat → ChainActor)
    (getUpperArmy : CGTownInstance → CCreatureSet) (HILL_FORT : Nat)
    (hillFortArmy : CGObjectInstance → CCreatureSet)
    (s : AINodeStorage) (towns : List CGTownInstance)
    (visitableObjs : List CGObjectInstance) : Option AINodeStorage :=
  match setTowns raw getUpperArmy s towns with
  | none => none
  | some s1 => setHillForts raw HILL_FORT hillFortArmy s1 visitableObjs

/-- The number of actors `setHeroes` and `setTownsAndDwellings` create. -/
def primitiveActorCount (HILL_FORT : Nat) (heroes : List (CGHeroInstance × HeroRole))
    (towns : List CGTownInstance) (visitableObjs : List CGObjectInstance) : Nat :=
  heroes.length + (towns.filter (fun town => decide (town.garrisonHero = none))).length
    + (visitableObjs.filter (fun obj => decide (obj.ID = HILL_FORT))).length

/-- The chain masks of the actors of `actors`, in order. -/
def actorMasks (s : AINodeStorage) : List Nat :=
  s.actors.filterMap (fun p => (s.arena.actors[p]?).map ChainActor.chainMask)

/-- Every actor of `actors` is in the arena and the actor at index `i` has the
mask `2 ^ i`. -/
def MaskInv (s : AINodeStorage) : Prop :=
  ∀ i p, s.actors[i]? = some p →
    ∃ a, s.arena.actors[p]? = some a ∧ a.chainMask = 2 ^ i

/-- A storage without actors and without nodes. -/
def noActors : AINodeStorage :=
  { nodes := fun _ _ => []
    arena := emptyArena
    actors := []
    heroChain := []
    heroChainPass := EHeroChainPass.INITIAL
    heroChainTurn := 0
    heroChainMaxTurns := 1
    chainMask := 0
    scoutTurnDistanceLimit := 255 }

/-- Towns `0 .. n - 1` of player 0 without visiting and without garrison hero. -/
def emptyTowns (n : Nat) : List CGTownInstance :=
  (List.range n).map (fun i =>
    { id := i, tempOwner := 0, visitablePos := ⟨(i : Int), 0, 0⟩
      visitingHero := none, garrisonHero := none })

/-! ## Chain slots of a tile -/

/-- The chain slots of a tile are in order: a free slot is followed by free slots
only (the held slots form a prefix) and no actor holds two slots. -/
def ChainsOrdered : List AIPathNode → Prop
  | [] => True
  | node :: rest =>
      (node.actor = none → ∀ m ∈ rest, m.actor = none) ∧
      (∀ m ∈ rest, m.actor ≠ none → m.actor ≠ node.actor) ∧
      ChainsOrdered rest

/-- Decision procedure of `ChainsOrdered`. -/
def ChainsOrdered.dec : (chains : List AIPathNode) → Decidable (ChainsOrdered chains)
  | [] => isTrue trivial
  | _ :: rest =>
      @instDecidableAnd _ _ inferInstance
        (@instDecidableAnd _ _ inferInstance (ChainsOrdered.dec rest))

instance (chains : List AIPathNode) : Decidable (ChainsOrdered chains) :=
  ChainsOrdered.dec chains

/-- A settled node at tile (3, 3, 0) on land with the given actor, danger and
cost. -/
def settledNode (actor : ActorPtr) (danger : Nat) (cost : ℚ) : AIPathNode :=
  { meetingNode actor 1000 with danger := danger, cost := cost }

/-! ## Total army (`ArmyManager::update`, `getTotalCreaturesAvailable`) -/

/-- `totalArmy[creatureID].count += count` on the map `totalArmy`, kept as a list
of entries: `operator[]` inserts a value-initialised `SlotInfo` for a key that
has no entry. -/
def totalArmyAddCount : List (Nat × SlotInfo) → Nat → Nat → List (Nat × SlotInfo)
  | [], creatureID, count => [(creatureID, { SlotInfo.empty with count := count })]
  | (key, slotInfo) :: rest, creatureID, count =>
      if key = creatureID then (key, { slotInfo with count := slotInfo.count + count }) :: rest
      else (key, slotInfo) :: totalArmyAddCount rest creatureID count

/-- First loop of `ArmyManager::update`: the counts of every slot of every army
are added up per creature id. -/
def totalArmyCounts (total : List CCreatureSet) : List (Nat × SlotInfo) :=
  total.foldl
    (fun totalArmy army =>
      army.slots.foldl
        (fun m slot => totalArmyAddCount m slot.type.idNumber slot.count) totalArmy)
    []

/-- `ArmyManager::evaluateStackPower`. -/
def evaluateStackPower (creature : CCreature) (count : Nat) : Nat :=
  creature.AIValue * count

/-- The values the loop variable `army` of the second loop of `update` holds at
the end of each round.  The variable is declared `auto army`, a copy of the map
entry; `toCreature` is `CreatureID::toCreature`. -/
def updateLoopCopies (toCreature : Nat → Option CCreature)
    (totalArmy : List (Nat × SlotInfo)) : List (Nat × SlotInfo) :=
  totalArmy.map (fun army =>
    (army.1,
      { army.2 with
        creature := toCreature army.1
        power := match toCreature army.1 with
          | some creature => evaluateStackPower creature army.2.count
          | none => 0 }))

/-- `ArmyManager::update`: the member `totalArmy` after the call; `heroes` and
`towns` are `cb->getHeroesInfo()` and `cb->getTownsInfo()`.  The second loop
writes to copies of the entries, which are dropped at the end of each round. -/
def ArmyManager.update (toCreature : Nat → Option CCreature)
    (heroes towns : List CCreatureSet) : List (Nat × SlotInfo) :=
  let total := heroes ++ towns
  let totalArmy := totalArmyCounts total
  let _copies := updateLoopCopies toCreature totalArmy
  totalArmy

/-- `ArmyManager::getTotalCreaturesAvailable`. -/
def getTotalCreaturesAvailable (totalArmy : List (Nat × SlotInfo)) (creatureID : Nat) :
    SlotInfo :=
  match totalArmy.lookup creatureID with
  | none => SlotInfo.empty
  | some creatureInfo => creatureInfo

/-- Lookup of the creature types of the examples by id. -/
def creatureById (id : Nat) : Option CCreature :=
  [pikeman, archer, swordsman].find? (fun c => c.idNumber = id)

/-- A hero army of ten pikemen. -/
def tenPikemen : CCreatureSet :=
  { slots := [⟨pikeman, 10⟩], needsLastStack := true }

/-! ## Free chain slots -/

/-- The free slots of a tile are as `resetTile` leaves them: a slot without actor
has the action UNKNOWN and the turn `0xFF`. -/
def FreeSlotsReset (chains : List AIPathNode) : Prop :=
  ∀ node ∈ chains, node.actor = none →
    node.action = ENodeAction.UNKNOWN ∧ node.turns = 255

instance (chains : List AIPathNode) : Decidable (FreeSlotsReset chains) := by
  unfold FreeSlotsReset
  infer_instance

/-- The free slots of every tile and layer are as `resetTile` leaves them. -/
def StorageReset (nodes : AISharedStorage) : Prop :=
  ∀ (pos : int3) (layer : EPathfindingLayer), FreeSlotsReset (nodes pos layer)

/-! ## The rule `AIMovementAfterDestinationRule::process` -/

/-- Modelled from the spec: `PathfinderBlockingRule::BlockingReason`, declared by
the host pathfinder; the rule tells apart no blocker, a guarded destination and a
destination with a blocking visitable object. -/
inductive BlockingReason where
  | NONE
  | SOURCE_GUARDED
  | DESTINATION_GUARDED
  | SOURCE_BLOCKED
  | DESTINATION_BLOCKED
  | DESTINATION_BLOCKVIS
  | DESTINATION_VISIT
deriving DecidableEq, Repr

/-- Collaborators of `process` and `bypassRemovableObject` that are declared
outside the rule: those of `bypassDestinationGuards`; `isMovementIneficient` of
the node storage (declared in its header); `getBlockingReason` of the base rule;
the member `heroRole` of an actor; `destination.nodeHero` and
`destination.heroRelations`; the id of a map object and the ids `QUEST_GUARD`
and `BORDERGUARD`; `wasVisited(player)` and `checkQuest(hero)` of a quest object;
and `pathfinderHelper->hero`. -/
structure RuleEnv where
  guard : GuardEnv
  isMovementIneficient : AINodeStorage → PathNodeInfo → CDestinationNodeInfo → Bool
  getBlockingReason : PathNodeInfo → CDestinationNodeInfo → BlockingReason
  heroRole : ActorPtr → HeroRole
  nodeHero : CDestinationNodeInfo → Option CGHeroInstance
  heroRelations : CDestinationNodeInfo → PlayerRelations
  objectID : Nat → Nat
  QUEST_GUARD : Nat
  BORDERGUARD : Nat
  wasVisited : Nat → Nat → Bool
  checkQuest : Nat → CGHeroInstance → Bool
  hero : CGHeroInstance

/-- `AIMovementAfterDestinationRule::bypassRemovableObject` for the object
`nodeObject` of the destination: the returned flag and the node array after the
call.  `none` is a null dereference in `getHero(destination.node)`. -/
def bypassRemovableObject (env : RuleEnv) (arena : ActorArena) (nodes : AISharedStorage)
    (destination : CDestinationNodeInfo) (nodeObject : Nat) :
    Option (Bool × AISharedStorage) :=
  let enemyHero := (env.nodeHero destination).isSome
    && decide (env.heroRelations destination = PlayerRelations.ENEMIES)
  if !enemyHero && !env.guard.isObjectRemovable nodeObject then
    match nodes.node destination.node with
    | none => none
    | some aiNode =>
      match aiNode.actor.bind (fun p => arena.actors[p]?) with
      | none => none
      | some actor => some (decide (actor.hero = env.nodeHero destination), nodes)
  else if env.objectID nodeObject = env.QUEST_GUARD
      ∨ env.objectID nodeObject = env.BORDERGUARD then
    if !env.wasVisited nodeObject env.hero.tempOwner || !env.checkQuest nodeObject env.hero then
      some (true, nodes.modify destination.node
        (fun node => { node with specialAction := some SpecialAction.quest }))
    else some (true, nodes)
  else some (true, nodes)

/-- The `switch` of `process`: the flag `allowBypass`, the destination and the
node array after it. -/
def processBypass (env : RuleEnv) (s : AINodeStorage) (blocker : BlockingReason)
    (source : PathNodeInfo) (destination : CDestinationNodeInfo) :
    Option (Bool × CDestinationNodeInfo × AISharedStorage) :=
  let destGuardians := env.guard.getGuardingCreatures destination.coord
  match blocker with
  | BlockingReason.DESTINATION_GUARDED =>
    bypassDestinationGuards env.guard s.arena s.nodes destGuardians source destination
  | BlockingReason.DESTINATION_BLOCKVIS =>
    match destination.nodeObject with
    | none => some (false, destination, s.nodes)
    | some nodeObject =>
      match bypassRemovableObject env s.arena s.nodes destination nodeObject with
      | none => none
      | some (allowBypass, nodes1) =>
        if allowBypass && !destGuardians.isEmpty then
          bypassDestinationGuards env.guard s.arena nodes1 destGuardians source destination
        else some (allowBypass, destination, nodes1)
  | _ => some (true, destination, s.nodes)

/-- `AIMovementAfterDestinationRule::process`: the destination and the storage
after the call.  In `!allowBypass || isDistanceLimitReached(...)` the distance
limit is evaluated only when the bypass is allowed. -/
def process (env : RuleEnv) (s : AINodeStorage) (source : PathNodeInfo)
    (destination : CDestinationNodeInfo) : Option (CDestinationNodeInfo × AINodeStorage) :=
  if env.isMovementIneficient s source destination then
    some ({ destination with blocked := true },
      { s with
        nodes := s.nodes.modify destination.node (fun node => { node with locked := true }) })
  else
    let blocker := env.getBlockingReason source destination
    if blocker = BlockingReason.NONE then some (destination, s)
    else
      match processBypass env s blocker source destination with
      | none => none
      | some (allowBypass, destination1, nodes1) =>
        let limit :=
          if !allowBypass then some true
          else isDistanceLimitReached { s with nodes := nodes1 } env.heroRole destination1
        match limit with
        | none => none
        | some blocked =>
          some ({ destination1 with blocked := blocked },
            { s with
              nodes := nodes1.modify destination1.node
                (fun node => { node with locked := !allowBypass }) })

/-- Collaborators for the examples: those of `guardedEnv`, no step is
movement-inefficient, the blocking reason is `blocker`, the actors from address 8
on are scouts, and there are no quest objects. -/
def ruleEnv (blocker : BlockingReason) : RuleEnv :=
  { guard := guardedEnv
    isMovementIneficient := fun _ _ _ => false
    getBlockingReason := fun _ _ => blocker
    heroRole := mainThenScouts
    nodeHero := fun _ => none
    heroRelations := fun _ => PlayerRelations.ENEMIES
    objectID := fun _ => 0
    QUEST_GUARD := 1
    BORDERGUARD := 2
    wasVisited := fun _ _ => true
    checkQuest := fun _ _ => true
    hero := heroStrong }

/-- Source of a step onto tile (3, 3, 0), whose slot 1 `distantDestination 1`
points to. -/
def distantSource : PathNodeInfo :=
  { node := meetingSlot 0, coord := ⟨3, 3, 0⟩, nodeObject := none }

/-- Case (a) of the guard bypass: every guardian of the destination also guards
the source, the source has a guardian, and the actor of the source node may
fight. -/
def GuardsBypassed (env : GuardEnv) (destGuardians : List Nat) (source : PathNodeInfo)
    (srcActor : ChainActor) : Prop :=
  (∀ g ∈ destGuardians, g ∈ env.getGuardingCreatures source.coord) ∧
  env.getGuardingCreatures source.coord ≠ [] ∧ srcActor.allowBattle = true

/-- Case (b) of the guard bypass: a node for the battle actor of the destination
actor can be allocated on the destination tile, it is not locked, and the army
loss estimated for the army left to the source (`armyValue - armyLoss`, a
`uint64_t` difference) is below that army. -/
def BattleAffordable (env : GuardEnv) (nodes : AISharedStorage)
    (destination : CDestinationNodeInfo) (destNode : AIPathNode) (destActor : ChainActor)
    (srcNode : AIPathNode) (srcActor : ChainActor) : Prop :=
  ∃ battlePtr nodes1 battleNode,
    getOrCreateNode nodes destination.coord destNode.layer destActor.battleActor
      = some (battlePtr, nodes1) ∧
    nodes1.node battlePtr = some battleNode ∧ battleNode.locked = false ∧
    env.evaluateArmyLoss srcActor.hero (sub64 srcActor.armyValue srcNode.armyLoss)
        (env.evaluateDanger destination.coord srcActor.hero true)
      < sub64 srcActor.armyValue srcNode.armyLoss

/-- Storage state of the guarded step: the nodes of `guardedStorageWith` for an
exchange node with army loss 1000, and the arena with the merged actor 16. -/
def guardedState : AINodeStorage :=
  { chainState with
    nodes := guardedStorageWith (exchangeNodeWith 1000)
    arena := mergedArena }

/-! ## Town portal: the source node -/

/-- The node passes both tests of the loop of `getBestInitialNodeForTownPortal`:
it belongs to a variant of the actor, lies on land and has the movement points
needed; and below the advanced level the target town is the town nearest to
it. -/
def IsPortalSource (finder : TowmPortalFinder) (arena : ActorArena)
    (targetTown : CGTownInstance) (node : AIPathNode) : Prop :=
  isTownPortalSource finder arena node = some true ∧
  isTownInRange finder node targetTown = some true

/-- Storage state of the INITIAL pass with two initial nodes of `heroStrong`
(actor 0, 500 movement points): one on tile (3, 3, 0) with cost 0, next to
`nearTown`, and one on tile (29, 30, 0) with cost 5, next to `farTown`; the town
tiles hold free slots. -/
def twoSourceState : AINodeStorage :=
  { portalState with
    nodes := fun c l =>
      if l = EPathfindingLayer.LAND then
        if c = ⟨3, 3, 0⟩ then [meetingNode 0 500, freeNode]
        else if c = ⟨29, 30, 0⟩ then
          [{ meetingNode 0 500 with coord := ⟨29, 30, 0⟩, cost := 5 }]
        else if c = ⟨4, 3, 0⟩ then
          [{ freeNode with coord := ⟨4, 3, 0⟩ }, { freeNode with coord := ⟨4, 3, 0⟩ }]
        else if c = ⟨30, 30, 0⟩ then
          [{ freeNode with coord := ⟨30, 30, 0⟩ }, { freeNode with coord := ⟨30, 30, 0⟩ }]
        else []
      else [] }

/-- `AINodeStorage::hasBetterChain(source, destination)`: the destination node
is compared with the chain slots of the LAND layer of its tile.  `before i` is
the outcome of `&node < candidateNode` for the node in slot `i`; the parameter
`source` is read by trace output only. -/
def hasBetterChainStep (s : AINodeStorage) (heroFightingStrength : ActorPtr → ℚ)
    (before : Nat → Bool) (_source : PathNodeInfo) (destination : CDestinationNodeInfo) :
    Option Bool :=
  let pos := destination.coord
  let chains := s.nodes pos EPathfindingLayer.LAND
  match s.nodes.node destination.node with
  | none => none
  | some candidateNode =>
    hasBetterChain s.heroChainPass heroFightingStrength s.arena candidateNode
      (chains.enum.map (fun e => (before e.1, e.2)))

/-- Collaborators of `ruleEnv` in which a step is movement-inefficient exactly
when `hasBetterChain(source, destination)` returns true; the slots of a tile lie
in slot order. -/
def chainRuleEnv (blocker : BlockingReason) : RuleEnv :=
  { ruleEnv blocker with
    isMovementIneficient := fun s source destination =>
      hasBetterChainStep s (fun _ => 0) (fun i => decide (i < destination.node.chain))
        source destination == some true }

/-- Storage state in the FINAL pass with a scout limit of 0 in which the scout
actor 8 is alone: tile (2, 3, 0) holds its node reached without delay and tile
(3, 3, 0) only its node reached after 1 turn. -/
def loneScoutState : AINodeStorage :=
  { chainState with
    nodes := fun c l =>
      if c = ⟨3, 3, 0⟩ ∧ l = EPathfindingLayer.LAND then
        [{ meetingNode 8 500 with turns := 1 }]
      else if c = ⟨2, 3, 0⟩ ∧ l = EPathfindingLayer.LAND then
        [{ meetingNode 8 600 with coord := ⟨2, 3, 0⟩ }]
      else []
    heroChainPass := EHeroChainPass.FINAL
    heroChainTurn := 1
    scoutTurnDistanceLimit := 0 }

/-- Source of the step of the lone scout from tile (2, 3, 0). -/
def scoutSource : PathNodeInfo :=
  { node := ⟨⟨2, 3, 0⟩, EPathfindingLayer.LAND, 0⟩, coord := ⟨2, 3, 0⟩, nodeObject := none }

/-! ## Strategical value (`getStrategicalValue`, `getEnemyHeroStrategicalValue`) -/

/-- What the strategical value reads of the game: the id, the owner and (for a
hero) the level of a map object, the objects an enemy hero reaches within one
turn according to the danger hit map, the relations between players, the player
of the AI, and the constants `Obj::TOWN`, `Obj::HERO` and
`PlayerColor::NEUTRAL`.  Map objects are named by a number. -/
structure StrategyEnv where
  ID : Nat → Nat
  tempOwner : Nat → Nat
  level : Nat → Nat
  getOneTurnAccessibleObjects : Nat → List Nat
  getPlayerRelations : Nat → Nat → PlayerRelations
  playerID : Nat
  TOWN : Nat
  HERO : Nat
  NEUTRAL : Nat

/-- The target is a hero of a player hostile to the AI: the case in which
`getStrategicalValue` calls `getEnemyHeroStrategicalValue`. -/
def StrategyEnv.isEnemyHero (env : StrategyEnv) (target : Nat) : Bool :=
  decide (env.ID target ≠ env.TOWN) && decide (env.ID target = env.HERO)
    && decide (env.getPlayerRelations (env.tempOwner target) env.playerID
      = PlayerRelations.ENEMIES)

/-- `vstd::amax(objectValue, value)` when both values are there; `none` is a call
that did not return. -/
def amaxValue (objectValue value : Option ℚ) : Option ℚ :=
  match objectValue, value with
  | some a, some b => some (max a b)
  | _, _ => none

/-- Body of `getEnemyHeroStrategicalValue`, the recursive call to
`getStrategicalValue` given as `value`. -/
def getEnemyHeroStrategicalValueWith (env : StrategyEnv) (value : Option Nat → Option ℚ)
    (enemy : Nat) : Option ℚ :=
  match (env.getOneTurnAccessibleObjects enemy).foldl
      (fun objectValue obj => amaxValue objectValue (value (some obj))) (some 0) with
  | none => none
  | some objectValue => some (objectValue / 2 + (env.level enemy : ℚ) / 15)

/-- `getStrategicalValue(target)`; the `float` values are exact.  The first
argument bounds the depth of the calls: `none` is a call that needs a deeper
recursion. -/
def getStrategicalValue (env : StrategyEnv) : Nat → Option Nat → Option ℚ
  | 0, _ => none
  | fuel + 1, target =>
    match target with
    | none => some 0
    | some t =>
      if env.ID t = env.TOWN then
        some (if env.tempOwner t = env.NEUTRAL then 1 / 2 else 1)
      else if env.ID t = env.HERO then
        if env.getPlayerRelations (env.tempOwner t) env.playerID = PlayerRelations.ENEMIES then
          getEnemyHeroStrategicalValueWith env (getStrategicalValue env fuel) t
        else some 0
      else some 0

/-- `getEnemyHeroStrategicalValue(enemy)`. -/
def getEnemyHeroStrategicalValue (env : StrategyEnv) (fuel : Nat) (enemy : Nat) : Option ℚ :=
  getEnemyHeroStrategicalValueWith env (getStrategicalValue env fuel) enemy

/-- A hit map in which the enemy heroes 1 and 2 reach each other within one
turn. -/
def mutualThreatEnv : StrategyEnv :=
  { ID := fun _ => 34
    tempOwner := fun _ => 1
    level := fun _ => 1
    getOneTurnAccessibleObjects := fun t => if t = 1 then [2] else if t = 2 then [1] else []
    getPlayerRelations := fun a b =>
      if a = b then PlayerRelations.SAME_PLAYER else PlayerRelations.ENEMIES
    playerID := 0
    TOWN := 98
    HERO := 34
    NEUTRAL := 255 }

/-- A hit map in which the enemy hero 1 reaches the town 3 of the AI within one
turn, and nothing else is reached. -/
def townThreatEnv : StrategyEnv :=
  { ID := fun t => if t = 3 then 98 else 34
    tempOwner := fun t => if t = 3 then 0 else 1
    level := fun _ => 1
    getOneTurnAccessibleObjects := fun t => if t = 1 then [3] else []
    getPlayerRelations := fun a b =>
      if a = b then PlayerRelations.SAME_PLAYER else PlayerRelations.ENEMIES
    playerID := 0
    TOWN := 98
    HERO := 34
    NEUTRAL := 255 }

/-! ## Selection of the active actor (`selectFirstActor`, `selectNextActor`) -/

/-- Loop of `std::max_element` with the comparison `f(a) < f(b)`:
`vstd::maxElementByFun` returns the first element of the greatest value. -/
def maxElementByFunLoop {α : Type} (f : α → Nat) : List α → α → α
  | [], best => best
  | x :: xs, best =>
      if f best < f x then maxElementByFunLoop f xs x else maxElementByFunLoop f xs best

/-- The pointers of a vector of actors followed into the arena; `none` is a
dangling pointer. -/
def followActors (arena : ActorArena) : List ActorPtr → Option (List ChainActor)
  | [] => some []
  | p :: ps =>
      match arena.actors[p]?, followActors arena ps with
      | some actor, some rest => some (actor :: rest)
      | _, _ => none

/-- The vector `actors` with every pointer followed into the arena, each actor
with its position in the vector. -/
def resolveActors (s : AINodeStorage) : Option (List (Nat × ChainActor)) :=
  (followActors s.arena s.actors).map List.enum

/-- `AINodeStorage::selectFirstActor`: the returned flag and the state after the
call. -/
def selectFirstActor (s : AINodeStorage) : Option (Bool × AINodeStorage) :=
  if s.actors.length = 0 then some (false, s)
  else
    match resolveActors s with
    | none => none
    | some [] => none
    | some (first :: rest) =>
      let strongest := maxElementByFunLoop (fun actor => actor.2.armyValue) rest first
      some (true, { s with chainMask := strongest.2.chainMask })

/-- The loop of `selectNextActor`: `currentActor` and `nextActor` are iterators
into `actors`, given by position and pointee; iterators compare by position. -/
def selectNextLoop (currentActor : Nat × ChainActor) :
    List (Nat × ChainActor) → Option (Nat × ChainActor) → Option (Nat × ChainActor)
  | [], nextActor => nextActor
  | actor :: rest, nextActor =>
      if actor.2.armyValue > currentActor.2.armyValue
          ∨ (actor.2.armyValue = currentActor.2.armyValue ∧ actor.1 ≤ currentActor.1) then
        selectNextLoop currentActor rest nextActor
      else
        match nextActor with
        | none => selectNextLoop currentActor rest (some actor)
        | some next =>
          if actor.2.armyValue > next.2.armyValue then
            selectNextLoop currentActor rest (some actor)
          else selectNextLoop currentActor rest nextActor

/-- `AINodeStorage::selectNextActor`: the returned flag and the state after the
call.  `none` is the dereference of `currentActor` when `std::find_if` returned
`end()` and the loop has a first round. -/
def selectNextActor (s : AINodeStorage) : Option (Bool × AINodeStorage) :=
  match resolveActors s with
  | none => none
  | some actors =>
    match actors.find? (fun actor => decide (actor.2.chainMask = s.chainMask)) with
    | none => if actors.isEmpty then some (false, s) else none
    | some currentActor =>
      match selectNextLoop currentActor actors none with
      | some nextActor => some (true, { s with chainMask := nextActor.2.chainMask })
      | none => some (false, s)

/-- The values `chainMask` takes when `selectNextActor` is called until it
returns false, at most `fuel` times: one value per call that returns true;
`none` when more calls are needed. -/
def selectNextActors : Nat → AINodeStorage → Option (List Nat)
  | 0, _ => none
  | fuel + 1, s =>
      match selectNextActor s with
      | none => none
      | some (false, _) => some []
      | some (true, s1) => (selectNextActors fuel s1).map (fun l => s1.chainMask :: l)

/-- The values `chainMask` takes when `selectFirstActor` is called and then
`selectNextActor` until it returns false. -/
def selectActors (fuel : Nat) (s : AINodeStorage) : Option (List Nat) :=
  match selectFirstActor s with
  | none => none
  | some (false, _) => some []
  | some (true, s1) => (selectNextActors fuel s1).map (fun l => s1.chainMask :: l)

/-- Position `i` comes before position `j` in the order of selection: the actor
at `i` has the greater army value, or the same army value and the lower
position. -/
def ComesBefore (actors : List ChainActor) (i j : Nat) : Prop :=
  (actors[i]?.map ChainActor.armyValue).getD 0 > (actors[j]?.map ChainActor.armyValue).getD 0
  ∨ ((actors[i]?.map ChainActor.armyValue).getD 0
      = (actors[j]?.map ChainActor.armyValue).getD 0 ∧ i < j)

instance (actors : List ChainActor) (i j : Nat) : Decidable (ComesBefore actors i j) := by
  unfold ComesBefore
  infer_instance

/-- The chain mask of the actor at position `i`. -/
def maskAt (actors : List ChainActor) (i : Nat) : Nat :=
  (actors[i]?.map ChainActor.chainMask).getD 0

/-- The number of positions that come after position `cur` in the order of
selection. -/
def positionsAfter (actors : List ChainActor) (cur : Nat) : Nat :=
  ((List.range actors.length).filter (fun y => decide (ComesBefore actors cur y))).length

/-- The actors of `chainState`, in the order of its vector `actors`. -/
def chainActors : List ChainActor :=
  (followActors chainState.arena chainState.actors).getD []

/-! ## Permission flags of exchanged actors -/

/-- The object at `r` is a hero actor with its special actors: for `k ≤ 7` the
object at `r + k` is the variant `allActors[k]` of `setupSpecialActors`, whose
base actor is `r` and whose permission flags are the bits of `k`. -/
def IsHeroAt (arena : ActorArena) (r : ActorPtr) : Prop :=
  ∀ k : Nat, k ≤ SPECIAL_ACTORS_COUNT →
    ∃ a, arena.actors[r + k]? = some a ∧ a.baseActor = r
      ∧ a.allowBattle = k.testBit 0 ∧ a.allowSpellCast = k.testBit 1
      ∧ a.allowUseResources = k.testBit 2

/-- Invariant of the arenas built by the `HeroActor` constructors and by
`exchange`: an exchange map belongs to the hero actor that owns it, the owner
has its eight variants, and a memoised exchange result is a hero actor built
from the owner and the key of the entry. -/
structure VariantInv (arena : ActorArena) : Prop where
  owner : ∀ (p : Nat) (em : HeroExchangeMap), arena.exchangeMapOf p = some em → em.actor = p
  hero : ∀ (p : Nat) (em : HeroExchangeMap), arena.exchangeMapOf p = some em →
    IsHeroAt arena p
  memo : ∀ (p : Nat) (em : HeroExchangeMap) (o r : Nat),
    arena.exchangeMapOf p = some em → em.exchangeMap.lookup o = some r →
    (arena.exchangeMapOf r).isSome = true
      ∧ ∃ rb, arena.actors[r]? = some rb ∧ rb.carrierParent = some p
          ∧ rb.otherParent = some o

/-- The actor object at address `p` of an arena that holds one there. -/
def actorAt (arena : ActorArena) (p : ActorPtr) : ChainActor :=
  (arena.actors[p]?).getD rawActor

/-! ## Theorems -/

theorem creToPowerAdd_keys (m : List (CCreature × SlotInfo)) (st : CStackInstance) :
    mapKeys (creToPowerAdd m st) =
      if st.type ∈ mapKeys m then mapKeys m else mapKeys m ++ [st.type] := by
  induction m with
  | nil => simp [creToPowerAdd, mapKeys]
  | cons e rest ih =>
    obtain ⟨k, v⟩ := e
    unfold mapKeys at ih ⊢
    by_cases hk : k = st.type
    · simp [creToPowerAdd, hk]
    · have hk' : ¬ st.type = k := fun h => hk h.symm
      simp only [creToPowerAdd, hk, if_false, List.map_cons, List.mem_cons, hk', false_or, ih]
      split_ifs <;> simp

theorem creToPowerAdd_nodup (m : List (CCreature × SlotInfo)) (st : CStackInstance)
    (h : (mapKeys m).Nodup) : (mapKeys (creToPowerAdd m st)).Nodup := by
  rw [creToPowerAdd_keys]
  split_ifs with hmem
  · exact h
  · exact List.Nodup.append h (List.nodup_singleton _) (by simpa using hmem)

theorem creToPowerAdd_creature (m : List (CCreature × SlotInfo)) (st : CStackInstance)
    (h : ∀ e ∈ m, e.2.creature = some e.1) :
    ∀ e ∈ creToPowerAdd m st, e.2.creature = some e.1 := by
  induction m with
  | nil => simp [creToPowerAdd]
  | cons e rest ih =>
    obtain ⟨k, v⟩ := e
    by_cases hk : k = st.type
    · intro e he
      simp only [creToPowerAdd, hk, if_true, List.mem_cons] at he
      rcases he with rfl | he
      · rfl
      · exact h e (List.mem_cons_of_mem _ he)
    · intro e he
      simp only [creToPowerAdd, hk, if_false, List.mem_cons] at he
      rcases he with rfl | he
      · exact h _ (List.mem_cons_self _ _)
      · exact ih (fun e he => h e (List.mem_cons_of_mem _ he)) e he

theorem creToPowerAdd_power (p : CCreature → Bool) (m : List (CCreature × SlotInfo))
    (st : CStackInstance) :
    mapSum SlotInfo.power p (creToPowerAdd m st) =
      mapSum SlotInfo.power p m + (if p st.type then st.getPower else 0) := by
  induction m with
  | nil =>
    by_cases hp : p st.type <;> simp [creToPowerAdd, mapSum, hp, SlotInfo.empty, List.filter_cons]
  | cons e rest ih =>
    obtain ⟨k, v⟩ := e
    unfold mapSum at ih ⊢
    by_cases hk : k = st.type
    · subst hk
      by_cases hp : p st.type <;> simp [creToPowerAdd, hp, List.filter_cons] <;> omega
    · by_cases hp : p k <;> simp [creToPowerAdd, hk, hp, List.filter_cons, ih] <;> omega

theorem creToPowerAdd_count (p : CCreature → Bool) (m : List (CCreature × SlotInfo))
    (st : CStackInstance) :
    mapSum SlotInfo.count p (creToPowerAdd m st) =
      mapSum SlotInfo.count p m + (if p st.type then st.count else 0) := by
  induction m with
  | nil =>
    by_cases hp : p st.type <;> simp [creToPowerAdd, mapSum, hp, SlotInfo.empty, List.filter_cons]
  | cons e rest ih =>
    obtain ⟨k, v⟩ := e
    unfold mapSum at ih ⊢
    by_cases hk : k = st.type
    · subst hk
      by_cases hp : p st.type <;> simp [creToPowerAdd, hp, List.filter_cons] <;> omega
    · by_cases hp : p k <;> simp [creToPowerAdd, hk, hp, List.filter_cons, ih] <;> omega

theorem foldl_creToPowerAdd_nodup (xs : List CStackInstance) (m : List (CCreature × SlotInfo))
    (h : (mapKeys m).Nodup) : (mapKeys (xs.foldl creToPowerAdd m)).Nodup := by
  induction xs generalizing m with
  | nil => simpa using h
  | cons x xs ih => exact ih _ (creToPowerAdd_nodup m x h)

theorem foldl_creToPowerAdd_creature (xs : List CStackInstance) (m : List (CCreature × SlotInfo))
    (h : ∀ e ∈ m, e.2.creature = some e.1) :
    ∀ e ∈ xs.foldl creToPowerAdd m, e.2.creature = some e.1 := by
  induction xs generalizing m with
  | nil => simpa using h
  | cons x xs ih => exact ih _ (creToPowerAdd_creature m x h)

theorem foldl_creToPowerAdd_mem_keys (xs : List CStackInstance) (m : List (CCreature × SlotInfo))
    (c : CCreature) :
    c ∈ mapKeys (xs.foldl creToPowerAdd m) ↔ c ∈ mapKeys m ∨ c ∈ xs.map CStackInstance.type := by
  induction xs generalizing m with
  | nil => simp
  | cons x xs ih =>
    simp only [List.foldl_cons, ih, creToPowerAdd_keys, List.map_cons, List.mem_cons]
    split_ifs with hmem
    · constructor
      · rintro (h | h)
        · exact Or.inl h
        · exact Or.inr (Or.inr h)
      · rintro (h | h | h)
        · exact Or.inl h
        · exact Or.inl (h ▸ hmem)
        · exact Or.inr h
    · simp only [List.mem_append, List.mem_singleton]
      tauto

theorem foldl_creToPowerAdd_power (p : CCreature → Bool) (xs : List CStackInstance)
    (m : List (CCreature × SlotInfo)) :
    mapSum SlotInfo.power p (xs.foldl creToPowerAdd m) =
      mapSum SlotInfo.power p m +
        ((xs.filter (fun s => p s.type)).map CStackInstance.getPower).sum := by
  induction xs generalizing m with
  | nil => simp
  | cons x xs ih =>
    simp only [List.foldl_cons, ih, creToPowerAdd_power, List.filter_cons]
    split_ifs <;> simp <;> omega

theorem foldl_creToPowerAdd_count (p : CCreature → Bool) (xs : List CStackInstance)
    (m : List (CCreature × SlotInfo)) :
    mapSum SlotInfo.count p (xs.foldl creToPowerAdd m) =
      mapSum SlotInfo.count p m +
        ((xs.filter (fun s => p s.type)).map CStackInstance.count).sum := by
  induction xs generalizing m with
  | nil => simp
  | cons x xs ih =>
    simp only [List.foldl_cons, ih, creToPowerAdd_count, List.filter_cons]
    split_ifs <;> simp <;> omega

theorem creToPower_nodup (target source : CCreatureSet) :
    (mapKeys (creToPower target source)).Nodup :=
  foldl_creToPowerAdd_nodup _ _ (foldl_creToPowerAdd_nodup _ _ (by simp [mapKeys]))

theorem creToPower_creature (target source : CCreatureSet) :
    ∀ e ∈ creToPower target source, e.2.creature = some e.1 :=
  foldl_creToPowerAdd_creature _ _ (foldl_creToPowerAdd_creature _ _ (by simp))

theorem creToPower_mem_keys (target source : CCreatureSet) (c : CCreature) :
    c ∈ mapKeys (creToPower target source) ↔
      c ∈ (target.slots ++ source.slots).map CStackInstance.type := by
  unfold creToPower
  rw [foldl_creToPowerAdd_mem_keys, foldl_creToPowerAdd_mem_keys]
  simp [mapKeys]

theorem creToPower_power (p : CCreature → Bool) (target source : CCreatureSet) :
    mapSum SlotInfo.power p (creToPower target source) =
      (((target.slots ++ source.slots).filter (fun s => p s.type)).map
        CStackInstance.getPower).sum := by
  unfold creToPower
  rw [foldl_creToPowerAdd_power, foldl_creToPowerAdd_power]
  simp [mapSum]

theorem creToPower_count (p : CCreature → Bool) (target source : CCreatureSet) :
    mapSum SlotInfo.count p (creToPower target source) =
      (((target.slots ++ source.slots).filter (fun s => p s.type)).map
        CStackInstance.count).sum := by
  unfold creToPower
  rw [foldl_creToPowerAdd_count, foldl_creToPowerAdd_count]
  simp [mapSum]

theorem merged_creature_eq (target source : CCreatureSet) :
    ((creToPower target source).map Prod.snd).map SlotInfo.creature =
      (mapKeys (creToPower target source)).map some := by
  have h := creToPower_creature target source
  generalize creToPower target source = m at h
  induction m with
  | nil => simp [mapKeys]
  | cons e rest ih =>
    simp only [List.map_cons, mapKeys] at ih ⊢
    rw [h e (List.mem_cons_self _ _), ih (fun e he => h e (List.mem_cons_of_mem _ he))]

theorem merged_nodup (target source : CCreatureSet) :
    (((creToPower target source).map Prod.snd).map SlotInfo.creature).Nodup := by
  rw [merged_creature_eq]
  exact (creToPower_nodup target source).map (Option.some_injective _)

theorem getSortedSlots_perm {sort : List SlotInfo → List SlotInfo} (hsort : IsBoostSort sort)
    (target source : CCreatureSet) :
    (getSortedSlots sort target source).Perm ((creToPower target source).map Prod.snd) :=
  hsort.perm _

theorem getSortedSlots_nodup {sort : List SlotInfo → List SlotInfo} (hsort : IsBoostSort sort)
    (target source : CCreatureSet) :
    ((getSortedSlots sort target source).map SlotInfo.creature).Nodup :=
  ((getSortedSlots_perm hsort target source).map _).nodup_iff.mpr (merged_nodup target source)

theorem map_set_of_eq {α β : Type} (f : α → β) (l : List α) (i : Nat) (w x : α)
    (hw : l[i]? = some w) (hx : f x = f w) : (l.set i x).map f = l.map f := by
  induction l generalizing i with
  | nil => simp
  | cons a l ih =>
    cases i with
    | zero =>
      simp only [List.getElem?_cons_zero, Option.some.injEq] at hw
      subst hw
      simp [hx]
    | succ i =>
      simp only [List.getElem?_cons_succ] at hw
      simp [ih i hw]

theorem minElementLoop_lt (comp : SlotInfo → SlotInfo → Bool) (xs : List SlotInfo)
    (idx best : Nat) (bestVal : SlotInfo) (h : best < idx) :
    minElementLoop comp xs idx best bestVal < idx + xs.length := by
  induction xs generalizing idx best bestVal with
  | nil => simpa [minElementLoop] using h
  | cons x xs ih =>
    simp only [minElementLoop, List.length_cons]
    split_ifs
    · have := ih (idx + 1) idx x (by omega)
      omega
    · have := ih (idx + 1) best bestVal (by omega)
      omega

theorem getWeakestCreature_lt (army : List SlotInfo) (i : Nat)
    (h : getWeakestCreature army = some i) : i < army.length := by
  cases army with
  | nil => simp [getWeakestCreature] at h
  | cons x xs =>
    simp only [getWeakestCreature, Option.some.injEq] at h
    have := minElementLoop_lt weakerThan xs 1 0 x (by omega)
    simp only [List.length_cons]
    omega

/-- Shape of the result of `getBestArmy`: the sorted merge cut to seven slots,
the sorted merge itself, the sorted merge without slot `i`, or the sorted merge
with the power and count of slot `i` reduced. -/
theorem getBestArmy_cases (sort : List SlotInfo → List SlotInfo)
    (target source : CCreatureSet) (r : List SlotInfo)
    (h : getBestArmy sort target source = some r) :
    (ARMY_SIZE < (getSortedSlots sort target source).length ∧
        r = (getSortedSlots sort target source).take ARMY_SIZE) ∨
    ((getSortedSlots sort target source).length ≤ ARMY_SIZE ∧ source.needsLastStack = false ∧
        r = getSortedSlots sort target source) ∨
    ((getSortedSlots sort target source).length ≤ ARMY_SIZE ∧ source.needsLastStack = true ∧
      ∃ i w, getWeakestCreature (getSortedSlots sort target source) = some i ∧
        (getSortedSlots sort target source)[i]? = some w ∧
        ((w.count = 1 ∧ r = (getSortedSlots sort target source).eraseIdx i) ∨
         (2 ≤ w.count ∧ r = (getSortedSlots sort target source).set i
            { w with power := w.power - w.power / w.count, count := w.count - 1 }))) := by
  unfold getBestArmy at h
  simp only at h
  split_ifs at h with h1 h2
  · left
    exact ⟨h1, by simpa using h.symm⟩
  · right; right
    refine ⟨by omega, h2, ?_⟩
    cases hw : getWeakestCreature (getSortedSlots sort target source) with
    | none => simp [hw] at h
    | some i =>
      simp only [hw] at h
      cases hg : (getSortedSlots sort target source)[i]? with
      | none => simp [hg] at h
      | some w =>
        simp only [hg] at h
        refine ⟨i, w, rfl, hg, ?_⟩
        split_ifs at h with h3 h4
        · left
          exact ⟨h3, by simpa using h.symm⟩
        · right
          exact ⟨by omega, by simpa using h.symm⟩
  · right; left
    refine ⟨by omega, by simpa using h2, by simpa using h.symm⟩

theorem creToPowerAdd_count_pos (m : List (CCreature × SlotInfo)) (st : CStackInstance)
    (hst : 0 < st.count) (h : ∀ e ∈ m, 0 < e.2.count) :
    ∀ e ∈ creToPowerAdd m st, 0 < e.2.count := by
  induction m with
  | nil =>
    intro e he
    simp only [creToPowerAdd, List.mem_singleton] at he
    subst he
    simp only [SlotInfo.empty]
    omega
  | cons e rest ih =>
    obtain ⟨k, v⟩ := e
    intro e he
    by_cases hk : k = st.type
    · simp only [creToPowerAdd, hk, if_true, List.mem_cons] at he
      rcases he with rfl | he
      · simp only
        omega
      · exact h e (List.mem_cons_of_mem _ he)
    · simp only [creToPowerAdd, hk, if_false, List.mem_cons] at he
      rcases he with rfl | he
      · exact h _ (List.mem_cons_self _ _)
      · exact ih (fun e he => h e (List.mem_cons_of_mem _ he)) e he

theorem foldl_creToPowerAdd_count_pos (xs : List CStackInstance)
    (m : List (CCreature × SlotInfo)) (hxs : ∀ s ∈ xs, 0 < s.count)
    (h : ∀ e ∈ m, 0 < e.2.count) :
    ∀ e ∈ xs.foldl creToPowerAdd m, 0 < e.2.count := by
  induction xs generalizing m with
  | nil => simpa using h
  | cons x xs ih =>
    exact ih _ (fun s hs => hxs s (List.mem_cons_of_mem _ hs))
      (creToPowerAdd_count_pos m x (hxs x (List.mem_cons_self _ _)) h)

theorem getSortedSlots_count_pos {sort : List SlotInfo → List SlotInfo} (hsort : IsBoostSort sort)
    (target source : CCreatureSet) (ht : target.valid) (hs : source.valid) :
    ∀ e ∈ getSortedSlots sort target source, 0 < e.count := by
  intro e he
  have he' := (getSortedSlots_perm hsort target source).mem_iff.mp he
  obtain ⟨p, hp, rfl⟩ := List.mem_map.mp he'
  exact foldl_creToPowerAdd_count_pos _ _ hs
    (foldl_creToPowerAdd_count_pos _ _ ht (by simp)) p hp

theorem getSortedSlots_length {sort : List SlotInfo → List SlotInfo} (hsort : IsBoostSort sort)
    (target source : CCreatureSet) :
    (getSortedSlots sort target source).length = (creToPower target source).length := by
  rw [(getSortedSlots_perm hsort target source).length_eq, List.length_map]

theorem creToPower_ne_nil (target source : CCreatureSet)
    (h : target.slots ++ source.slots ≠ []) : creToPower target source ≠ [] := by
  obtain ⟨s, hs⟩ := List.exists_mem_of_ne_nil _ h
  have hk : s.type ∈ mapKeys (creToPower target source) :=
    (creToPower_mem_keys target source s.type).mpr (List.mem_map_of_mem _ hs)
  intro hnil
  simp [hnil, mapKeys] at hk

/-- The army merge is defined on creature sets without empty stacks, unless a
rear guard is asked of two empty sets. -/
theorem getBestArmy_isSome {sort : List SlotInfo → List SlotInfo} (hsort : IsBoostSort sort)
    (target source : CCreatureSet) (ht : target.valid) (hs : source.valid)
    (hne : source.needsLastStack = true → target.slots ++ source.slots ≠ []) :
    (getBestArmy sort target source).isSome = true := by
  unfold getBestArmy
  simp only
  split_ifs with h1 h2
  · rfl
  · have hlen := getSortedSlots_length hsort target source
    have hnil := creToPower_ne_nil target source (hne h2)
    cases hL : getSortedSlots sort target source with
    | nil =>
      rw [hL] at hlen
      exact absurd (List.length_eq_zero.mp hlen.symm) hnil
    | cons x xs =>
      have hi := getWeakestCreature_lt (x :: xs) _ rfl
      simp only [getWeakestCreature]
      rw [List.getElem?_eq_getElem hi]
      simp only
      have hpos := getSortedSlots_count_pos hsort target source ht hs
        ((x :: xs)[minElementLoop weakerThan xs 1 0 x]) (by rw [hL]; exact List.getElem_mem _)
      split_ifs with h3 h4
      · rfl
      · omega
      · rfl
  · rfl

theorem sortByPower_isBoostSort : IsBoostSort sortByPower where
  perm := fun l => List.perm_insertionSort _ l
  sorted := fun l => by
    have h := List.sorted_insertionSort (fun a b : SlotInfo => a.power ≥ b.power) l
    refine List.Pairwise.imp ?_ h
    intro a b hab
    simp only [powerGreater, decide_eq_false_iff_not, not_lt]
    exact hab

/-- C1. For every pair of creature sets, the list returned by `getBestArmy` has at
most 7 entries and no two entries have the same creature type; the call returns
a list whenever no slot of either set is empty and a rear guard is not asked of
two empty sets. -/
theorem getBestArmy_cap_unique (sort : List SlotInfo → List SlotInfo) (hsort : IsBoostSort sort)
    (target source : CCreatureSet) :
    (target.valid → source.valid →
      (source.needsLastStack = true → target.slots ++ source.slots ≠ []) →
      (getBestArmy sort target source).isSome = true) ∧
    ∀ r, getBestArmy sort target source = some r →
      r.length ≤ 7 ∧ (r.map SlotInfo.creature).Nodup := by
  refine ⟨getBestArmy_isSome hsort target source, ?_⟩
  intro r h
  have hnd := getSortedSlots_nodup hsort target source
  rcases getBestArmy_cases sort target source r h with
    ⟨_, rfl⟩ | ⟨hlen, _, rfl⟩ | ⟨hlen, _, i, w, _, hg, ⟨_, rfl⟩ | ⟨_, rfl⟩⟩
  · constructor
    · simp only [List.length_take, ARMY_SIZE]
      omega
    · exact hnd.sublist ((List.take_sublist _ _).map _)
  · exact ⟨hlen, hnd⟩
  · constructor
    · have := (List.eraseIdx_sublist (getSortedSlots sort target source) i).length_le
      simp only [ARMY_SIZE] at hlen
      omega
    · exact hnd.sublist ((List.eraseIdx_sublist _ _).map _)
  · constructor
    · simpa [ARMY_SIZE] using hlen
    · rw [map_set_of_eq SlotInfo.creature _ i w
        { creature := w.creature, count := w.count - 1, power := w.power - w.power / w.count }
        hg rfl]
      exact hnd

theorem mapSum_eq_filter (f : SlotInfo → Nat) (p : CCreature → Bool)
    (m : List (CCreature × SlotInfo)) (h : ∀ e ∈ m, e.2.creature = some e.1) :
    mapSum f p m = (((m.map Prod.snd).filter (slotSel p)).map f).sum := by
  induction m with
  | nil => simp [mapSum]
  | cons e rest ih =>
    have he := h e (List.mem_cons_self _ _)
    have ih' := ih (fun e he => h e (List.mem_cons_of_mem _ he))
    unfold mapSum at ih' ⊢
    simp only [List.map_cons, List.filter_cons, slotSel, he]
    split_ifs
    · simp only [List.map_cons, List.sum_cons, ih']
    · exact ih'

theorem getSortedSlots_sum {sort : List SlotInfo → List SlotInfo} (hsort : IsBoostSort sort)
    (f : SlotInfo → Nat) (p : CCreature → Bool) (target source : CCreatureSet) :
    (((getSortedSlots sort target source).filter (slotSel p)).map f).sum =
      mapSum f p (creToPower target source) := by
  rw [mapSum_eq_filter f p _ (creToPower_creature target source)]
  exact (((getSortedSlots_perm hsort target source).filter _).map f).sum_eq

theorem slotSel_true (l : List SlotInfo) (h : ∀ e ∈ l, e.creature ≠ none) :
    l.filter (slotSel (fun _ => true)) = l := by
  apply List.filter_eq_self.mpr
  intro e he
  have := h e he
  cases hc : e.creature with
  | none => exact absurd hc this
  | some c => simp [slotSel, hc]

theorem getSortedSlots_creature_ne_none {sort : List SlotInfo → List SlotInfo}
    (hsort : IsBoostSort sort) (target source : CCreatureSet) :
    ∀ e ∈ getSortedSlots sort target source, e.creature ≠ none := by
  intro e he
  have he' := (getSortedSlots_perm hsort target source).mem_iff.mp he
  obtain ⟨p, hp, rfl⟩ := List.mem_map.mp he'
  rw [creToPower_creature target source p hp]
  simp

theorem creToPower_length (target source : CCreatureSet) :
    (creToPower target source).length = (mergedTypes target source).length := by
  have hperm : (mapKeys (creToPower target source)).Perm (mergedTypes target source) := by
    unfold mergedTypes
    rw [List.perm_ext_iff_of_nodup (creToPower_nodup target source) (List.nodup_dedup _)]
    intro c
    rw [creToPower_mem_keys, List.mem_dedup]
  have := hperm.length_eq
  simpa [mapKeys] using this

theorem getSortedSlots_length_types {sort : List SlotInfo → List SlotInfo}
    (hsort : IsBoostSort sort) (target source : CCreatureSet) :
    (getSortedSlots sort target source).length = (mergedTypes target source).length := by
  rw [getSortedSlots_length hsort, creToPower_length]

theorem mapSum_key (f : SlotInfo → Nat) (m : List (CCreature × SlotInfo))
    (hnd : (mapKeys m).Nodup) (c : CCreature) (v : SlotInfo) (hmem : (c, v) ∈ m) :
    mapSum f (fun k => decide (k = c)) m = f v := by
  induction m with
  | nil => simp at hmem
  | cons e rest ih =>
    obtain ⟨k, w⟩ := e
    simp only [mapKeys, List.map_cons, List.nodup_cons] at hnd
    simp only [List.mem_cons, Prod.mk.injEq] at hmem
    unfold mapSum at ih ⊢
    rcases hmem with ⟨rfl, rfl⟩ | hmem
    · have hrest : rest.filter (fun e => decide (e.1 = c)) = [] := by
        apply List.filter_eq_nil_iff.mpr
        intro e he heq
        simp only [decide_eq_true_eq] at heq
        exact hnd.1 (heq ▸ List.mem_map_of_mem Prod.fst he)
      simp [List.filter_cons, hrest]
    · have hk : ¬ k = c := by
        intro heq
        exact hnd.1 (heq ▸ List.mem_map_of_mem Prod.fst hmem)
      simp only [List.filter_cons, hk, decide_False, Bool.false_eq_true, if_false]
      exact ih hnd.2 hmem

/-- C9. For every target and source whose source does not need a last stack and
whose merged army has at most 7 creature types, `getBestArmy` returns exactly
one entry per creature type occurring in target or source, whose count is the
sum of that creature's counts in both sets and whose power is the sum of the
corresponding stack powers. -/
theorem getBestArmy_union (sort : List SlotInfo → List SlotInfo) (hsort : IsBoostSort sort)
    (target source : CCreatureSet) (hneeds : source.needsLastStack = false)
    (htypes : (mergedTypes target source).length ≤ 7) :
    ∃ r, getBestArmy sort target source = some r ∧
      (r.map SlotInfo.creature).Nodup ∧
      (∀ e ∈ r, ∃ c ∈ mergedTypes target source, e.creature = some c) ∧
      (∀ c ∈ mergedTypes target source, ∃ e ∈ r, e.creature = some c ∧
        e.count = totalCount target source c ∧ e.power = totalPower target source c) := by
  have hlen := getSortedSlots_length_types hsort target source
  have hperm := getSortedSlots_perm hsort target source
  refine ⟨getSortedSlots sort target source, ?_, getSortedSlots_nodup hsort target source, ?_, ?_⟩
  · have : ¬ ARMY_SIZE < (getSortedSlots sort target source).length := by
      simp only [ARMY_SIZE]
      omega
    simp [getBestArmy, this, hneeds]
  · intro e he
    obtain ⟨p, hp, rfl⟩ := List.mem_map.mp (hperm.mem_iff.mp he)
    refine ⟨p.1, ?_, creToPower_creature target source p hp⟩
    rw [mergedTypes, List.mem_dedup, ← creToPower_mem_keys]
    exact List.mem_map_of_mem Prod.fst hp
  · intro c hc
    rw [mergedTypes, List.mem_dedup, ← creToPower_mem_keys] at hc
    obtain ⟨p, hp, rfl⟩ := List.mem_map.mp hc
    refine ⟨p.2, hperm.mem_iff.mpr (List.mem_map_of_mem Prod.snd hp),
      creToPower_creature target source p hp, ?_, ?_⟩
    · rw [← mapSum_key SlotInfo.count _ (creToPower_nodup target source) p.1 p.2 hp,
        creToPower_count]
      rfl
    · rw [← mapSum_key SlotInfo.power _ (creToPower_nodup target source) p.1 p.2 hp,
        creToPower_power]
      rfl

theorem getBestArmy_cap_unique_witness :
    IsBoostSort sortByPower ∧
    getBestArmy sortByPower s1Target s1Source =
      some [⟨some pikeman, 13, 130⟩, ⟨some swordsman, 2, 120⟩, ⟨some archer, 5, 80⟩] ∧
    [(⟨some pikeman, 13, 130⟩ : SlotInfo), ⟨some swordsman, 2, 120⟩,
      ⟨some archer, 5, 80⟩].length ≤ 7 ∧
    ([(⟨some pikeman, 13, 130⟩ : SlotInfo), ⟨some swordsman, 2, 120⟩,
      ⟨some archer, 5, 80⟩].map SlotInfo.creature).Nodup :=
  ⟨sortByPower_isBoostSort, by decide,
    (getBestArmy_cap_unique sortByPower sortByPower_isBoostSort s1Target s1Source).2 _
      (by decide)⟩

theorem getBestArmy_union_witness :
    ∃ r, getBestArmy sortByPower s1Target s1Garrison = some r ∧
      (r.map SlotInfo.creature).Nodup ∧
      (∀ e ∈ r, ∃ c ∈ mergedTypes s1Target s1Garrison, e.creature = some c) ∧
      (∀ c ∈ mergedTypes s1Target s1Garrison, ∃ e ∈ r, e.creature = some c ∧
        e.count = totalCount s1Target s1Garrison c ∧
        e.power = totalPower s1Target s1Garrison c) :=
  getBestArmy_union sortByPower sortByPower_isBoostSort s1Target s1Garrison rfl (by decide)

/-- C10 fails as stated: two pikemen (20) joined by a hero holding one archer
(16) lose one pikeman to the rear guard, and the returned list is
Pikeman×1 (10), Archer×1 (16), which is not ordered by power. -/
theorem getBestArmy_not_sorted :
    getBestArmy sortByPower ⟨[⟨pikeman, 2⟩], true⟩ ⟨[⟨archer, 1⟩], true⟩ =
      some [⟨some pikeman, 1, 10⟩, ⟨some archer, 1, 16⟩] ∧
    ¬ List.Pairwise (fun a b : SlotInfo => b.power ≤ a.power)
      [⟨some pikeman, 1, 10⟩, ⟨some archer, 1, 16⟩] := by
  decide

/-- C10 (amended). The list returned by `getBestArmy` is ordered by non-increasing
slot power whenever the source needs no last stack, or a stack was dropped (by
the cut to 7 slots or as a one-unit rear guard). -/
theorem getBestArmy_sorted (sort : List SlotInfo → List SlotInfo) (hsort : IsBoostSort sort)
    (target source : CCreatureSet) (r : List SlotInfo)
    (h : getBestArmy sort target source = some r)
    (hcase : source.needsLastStack = false ∨ r.length < (mergedTypes target source).length) :
    r.Pairwise (fun a b => b.power ≤ a.power) := by
  have hs : (getSortedSlots sort target source).Pairwise (fun a b => b.power ≤ a.power) := by
    refine List.Pairwise.imp ?_ (hsort.sorted _)
    intro a b hab
    simpa [powerGreater] using hab
  have hlen := getSortedSlots_length_types hsort target source
  rcases getBestArmy_cases sort target source r h with
    ⟨_, rfl⟩ | ⟨_, _, rfl⟩ | ⟨_, hn, i, w, _, _, ⟨_, rfl⟩ | ⟨_, rfl⟩⟩
  · exact hs.sublist (List.take_sublist _ _)
  · exact hs
  · exact hs.sublist (List.eraseIdx_sublist _ _)
  · rcases hcase with hc | hc
    · rw [hn] at hc
      exact absurd hc (by decide)
    · simp only [List.length_set] at hc
      omega

theorem getBestArmy_sorted_witness :
    getBestArmy sortByPower s1Target ⟨[⟨swordsman, 2⟩, ⟨pikeman, 1⟩], false⟩ =
      some [⟨some swordsman, 2, 120⟩, ⟨some pikeman, 11, 110⟩, ⟨some archer, 5, 80⟩] ∧
    List.Pairwise (fun a b : SlotInfo => b.power ≤ a.power)
      [⟨some swordsman, 2, 120⟩, ⟨some pikeman, 11, 110⟩, ⟨some archer, 5, 80⟩] :=
  ⟨by decide, getBestArmy_sorted sortByPower sortByPower_isBoostSort s1Target
    ⟨[⟨swordsman, 2⟩, ⟨pikeman, 1⟩], false⟩ _ (by decide) (Or.inl rfl)⟩

/-! ### Actor arena -/

theorem setupSpecialActors_eq (raw : Nat → ChainActor) (self : ActorPtr) (base : ChainActor) :
    setupSpecialActors raw self base =
      [setupPermissions self 0 base,
       setupPermissions self 1 ((raw 0).setBaseActor self base),
       setupPermissions self 2 ((raw 1).setBaseActor self base),
       setupPermissions self 3 ((raw 2).setBaseActor self base),
       setupPermissions self 4 ((raw 3).setBaseActor self base),
       setupPermissions self 5 ((raw 4).setBaseActor self base),
       setupPermissions self 6 ((raw 5).setBaseActor self base),
       setupPermissions self 7 ((raw 6).setBaseActor self base)] := rfl

theorem setupSpecialActors_getElem (raw : Nat → ChainActor) (self : ActorPtr)
    (base : ChainActor) (hbase : base.baseActor = self) (k : Nat)
    (hk : k ≤ SPECIAL_ACTORS_COUNT) :
    ∃ x, (setupSpecialActors raw self base)[k]? = some x ∧
      x.chainMask = base.chainMask ∧ x.baseActor = self ∧
      x.armyValue = base.armyValue ∧ x.creatureSet = base.creatureSet ∧
      x.isMovable = base.isMovable ∧ x.hero = base.hero := by
  rw [setupSpecialActors_eq]
  simp only [SPECIAL_ACTORS_COUNT] at hk
  interval_cases k <;>
    simp [setupPermissions, ChainActor.setBaseActor, hbase]

theorem setupSpecialActors_mem (raw : Nat → ChainActor) (self : ActorPtr)
    (base : ChainActor) (hbase : base.baseActor = self) (k : Nat) (x : ChainActor)
    (hx : (setupSpecialActors raw self base)[k]? = some x) :
    k ≤ SPECIAL_ACTORS_COUNT ∧ x.chainMask = base.chainMask ∧ x.baseActor = self := by
  have hlen : (setupSpecialActors raw self base).length = 8 := by
    rw [setupSpecialActors_eq]
    rfl
  have hk : k < 8 := by
    have := (List.getElem?_eq_some_iff.mp hx).1
    omega
  have hk' : k ≤ SPECIAL_ACTORS_COUNT := by
    simp only [SPECIAL_ACTORS_COUNT]
    omega
  obtain ⟨y, hy, h1, h2, _⟩ := setupSpecialActors_getElem raw self base hbase k hk'
  rw [hy] at hx
  cases hx
  exact ⟨hk', h1, h2⟩

theorem ArenaExt.refl (arena : ActorArena) : ArenaExt arena arena := by
  intro p a h
  exact h

theorem ArenaExt.trans {a b c : ActorArena} (h1 : ArenaExt a b) (h2 : ArenaExt b c) :
    ArenaExt a c := by
  intro p x h
  exact h2 p x (h1 p x h)

theorem exchangeMapOf_setExchangeMap (arena : ActorArena) (p q : ActorPtr)
    (em : HeroExchangeMap) :
    (arena.setExchangeMap p em).exchangeMapOf q =
      if q = p then some em else arena.exchangeMapOf q := by
  unfold ActorArena.exchangeMapOf ActorArena.setExchangeMap
  by_cases h : q = p
  · subst h
    simp [List.lookup_cons]
  · have : (q == p) = false := by simpa using h
    simp [List.lookup_cons, this, h]

theorem getElem?_append_of_some {α : Type} (l l1 : List α) (p : Nat) (a : α)
    (h : l[p]? = some a) : (l ++ l1)[p]? = some a := by
  have hp := (List.getElem?_eq_some_iff.mp h).1
  rw [List.getElem?_append_left hp]
  exact h

theorem getElem?_append_cases {α : Type} (l l1 : List α) (p : Nat) (a : α)
    (h : (l ++ l1)[p]? = some a) :
    l[p]? = some a ∨ ∃ k, p = l.length + k ∧ l1[k]? = some a := by
  by_cases hp : p < l.length
  · left
    rwa [List.getElem?_append_left hp] at h
  · right
    refine ⟨p - l.length, by omega, ?_⟩
    rwa [List.getElem?_append_right (by omega)] at h

theorem construct_ext (raw : Nat → ChainActor) (arena : ActorArena)
    (mkBase : ActorPtr → ChainActor) :
    ArenaExt arena (HeroActor.construct raw arena mkBase).2 := by
  intro p a h
  exact getElem?_append_of_some _ _ p a h

theorem construct_variant (raw : Nat → ChainActor) (arena : ActorArena)
    (mkBase : ActorPtr → ChainActor)
    (hbase : (mkBase arena.actors.length).baseActor = arena.actors.length)
    (k : Nat) (hk : k ≤ SPECIAL_ACTORS_COUNT) :
    ∃ x, (HeroActor.construct raw arena mkBase).2.actors[
        (HeroActor.construct raw arena mkBase).1 + k]? = some x ∧
      x.chainMask = (mkBase arena.actors.length).chainMask ∧
      x.baseActor = arena.actors.length := by
  obtain ⟨x, hx, h1, h2, _⟩ :=
    setupSpecialActors_getElem raw arena.actors.length _ hbase k hk
  refine ⟨x, ?_, h1, h2⟩
  simp only [HeroActor.construct]
  rw [List.getElem?_append_right (by omega)]
  simpa using hx

theorem construct_inv (raw : Nat → ChainActor) (arena : ActorArena)
    (mkBase : ActorPtr → ChainActor)
    (hbase : (mkBase arena.actors.length).baseActor = arena.actors.length)
    (hinv : ArenaInv arena) : ArenaInv (HeroActor.construct raw arena mkBase).2 := by
  have hext := construct_ext raw arena mkBase
  constructor
  · intro p a hp
    simp only [HeroActor.construct] at hp
    rcases getElem?_append_cases _ _ p a hp with h | ⟨k, rfl, hk⟩
    · obtain ⟨b, hb, hm⟩ := hinv.base p a h
      exact ⟨b, hext _ _ hb, hm⟩
    · obtain ⟨_, hmask, hb⟩ := setupSpecialActors_mem raw _ _ hbase k a hk
      obtain ⟨x, hx, hxm, _⟩ := construct_variant raw arena mkBase hbase 0 (Nat.zero_le _)
      refine ⟨x, ?_, ?_⟩
      · rw [hb]
        simpa [HeroActor.construct] using hx
      · rw [hxm, hmask]
  · intro p em hp
    simp only [HeroActor.construct, ActorArena.exchangeMapOf, List.lookup_cons] at hp
    by_cases h : p = arena.actors.length
    · subst h
      simp only [beq_self_eq_true, Option.some.injEq] at hp
      rw [← hp]
    · have : (p == arena.actors.length) = false := by simpa using h
      simp only [this] at hp
      exact hinv.owner p em hp
  · intro p em o r hp ho
    simp only [HeroActor.construct, ActorArena.exchangeMapOf, List.lookup_cons] at hp
    by_cases h : p = arena.actors.length
    · subst h
      simp only [beq_self_eq_true, Option.some.injEq] at hp
      rw [← hp] at ho
      simp at ho
    · have : (p == arena.actors.length) = false := by simpa using h
      simp only [this] at hp
      obtain ⟨pa, oa, h1, h2, h3⟩ := hinv.memo p em o r hp ho
      refine ⟨pa, oa, hext _ _ h1, hext _ _ h2, ?_⟩
      intro k hk
      obtain ⟨ra, hra, hm⟩ := h3 k hk
      exact ⟨ra, hext _ _ hra, hm⟩

theorem emptyArena_inv : ArenaInv emptyArena := by
  constructor
  · intro p a h
    simp [emptyArena] at h
  · intro p em h
    simp [emptyArena, ActorArena.exchangeMapOf] at h
  · intro p em o r h
    simp [emptyArena, ActorArena.exchangeMapOf] at h

theorem ofHero_inv (raw : Nat → ChainActor) (arena : ActorArena) (hero : CGHeroInstance)
    (chainMask : Nat) (hinv : ArenaInv arena) :
    ArenaInv (HeroActor.ofHero raw arena hero chainMask).2 :=
  construct_inv _ arena _ rfl hinv

theorem newObject_inv (raw : ChainActor) (arena : ActorArena) (visitablePos : int3)
    (creatureSet : CCreatureSet) (chainMask initialTurn : Nat) (hinv : ArenaInv arena) :
    ArenaInv (ChainActor.newObject raw arena visitablePos creatureSet chainMask initialTurn).2 := by
  have hext : ArenaExt arena
      (ChainActor.newObject raw arena visitablePos creatureSet chainMask initialTurn).2 := by
    intro p a h
    exact getElem?_append_of_some _ _ p a h
  constructor
  · intro p a hp
    simp only [ChainActor.newObject] at hp
    rcases getElem?_append_cases _ _ p a hp with h | ⟨k, rfl, hk⟩
    · obtain ⟨b, hb, hm⟩ := hinv.base p a h
      exact ⟨b, hext _ _ hb, hm⟩
    · cases k with
      | zero =>
        simp only [List.getElem?_cons_zero, Option.some.injEq] at hk
        subst hk
        refine ⟨_, ?_, rfl⟩
        simp [ChainActor.newObject, ChainActor.ofObject]
      | succ k => simp at hk
  · intro p em hp
    exact hinv.owner p em hp
  · intro p em o r hp ho
    obtain ⟨pa, oa, h1, h2, h3⟩ := hinv.memo p em o r hp ho
    refine ⟨pa, oa, hext _ _ h1, hext _ _ h2, ?_⟩
    intro k hk
    obtain ⟨ra, hra, hm⟩ := h3 k hk
    exact ⟨ra, hext _ _ hra, hm⟩

theorem setCache_inv (arena : ActorArena) (p : ActorPtr) (em : HeroExchangeMap)
    (cache : List (ActorPtr × Bool)) (hem : arena.exchangeMapOf p = some em)
    (hinv : ArenaInv arena) :
    ArenaInv (arena.setExchangeMap p { em with canExchangeCache := cache }) := by
  constructor
  · intro q a hq
    exact hinv.base q a hq
  · intro q em1 hq
    rw [exchangeMapOf_setExchangeMap] at hq
    split_ifs at hq with h
    · cases hq
      subst h
      exact hinv.owner _ em hem
    · exact hinv.owner q em1 hq
  · intro q em1 o r hq ho
    rw [exchangeMapOf_setExchangeMap] at hq
    split_ifs at hq with h
    · cases hq
      subst h
      exact hinv.memo _ em o r hem ho
    · exact hinv.memo q em1 o r hq ho

/-- `HeroExchangeMap::canExchange` changes no actor and keeps the invariant. -/
theorem exchangeMap_canExchange_inv (sort : List SlotInfo → List SlotInfo)
    (arena arena1 : ActorArena) (p other : ActorPtr) (res : Bool) (hinv : ArenaInv arena)
    (h : HeroExchangeMap.canExchange sort arena p other = some (res, arena1)) :
    ArenaInv arena1 ∧ arena1.actors = arena.actors := by
  unfold HeroExchangeMap.canExchange at h
  cases hem : arena.exchangeMapOf p with
  | none => simp [hem] at h
  | some em =>
    simp only [hem] at h
    cases hc : em.canExchangeCache.lookup other with
    | some cached =>
      simp only [hc, Option.some.injEq, Prod.mk.injEq] at h
      rw [← h.2]
      exact ⟨hinv, rfl⟩
    | none =>
      simp only [hc] at h
      cases ha : arena.actors[em.actor]? with
      | none => simp [ha] at h
      | some actor =>
        cases ho : arena.actors[other]? with
        | none => simp [ha, ho] at h
        | some o =>
          simp only [ha, ho] at h
          split_ifs at h with hm
          · cases hr : howManyReinforcementsCanGet sort actor.creatureSet o.creatureSet with
            | none => simp [hr] at h
            | some r =>
              simp only [hr, Option.some.injEq, Prod.mk.injEq] at h
              rw [← h.2]
              exact ⟨setCache_inv arena p em _ hem hinv, rfl⟩
          · simp only [Option.some.injEq, Prod.mk.injEq] at h
            rw [← h.2]
            exact ⟨setCache_inv arena p em _ hem hinv, rfl⟩

/-- `actor->canExchange(other)` changes no actor and keeps the invariant. -/
theorem actor_canExchange_inv (sort : List SlotInfo → List SlotInfo)
    (arena arena1 : ActorArena) (self other : ActorPtr) (res : Bool) (hinv : ArenaInv arena)
    (h : ChainActor.canExchange sort arena self other = some (res, arena1)) :
    ArenaInv arena1 ∧ arena1.actors = arena.actors := by
  unfold ChainActor.canExchange at h
  cases ha : arena.actors[self]? with
  | none => simp [ha] at h
  | some a =>
    simp only [ha] at h
    cases hm : arena.exchangeMapOf self with
    | some em =>
      simp only [hm] at h
      exact exchangeMap_canExchange_inv sort arena arena1 self other res hinv h
    | none =>
      simp only [hm] at h
      split_ifs at h with hmov
      · cases hb : arena.actors[a.baseActor]? with
        | none => simp [hb] at h
        | some b =>
          simp only [hb] at h
          cases hbm : arena.exchangeMapOf a.baseActor with
          | some em =>
            simp only [hbm] at h
            exact exchangeMap_canExchange_inv sort arena arena1 a.baseActor other res hinv h
          | none =>
            simp only [hbm] at h
            split_ifs at h
            simp only [Option.some.injEq, Prod.mk.injEq] at h
            rw [← h.2]
            exact ⟨hinv, rfl⟩
      · simp only [Option.some.injEq, Prod.mk.injEq] at h
        rw [← h.2]
        exact ⟨hinv, rfl⟩

theorem setMemo_inv (arena : ActorArena) (p o r : ActorPtr) (em : HeroExchangeMap)
    (hem : arena.exchangeMapOf p = some em) (hinv : ArenaInv arena)
    (hnew : ∃ pa oa, arena.actors[p]? = some pa ∧ arena.actors[o]? = some oa ∧
      ∀ k : Nat, k ≤ SPECIAL_ACTORS_COUNT →
        ∃ ra, arena.actors[r + k]? = some ra ∧ ra.chainMask = pa.chainMask ||| oa.chainMask) :
    ArenaInv (arena.setExchangeMap p { em with exchangeMap := (o, r) :: em.exchangeMap }) := by
  constructor
  · intro q a hq
    exact hinv.base q a hq
  · intro q em1 hq
    rw [exchangeMapOf_setExchangeMap] at hq
    split_ifs at hq with h
    · cases hq
      subst h
      exact hinv.owner _ em hem
    · exact hinv.owner q em1 hq
  · intro q em1 o1 r1 hq ho
    rw [exchangeMapOf_setExchangeMap] at hq
    split_ifs at hq with h
    · cases hq
      subst h
      simp only [List.lookup_cons] at ho
      by_cases ho1 : o1 = o
      · subst ho1
        simp only [beq_self_eq_true, Option.some.injEq] at ho
        subst ho
        exact hnew
      · have : (o1 == o) = false := by simpa using ho1
        simp only [this] at ho
        exact hinv.memo _ em o1 r1 hem ho
    · exact hinv.memo q em1 o1 r1 hq ho

/-- `HeroExchangeMap::exchange`: the result is a hero actor, old or new, whose
eight variants carry the union of the masks of the owner and of `other`; no
existing actor changes. -/
theorem exchangeMap_exchange_spec (sort : List SlotInfo → List SlotInfo)
    (raw : Nat → ChainActor) (arena arena1 : ActorArena) (p other r : ActorPtr)
    (hinv : ArenaInv arena)
    (h : HeroExchangeMap.exchange sort raw arena p other = some (r, arena1)) :
    ArenaInv arena1 ∧ ArenaExt arena arena1 ∧
    ∃ pa oa, arena.actors[p]? = some pa ∧ arena.actors[other]? = some oa ∧
      ∀ k : Nat, k ≤ SPECIAL_ACTORS_COUNT →
        ∃ ra, arena1.actors[r + k]? = some ra ∧
          ra.chainMask = pa.chainMask ||| oa.chainMask := by
  unfold HeroExchangeMap.exchange at h
  cases hem : arena.exchangeMapOf p with
  | none => simp [hem] at h
  | some em =>
    simp only [hem] at h
    have hown := hinv.owner p em hem
    cases hc : em.exchangeMap.lookup other with
    | some cached =>
      simp only [hc, Option.some.injEq, Prod.mk.injEq] at h
      obtain ⟨rfl, rfl⟩ := h
      exact ⟨hinv, ArenaExt.refl _, hinv.memo p em other _ hem hc⟩
    | none =>
      simp only [hc] at h
      cases ha : arena.actors[em.actor]? with
      | none => simp [ha] at h
      | some actor =>
        cases ho : arena.actors[other]? with
        | none => simp [ha, ho] at h
        | some o =>
          simp only [ha, ho] at h
          cases hp : pickBestCreatures sort actor.creatureSet o.creatureSet with
          | none => simp [hp] at h
          | some newArmy =>
            simp only [hp, Option.some.injEq, Prod.mk.injEq] at h
            obtain ⟨rfl, rfl⟩ := h
            rw [hown] at ha
            have hplt : p < arena.actors.length := (List.getElem?_eq_some_iff.mp ha).1
            have hext : ArenaExt arena
                (HeroActor.ofExchange raw arena em.actor actor other o newArmy).2 :=
              construct_ext _ arena _
            have hinv1 : ArenaInv
                (HeroActor.ofExchange raw arena em.actor actor other o newArmy).2 :=
              construct_inv _ arena _ rfl hinv
            have hvar : ∀ k : Nat, k ≤ SPECIAL_ACTORS_COUNT →
                ∃ ra, (HeroActor.ofExchange raw arena em.actor actor other o newArmy).2.actors[
                    (HeroActor.ofExchange raw arena em.actor actor other o newArmy).1 + k]?
                      = some ra ∧
                  ra.chainMask = actor.chainMask ||| o.chainMask := by
              intro k hk
              obtain ⟨x, hx, hm, _⟩ := construct_variant (fun k => raw (k + 1)) arena
                (fun self => ChainActor.ofExchange (raw 0) self em.actor actor other o newArmy)
                rfl k hk
              exact ⟨x, hx, hm⟩
            have hem1 : (HeroActor.ofExchange raw arena em.actor actor other o
                newArmy).2.exchangeMapOf p = some em := by
              simp only [HeroActor.ofExchange, HeroActor.construct, ActorArena.exchangeMapOf,
                List.lookup_cons]
              have : (p == arena.actors.length) = false := by
                simp only [beq_eq_false_iff_ne]
                exact Nat.ne_of_lt hplt
              simp only [this]
              exact hem
            refine ⟨?_, ?_, actor, o, ha, rfl, ?_⟩
            · exact setMemo_inv _ p other _ em hem1 hinv1
                ⟨actor, o, hext _ _ ha, hext _ _ ho, hvar⟩
            · intro q a hq
              exact hext q a hq
            · exact hvar

/-- `actor->exchange(other)`: the returned actor carries the union of the two
masks, every earlier actor is unchanged and the invariant is kept. -/
theorem actor_exchange_mask (sort : List SlotInfo → List SlotInfo)
    (raw : Nat → ChainActor) (arena arena1 : ActorArena) (self other rp : ActorPtr)
    (a o : ChainActor) (hinv : ArenaInv arena)
    (ha : arena.actors[self]? = some a) (ho : arena.actors[other]? = some o)
    (h : ChainActor.exchange sort raw arena self other = some (rp, arena1)) :
    ArenaInv arena1 ∧ ArenaExt arena arena1 ∧
    ∃ m, arena1.actors[rp]? = some m ∧ m.chainMask = a.chainMask ||| o.chainMask := by
  unfold ChainActor.exchange at h
  simp only [ha] at h
  cases hbm : arena.exchangeMapOf a.baseActor with
  | none => simp [hbm] at h
  | some em =>
    simp only [hbm] at h
    unfold HeroActor.exchange at h
    simp only [ho] at h
    cases hx : HeroExchangeMap.exchange sort raw arena a.baseActor o.baseActor with
    | none => simp [hx] at h
    | some res =>
      obtain ⟨result, arena2⟩ := res
      simp only [hx] at h
      obtain ⟨hinv2, hext, pa, oa, hpa, hoa, hvar⟩ :=
        exchangeMap_exchange_spec sort raw arena arena2 _ _ result hinv hx
      obtain ⟨b, hb, hbmask⟩ := hinv.base self a ha
      obtain ⟨ob, hob, hobmask⟩ := hinv.base other o ho
      rw [hpa] at hb
      rw [hoa] at hob
      cases hb
      cases hob
      split_ifs at h with h1 h2
      · simp only [Option.some.injEq, Prod.mk.injEq] at h
        obtain ⟨rfl, rfl⟩ := h
        obtain ⟨m, hm, hmask⟩ := hvar 0 (Nat.zero_le _)
        exact ⟨hinv2, hext, m, by simpa using hm, by rw [hmask, hbmask, hobmask]⟩
      · simp only [Option.some.injEq, Prod.mk.injEq] at h
        obtain ⟨rfl, rfl⟩ := h
        have key : ∀ s b : Nat, b < s → s ≤ b + 7 → 1 + (s - b - 1) ≤ 7 := by
          intro s b hs1 hs2
          omega
        have hk : 1 + (self - a.baseActor - 1) ≤ SPECIAL_ACTORS_COUNT :=
          key _ _ h2.1 h2.2
        obtain ⟨m, hm, hmask⟩ := hvar (1 + (self - a.baseActor - 1)) hk
        refine ⟨hinv2, hext, m, ?_, by rw [hmask, hbmask, hobmask]⟩
        rw [← hm, Nat.add_assoc]

/-! ### Chain pass -/

theorem calculateExchange_fields (raw : ExchangeCandidate) (exchangeActor : ActorPtr)
    (maxMovePoints : Nat) (carrierPtr : NodePtr) (carrier : AIPathNode)
    (otherPtr : NodePtr) (other : AIPathNode) :
    (calculateExchange raw exchangeActor maxMovePoints carrierPtr carrier otherPtr
        other).carrierParent = carrierPtr ∧
    (calculateExchange raw exchangeActor maxMovePoints carrierPtr carrier otherPtr
        other).otherParent = otherPtr ∧
    (calculateExchange raw exchangeActor maxMovePoints carrierPtr carrier otherPtr
        other).actor = some exchangeActor := by
  unfold calculateExchange
  simp only
  split_ifs <;> exact ⟨rfl, rfl, rfl⟩

theorem exchangeCandidate_eq (rawCandidate : ExchangeCandidate) (arena : ActorArena)
    (newActor : ActorPtr) (carrierPtr : NodePtr) (carrier : AIPathNode)
    (otherPtr : NodePtr) (other : AIPathNode) (c : ExchangeCandidate)
    (h : exchangeCandidate rawCandidate arena newActor carrierPtr carrier otherPtr other
      = some c) :
    ∃ mv, c = calculateExchange rawCandidate newActor mv carrierPtr carrier otherPtr other := by
  unfold exchangeCandidate at h
  cases ha : arena.actors[newActor]? with
  | none => simp [ha] at h
  | some obj =>
    simp only [ha] at h
    cases hh : obj.hero with
    | none =>
      simp only [hh] at h
      by_cases ht : carrier.turns < other.turns
      · simp [ht] at h
      · simp only [ht, if_false, Option.some.injEq] at h
        exact ⟨0, h.symm⟩
    | some hero =>
      simp only [hh, Option.some.injEq] at h
      exact ⟨_, h.symm⟩

theorem MaskProperty.mono {nodes : AISharedStorage} {arena arena1 : ActorArena}
    {c : ExchangeCandidate} (hext : ArenaExt arena arena1) (h : MaskProperty nodes arena c) :
    MaskProperty nodes arena1 c := by
  obtain ⟨carrier, other, pa, pb, pm, x, y, m, h1, h2, h3, h4, h5, h6, h7, h8, h9, h10⟩ := h
  exact ⟨carrier, other, pa, pb, pm, x, y, m, h1, h2, h3, h4, h5,
    hext _ _ h6, hext _ _ h7, hext _ _ h8, h9, h10⟩

/-- One call of `calculateHeroChain(carrier, other, result)` on two nodes whose
actors have disjoint masks appends nothing, or one candidate with the
chain-mask property. -/
theorem calculateHeroChainPair_spec (sort : List SlotInfo → List SlotInfo)
    (raw : Nat → ChainActor) (rawCandidate : ExchangeCandidate) (nodes : AISharedStorage)
    (arena arena1 : ActorArena) (carrierPtr otherPtr : NodePtr)
    (result result1 : List ExchangeCandidate) (hinv : ArenaInv arena)
    (hdisj : ∀ (carrier other : AIPathNode) (pa pb : Nat) (x y : ChainActor),
      nodes.node carrierPtr = some carrier → nodes.node otherPtr = some other →
      carrier.actor = some pa → other.actor = some pb →
      arena.actors[pa]? = some x → arena.actors[pb]? = some y →
      x.chainMask &&& y.chainMask = 0)
    (h : calculateHeroChainPair sort raw rawCandidate nodes arena carrierPtr otherPtr result
      = some (result1, arena1)) :
    ArenaInv arena1 ∧ ArenaExt arena arena1 ∧
    (result1 = result ∨ ∃ c, result1 = result ++ [c] ∧ MaskProperty nodes arena1 c) := by
  unfold calculateHeroChainPair at h
  cases hc : nodes.node carrierPtr with
  | none => simp [hc] at h
  | some carrier =>
  cases ho : nodes.node otherPtr with
  | none => simp [hc, ho] at h
  | some other =>
  simp only [hc, ho] at h
  cases hca : carrier.actor with
  | none => simp [hca] at h
  | some pa =>
  cases hoa : other.actor with
  | none => simp [hca, hoa] at h
  | some pb =>
  simp only [hca, hoa] at h
  cases hx : arena.actors[pa]? with
  | none => simp [hx] at h
  | some x =>
  cases hy : arena.actors[pb]? with
  | none => simp [hx, hy] at h
  | some y =>
  simp only [hx, hy] at h
  have hmask := hdisj carrier other pa pb x y hc ho hca hoa hx hy
  by_cases hcond : carrierMayExchange carrier other x y = true
  · simp only [hcond, if_true] at h
    cases hce : ChainActor.canExchange sort arena pa pb with
    | none => simp [hce] at h
    | some res =>
      obtain ⟨b, arena2⟩ := res
      obtain ⟨hinv2, hact⟩ := actor_canExchange_inv sort arena arena2 pa pb b hinv hce
      have hext2 : ArenaExt arena arena2 := by
        intro p a hp
        rw [hact]
        exact hp
      cases b with
      | false =>
        simp only [hce, Option.some.injEq, Prod.mk.injEq] at h
        obtain ⟨rfl, rfl⟩ := h
        exact ⟨hinv2, hext2, Or.inl rfl⟩
      | true =>
        simp only [hce] at h
        cases hin : exchangeIsInefficient carrier other x y with
        | none => simp [hin] at h
        | some ineff =>
          cases ineff with
          | true =>
            simp only [hin, Option.some.injEq, Prod.mk.injEq] at h
            obtain ⟨rfl, rfl⟩ := h
            exact ⟨hinv2, hext2, Or.inl rfl⟩
          | false =>
            simp only [hin] at h
            cases hex : ChainActor.exchange sort raw arena2 pa pb with
            | none => simp [hex] at h
            | some res2 =>
              obtain ⟨newActor, arena3⟩ := res2
              simp only [hex] at h
              obtain ⟨hinv3, hext3, m, hm, hmm⟩ :=
                actor_exchange_mask sort raw arena2 arena3 pa pb newActor x y hinv2
                  (hext2 _ _ hx) (hext2 _ _ hy) hex
              have hext : ArenaExt arena arena3 := hext2.trans hext3
              cases hcand : exchangeCandidate rawCandidate arena3 newActor carrierPtr carrier
                  otherPtr other with
              | none => simp [hcand] at h
              | some c =>
                simp only [hcand, Option.some.injEq, Prod.mk.injEq] at h
                obtain ⟨rfl, rfl⟩ := h
                obtain ⟨mv, rfl⟩ := exchangeCandidate_eq rawCandidate arena3 newActor
                  carrierPtr carrier otherPtr other c hcand
                obtain ⟨f1, f2, f3⟩ := calculateExchange_fields rawCandidate newActor mv
                  carrierPtr carrier otherPtr other
                refine ⟨hinv3, hext, Or.inr ⟨_, rfl, carrier, other, pa, pb, newActor, x, y, m,
                  ?_, ?_, hca, hoa, f3, hext _ _ hx, hext _ _ hy, hm, hmask, hmm⟩⟩
                · rw [f1]
                  exact hc
                · rw [f2]
                  exact ho
  · simp only [hcond, if_false, Option.some.injEq, Prod.mk.injEq] at h
    obtain ⟨rfl, rfl⟩ := h
    exact ⟨hinv, ArenaExt.refl _, Or.inl rfl⟩

theorem calculateHeroChainStep_spec (sort : List SlotInfo → List SlotInfo)
    (raw : Nat → ChainActor) (rawCandidate : ExchangeCandidate) (st : ChainPassState)
    (nodes : AISharedStorage) (srcPtr nodePtr : NodePtr)
    (acc acc1 : List ExchangeCandidate × ActorArena) (hinv : ArenaInv acc.2)
    (h : calculateHeroChainStep sort raw rawCandidate st nodes srcPtr acc nodePtr = some acc1) :
    ArenaInv acc1.2 ∧ ArenaExt acc.2 acc1.2 ∧
    (acc1.1 = acc.1 ∨ ∃ c, acc1.1 = acc.1 ++ [c] ∧ MaskProperty nodes acc1.2 c) := by
  have hsame : ∀ {x : List ExchangeCandidate × ActorArena}, some acc = some x →
      ArenaInv x.2 ∧ ArenaExt acc.2 x.2 ∧
      (x.1 = acc.1 ∨ ∃ c, x.1 = acc.1 ++ [c] ∧ MaskProperty nodes x.2 c) := by
    intro x hx
    cases hx
    exact ⟨hinv, ArenaExt.refl _, Or.inl rfl⟩
  unfold calculateHeroChainStep at h
  cases hs : nodes.node srcPtr with
  | none => simp [hs] at h
  | some srcNode =>
  cases hn : nodes.node nodePtr with
  | none => simp [hs, hn] at h
  | some node =>
  simp only [hs, hn] at h
  cases hna : node.actor with
  | none =>
    simp only [hna] at h
    exact hsame h
  | some nodeActorPtr =>
  simp only [hna] at h
  by_cases heq : nodePtr = srcPtr
  · rw [if_pos heq] at h
    exact hsame h
  · rw [if_neg heq] at h
    cases hsa : srcNode.actor with
    | none => simp [hsa] at h
    | some srcActorPtr =>
    simp only [hsa] at h
    cases hx : acc.2.actors[nodeActorPtr]? with
    | none => simp [hx] at h
    | some nodeActor =>
    cases hy : acc.2.actors[srcActorPtr]? with
    | none => simp [hx, hy] at h
    | some srcActor =>
    simp only [hx, hy] at h
    split_ifs at h with h1 h2 h3
    · exact hsame h
    · exact hsame h
    · exact hsame h
    · have hmask : srcActor.chainMask &&& nodeActor.chainMask = 0 := by
        have : nodeActor.chainMask &&& srcActor.chainMask = 0 := by
          by_contra hne
          exact h3 (Or.inr (Or.inr hne))
        rw [Nat.land_comm]
        exact this
      obtain ⟨r1, a1⟩ := acc1
      refine calculateHeroChainPair_spec sort raw rawCandidate nodes acc.2 a1 srcPtr nodePtr
        acc.1 r1 hinv ?_ h
      intro carrier other pa pb x y hc ho hca hoa hxa hya
      rw [hs] at hc
      rw [hn] at ho
      cases hc
      cases ho
      rw [hsa] at hca
      rw [hna] at hoa
      cases hca
      cases hoa
      rw [hy] at hxa
      rw [hx] at hya
      cases hxa
      cases hya
      exact hmask

theorem calculateHeroChain_spec (sort : List SlotInfo → List SlotInfo)
    (raw : Nat → ChainActor) (rawCandidate : ExchangeCandidate) (st : ChainPassState)
    (nodes : AISharedStorage) (srcPtr : NodePtr) (variants : List NodePtr) :
    ∀ (acc acc1 : List ExchangeCandidate × ActorArena), ArenaInv acc.2 →
      (∀ c ∈ acc.1, MaskProperty nodes acc.2 c) →
      calculateHeroChain sort raw rawCandidate st nodes srcPtr variants acc = some acc1 →
      ArenaInv acc1.2 ∧ ArenaExt acc.2 acc1.2 ∧ ∀ c ∈ acc1.1, MaskProperty nodes acc1.2 c := by
  induction variants with
  | nil =>
    intro acc acc1 hinv hall h
    simp only [calculateHeroChain, Option.some.injEq] at h
    subst h
    exact ⟨hinv, ArenaExt.refl _, hall⟩
  | cons nodePtr variants ih =>
    intro acc acc1 hinv hall h
    simp only [calculateHeroChain] at h
    cases hstep : calculateHeroChainStep sort raw rawCandidate st nodes srcPtr acc nodePtr with
    | none => simp [hstep] at h
    | some acc2 =>
      simp only [hstep] at h
      obtain ⟨hinv2, hext2, hres⟩ :=
        calculateHeroChainStep_spec sort raw rawCandidate st nodes srcPtr nodePtr acc acc2
          hinv hstep
      have hall2 : ∀ c ∈ acc2.1, MaskProperty nodes acc2.2 c := by
        intro c hc
        rcases hres with heq | ⟨c1, heq, hc1⟩
        · rw [heq] at hc
          exact (hall c hc).mono hext2
        · rw [heq, List.mem_append, List.mem_singleton] at hc
          rcases hc with hc | rfl
          · exact (hall c hc).mono hext2
          · exact hc1
      obtain ⟨hinv3, hext3, hall3⟩ := ih acc2 acc1 hinv2 hall2 h
      exact ⟨hinv3, hext2.trans hext3, hall3⟩

/-- C4. For every exchange candidate produced by the chain pass
(`calculateHeroChain(srcNode, variants, result)`) from a carrier node A and an
other node B, `A.actor.chainMask & B.actor.chainMask = 0` and the chain mask of
the merged actor equals `A.actor.chainMask | B.actor.chainMask`. -/
theorem calculateHeroChain_masks (sort : List SlotInfo → List SlotInfo)
    (raw : Nat → ChainActor) (rawCandidate : ExchangeCandidate) (st : ChainPassState)
    (nodes : AISharedStorage) (srcPtr : NodePtr) (variants : List NodePtr)
    (arena arena1 : ActorArena) (result : List ExchangeCandidate) (hinv : ArenaInv arena)
    (h : calculateHeroChain sort raw rawCandidate st nodes srcPtr variants ([], arena)
      = some (result, arena1)) :
    ∀ c ∈ result, MaskProperty nodes arena1 c :=
  (calculateHeroChain_spec sort raw rawCandidate st nodes srcPtr variants ([], arena)
    (result, arena1) hinv (by simp) h).2.2

theorem twoHeroArena_inv : ArenaInv twoHeroArena :=
  ofHero_inv _ _ _ _ (ofHero_inv _ _ _ _ emptyArena_inv)

theorem calculateHeroChain_masks_witness :
    ∃ result arena1,
      calculateHeroChain sortByPower (fun _ => rawActor) rawCandidate0 ⟨0, 1⟩ meetingStorage
        (meetingSlot 0) [meetingSlot 0, meetingSlot 1] ([], twoHeroArena)
          = some (result, arena1) ∧
      result.length = 1 ∧ ∀ c ∈ result, MaskProperty meetingStorage arena1 c := by
  have hlen : (calculateHeroChain sortByPower (fun _ => rawActor) rawCandidate0 ⟨0, 1⟩
      meetingStorage (meetingSlot 0) [meetingSlot 0, meetingSlot 1]
      ([], twoHeroArena)).map (fun r => r.1.length) = some 1 := by decide
  cases h : calculateHeroChain sortByPower (fun _ => rawActor) rawCandidate0 ⟨0, 1⟩
      meetingStorage (meetingSlot 0) [meetingSlot 0, meetingSlot 1] ([], twoHeroArena) with
  | none =>
    rw [h] at hlen
    simp at hlen
  | some r =>
    obtain ⟨result, arena1⟩ := r
    rw [h] at hlen
    exact ⟨result, arena1, rfl, by simpa using hlen,
      calculateHeroChain_masks sortByPower (fun _ => rawActor) rawCandidate0 ⟨0, 1⟩
        meetingStorage (meetingSlot 0) [meetingSlot 0, meetingSlot 1] twoHeroArena arena1
        result twoHeroArena_inv h⟩

/-- C3 fails as stated: for the hero with 400 swordsmen (army value 24000, one
tenth is 2400) and the hero with 100 archers, the first evaluation of
`canExchange` is true with a reinforcement of 1584, which is not greater than
`max(24000 / 10, 1000)`. -/
theorem canExchange_below_max :
    (twoHeroArena.actors[0]?).map (fun a => (a.isMovable, a.chainMask, a.armyValue))
      = some (true, 1, 24000) ∧
    (twoHeroArena.actors[8]?).map (fun a => a.chainMask) = some 2 ∧
    (twoHeroArena.exchangeMapOf 0).map (fun em => em.canExchangeCache) = some [] ∧
    howManyReinforcementsCanGet sortByPower heroStrong.army heroWeak.army = some 1584 ∧
    (ChainActor.canExchange sortByPower twoHeroArena 0 8).map Prod.fst = some true ∧
    ¬ ((1 &&& 2 = 0) ∧ 1584 > max (24000 / 10) 1000) := by
  decide

/-- C3 (amended). For every movable hero actor `a` and every actor `other`, the
first evaluation of `a.canExchange(other)` is true if and only if
`(a.chainMask & other.chainMask) = 0` and `howManyReinforcementsCanGet(a.army,
other.army)` is greater than `a.armyValue / 10` or greater than 1000. -/
theorem canExchange_first_evaluation (sort : List SlotInfo → List SlotInfo)
    (arena : ActorArena) (self other : ActorPtr) (a o : ChainActor) (em : HeroExchangeMap)
    (hv : IsHeroVariant arena self a em) (ho : arena.actors[other]? = some o)
    (hfirst : em.canExchangeCache.lookup other = none)
    (hdef : a.chainMask &&& o.chainMask = 0 →
      (howManyReinforcementsCanGet sort a.creatureSet o.creatureSet).isSome = true) :
    ∃ res arena1, ChainActor.canExchange sort arena self other = some (res, arena1) ∧
      (res = true ↔
        (a.chainMask &&& o.chainMask = 0 ∧
          ∃ r, howManyReinforcementsCanGet sort a.creatureSet o.creatureSet = some r ∧
            (r > a.armyValue / 10 ∨ r > 1000))) := by
  obtain ⟨b, hb, hbm, hbv, hbc⟩ := hv.baseSame
  have hbase : ∃ res arena1,
      HeroExchangeMap.canExchange sort arena a.baseActor other = some (res, arena1) ∧
      (res = true ↔
        (a.chainMask &&& o.chainMask = 0 ∧
          ∃ r, howManyReinforcementsCanGet sort a.creatureSet o.creatureSet = some r ∧
            (r > a.armyValue / 10 ∨ r > 1000))) := by
    unfold HeroExchangeMap.canExchange
    simp only [hv.baseMap, hfirst, hv.baseOwner, hb, ho, hbm, hbv, hbc]
    by_cases hm : a.chainMask &&& o.chainMask = 0
    · simp only [hm, if_true]
      obtain ⟨r, hr⟩ := Option.isSome_iff_exists.mp (hdef hm)
      simp only [hr]
      refine ⟨_, _, rfl, ?_⟩
      simp only [Bool.or_eq_true, decide_eq_true_eq, true_and, Option.some.injEq,
        exists_eq_left']
    · simp only [hm, if_false]
      refine ⟨_, _, rfl, ?_⟩
      simp [hm]
  unfold ChainActor.canExchange
  simp only [hv.actor]
  cases hown : arena.exchangeMapOf self with
  | some em1 =>
    have hself := hv.own (by simp [hown])
    simp only [HeroActor.canExchange]
    rw [hself] at hbase
    exact hbase
  | none =>
    simp only [hv.movable, if_true, hb, hv.baseMap, HeroActor.canExchange]
    exact hbase

theorem twoHeroArena_variant :
    IsHeroVariant twoHeroArena 1 strongBattleActor
      { actor := 0, canExchangeCache := [], exchangeMap := [] } where
  actor := by decide
  movable := rfl
  baseMap := by decide
  baseOwner := rfl
  baseSame := ⟨strongBaseActor, by decide, by decide⟩
  own := by decide

theorem canExchange_first_evaluation_witness :
    ∃ res arena1, ChainActor.canExchange sortByPower twoHeroArena 1 8 = some (res, arena1) ∧
      (res = true ↔
        (strongBattleActor.chainMask &&& weakBaseActor.chainMask = 0 ∧
          ∃ r, howManyReinforcementsCanGet sortByPower strongBattleActor.creatureSet
              weakBaseActor.creatureSet = some r ∧
            (r > strongBattleActor.armyValue / 10 ∨ r > 1000))) :=
  canExchange_first_evaluation sortByPower twoHeroArena 1 8 strongBattleActor weakBaseActor
    _ twoHeroArena_variant (by decide) (by decide) (by decide)

/-! ### Resource reservation -/

theorem lockResources_fold (locks : List TResources) (ai : NullkillerState)
    (i : Fin RESOURCE_QUANTITY) :
    (locks.foldl lockResources ai).lockedResources i =
      ai.lockedResources i + (locks.map (fun res => res i)).sum := by
  induction locks generalizing ai with
  | nil => simp
  | cons res locks ih =>
    simp only [List.foldl_cons, ih, List.map_cons, List.sum_cons, lockResources,
      TResources.add]
    ring

/-- C6. For every current resource vector and every sequence of `lockResources`
calls since the last `resetAiState`, each component of `getFreeResources()`
equals `max(0, current − sum of all locked amounts)` for that component, and is
therefore non-negative. -/
theorem getFreeResources_clamped (ai : NullkillerState) (locks : List TResources)
    (current : TResources) (i : Fin RESOURCE_QUANTITY) :
    getFreeResources (locks.foldl lockResources (resetAiState ai)) current i =
        max 0 (current i - (locks.map (fun res => res i)).sum) ∧
      0 ≤ getFreeResources (locks.foldl lockResources (resetAiState ai)) current i := by
  have h : getFreeResources (locks.foldl lockResources (resetAiState ai)) current i =
      max 0 (current i - (locks.map (fun res => res i)).sum) := by
    simp only [getFreeResources, TResources.positive, TResources.sub, lockResources_fold,
      resetAiState, TResources.zero, zero_add]
    exact max_comm _ _
  exact ⟨h, by rw [h]; exact le_max_left _ _⟩

/-! ### Turn loop -/

/-- One pass calls `updateAiState` once and the executor at most once, and only
on the best task of the pass when its priority is not below `MIN_PRIORITY`. -/
theorem runPass_events (k : TurnConstants) (w : PassWorld) (i : Nat) (ai : NullkillerState) :
    (runPass k w i ai).events = [TurnEvent.updateAiState i] ∨
      ∃ bestTask, (runPass k w i ai).events =
          [TurnEvent.updateAiState i, TurnEvent.accept i bestTask] ∧
        choseBestTask (bestTasks w) = some bestTask ∧
        ¬ bestTask.priority < k.MIN_PRIORITY := by
  unfold runPass
  by_cases h1 : w.interruptedInUpdate = true
  · simp [h1, PassResult.events]
  · simp only [h1, if_false, Bool.false_eq_true]
    cases hb : choseBestTask (bestTasks w) with
    | none => simp [PassResult.events]
    | some bestTask =>
      simp only
      by_cases h2 : widensScan k ai.scanDepth bestTask = true
      · simp [h2, PassResult.events]
      · simp only [h2, if_false, Bool.false_eq_true]
        by_cases h3 : bestTask.priority < k.MIN_PRIORITY
        · simp [h3, PassResult.events]
        · simp only [h3, if_false]
          by_cases h4 : w.interruptedBeforeAccept = true
          · simp [h4, PassResult.events]
          · simp only [h4, if_false, Bool.false_eq_true]
            right
            refine ⟨bestTask, ?_, rfl, h3⟩
            cases w.acceptOutcome <;> rfl

theorem makeTurnLoop_unfold (k : TurnConstants) (world : Nat → PassWorld) (remaining i : Nat)
    (ai : NullkillerState) :
    (makeTurnLoop k world (remaining + 1) i ai).1 = (runPass k (world i) i ai).events ∨
    ∃ ai1, (makeTurnLoop k world (remaining + 1) i ai).1 =
      (runPass k (world i) i ai).events ++ (makeTurnLoop k world remaining (i + 1) ai1).1 := by
  simp only [makeTurnLoop]
  cases runPass k (world i) i ai with
  | stop events ending => exact Or.inl rfl
  | next events ai1 => exact Or.inr ⟨ai1, rfl⟩

theorem makeTurnLoop_calls (k : TurnConstants) (world : Nat → PassWorld) (remaining : Nat) :
    ∀ (i : Nat) (ai : NullkillerState),
      (updateCalls (makeTurnLoop k world remaining i ai).1).length ≤ remaining ∧
      (acceptCalls (makeTurnLoop k world remaining i ai).1).length ≤ remaining := by
  induction remaining with
  | zero =>
    intro i ai
    simp [makeTurnLoop, updateCalls, acceptCalls]
  | succ n ih =>
    intro i ai
    have hpass : (updateCalls (runPass k (world i) i ai).events).length ≤ 1 ∧
        (acceptCalls (runPass k (world i) i ai).events).length ≤ 1 := by
      rcases runPass_events k (world i) i ai with h | ⟨t, h, _⟩ <;>
        simp [h, updateCalls, acceptCalls]
    rcases makeTurnLoop_unfold k world n i ai with h | ⟨ai1, h⟩
    · rw [h]
      exact ⟨by omega, by omega⟩
    · have := ih (i + 1) ai1
      rw [h]
      simp only [updateCalls, acceptCalls, List.filter_append, List.length_append] at this hpass ⊢
      exact ⟨by omega, by omega⟩

theorem makeTurnLoop_accepted (k : TurnConstants) (world : Nat → PassWorld) (remaining : Nat) :
    ∀ (i : Nat) (ai : NullkillerState) (pass : Nat) (task : TTask),
      TurnEvent.accept pass task ∈ (makeTurnLoop k world remaining i ai).1 →
      ¬ task.priority < k.MIN_PRIORITY ∧ choseBestTask (bestTasks (world pass)) = some task := by
  induction remaining with
  | zero =>
    intro i ai pass task h
    simp [makeTurnLoop] at h
  | succ n ih =>
    intro i ai pass task h
    have hpass : TurnEvent.accept pass task ∈ (runPass k (world i) i ai).events →
        ¬ task.priority < k.MIN_PRIORITY ∧
          choseBestTask (bestTasks (world pass)) = some task := by
      intro hm
      rcases runPass_events k (world i) i ai with he | ⟨t, he, hbest, hprio⟩
      · rw [he] at hm
        simp at hm
      · rw [he] at hm
        simp only [List.mem_cons, List.mem_singleton, TurnEvent.accept.injEq, false_or,
          List.not_mem_nil, or_false] at hm
        rcases hm with hm | hm
        · cases hm
        · obtain ⟨rfl, rfl⟩ := hm
          exact ⟨hprio, hbest⟩
    rcases makeTurnLoop_unfold k world n i ai with hu | ⟨ai1, hu⟩
    · rw [hu] at h
      exact hpass h
    · rw [hu, List.mem_append] at h
      rcases h with h | h
      · exact hpass h
      · exact ih (i + 1) ai1 pass task h

theorem choseBestTask_mem (tasks : List TTask) (best : TTask)
    (h : choseBestTask tasks = some best) : best ∈ tasks := by
  induction tasks generalizing best with
  | nil => simp [choseBestTask] at h
  | cons t rest ih =>
    simp only [choseBestTask] at h
    cases hr : choseBestTask rest with
    | none =>
      simp only [hr, Option.some.injEq] at h
      simp [h]
    | some b =>
      simp only [hr] at h
      split_ifs at h
      · simp only [Option.some.injEq] at h
        subst h
        exact List.mem_cons_of_mem _ (ih b hr)
      · simp only [Option.some.injEq] at h
        simp [h]

theorem choseBestTask_cons (t : TTask) (rest : List TTask) :
    ∃ best, choseBestTask (t :: rest) = some best := by
  simp only [choseBestTask]
  cases choseBestTask rest with
  | none => exact ⟨t, rfl⟩
  | some b =>
    simp only
    split_ifs
    · exact ⟨_, rfl⟩
    · exact ⟨_, rfl⟩

theorem choseBestTask_bestTasks (w : PassWorld) :
    ∃ best, choseBestTask (bestTasks w) = some best := by
  obtain ⟨_, ⟨t1, t2, t3, t4, t5, t6, t7⟩, _, _, _, _⟩ := w
  exact choseBestTask_cons _ _

/-- A pass in which the scan depth is not widened and the best priority is below
`MIN_PRIORITY` ends the turn without calling the executor. -/
theorem makeTurnLoop_lowPriority (k : TurnConstants) (world : Nat → PassWorld)
    (remaining i : Nat) (ai : NullkillerState) (bestTask : TTask)
    (hint : (world i).interruptedInUpdate = false)
    (hbest : choseBestTask (bestTasks (world i)) = some bestTask)
    (hwide : widensScan k ai.scanDepth bestTask = false)
    (hlow : bestTask.priority < k.MIN_PRIORITY) :
    makeTurnLoop k world (remaining + 1) i ai =
      ([TurnEvent.updateAiState i], TurnEnd.lowPriority i, ai) := by
  simp [makeTurnLoop, runPass, hint, hbest, hwide, hlow]

/-- C7. In a production build (`AI_TRACE_LEVEL = 0`, so `MAXPASS = 30`), for every
world state and every outcome of behaviours and executor, `makeTurn` runs at
most 30 passes: at most 30 calls of `updateAiState` and at most 30 executor
invocations; and a pass that does not widen the scan depth and whose best
priority is below `MIN_PRIORITY` returns at once. -/
theorem makeTurn_pass_limit (k : TurnConstants) (hprod : k.AI_TRACE_LEVEL = 0)
    (world : Nat → PassWorld) (ai : NullkillerState) :
    MAXPASS k = 30 ∧
    (updateCalls (makeTurn k world ai).1).length ≤ 30 ∧
    (acceptCalls (makeTurn k world ai).1).length ≤ 30 ∧
    ∀ (remaining i : Nat) (st : NullkillerState) (bestTask : TTask),
      (world i).interruptedInUpdate = false →
      choseBestTask (bestTasks (world i)) = some bestTask →
      widensScan k st.scanDepth bestTask = false →
      bestTask.priority < k.MIN_PRIORITY →
      makeTurnLoop k world (remaining + 1) i st =
        ([TurnEvent.updateAiState i], TurnEnd.lowPriority i, st) := by
  have hmax : MAXPASS k = 30 := by simp [MAXPASS, hprod]
  have hcalls := makeTurnLoop_calls k world (MAXPASS k) 1 (resetAiState ai)
  rw [hmax] at hcalls
  refine ⟨hmax, ?_, ?_, ?_⟩
  · simpa [makeTurn, hmax] using hcalls.1
  · simpa [makeTurn, hmax] using hcalls.2
  · intro remaining i st bestTask hint hbest hwide hlow
    exact makeTurnLoop_lowPriority k world remaining i st bestTask hint hbest hwide hlow

theorem idleWorld_best (i : Nat) : choseBestTask (bestTasks (idleWorld i)) = some idleTask := by
  simp [bestTasks, idleWorld, choseBestTask]

theorem makeTurn_pass_limit_witness :
    MAXPASS productionConstants = 30 ∧
    (updateCalls (makeTurn productionConstants idleWorld fullScanState).1).length ≤ 30 ∧
    (acceptCalls (makeTurn productionConstants idleWorld fullScanState).1).length ≤ 30 ∧
    makeTurnLoop productionConstants idleWorld 28 3 fullScanState =
      ([TurnEvent.updateAiState 3], TurnEnd.lowPriority 3, fullScanState) :=
  have h := makeTurn_pass_limit productionConstants rfl idleWorld fullScanState
  ⟨h.1, h.2.1, h.2.2.1,
    h.2.2.2 27 3 fullScanState idleTask rfl (idleWorld_best 3)
      (by simp [widensScan, fullScanState])
      (by norm_num [idleTask, productionConstants])⟩

/-- C8. In `makeTurn` the executor (`bestTask->accept`) is never invoked for a task
whose priority is below `MIN_PRIORITY`; in particular, a pass in which every
candidate task has priority below `MIN_PRIORITY` at scan depth `FULL` ends the
turn in that pass without any executor call. -/
theorem makeTurn_accepts_only_worthy (k : TurnConstants) (world : Nat → PassWorld)
    (ai : NullkillerState) :
    (∀ (pass : Nat) (task : TTask),
      TurnEvent.accept pass task ∈ (makeTurn k world ai).1 →
        ¬ task.priority < k.MIN_PRIORITY) ∧
    ∀ (remaining i : Nat) (st : NullkillerState),
      st.scanDepth = ScanDepth.FULL →
      (∀ t ∈ bestTasks (world i), t.priority < k.MIN_PRIORITY) →
      ∃ ending, (ending = TurnEnd.lowPriority i ∨ ending = TurnEnd.interrupted i) ∧
        makeTurnLoop k world (remaining + 1) i st =
          ([TurnEvent.updateAiState i], ending, st) := by
  constructor
  · intro pass task h
    exact (makeTurnLoop_accepted k world _ _ _ pass task h).1
  · intro remaining i st hfull hall
    by_cases hint : (world i).interruptedInUpdate = true
    · exact ⟨TurnEnd.interrupted i, Or.inr rfl, by simp [makeTurnLoop, runPass, hint]⟩
    · obtain ⟨best, hbest⟩ := choseBestTask_bestTasks (world i)
      have hlow := hall best (choseBestTask_mem _ _ hbest)
      refine ⟨TurnEnd.lowPriority i, Or.inl rfl, ?_⟩
      exact makeTurnLoop_lowPriority k world remaining i st best (by simpa using hint) hbest
        (by simp [widensScan, hfull]) hlow

theorem makeTurn_accepts_only_worthy_witness :
    ∃ ending, (ending = TurnEnd.lowPriority 1 ∨ ending = TurnEnd.interrupted 1) ∧
      makeTurnLoop productionConstants idleWorld 30 1 fullScanState =
        ([TurnEvent.updateAiState 1], ending, fullScanState) :=
  (makeTurn_accepts_only_worthy productionConstants idleWorld fullScanState).2 29 1
    fullScanState rfl
    (by
      intro t ht
      have : t = idleTask := by
        simp only [bestTasks, idleWorld] at ht
        simpa using ht
      rw [this]
      norm_num [idleTask, productionConstants])

/-! ### Guarded step -/

/-- The chain pass joins two heroes whose nodes each satisfy
`armyLoss < armyValue` (87759 < 87760 and 14999 < 15000) into a candidate whose
army loss 102758 exceeds the army value 93984 of the merged actor: the losses
add up, while the merged army gives one archangel away as rear guard. -/
theorem batteredChain_candidate :
    (batteredArena.actors[0]?).map (fun a => a.armyValue) = some 87760 ∧
    (batteredArena.actors[8]?).map (fun a => a.armyValue) = some 15000 ∧
    batteredChain.map (fun r => r.1.map (fun c => (c.actor, c.armyLoss)))
      = some [(some 16, 102758)] ∧
    (mergedArena.actors[16]?).map (fun a => a.armyValue) = some 93984 := by
  decide

/-- C5 fails on the code: stepping from the exchange node (army loss 102758, army
value 93984) onto a guarded tile, `armyValue - armyLoss` wraps around to
`2 ^ 64 - 8774`, the estimated loss 0 is below it, and `bypassDestinationGuards`
commits a battle node for the battle actor 17 whose army loss 102758 is not
below that actor's army value 93984. -/
theorem bypassDestinationGuards_lost_army :
    sub64 93984 102758 = 2 ^ 64 - 8774 ∧
    (bypassDestinationGuards guardedEnv mergedArena guardedStorage [77] guardedSource
        guardedDestination).map
      (fun r => (r.1, (r.2.2.node r.2.1.node).map
        (fun n => (n.action, n.actor, n.armyLoss))))
      = some (true, some (ENodeAction.BATTLE, some 17, 102758)) ∧
    (bypassDestinationGuards guardedEnv mergedArena guardedStorage [77] guardedSource
        guardedDestination).map
      (fun r => (r.2.2.node r.2.1.node).map (fun n => n.specialAction))
      = some (some (some (SpecialAction.battle ⟨4, 4, 0⟩))) ∧
    (mergedArena.actors[17]?).map (fun a => a.armyValue) = some 93984 ∧
    ¬ 102758 < 93984 :=
  ⟨by decide, by decide, by decide, by decide, by decide⟩

theorem node_setTile_same (nodes : AISharedStorage) (pos : int3) (layer : EPathfindingLayer)
    (chains : List AIPathNode) (i : Nat) :
    (nodes.setTile pos layer chains).node { coord := pos, layer := layer, chain := i }
      = chains[i]? := by
  simp [AISharedStorage.node, AISharedStorage.setTile]

theorem node_setTile_other (nodes : AISharedStorage) (pos : int3) (layer : EPathfindingLayer)
    (chains : List AIPathNode) (p : NodePtr) (h : p.coord ≠ pos) :
    (nodes.setTile pos layer chains).node p = nodes.node p := by
  simp [AISharedStorage.node, AISharedStorage.setTile, h]

theorem node_modify_same (nodes : AISharedStorage) (p : NodePtr) (f : AIPathNode → AIPathNode) :
    (nodes.modify p f).node p = (nodes.node p).map f := by
  simp [AISharedStorage.node, AISharedStorage.modify, AISharedStorage.setTile]

theorem getOrCreateNodeLoop_spec (l : List AIPathNode) :
    ∀ (idx : Nat) (actor : ActorPtr) (i : Nat) (l1 : List AIPathNode),
      getOrCreateNodeLoop l idx actor = some (i, l1) →
      idx ≤ i ∧ ∃ n, l1[i - idx]? = some n ∧ n.actor = some actor := by
  induction l with
  | nil =>
    intro idx actor i l1 h
    simp [getOrCreateNodeLoop] at h
  | cons node rest ih =>
    intro idx actor i l1 h
    simp only [getOrCreateNodeLoop] at h
    by_cases h1 : node.actor = some actor
    · simp only [h1, if_true, Option.some.injEq, Prod.mk.injEq] at h
      obtain ⟨rfl, rfl⟩ := h
      exact ⟨le_refl _, node, by simp, h1⟩
    · simp only [h1, if_false] at h
      by_cases h2 : node.actor = none
      · simp only [h2, if_true, Option.some.injEq, Prod.mk.injEq] at h
        obtain ⟨rfl, rfl⟩ := h
        exact ⟨le_refl _, { node with actor := some actor }, by simp, rfl⟩
      · simp only [h2, if_false] at h
        cases hr : getOrCreateNodeLoop rest (idx + 1) actor with
        | none => simp [hr] at h
        | some res =>
          obtain ⟨j, rest1⟩ := res
          simp only [hr, Option.some.injEq, Prod.mk.injEq] at h
          obtain ⟨rfl, rfl⟩ := h
          obtain ⟨hle, n, hn, hna⟩ := ih (idx + 1) actor j rest1 hr
          refine ⟨by omega, n, ?_, hna⟩
          have : j - idx = (j - (idx + 1)) + 1 := by omega
          rw [this, List.getElem?_cons_succ]
          exact hn

/-- `getOrCreateNode` returns a node of the asked tile that belongs to the actor,
and leaves every other tile alone. -/
theorem getOrCreateNode_spec (nodes nodes1 : AISharedStorage) (pos : int3)
    (layer : EPathfindingLayer) (actor : ActorPtr) (ptr : NodePtr)
    (h : getOrCreateNode nodes pos layer actor = some (ptr, nodes1)) :
    (∃ n, nodes1.node ptr = some n ∧ n.actor = some actor) ∧
    ∀ q : NodePtr, q.coord ≠ pos → nodes1.node q = nodes.node q := by
  unfold getOrCreateNode at h
  cases hl : getOrCreateNodeLoop (nodes pos layer) 0 actor with
  | none => simp [hl] at h
  | some res =>
    obtain ⟨i, chains⟩ := res
    simp only [hl, Option.some.injEq, Prod.mk.injEq] at h
    obtain ⟨rfl, rfl⟩ := h
    obtain ⟨_, n, hn, hna⟩ := getOrCreateNodeLoop_spec _ 0 actor i chains hl
    refine ⟨⟨n, ?_, hna⟩, ?_⟩
    · rw [node_setTile_same]
      simpa using hn
    · intro q hq
      exact node_setTile_other _ _ _ _ q hq

theorem commitDestination_spec (env : GuardEnv) (arena : ActorArena)
    (nodes nodes1 : AISharedStorage) (destination : CDestinationNodeInfo)
    (source : PathNodeInfo) (srcNode dstNode : AIPathNode)
    (hsrc : nodes.node source.node = some srcNode)
    (hdst : nodes.node destination.node = some dstNode)
    (hhook : ∀ a h d s, (env.applyOnDestination a h d s).armyLoss = d.armyLoss ∧
      (env.applyOnDestination a h d s).actor = d.actor)
    (h : commitDestination env arena nodes destination source = some nodes1) :
    ∃ x, nodes1.node destination.node = some x ∧ x.armyLoss = srcNode.armyLoss ∧
      x.actor = dstNode.actor := by
  unfold commitDestination at h
  simp only [hsrc, hdst] at h
  have hcommit : ∀ y : AIPathNode,
      y = (if srcNode.specialAction.isSome || srcNode.chainOther.isSome then
          { commitNode dstNode srcNode destination.action destination.turn
              destination.movementLeft destination.cost with
            theNodeBefore := some source.node }
        else commitNode dstNode srcNode destination.action destination.turn
          destination.movementLeft destination.cost) →
      y.armyLoss = srcNode.armyLoss ∧ y.actor = dstNode.actor := by
    intro y hy
    subst hy
    split_ifs <;> exact ⟨rfl, rfl⟩
  generalize hy : (if srcNode.specialAction.isSome || srcNode.chainOther.isSome then
          { commitNode dstNode srcNode destination.action destination.turn
              destination.movementLeft destination.cost with
            theNodeBefore := some source.node }
        else commitNode dstNode srcNode destination.action destination.turn
          destination.movementLeft destination.cost) = y at h
  obtain ⟨hy1, hy2⟩ := hcommit y hy.symm
  cases hsp : y.specialAction with
  | none =>
    simp only [hsp, Option.some.injEq] at h
    subst h
    exact ⟨y, by rw [node_modify_same, hdst]; rfl, hy1, hy2⟩
  | some action =>
    cases hac : y.actor with
    | none =>
      simp only [hsp, hac, Option.some.injEq] at h
      subst h
      exact ⟨y, by rw [node_modify_same, hdst]; rfl, hy1, hy2 ▸ hac ▸ rfl⟩
    | some actorPtr =>
      simp only [hsp, hac] at h
      cases har : arena.actors[actorPtr]? with
      | none => simp [har] at h
      | some actor =>
        simp only [har, Option.some.injEq] at h
        subst h
        refine ⟨_, by rw [node_modify_same, hdst]; rfl, ?_, ?_⟩
        · exact (hhook _ _ _ _).1.trans hy1
        · exact (hhook _ _ _ _).2.trans (hac.trans (hac.symm.trans hy2))

/-- Without the wrap-around, the check `loss < actualArmyValue` does what it is
meant to do: if the army loss of the source node does not exceed the army value
of its actor, the battle actor has that same army value, and the special-action
hook keeps `armyLoss` and `actor`, then a call that commits a battle node leaves
it with `armyLoss < armyValue`. -/
theorem bypassDestinationGuards_safe (env : GuardEnv) (arena : ActorArena)
    (nodes nodes1 : AISharedStorage) (destGuardians : List Nat) (source : PathNodeInfo)
    (destination dest1 : CDestinationNodeInfo)
    (srcNode destNode : AIPathNode) (srcActor destActor battleActor : ChainActor)
    (hsrc : nodes.node source.node = some srcNode)
    (hsa : srcNode.actor.bind (fun p => arena.actors[p]?) = some srcActor)
    (hdst : nodes.node destination.node = some destNode)
    (hda : destNode.actor.bind (fun p => arena.actors[p]?) = some destActor)
    (hval : battleActor.armyValue = srcActor.armyValue)
    (hno : srcNode.armyLoss ≤ srcActor.armyValue) (hlt : srcActor.armyValue < UINT64)
    (hhook : ∀ a h d s, (env.applyOnDestination a h d s).armyLoss = d.armyLoss ∧
      (env.applyOnDestination a h d s).actor = d.actor)
    (hstep : source.node.coord ≠ destination.coord)
    (h : bypassDestinationGuards env arena nodes destGuardians source destination
      = some (true, dest1, nodes1)) :
    (dest1 = destination ∧ nodes1 = nodes) ∨
    ∃ n, nodes1.node dest1.node = some n ∧
      n.specialAction = some (SpecialAction.battle destination.coord) ∧
      n.actor = some destActor.battleActor ∧ n.armyLoss < battleActor.armyValue := by
  unfold bypassDestinationGuards at h
  simp only [hsrc, hsa, hdst, hda] at h
  by_cases h1 : destGuardians.isEmpty = true
  · simp [h1] at h
  · simp only [h1, if_false, Bool.false_eq_true] at h
    by_cases h2 : ((List.filter
        (fun destGuard => !(env.getGuardingCreatures source.coord).contains destGuard)
          destGuardians).isEmpty && !(env.getGuardingCreatures source.coord).isEmpty
        && srcActor.allowBattle) = true
    · simp only [h2, if_true, Option.some.injEq, Prod.mk.injEq, true_and] at h
      exact Or.inl ⟨h.1.symm, h.2.symm⟩
    · simp only [h2, if_false, Bool.false_eq_true] at h
      right
      cases hg : getOrCreateNode nodes destination.coord destNode.layer
          destActor.battleActor with
      | none => simp [hg] at h
      | some res =>
        obtain ⟨battlePtr, nodesA⟩ := res
        simp only [hg] at h
        obtain ⟨⟨bn, hbn, hbna⟩, hother⟩ :=
          getOrCreateNode_spec nodes nodesA _ _ _ battlePtr hg
        have hsrcA : nodesA.node source.node = some srcNode := by
          rw [hother _ hstep]
          exact hsrc
        simp only [hbn, hsrcA] at h
        by_cases h3 : bn.locked = true
        · simp [h3] at h
        · simp only [h3, if_false, Bool.false_eq_true] at h
          have hsub : sub64 srcActor.armyValue srcNode.armyLoss
              = srcActor.armyValue - srcNode.armyLoss := by
            unfold sub64
            have h5 : srcNode.armyLoss < UINT64 := lt_of_le_of_lt hno hlt
            rw [Nat.mod_eq_of_lt h5]
            have h6 : srcActor.armyValue + UINT64 - srcNode.armyLoss
                = (srcActor.armyValue - srcNode.armyLoss) + UINT64 := by omega
            rw [h6, Nat.add_mod_right, Nat.mod_eq_of_lt (by omega)]
          rw [hsub] at h
          by_cases h4 : env.evaluateArmyLoss srcActor.hero
              (srcActor.armyValue - srcNode.armyLoss)
              (env.evaluateDanger destination.coord srcActor.hero true)
                < srcActor.armyValue - srcNode.armyLoss
          · simp only [h4, if_true] at h
            cases hc : commitDestination env arena nodesA
                { destination with node := battlePtr } source with
            | none => simp [hc] at h
            | some nodesB =>
              simp only [hc, Option.some.injEq, Prod.mk.injEq, true_and] at h
              obtain ⟨rfl, rfl⟩ := h
              obtain ⟨x, hx, hx1, hx2⟩ := commitDestination_spec env arena nodesA nodesB
                { destination with node := battlePtr } source srcNode bn hsrcA hbn hhook hc
              simp only at hx
              refine ⟨markBattleNode env source destination
                (env.evaluateDanger destination.coord srcActor.hero true)
                (env.evaluateArmyLoss srcActor.hero (srcActor.armyValue - srcNode.armyLoss)
                  (env.evaluateDanger destination.coord srcActor.hero true)) x, ?_, rfl, ?_, ?_⟩
              · simp only
                rw [node_modify_same, hx]
                rfl
              · exact hx2.trans hbna
              · simp only [markBattleNode, hx1, hval]
                rw [Nat.mod_eq_of_lt (by omega)]
                omega
          · simp [h4] at h

/-- The same step from an exchange node that has lost 1000 of 93984: the battle
node is committed with the loss 1000 + 0, below the army value. -/
theorem bypassDestinationGuards_safe_example :
    ∃ dest1 nodes1,
      bypassDestinationGuards guardedEnv mergedArena (guardedStorageWith (exchangeNodeWith 1000))
        [77] guardedSource guardedDestination = some (true, dest1, nodes1) ∧
      ∃ n, nodes1.node dest1.node = some n ∧ n.actor = some 17 ∧ n.armyLoss < 93984 := by
  have hval : (bypassDestinationGuards guardedEnv mergedArena
      (guardedStorageWith (exchangeNodeWith 1000)) [77] guardedSource guardedDestination).map
        (fun r => r.1) = some true := by decide
  cases h : bypassDestinationGuards guardedEnv mergedArena
      (guardedStorageWith (exchangeNodeWith 1000)) [77] guardedSource guardedDestination with
  | none =>
    rw [h] at hval
    simp at hval
  | some r =>
    obtain ⟨b, dest1, nodes1⟩ := r
    rw [h] at hval
    simp only [Option.map_some', Option.some.injEq] at hval
    subst hval
    refine ⟨dest1, nodes1, rfl, ?_⟩
    have hsafe := bypassDestinationGuards_safe guardedEnv mergedArena
      (guardedStorageWith (exchangeNodeWith 1000)) nodes1 [77] guardedSource guardedDestination
      dest1 (exchangeNodeWith 1000)
      { meetingNode 16 0 with coord := ⟨4, 4, 0⟩, action := ENodeAction.UNKNOWN }
      (mergedArena.actors[16]?.getD rawActor) (mergedArena.actors[16]?.getD rawActor)
      (mergedArena.actors[17]?.getD rawActor)
      (by decide) (by decide) (by decide) (by decide) (by decide) (by decide) (by decide)
      (fun _ _ _ _ => ⟨rfl, rfl⟩) (by decide) h
    rcases hsafe with ⟨rfl, rfl⟩ | ⟨n, hn, _, hact, hloss⟩
    · exfalso
      have hfalse : (bypassDestinationGuards guardedEnv mergedArena
          (guardedStorageWith (exchangeNodeWith 1000)) [77] guardedSource
          guardedDestination).map (fun r => r.2.1.node.chain) = some 1 := by decide
      rw [h] at hfalse
      simp [guardedDestination] at hfalse
    · refine ⟨n, hn, ?_, ?_⟩
      · rw [hact]
        decide
      · have : (mergedArena.actors[17]?.getD rawActor).armyValue = 93984 := by decide
        rw [this] at hloss
        exact hloss

/-! ### Rear guard: which unit is deducted, and when -/

theorem sum_map_eraseIdx {α : Type} (f : α → Nat) (l : List α) (i : Nat) (w : α)
    (hw : l[i]? = some w) : ((l.eraseIdx i).map f).sum + f w = (l.map f).sum := by
  induction l generalizing i with
  | nil => simp at hw
  | cons x xs ih =>
    cases i with
    | zero =>
      simp only [List.getElem?_cons_zero, Option.some.injEq] at hw
      subst hw
      simp only [List.eraseIdx_cons_zero, List.map_cons, List.sum_cons]
      omega
    | succ i =>
      simp only [List.getElem?_cons_succ] at hw
      have := ih i hw
      simp only [List.eraseIdx_cons_succ, List.map_cons, List.sum_cons]
      omega

theorem sum_map_set {α : Type} (f : α → Nat) (l : List α) (i : Nat) (w x : α)
    (hw : l[i]? = some w) : ((l.set i x).map f).sum + f w = (l.map f).sum + f x := by
  induction l generalizing i with
  | nil => simp at hw
  | cons y ys ih =>
    cases i with
    | zero =>
      simp only [List.getElem?_cons_zero, Option.some.injEq] at hw
      subst hw
      simp only [List.set_cons_zero, List.map_cons, List.sum_cons]
      omega
    | succ i =>
      simp only [List.getElem?_cons_succ] at hw
      have := ih i hw
      simp only [List.set_cons_succ, List.map_cons, List.sum_cons]
      omega

/-- The units of the sorted merge are the units of both armies together. -/
theorem getSortedSlots_count {sort : List SlotInfo → List SlotInfo} (hsort : IsBoostSort sort)
    (target source : CCreatureSet) :
    armyCount (getSortedSlots sort target source) =
      ((target.slots ++ source.slots).map CStackInstance.count).sum := by
  have h := getSortedSlots_sum hsort SlotInfo.count (fun _ => true) target source
  rw [slotSel_true _ (getSortedSlots_creature_ne_none hsort target source),
    creToPower_count] at h
  simp only [armyCount, h]
  simp

theorem weakerThan_irrefl (e : SlotInfo) : weakerThan e e = false := by
  simp [weakerThan]

theorem weakerThan_of_weaker (e x b : SlotInfo) (hx : weakerThan x b = true)
    (he : weakerThan e b = false) : weakerThan e x = false := by
  unfold weakerThan at *
  by_cases h1 : x.level = b.level <;> by_cases h2 : e.level = b.level <;>
    by_cases h3 : e.level = x.level <;> simp_all <;> omega

/-- The loop of `std::min_element` keeps an element no other element compares
before. -/
theorem minElementLoop_min (xs pre : List SlotInfo) (best : Nat) (bestVal : SlotInfo)
    (hb : pre[best]? = some bestVal) (hmin : ∀ e ∈ pre, weakerThan e bestVal = false) :
    ∃ w, (pre ++ xs)[minElementLoop weakerThan xs pre.length best bestVal]? = some w ∧
      ∀ e ∈ pre ++ xs, weakerThan e w = false := by
  induction xs generalizing pre best bestVal with
  | nil =>
    refine ⟨bestVal, ?_, ?_⟩
    · simpa [minElementLoop] using hb
    · simpa using hmin
  | cons x xs ih =>
    simp only [minElementLoop]
    by_cases hx : weakerThan x bestVal = true
    · simp only [hx, if_true]
      have := ih (pre ++ [x]) pre.length x (by simp) (by
        intro e he
        rcases List.mem_append.mp he with he | he
        · exact weakerThan_of_weaker e x bestVal hx (hmin e he)
        · simp only [List.mem_singleton] at he
          subst he
          exact weakerThan_irrefl e)
      simpa [List.append_assoc] using this
    · simp only [hx, if_false]
      have := ih (pre ++ [x]) best bestVal (getElem?_append_of_some pre [x] best bestVal hb) (by
        intro e he
        rcases List.mem_append.mp he with he | he
        · exact hmin e he
        · simp only [List.mem_singleton] at he
          subst he
          simpa using hx)
      simpa [List.append_assoc] using this

/-- The slot chosen by `getWeakestCreature` has the lowest level of the army and,
among the slots of that level, the highest speed. -/
theorem getWeakestCreature_min (army : List SlotInfo) (i : Nat)
    (h : getWeakestCreature army = some i) :
    ∃ w, army[i]? = some w ∧
      ∀ e ∈ army, w.level ≤ e.level ∧ (e.level = w.level → e.speed ≤ w.speed) := by
  cases army with
  | nil => simp [getWeakestCreature] at h
  | cons x xs =>
    simp only [getWeakestCreature, Option.some.injEq] at h
    obtain ⟨w, hw, hmin⟩ := minElementLoop_min xs [x] 0 x (by simp) (by
      intro e he
      simp only [List.mem_singleton] at he
      subst he
      exact weakerThan_irrefl e)
    simp only [List.length_singleton, List.singleton_append] at hw hmin
    rw [h] at hw
    refine ⟨w, hw, ?_⟩
    intro e he
    have := hmin e he
    unfold weakerThan at this
    by_cases hl : e.level = w.level
    · simp only [hl, ne_eq, not_true_eq_false, if_false, decide_eq_false_iff_not, not_lt,
        gt_iff_lt] at this
      exact ⟨by omega, fun _ => this⟩
    · simp only [ne_eq, hl, not_false_eq_true, if_true, decide_eq_false_iff_not, not_lt] at this
      exact ⟨this, fun h => absurd h hl⟩

/-- C11 fails as stated: a hero with three griffins joins an army of seven other
creature types.  The merge has 8 types; the result is the 7 strongest stacks
with all their 19 units, and no unit is deducted. -/
theorem getBestArmy_no_deduction_over_cap :
    griffinHero.needsLastStack = true ∧
    (mergedTypes sevenTypes griffinHero).length = 8 ∧
    (getSortedSlots sortByPower sevenTypes griffinHero).take 7 =
      [⟨some archangel, 1, 8776⟩, ⟨some titan, 1, 7500⟩, ⟨some griffin, 3, 1053⟩,
        ⟨some swordsman, 2, 120⟩, ⟨some halberdier, 1, 115⟩, ⟨some pikeman, 10, 100⟩,
        ⟨some walkingDead, 1, 98⟩] ∧
    getBestArmy sortByPower sevenTypes griffinHero =
      some ((getSortedSlots sortByPower sevenTypes griffinHero).take 7) ∧
    armyCount ((getSortedSlots sortByPower sevenTypes griffinHero).take 7) = 19 := by
  decide

/-- C11 (amended). For every target and source with `source.needsLastStack` true:
if the merged army has more than 7 creature types, `getBestArmy` returns the 7
strongest merged stacks and deducts nothing; if it has at most 7 types (and is
not empty, no stack being empty), exactly one unit of the weakest stack is
deducted: the result has one unit less than both armies together, the weakest
stack being dropped entirely if it had only 1 unit. -/
theorem getBestArmy_deduction (sort : List SlotInfo → List SlotInfo) (hsort : IsBoostSort sort)
    (target source : CCreatureSet) (hneeds : source.needsLastStack = true) :
    (7 < (mergedTypes target source).length →
      getBestArmy sort target source = some ((getSortedSlots sort target source).take 7)) ∧
    ((mergedTypes target source).length ≤ 7 → target.valid → source.valid →
      target.slots ++ source.slots ≠ [] →
      ∃ r i w, getBestArmy sort target source = some r ∧
        getWeakestCreature (getSortedSlots sort target source) = some i ∧
        (getSortedSlots sort target source)[i]? = some w ∧
        ((w.count = 1 ∧ r = (getSortedSlots sort target source).eraseIdx i) ∨
         (2 ≤ w.count ∧ r = (getSortedSlots sort target source).set i
            { w with power := w.power - w.power / w.count, count := w.count - 1 })) ∧
        armyCount r + 1 = armyCount (getSortedSlots sort target source) ∧
        armyCount r + 1 = ((target.slots ++ source.slots).map CStackInstance.count).sum) := by
  have hlen := getSortedSlots_length_types hsort target source
  constructor
  · intro hbig
    have : ARMY_SIZE < (getSortedSlots sort target source).length := by
      simp only [ARMY_SIZE]
      omega
    unfold getBestArmy
    simp only [gt_iff_lt, this, if_true]
    rfl
  · intro hfit ht hs hne
    have hsome := getBestArmy_isSome hsort target source ht hs (fun _ => hne)
    obtain ⟨r, hr⟩ := Option.isSome_iff_exists.mp hsome
    have hcount : ∀ i w, (getSortedSlots sort target source)[i]? = some w →
        ((w.count = 1 ∧ r = (getSortedSlots sort target source).eraseIdx i) ∨
         (2 ≤ w.count ∧ r = (getSortedSlots sort target source).set i
            { w with power := w.power - w.power / w.count, count := w.count - 1 })) →
        armyCount r + 1 = armyCount (getSortedSlots sort target source) := by
      intro i w hg hshape
      rcases hshape with ⟨h1, rfl⟩ | ⟨h2, rfl⟩
      · have := sum_map_eraseIdx SlotInfo.count _ i w hg
        simp only [armyCount]
        omega
      · have := sum_map_set SlotInfo.count _ i w
          { w with power := w.power - w.power / w.count, count := w.count - 1 } hg
        simp only [armyCount]
        simp only at this
        omega
    rcases getBestArmy_cases sort target source r hr with
      ⟨hbig, _⟩ | ⟨_, hn, _⟩ | ⟨_, _, i, w, hi, hg, hshape⟩
    · simp only [ARMY_SIZE] at hbig
      omega
    · rw [hneeds] at hn
      exact absurd hn (by decide)
    · have hc := hcount i w hg hshape
      refine ⟨r, i, w, hr, hi, hg, hshape, hc, ?_⟩
      rw [hc, getSortedSlots_count hsort]

theorem getBestArmy_deduction_witness :
    (7 < (mergedTypes sevenTypes griffinHero).length ∧
      getBestArmy sortByPower sevenTypes griffinHero =
        some ((getSortedSlots sortByPower sevenTypes griffinHero).take 7)) ∧
    ((mergedTypes s1Target s1Source).length ≤ 7 ∧ s1Target.valid ∧ s1Source.valid ∧
      s1Target.slots ++ s1Source.slots ≠ [] ∧
      ∃ r i w, getBestArmy sortByPower s1Target s1Source = some r ∧
        getWeakestCreature (getSortedSlots sortByPower s1Target s1Source) = some i ∧
        (getSortedSlots sortByPower s1Target s1Source)[i]? = some w ∧
        ((w.count = 1 ∧ r = (getSortedSlots sortByPower s1Target s1Source).eraseIdx i) ∨
         (2 ≤ w.count ∧ r = (getSortedSlots sortByPower s1Target s1Source).set i
            { w with power := w.power - w.power / w.count, count := w.count - 1 })) ∧
        armyCount r + 1 = armyCount (getSortedSlots sortByPower s1Target s1Source) ∧
        armyCount r + 1 = ((s1Target.slots ++ s1Source.slots).map CStackInstance.count).sum) :=
  ⟨⟨by decide,
      (getBestArmy_deduction sortByPower sortByPower_isBoostSort sevenTypes griffinHero rfl).1
        (by decide)⟩,
    by decide, by decide, by decide, by decide,
    (getBestArmy_deduction sortByPower sortByPower_isBoostSort s1Target s1Source rfl).2
      (by decide) (by decide) (by decide) (by decide)⟩

/-- C12 fails as stated.  In scenario S1 the unit is taken from the Pikeman stack
(level 1, also held by target), leaving Pikeman×13 and both Swordsmen; and when
a hero holding one walking dead meets two halberdiers, the halberdier stack is
decremented although source holds no halberdier. -/
theorem getBestArmy_deducts_lowest_level :
    getBestArmy sortByPower s1Target s1Source =
      some [⟨some pikeman, 13, 130⟩, ⟨some swordsman, 2, 120⟩, ⟨some archer, 5, 80⟩] ∧
    getBestArmy sortByPower ⟨[⟨halberdier, 2⟩], true⟩ ⟨[⟨walkingDead, 1⟩], true⟩ =
      some [⟨some halberdier, 1, 115⟩, ⟨some walkingDead, 1, 98⟩] ∧
    halberdier ∉ ([⟨walkingDead, 1⟩] : List CStackInstance).map CStackInstance.type := by
  decide

/-- C12 (amended). Whenever `getBestArmy` deducts the rear-guard unit (source needs
a last stack and the merge has at most 7 creature types), the stack that is
decremented or dropped is a stack of lowest level in the whole merged army, of
highest speed among the stacks of that level, whether source or target
contributed it.  For target {Pikeman×10, Archer×5} and source {Pikeman×4,
Swordsman×2} the result has 3 stacks and the unit is deducted from the Pikeman
stack, leaving Pikeman×13, Swordsman×2, Archer×5. -/
theorem getBestArmy_rear_guard (sort : List SlotInfo → List SlotInfo) (hsort : IsBoostSort sort)
    (target source : CCreatureSet) (r : List SlotInfo)
    (hneeds : source.needsLastStack = true)
    (hfit : (mergedTypes target source).length ≤ 7)
    (h : getBestArmy sort target source = some r) :
    ∃ i w, (getSortedSlots sort target source)[i]? = some w ∧
      (∀ e ∈ getSortedSlots sort target source,
        w.level ≤ e.level ∧ (e.level = w.level → e.speed ≤ w.speed)) ∧
      ((w.count = 1 ∧ r = (getSortedSlots sort target source).eraseIdx i) ∨
       (2 ≤ w.count ∧ r = (getSortedSlots sort target source).set i
          { w with power := w.power - w.power / w.count, count := w.count - 1 })) := by
  have hlen := getSortedSlots_length_types hsort target source
  rcases getBestArmy_cases sort target source r h with
    ⟨hbig, _⟩ | ⟨_, hn, _⟩ | ⟨_, _, i, w, hi, hg, hshape⟩
  · simp only [ARMY_SIZE] at hbig
    omega
  · rw [hneeds] at hn
    exact absurd hn (by decide)
  · obtain ⟨w1, hw1, hmin⟩ := getWeakestCreature_min _ i hi
    rw [hg] at hw1
    simp only [Option.some.injEq] at hw1
    subst hw1
    exact ⟨i, w, hg, hmin, hshape⟩

theorem getBestArmy_rear_guard_witness :
    getBestArmy sortByPower s1Target s1Source =
      some [⟨some pikeman, 13, 130⟩, ⟨some swordsman, 2, 120⟩, ⟨some archer, 5, 80⟩] ∧
    ∃ i w, (getSortedSlots sortByPower s1Target s1Source)[i]? = some w ∧
      (∀ e ∈ getSortedSlots sortByPower s1Target s1Source,
        w.level ≤ e.level ∧ (e.level = w.level → e.speed ≤ w.speed)) ∧
      ((w.count = 1 ∧ [(⟨some pikeman, 13, 130⟩ : SlotInfo), ⟨some swordsman, 2, 120⟩,
          ⟨some archer, 5, 80⟩] = (getSortedSlots sortByPower s1Target s1Source).eraseIdx i) ∨
       (2 ≤ w.count ∧ [(⟨some pikeman, 13, 130⟩ : SlotInfo), ⟨some swordsman, 2, 120⟩,
          ⟨some archer, 5, 80⟩] = (getSortedSlots sortByPower s1Target s1Source).set i
          { w with power := w.power - w.power / w.count, count := w.count - 1 })) :=
  ⟨by decide,
    getBestArmy_rear_guard sortByPower sortByPower_isBoostSort s1Target s1Source _ rfl
      (by decide) (by decide)⟩

/-- C13. For every target and source (no empty stack, and no rear guard asked of
two empty sets), `howManyReinforcementsCanGet(target, source)` is
`max(0, P − S)` where `P` is the sum of the slot powers of
`getBestArmy(target, source)` and `S` the army strength of target; it is 0
exactly when `P ≤ S`; and `canGetArmy` is true iff both owners are equal and this
value is positive. -/
theorem howManyReinforcementsCanGet_eq (sort : List SlotInfo → List SlotInfo)
    (hsort : IsBoostSort sort) (target source : CArmedInstance)
    (ht : target.army.valid) (hs : source.army.valid)
    (hne : source.army.needsLastStack = true → target.army.slots ++ source.army.slots ≠ []) :
    ∃ r v, getBestArmy sort target.army source.army = some r ∧
      howManyReinforcementsCanGet sort target.army source.army = some v ∧
      (v : Int) = max 0 ((armyPower r : Int) - (target.army.getArmyStrength : Int)) ∧
      (v = 0 ↔ armyPower r ≤ target.army.getArmyStrength) ∧
      ∃ b, canGetArmy sort target source = some b ∧
        (b = true ↔ target.tempOwner = source.tempOwner ∧ 0 < v) := by
  have hsome := getBestArmy_isSome hsort target.army source.army ht hs hne
  obtain ⟨r, hr⟩ := Option.isSome_iff_exists.mp hsome
  have hv : howManyReinforcementsCanGet sort target.army source.army =
      some (armyPower r - target.army.getArmyStrength) := by
    unfold howManyReinforcementsCanGet
    simp only [hr]
    by_cases hgt : armyPower r > target.army.getArmyStrength
    · simp only [hgt, if_true]
    · simp only [hgt, if_false, Option.some.injEq]
      omega
  refine ⟨r, armyPower r - target.army.getArmyStrength, hr, hv, ?_, ?_, ?_⟩
  · omega
  · omega
  · unfold canGetArmy
    by_cases ho : target.tempOwner = source.tempOwner
    · refine ⟨decide (0 < armyPower r - target.army.getArmyStrength), ?_, ?_⟩
      · simp only [ho, ne_eq, not_true_eq_false, if_false, hv]
      · simp [ho]
    · refine ⟨false, ?_, ?_⟩
      · simp only [ne_eq, ho, not_false_eq_true, if_true]
      · simp [ho]

theorem howManyReinforcementsCanGet_eq_witness :
    howManyReinforcementsCanGet sortByPower s1Target s1Source = some 150 ∧
    canGetArmy sortByPower ⟨1, s1Target⟩ ⟨1, s1Source⟩ = some true ∧
    canGetArmy sortByPower ⟨1, s1Target⟩ ⟨2, s1Source⟩ = some false ∧
    ∃ r v, getBestArmy sortByPower s1Target s1Source = some r ∧
      howManyReinforcementsCanGet sortByPower s1Target s1Source = some v ∧
      (v : Int) = max 0 ((armyPower r : Int) - (s1Target.getArmyStrength : Int)) ∧
      (v = 0 ↔ armyPower r ≤ s1Target.getArmyStrength) ∧
      ∃ b, canGetArmy sortByPower ⟨1, s1Target⟩ ⟨1, s1Source⟩ = some b ∧
        (b = true ↔ (1 : Nat) = 1 ∧ 0 < v) :=
  ⟨by decide, by decide, by decide,
    howManyReinforcementsCanGet_eq sortByPower sortByPower_isBoostSort
      ⟨1, s1Target⟩ ⟨1, s1Source⟩ (by decide) (by decide) (by decide)⟩

/-! ### The eight variants of a hero actor -/

theorem construct_actor_at (raw : Nat → ChainActor) (arena : ActorArena)
    (mkBase : ActorPtr → ChainActor) (k : Nat) :
    (HeroActor.construct raw arena mkBase).2.actors[
        (HeroActor.construct raw arena mkBase).1 + k]? =
      (setupSpecialActors raw arena.actors.length (mkBase arena.actors.length))[k]? := by
  simp only [HeroActor.construct]
  rw [List.getElem?_append_right (by omega)]
  simp

/-- Variant `b` of a freshly constructed hero actor: its permission flags are the
bits of `b`, its three variant pointers set one more bit, and the members
copied by `setBaseActor` are those of the base actor. -/
theorem construct_variant_fields (raw : Nat → ChainActor) (arena : ActorArena)
    (mkBase : ActorPtr → ChainActor) (b : Fin 8) :
    ∃ v, (HeroActor.construct raw arena mkBase).2.actors[
        (HeroActor.construct raw arena mkBase).1 + b.val]? = some v ∧
      v.allowBattle = b.val.testBit 0 ∧ v.allowSpellCast = b.val.testBit 1 ∧
      v.allowUseResources = b.val.testBit 2 ∧
      v.battleActor = (HeroActor.construct raw arena mkBase).1 + (b.val ||| 1) ∧
      v.castActor = (HeroActor.construct raw arena mkBase).1 + (b.val ||| 2) ∧
      v.resourceActor = (HeroActor.construct raw arena mkBase).1 + (b.val ||| 4) ∧
      v.hero = (mkBase arena.actors.length).hero ∧
      v.creatureSet = (mkBase arena.actors.length).creatureSet ∧
      v.armyValue = (mkBase arena.actors.length).armyValue ∧
      v.chainMask = (mkBase arena.actors.length).chainMask ∧
      v.layer = (mkBase arena.actors.length).layer ∧
      v.initialMovement = (mkBase arena.actors.length).initialMovement ∧
      v.initialTurn = (mkBase arena.actors.length).initialTurn ∧
      v.isMovable = (mkBase arena.actors.length).isMovable := by
  rw [construct_actor_at, setupSpecialActors_eq]
  have hself : (HeroActor.construct raw arena mkBase).1 = arena.actors.length := rfl
  rw [hself]
  fin_cases b <;>
    refine ⟨_, rfl, ?_⟩ <;>
    simp [setupPermissions, ChainActor.setBaseActor, Nat.testBit] <;>
    decide

/-- C14. For every hero actor (primitive or composite: `mkBase` is either
constructor of the `ChainActor` part) and each of its 8 variants `v` with
permission index `b` (bit 1 = battle, bit 2 = cast, bit 4 = resource; `b = 0` is
the base actor): the three permission flags of `v` are exactly the bits of `b`;
`v.battleActor` is the variant with index `b|1` and has `allowBattle = true`,
`v.castActor` is the variant `b|2` with `allowSpellCast = true`,
`v.resourceActor` is the variant `b|4` with `allowUseResources = true`, each
keeping the other two permission bits of `v`. -/
theorem setupSpecialActors_permissions (raw : Nat → ChainActor) (arena : ActorArena)
    (mkBase : ActorPtr → ChainActor) (b : Fin 8) :
    ∃ v vb vc vr,
      (HeroActor.construct raw arena mkBase).2.actors[
        (HeroActor.construct raw arena mkBase).1 + b.val]? = some v ∧
      v.allowBattle = b.val.testBit 0 ∧ v.allowSpellCast = b.val.testBit 1 ∧
      v.allowUseResources = b.val.testBit 2 ∧
      v.battleActor = (HeroActor.construct raw arena mkBase).1 + (b.val ||| 1) ∧
      (HeroActor.construct raw arena mkBase).2.actors[v.battleActor]? = some vb ∧
      vb.allowBattle = true ∧ vb.allowSpellCast = v.allowSpellCast ∧
      vb.allowUseResources = v.allowUseResources ∧
      v.castActor = (HeroActor.construct raw arena mkBase).1 + (b.val ||| 2) ∧
      (HeroActor.construct raw arena mkBase).2.actors[v.castActor]? = some vc ∧
      vc.allowSpellCast = true ∧ vc.allowBattle = v.allowBattle ∧
      vc.allowUseResources = v.allowUseResources ∧
      v.resourceActor = (HeroActor.construct raw arena mkBase).1 + (b.val ||| 4) ∧
      (HeroActor.construct raw arena mkBase).2.actors[v.resourceActor]? = some vr ∧
      vr.allowUseResources = true ∧ vr.allowBattle = v.allowBattle ∧
      vr.allowSpellCast = v.allowSpellCast := by
  obtain ⟨v, hv, f1, f2, f3, p1, p2, p3, _⟩ := construct_variant_fields raw arena mkBase b
  have h1 : b.val ||| 1 < 8 := by fin_cases b <;> decide
  have h2 : b.val ||| 2 < 8 := by fin_cases b <;> decide
  have h4 : b.val ||| 4 < 8 := by fin_cases b <;> decide
  obtain ⟨vb, hvb, g1, g2, g3, _⟩ := construct_variant_fields raw arena mkBase ⟨b.val ||| 1, h1⟩
  obtain ⟨vc, hvc, c1, c2, c3, _⟩ := construct_variant_fields raw arena mkBase ⟨b.val ||| 2, h2⟩
  obtain ⟨vr, hvr, r1, r2, r3, _⟩ := construct_variant_fields raw arena mkBase ⟨b.val ||| 4, h4⟩
  simp only at hvb hvc hvr g1 g2 g3 c1 c2 c3 r1 r2 r3
  refine ⟨v, vb, vc, vr, hv, f1, f2, f3, p1, by rw [p1]; exact hvb, ?_, ?_, ?_,
    p2, by rw [p2]; exact hvc, ?_, ?_, ?_, p3, by rw [p3]; exact hvr, ?_, ?_, ?_⟩
  all_goals (first | rw [g1] | rw [g2] | rw [g3] | rw [c1] | rw [c2] | rw [c3]
                   | rw [r1] | rw [r2] | rw [r3])
  all_goals (try rw [f1]); all_goals (try rw [f2]); all_goals (try rw [f3])
  all_goals (fin_cases b <;> decide)

/-- C15 fails as stated: the base actor of `heroStrong` stands at the position
of the hero, (3, 3, 0), while its battle variant keeps the position it was
default-constructed with, (0, 0, 0): `setBaseActor` does not copy it. -/
theorem setBaseActor_keeps_position :
    (HeroActor.ofHero (fun _ => rawActor) emptyArena heroStrong 1).1 = 0 ∧
    ((HeroActor.ofHero (fun _ => rawActor) emptyArena heroStrong 1).2.actors[0]?.map
      ChainActor.initialPosition) = some ⟨3, 3, 0⟩ ∧
    ((HeroActor.ofHero (fun _ => rawActor) emptyArena heroStrong 1).2.actors[1]?.map
      ChainActor.initialPosition) = some ⟨0, 0, 0⟩ ∧
    ((HeroActor.ofHero (fun _ => rawActor) emptyArena heroStrong 1).2.actors[1]?.map
      ChainActor.baseActor) = some 0 := by
  decide

/-- C15 (amended). After construction of any hero actor (primitive or composite),
all 8 of its variants have the same hero, army (creature set), armyValue and
chainMask as the base actor (and the same layer, initial movement, initial turn
and mobility; the initial position is not copied to the special actors), and
any two distinct variants differ in at least one of the three permission
flags. -/
theorem setupSpecialActors_shared (raw : Nat → ChainActor) (arena : ActorArena)
    (mkBase : ActorPtr → ChainActor) :
    ∃ base, (HeroActor.construct raw arena mkBase).2.actors[
        (HeroActor.construct raw arena mkBase).1]? = some base ∧
      ∀ b : Fin 8, ∃ v, (HeroActor.construct raw arena mkBase).2.actors[
          (HeroActor.construct raw arena mkBase).1 + b.val]? = some v ∧
        v.hero = base.hero ∧ v.creatureSet = base.creatureSet ∧
        v.armyValue = base.armyValue ∧ v.chainMask = base.chainMask ∧
        v.layer = base.layer ∧ v.initialMovement = base.initialMovement ∧
        v.initialTurn = base.initialTurn ∧ v.isMovable = base.isMovable ∧
        ∀ (b2 : Fin 8) (v2 : ChainActor),
          (HeroActor.construct raw arena mkBase).2.actors[
            (HeroActor.construct raw arena mkBase).1 + b2.val]? = some v2 → b ≠ b2 →
          v.allowBattle ≠ v2.allowBattle ∨ v.allowSpellCast ≠ v2.allowSpellCast ∨
            v.allowUseResources ≠ v2.allowUseResources := by
  obtain ⟨base, hbase, _, _, _, _, _, _, e1, e2, e3, e4, e5, e6, e7, e8⟩ :=
    construct_variant_fields raw arena mkBase 0
  simp only [Fin.val_zero, Nat.add_zero] at hbase
  refine ⟨base, hbase, ?_⟩
  intro b
  obtain ⟨v, hv, f1, f2, f3, _, _, _, g1, g2, g3, g4, g5, g6, g7, g8⟩ :=
    construct_variant_fields raw arena mkBase b
  refine ⟨v, hv, by rw [g1, e1], by rw [g2, e2], by rw [g3, e3], by rw [g4, e4],
    by rw [g5, e5], by rw [g6, e6], by rw [g7, e7], by rw [g8, e8], ?_⟩
  intro b2 v2 hv2 hne
  obtain ⟨w, hw, k1, k2, k3, _⟩ := construct_variant_fields raw arena mkBase b2
  rw [hv2] at hw
  cases hw
  rw [f1, f2, f3, k1, k2, k3]
  revert hne
  fin_cases b <;> fin_cases b2 <;> decide

/-! ### Exchange nodes: cost and turn of the committed node -/

theorem node_modify (nodes : AISharedStorage) (p q : NodePtr) (f : AIPathNode → AIPathNode) :
    (nodes.modify p f).node q =
      (nodes.node q).map (fun n => if p = q then f n else n) := by
  obtain ⟨pc, pl, pi⟩ := p
  obtain ⟨qc, ql, qi⟩ := q
  simp only [AISharedStorage.node, AISharedStorage.modify, AISharedStorage.setTile]
  by_cases h : qc = pc ∧ ql = pl
  · obtain ⟨rfl, rfl⟩ := h
    simp only [and_self, if_true, List.getElem?_modify, NodePtr.mk.injEq, true_and]
    rfl
  · rw [if_neg h]
    have hne : ¬ (pc = qc ∧ pl = ql ∧ pi = qi) := by
      rintro ⟨rfl, rfl, _⟩
      exact h ⟨rfl, rfl⟩
    cases hq : (nodes qc ql)[qi]? with
    | none => rfl
    | some n => simp [hne]

theorem turnsKept_refl (bound : Nat) (nodes : AISharedStorage) :
    TurnsKept bound nodes nodes := by
  intro q n h
  exact ⟨n, h, Or.inl rfl⟩

theorem turnsKept_trans {bound : Nat} {a b c : AISharedStorage}
    (h1 : TurnsKept bound a b) (h2 : TurnsKept bound b c) : TurnsKept bound a c := by
  intro q n h
  obtain ⟨n1, hn1, ht1⟩ := h1 q n h
  obtain ⟨n2, hn2, ht2⟩ := h2 q n1 hn1
  refine ⟨n2, hn2, ?_⟩
  rcases ht2 with ht2 | ht2
  · rcases ht1 with ht1 | ht1
    · exact Or.inl (ht2.trans ht1)
    · exact Or.inr (by omega)
  · exact Or.inr ht2

theorem turnsKept_modify (bound : Nat) (nodes : AISharedStorage) (p : NodePtr)
    (f : AIPathNode → AIPathNode)
    (hf : ∀ n, (f n).turns = n.turns ∨ (f n).turns ≤ bound) :
    TurnsKept bound nodes (nodes.modify p f) := by
  intro q n h
  rw [node_modify, h]
  by_cases hpq : p = q
  · exact ⟨f n, by simp [hpq], hf n⟩
  · exact ⟨n, by simp [hpq], Or.inl rfl⟩

theorem getOrCreateNodeLoop_turns (l : List AIPathNode) :
    ∀ (idx : Nat) (actor : ActorPtr) (i : Nat) (l1 : List AIPathNode),
      getOrCreateNodeLoop l idx actor = some (i, l1) →
      l1.map AIPathNode.turns = l.map AIPathNode.turns := by
  induction l with
  | nil =>
    intro idx actor i l1 h
    simp [getOrCreateNodeLoop] at h
  | cons node rest ih =>
    intro idx actor i l1 h
    simp only [getOrCreateNodeLoop] at h
    by_cases h1 : node.actor = some actor
    · simp only [h1, if_true, Option.some.injEq, Prod.mk.injEq] at h
      obtain ⟨_, rfl⟩ := h
      rfl
    · simp only [h1, if_false] at h
      by_cases h2 : node.actor = none
      · simp only [h2, if_true, Option.some.injEq, Prod.mk.injEq] at h
        obtain ⟨_, rfl⟩ := h
        rfl
      · simp only [h2, if_false] at h
        cases hr : getOrCreateNodeLoop rest (idx + 1) actor with
        | none => simp [hr] at h
        | some res =>
          obtain ⟨j, rest1⟩ := res
          simp only [hr, Option.some.injEq, Prod.mk.injEq] at h
          obtain ⟨_, rfl⟩ := h
          simp only [List.map_cons, ih (idx + 1) actor j rest1 hr]

theorem getOrCreateNode_turns (bound : Nat) (nodes nodes1 : AISharedStorage) (pos : int3)
    (layer : EPathfindingLayer) (actor : ActorPtr) (ptr : NodePtr)
    (h : getOrCreateNode nodes pos layer actor = some (ptr, nodes1)) :
    TurnsKept bound nodes nodes1 := by
  unfold getOrCreateNode at h
  cases hl : getOrCreateNodeLoop (nodes pos layer) 0 actor with
  | none => simp [hl] at h
  | some res =>
    obtain ⟨i, chains⟩ := res
    simp only [hl, Option.some.injEq, Prod.mk.injEq] at h
    obtain ⟨_, rfl⟩ := h
    have hmap := getOrCreateNodeLoop_turns _ 0 actor i chains hl
    intro q n hq
    simp only [AISharedStorage.node, AISharedStorage.setTile] at hq ⊢
    by_cases hc : q.coord = pos ∧ q.layer = layer
    · rw [if_pos hc]
      obtain ⟨hc1, hc2⟩ := hc
      rw [hc1, hc2] at hq
      have h1 : (chains.map AIPathNode.turns)[q.chain]? = some n.turns := by
        rw [hmap, List.getElem?_map, hq]
        rfl
      rw [List.getElem?_map] at h1
      cases hx : chains[q.chain]? with
      | none => simp [hx] at h1
      | some n1 =>
        simp only [hx, Option.map_some', Option.some.injEq] at h1
        exact ⟨n1, rfl, Or.inl h1⟩
    · rw [if_neg hc]
      exact ⟨n, hq, Or.inl rfl⟩

theorem getOrCreateNodeOpt_turns (bound : Nat) (nodes nodes1 : AISharedStorage) (pos : int3)
    (layer : EPathfindingLayer) (actor : Option ActorPtr) (ptr : NodePtr)
    (h : getOrCreateNodeOpt nodes pos layer actor = some (ptr, nodes1)) :
    TurnsKept bound nodes nodes1 := by
  unfold getOrCreateNodeOpt at h
  cases actor with
  | some a => exact getOrCreateNode_turns bound nodes nodes1 pos layer a ptr h
  | none =>
    simp only at h
    cases hf : (nodes pos layer).findIdx? (fun node => node.actor.isNone) with
    | none => simp [hf] at h
    | some i =>
      simp only [hf, Option.some.injEq, Prod.mk.injEq] at h
      obtain ⟨_, rfl⟩ := h
      exact turnsKept_refl _ _

/-- The node written by `commitExchangeNode` carries the turn and the cost of the
candidate, and no other node changes its turn. -/
theorem commitExchangeNode_spec (nodes nodes1 : AISharedStorage) (exchangePtr : NodePtr)
    (chainInfo : ExchangeCandidate) (exchangeNode : AIPathNode)
    (hex : nodes.node exchangePtr = some exchangeNode)
    (h : commitExchangeNode nodes exchangePtr chainInfo = some nodes1) :
    TurnsKept chainInfo.turns nodes nodes1 ∧
    ∃ n, nodes1.node exchangePtr = some n ∧ n.turns = chainInfo.turns ∧
      n.cost = chainInfo.cost ∧ n.moveRemains = chainInfo.moveRemains ∧
      n.armyLoss = chainInfo.armyLoss ∧ n.chainOther = some chainInfo.otherParent ∧
      n.actor = exchangeNode.actor := by
  unfold commitExchangeNode at h
  cases hc : nodes.node chainInfo.carrierParent with
  | none => simp [hc] at h
  | some carrier =>
    simp only [hc] at h
    cases hc1 : (nodes.modify exchangePtr (fun exchangeNode =>
        commitNode exchangeNode carrier carrier.action chainInfo.turns chainInfo.moveRemains
          chainInfo.cost)).node chainInfo.carrierParent with
    | none => simp [hc1] at h
    | some carrier1 =>
      simp only [hc1, Option.some.injEq] at h
      have k1 : TurnsKept chainInfo.turns nodes (nodes.modify exchangePtr (fun exchangeNode =>
          commitNode exchangeNode carrier carrier.action chainInfo.turns chainInfo.moveRemains
            chainInfo.cost)) :=
        turnsKept_modify _ _ _ _ (fun n => Or.inr (le_refl _))
      have k2 : ∀ X : AISharedStorage, TurnsKept chainInfo.turns X
          (X.modify exchangePtr (fun exchangeNode =>
            { exchangeNode with theNodeBefore := some chainInfo.carrierParent })) :=
        fun X => turnsKept_modify _ X _ _ (fun n => Or.inl rfl)
      have k3 : ∀ X : AISharedStorage, TurnsKept chainInfo.turns X
          (X.modify exchangePtr (fun exchangeNode =>
            { exchangeNode with
              chainOther := some chainInfo.otherParent
              armyLoss := chainInfo.armyLoss })) :=
        fun X => turnsKept_modify _ X _ _ (fun n => Or.inl rfl)
      by_cases hsp : carrier1.specialAction.isSome = true ∨ carrier1.chainOther.isSome = true
      · rw [if_pos hsp] at h
        subst h
        refine ⟨turnsKept_trans (turnsKept_trans k1 (k2 _)) (k3 _), ?_⟩
        simp only [node_modify_same, hex, Option.map_some']
        exact ⟨_, rfl, rfl, rfl, rfl, rfl, rfl, rfl⟩
      · rw [if_neg hsp] at h
        subst h
        refine ⟨turnsKept_trans k1 (k3 _), ?_⟩
        simp only [node_modify_same, hex, Option.map_some']
        exact ⟨_, rfl, rfl, rfl, rfl, rfl, rfl, rfl⟩

/-- One step of `addHeroChain` keeps the pass counters and the actors, changes
the turn of a node only to the turn of the candidate, and either leaves
`heroChain` alone or appends the exchange node, which carries the turn and the
cost of the candidate. -/
theorem addHeroChainOne_spec (s s1 : AINodeStorage) (chainInfo : ExchangeCandidate)
    (h : addHeroChainOne s chainInfo = some s1) :
    s1.heroChainTurn = s.heroChainTurn ∧ s1.heroChainMaxTurns = s.heroChainMaxTurns ∧
    s1.heroChainPass = s.heroChainPass ∧ s1.arena = s.arena ∧
    TurnsKept chainInfo.turns s.nodes s1.nodes ∧
    (s1.heroChain = s.heroChain ∨
      ∃ p n, s1.heroChain = s.heroChain ++ [p] ∧ s1.nodes.node p = some n ∧
        n.turns = chainInfo.turns ∧ n.cost = chainInfo.cost) := by
  unfold addHeroChainOne at h
  cases hc : s.nodes.node chainInfo.carrierParent with
  | none => simp [hc] at h
  | some carrier =>
    simp only [hc] at h
    cases hg : getOrCreateNodeOpt s.nodes carrier.coord carrier.layer chainInfo.actor with
    | none =>
      simp only [hg, Option.some.injEq] at h
      subst h
      exact ⟨rfl, rfl, rfl, rfl, turnsKept_refl _ _, Or.inl rfl⟩
    | some res =>
      obtain ⟨exchangePtr, nodes1⟩ := res
      simp only [hg] at h
      have k1 := getOrCreateNodeOpt_turns chainInfo.turns _ _ _ _ _ _ hg
      cases hx : nodes1.node exchangePtr with
      | none => simp [hx] at h
      | some exchangeNode =>
        simp only [hx] at h
        by_cases ha : exchangeNode.action ≠ ENodeAction.UNKNOWN
        · rw [if_pos ha] at h
          simp only [Option.some.injEq] at h
          subst h
          exact ⟨rfl, rfl, rfl, rfl, k1, Or.inl rfl⟩
        · rw [if_neg ha] at h
          by_cases hb : exchangeNode.turns ≠ 255 ∧ exchangeNode.cost < chainInfo.cost
          · rw [if_pos hb] at h
            simp only [Option.some.injEq] at h
            subst h
            exact ⟨rfl, rfl, rfl, rfl, k1, Or.inl rfl⟩
          · rw [if_neg hb] at h
            cases hcm : commitExchangeNode nodes1 exchangePtr chainInfo with
            | none => simp [hcm] at h
            | some nodes2 =>
              simp only [hcm, Option.some.injEq] at h
              subst h
              obtain ⟨k2, n, hn, ht, hcost, _⟩ :=
                commitExchangeNode_spec nodes1 nodes2 exchangePtr chainInfo exchangeNode hx hcm
              exact ⟨rfl, rfl, rfl, rfl, turnsKept_trans k1 k2, Or.inr ⟨exchangePtr, n, rfl, hn, ht, hcost⟩⟩

/-- C16. For every carrier node and other node with a non-negative cost of the
other node and `0 ≤ carrier.moveRemains` (whatever the maximum movement of the
merged hero), the exchange candidate built by `calculateExchange` has
`cost ≥ carrier.cost`, and so has the node `addHeroChain` commits from it, whose
cost is the cost of the candidate; when `carrier.turns ≥ other.turns` the cost is
exactly `carrier.cost + other.cost / 1000`.  Costs are exact rationals. -/
theorem calculateExchange_cost (raw : ExchangeCandidate) (exchangeActor : ActorPtr)
    (maxMovePoints : Nat) (carrierPtr : NodePtr) (carrier : AIPathNode)
    (otherPtr : NodePtr) (other : AIPathNode)
    (hother : 0 ≤ other.cost) (hmove : 0 ≤ carrier.moveRemains) :
    carrier.cost ≤
      (calculateExchange raw exchangeActor maxMovePoints carrierPtr carrier otherPtr
        other).cost ∧
    (other.turns ≤ carrier.turns →
      (calculateExchange raw exchangeActor maxMovePoints carrierPtr carrier otherPtr
        other).cost = carrier.cost + other.cost / 1000) ∧
    ∀ (s s1 : AINodeStorage) (p : NodePtr),
      addHeroChainOne s (calculateExchange raw exchangeActor maxMovePoints carrierPtr carrier
        otherPtr other) = some s1 →
      s1.heroChain = s.heroChain ++ [p] →
      ∃ n, s1.nodes.node p = some n ∧
        n.cost = (calculateExchange raw exchangeActor maxMovePoints carrierPtr carrier
          otherPtr other).cost ∧ carrier.cost ≤ n.cost := by
  have hcost : carrier.cost ≤
      (calculateExchange raw exchangeActor maxMovePoints carrierPtr carrier otherPtr
        other).cost := by
    unfold calculateExchange
    simp only
    have h1 : (0 : ℚ) ≤ other.cost / 1000 := div_nonneg hother (by norm_num)
    by_cases ht : carrier.turns < other.turns
    · simp only [ht, if_true]
      have h2 : (0 : ℚ) ≤ (carrier.moveRemains : ℚ) / (maxMovePoints : ℚ) :=
        div_nonneg (by exact_mod_cast hmove) (by exact_mod_cast Nat.zero_le _)
      have h3 : (carrier.turns : ℚ) + 1 ≤ (other.turns : ℚ) := by exact_mod_cast ht
      linarith
    · simp only [ht, if_false]
      linarith
  refine ⟨hcost, ?_, ?_⟩
  · intro ht
    unfold calculateExchange
    simp only
    have : ¬ carrier.turns < other.turns := by omega
    simp only [this, if_false]
  · intro s s1 p h hp
    obtain ⟨_, _, _, _, _, hchain⟩ := addHeroChainOne_spec s s1 _ h
    rcases hchain with hsame | ⟨p1, n, hp1, hn, _, hc⟩
    · rw [hsame] at hp
      have := congrArg List.length hp
      simp at this
    · rw [hp1] at hp
      have hpp : p1 = p := by simpa using hp
      subst hpp
      exact ⟨n, hn, hc, by rw [hc]; exact hcost⟩

theorem chainStateAfter_eq :
    addHeroChainOne chainState chainCandidate = some chainStateAfter := by
  have hsome : (addHeroChainOne chainState chainCandidate).isSome = true := by decide
  unfold chainStateAfter
  cases h : addHeroChainOne chainState chainCandidate with
  | none =>
    rw [h] at hsome
    exact absurd hsome (by decide)
  | some s => rfl

theorem calculateExchange_cost_witness :
    chainStateAfter.heroChain = [meetingSlot 2] ∧
    (chainStateAfter.nodes.node (meetingSlot 2)).map
      (fun n => (n.action, n.turns, n.moveRemains, n.actor, n.chainOther))
      = some (ENodeAction.NORMAL, 0, 1000, some 16, some (meetingSlot 1)) ∧
    (meetingNode 0 1000).cost ≤ chainCandidate.cost ∧
    ((meetingNode 8 500).turns ≤ (meetingNode 0 1000).turns →
      chainCandidate.cost = (meetingNode 0 1000).cost + (meetingNode 8 500).cost / 1000) ∧
    ∃ n, chainStateAfter.nodes.node (meetingSlot 2) = some n ∧
      n.cost = chainCandidate.cost ∧ (meetingNode 0 1000).cost ≤ n.cost :=
  have h := calculateExchange_cost rawCandidate0 16 1500 (meetingSlot 0) (meetingNode 0 1000)
    (meetingSlot 1) (meetingNode 8 500) (le_refl _) (by decide)
  ⟨by decide, by decide, h.1, h.2.1,
    h.2.2 chainState chainStateAfter (meetingSlot 2) chainStateAfter_eq (by decide)⟩

/-! ### Turn cap of the chain pass -/

theorem increaseHeroChainTurnLimit_le (s : AINodeStorage)
    (h : s.heroChainTurn ≤ s.heroChainMaxTurns) :
    (increaseHeroChainTurnLimit s).2.heroChainTurn
      ≤ (increaseHeroChainTurnLimit s).2.heroChainMaxTurns := by
  unfold increaseHeroChainTurnLimit
  by_cases hge : s.heroChainTurn ≥ s.heroChainMaxTurns
  · simp only [hge, if_true]
    exact h
  · simp only [hge, if_false]
    omega

theorem increaseHeroChainTurnLimit_iterate (n : Nat) (s : AINodeStorage)
    (h : s.heroChainTurn ≤ s.heroChainMaxTurns) :
    ((fun t => (increaseHeroChainTurnLimit t).2)^[n] s).heroChainTurn
      ≤ ((fun t => (increaseHeroChainTurnLimit t).2)^[n] s).heroChainMaxTurns := by
  induction n generalizing s with
  | zero => exact h
  | succ n ih =>
    rw [Function.iterate_succ_apply]
    exact ih _ (increaseHeroChainTurnLimit_le s h)

theorem calculateExchange_turns (raw : ExchangeCandidate) (exchangeActor : ActorPtr)
    (maxMovePoints : Nat) (carrierPtr : NodePtr) (carrier : AIPathNode)
    (otherPtr : NodePtr) (other : AIPathNode) :
    (calculateExchange raw exchangeActor maxMovePoints carrierPtr carrier otherPtr
        other).turns = max carrier.turns other.turns := by
  unfold calculateExchange
  simp only
  by_cases ht : carrier.turns < other.turns
  · simp only [ht, if_true]
    omega
  · simp only [ht, if_false]
    omega

/-- A call of `calculateHeroChain(carrier, other, result)` appends nothing, or the
candidate `calculateExchange` builds from the two nodes. -/
theorem calculateHeroChainPair_candidate (sort : List SlotInfo → List SlotInfo)
    (raw : Nat → ChainActor) (rawCandidate : ExchangeCandidate) (nodes : AISharedStorage)
    (arena arena1 : ActorArena) (carrierPtr otherPtr : NodePtr)
    (result result1 : List ExchangeCandidate)
    (h : calculateHeroChainPair sort raw rawCandidate nodes arena carrierPtr otherPtr result
      = some (result1, arena1)) :
    result1 = result ∨
      ∃ (carrier other : AIPathNode) (newActor : ActorPtr) (mv : Nat),
        nodes.node carrierPtr = some carrier ∧ nodes.node otherPtr = some other ∧
        result1 = result ++
          [calculateExchange rawCandidate newActor mv carrierPtr carrier otherPtr other] := by
  unfold calculateHeroChainPair at h
  cases hc : nodes.node carrierPtr with
  | none => simp [hc] at h
  | some carrier =>
  cases ho : nodes.node otherPtr with
  | none => simp [hc, ho] at h
  | some other =>
  simp only [hc, ho] at h
  cases hca : carrier.actor with
  | none => simp [hca] at h
  | some pa =>
  cases hoa : other.actor with
  | none => simp [hca, hoa] at h
  | some pb =>
  simp only [hca, hoa] at h
  cases hx : arena.actors[pa]? with
  | none => simp [hx] at h
  | some x =>
  cases hy : arena.actors[pb]? with
  | none => simp [hx, hy] at h
  | some y =>
  simp only [hx, hy] at h
  by_cases hcond : carrierMayExchange carrier other x y = true
  · simp only [hcond, if_true] at h
    cases hce : ChainActor.canExchange sort arena pa pb with
    | none => simp [hce] at h
    | some res =>
      obtain ⟨b, arena2⟩ := res
      cases b with
      | false =>
        simp only [hce, Option.some.injEq, Prod.mk.injEq] at h
        exact Or.inl h.1.symm
      | true =>
        simp only [hce] at h
        cases hin : exchangeIsInefficient carrier other x y with
        | none => simp [hin] at h
        | some ineff =>
          cases ineff with
          | true =>
            simp only [hin, Option.some.injEq, Prod.mk.injEq] at h
            exact Or.inl h.1.symm
          | false =>
            simp only [hin] at h
            cases hex : ChainActor.exchange sort raw arena2 pa pb with
            | none => simp [hex] at h
            | some res2 =>
              obtain ⟨newActor, arena3⟩ := res2
              simp only [hex] at h
              cases hcand : exchangeCandidate rawCandidate arena3 newActor carrierPtr carrier
                  otherPtr other with
              | none => simp [hcand] at h
              | some c =>
                simp only [hcand, Option.some.injEq, Prod.mk.injEq] at h
                obtain ⟨mv, rfl⟩ := exchangeCandidate_eq rawCandidate arena3 newActor
                  carrierPtr carrier otherPtr other c hcand
                exact Or.inr ⟨carrier, other, newActor, mv, rfl, rfl, h.1.symm⟩
  · simp only [hcond, Bool.false_eq_true, if_false, Option.some.injEq, Prod.mk.injEq] at h
    exact Or.inl h.1.symm

theorem calculateHeroChainStep_candidate (sort : List SlotInfo → List SlotInfo)
    (raw : Nat → ChainActor) (rawCandidate : ExchangeCandidate) (st : ChainPassState)
    (nodes : AISharedStorage) (srcPtr nodePtr : NodePtr)
    (acc acc1 : List ExchangeCandidate × ActorArena)
    (h : calculateHeroChainStep sort raw rawCandidate st nodes srcPtr acc nodePtr = some acc1) :
    acc1.1 = acc.1 ∨
      ∃ c, acc1.1 = acc.1 ++ [c] ∧
        IsExchangeOf rawCandidate nodes st.heroChainTurn srcPtr c := by
  have hsame : ∀ {x : List ExchangeCandidate × ActorArena}, some acc = some x →
      x.1 = acc.1 ∨ ∃ c, x.1 = acc.1 ++ [c] ∧
        IsExchangeOf rawCandidate nodes st.heroChainTurn srcPtr c := by
    intro x hx
    cases hx
    exact Or.inl rfl
  unfold calculateHeroChainStep at h
  cases hs : nodes.node srcPtr with
  | none => simp [hs] at h
  | some srcNode =>
  cases hn : nodes.node nodePtr with
  | none => simp [hs, hn] at h
  | some node =>
  simp only [hs, hn] at h
  cases hna : node.actor with
  | none =>
    simp only [hna] at h
    exact hsame h
  | some nodeActorPtr =>
  simp only [hna] at h
  by_cases heq : nodePtr = srcPtr
  · rw [if_pos heq] at h
    exact hsame h
  · rw [if_neg heq] at h
    cases hsa : srcNode.actor with
    | none => simp [hsa] at h
    | some srcActorPtr =>
    simp only [hsa] at h
    cases hx : acc.2.actors[nodeActorPtr]? with
    | none => simp [hx] at h
    | some nodeActor =>
    cases hy : acc.2.actors[srcActorPtr]? with
    | none => simp [hx, hy] at h
    | some srcActor =>
    simp only [hx, hy] at h
    split_ifs at h with h1 h2 h3
    · exact hsame h
    · exact hsame h
    · exact hsame h
    · have hturn : node.turns ≤ st.heroChainTurn := by
        by_contra hgt
        exact h3 (Or.inl (by omega))
      obtain ⟨r1, a1⟩ := acc1
      rcases calculateHeroChainPair_candidate sort raw rawCandidate nodes acc.2 a1 srcPtr
        nodePtr acc.1 r1 h with hr | ⟨carrier, other, newActor, mv, hc, ho, hr⟩
      · exact Or.inl hr
      · rw [hn] at ho
        cases ho
        exact Or.inr ⟨_, hr, nodePtr, carrier, node, newActor, mv, hc, hn, hturn, rfl⟩

theorem calculateHeroChain_candidates (sort : List SlotInfo → List SlotInfo)
    (raw : Nat → ChainActor) (rawCandidate : ExchangeCandidate) (st : ChainPassState)
    (nodes : AISharedStorage) (srcPtr : NodePtr) (variants : List NodePtr) :
    ∀ (acc acc1 : List ExchangeCandidate × ActorArena),
      calculateHeroChain sort raw rawCandidate st nodes srcPtr variants acc = some acc1 →
      ∀ c ∈ acc1.1, c ∈ acc.1 ∨ IsExchangeOf rawCandidate nodes st.heroChainTurn srcPtr c := by
  induction variants with
  | nil =>
    intro acc acc1 h c hc
    simp only [calculateHeroChain, Option.some.injEq] at h
    subst h
    exact Or.inl hc
  | cons nodePtr variants ih =>
    intro acc acc1 h c hc
    simp only [calculateHeroChain] at h
    cases hstep : calculateHeroChainStep sort raw rawCandidate st nodes srcPtr acc nodePtr with
    | none => simp [hstep] at h
    | some acc2 =>
      simp only [hstep] at h
      rcases ih acc2 acc1 h c hc with hin | hnew
      · rcases calculateHeroChainStep_candidate sort raw rawCandidate st nodes srcPtr nodePtr
          acc acc2 hstep with heq | ⟨c1, heq, hc1⟩
        · rw [heq] at hin
          exact Or.inl hin
        · rw [heq, List.mem_append, List.mem_singleton] at hin
          rcases hin with hin | rfl
          · exact Or.inl hin
          · exact Or.inr hc1
      · exact Or.inr hnew

theorem calculateHeroChainCarriers_candidates (sort : List SlotInfo → List SlotInfo)
    (raw : Nat → ChainActor) (rawCandidate : ExchangeCandidate) (st : ChainPassState)
    (nodes : AISharedStorage) (existingChains carriers : List NodePtr) :
    ∀ (acc acc1 : List ExchangeCandidate × ActorArena),
      calculateHeroChainCarriers sort raw rawCandidate st nodes existingChains carriers acc
        = some acc1 →
      ∀ c ∈ acc1.1, c ∈ acc.1 ∨
        ∃ srcPtr ∈ carriers, IsExchangeOf rawCandidate nodes st.heroChainTurn srcPtr c := by
  induction carriers with
  | nil =>
    intro acc acc1 h c hc
    simp only [calculateHeroChainCarriers, Option.some.injEq] at h
    subst h
    exact Or.inl hc
  | cons nodePtr rest ih =>
    intro acc acc1 h c hc
    simp only [calculateHeroChainCarriers] at h
    cases hn : nodes.node nodePtr with
    | none => simp [hn] at h
    | some node =>
    simp only [hn] at h
    cases hna : node.actor with
    | none => simp [hna] at h
    | some actorPtr =>
    simp only [hna] at h
    cases hx : acc.2.actors[actorPtr]? with
    | none => simp [hx] at h
    | some actor =>
    simp only [hx] at h
    by_cases hm : actor.isMovable = true
    · simp only [hm, if_true] at h
      cases hcalc : calculateHeroChain sort raw rawCandidate st nodes nodePtr existingChains
          acc with
      | none => simp [hcalc] at h
      | some acc2 =>
        simp only [hcalc] at h
        rcases ih acc2 acc1 h c hc with hin | ⟨srcPtr, hsrc, hnew⟩
        · rcases calculateHeroChain_candidates sort raw rawCandidate st nodes nodePtr
            existingChains acc acc2 hcalc c hin with hold | hnew
          · exact Or.inl hold
          · exact Or.inr ⟨nodePtr, List.mem_cons_self _ _, hnew⟩
        · exact Or.inr ⟨srcPtr, List.mem_cons_of_mem _ hsrc, hnew⟩
    · simp only [hm, if_false] at h
      rcases ih acc acc1 h c hc with hin | ⟨srcPtr, hsrc, hnew⟩
      · exact Or.inl hin
      · exact Or.inr ⟨srcPtr, List.mem_cons_of_mem _ hsrc, hnew⟩

theorem existingChainsOf_mem (heroChainTurn : Nat) (nodes : AISharedStorage) (pos : int3)
    (layer : EPathfindingLayer) (p : NodePtr)
    (h : p ∈ existingChainsOf heroChainTurn pos layer (nodes pos layer)) :
    ∃ n, nodes.node p = some n ∧ n.turns ≤ heroChainTurn ∧
      n.action ≠ ENodeAction.UNKNOWN ∧ p.coord = pos ∧ p.layer = layer := by
  unfold existingChainsOf at h
  obtain ⟨e, he, rfl⟩ := List.mem_map.mp h
  obtain ⟨hmem, hcond⟩ := List.mem_filter.mp he
  obtain ⟨i, n⟩ := e
  have hget := List.mk_mem_enum_iff_getElem?.mp hmem
  simp only [Bool.and_eq_true, decide_eq_true_eq] at hcond
  exact ⟨n, by simpa [AISharedStorage.node] using hget, hcond.1, hcond.2, rfl, rfl⟩

theorem removeIfLoop_mem
    (pred : List ExchangeCandidate → Nat → ExchangeCandidate → Option Bool)
    (rest : List ExchangeCandidate) :
    ∀ (kept stale out : List ExchangeCandidate),
      removeIfLoop pred kept stale rest = some out →
      ∀ x ∈ out, x ∈ kept ∨ x ∈ rest := by
  induction rest with
  | nil =>
    intro kept stale out h x hx
    simp only [removeIfLoop, Option.some.injEq] at h
    subst h
    exact Or.inl hx
  | cons y rest ih =>
    intro kept stale out h x hx
    simp only [removeIfLoop] at h
    cases hp : pred (kept ++ (stale ++ y :: rest)) (kept.length + stale.length) y with
    | none => simp [hp] at h
    | some b =>
      cases b with
      | true =>
        simp only [hp] at h
        rcases ih kept (stale ++ [y]) out h x hx with hk | hr
        · exact Or.inl hk
        · exact Or.inr (List.mem_cons_of_mem _ hr)
      | false =>
        simp only [hp] at h
        cases stale with
        | nil =>
          simp only at h
          rcases ih (kept ++ [y]) [] out h x hx with hk | hr
          · rcases List.mem_append.mp hk with hk | hk
            · exact Or.inl hk
            · simp only [List.mem_singleton] at hk
              subst hk
              exact Or.inr (List.mem_cons_self _ _)
          · exact Or.inr (List.mem_cons_of_mem _ hr)
        | cons z staleTail =>
          simp only at h
          rcases ih (kept ++ [y]) _ out h x hx with hk | hr
          · rcases List.mem_append.mp hk with hk | hk
            · exact Or.inl hk
            · simp only [List.mem_singleton] at hk
              subst hk
              exact Or.inr (List.mem_cons_self _ _)
          · exact Or.inr (List.mem_cons_of_mem _ hr)

theorem turnsKept_mono {b1 b2 : Nat} {nodes nodes1 : AISharedStorage} (hb : b1 ≤ b2)
    (h : TurnsKept b1 nodes nodes1) : TurnsKept b2 nodes nodes1 := by
  intro q n hq
  obtain ⟨n1, hn1, ht⟩ := h q n hq
  refine ⟨n1, hn1, ?_⟩
  rcases ht with ht | ht
  · exact Or.inl ht
  · exact Or.inr (by omega)

theorem addHeroChain_spec (bound : Nat) (result : List ExchangeCandidate) :
    ∀ (s s1 : AINodeStorage), (∀ c ∈ result, c.turns ≤ bound) →
      HeroChainTurnsBounded bound s → addHeroChain s result = some s1 →
      s1.heroChainTurn = s.heroChainTurn ∧ s1.heroChainMaxTurns = s.heroChainMaxTurns ∧
      s1.heroChainPass = s.heroChainPass ∧ s1.chainMask = s.chainMask ∧
      HeroChainTurnsBounded bound s1 := by
  induction result with
  | nil =>
    intro s s1 _ hb h
    simp only [addHeroChain, Option.some.injEq] at h
    subst h
    exact ⟨rfl, rfl, rfl, rfl, hb⟩
  | cons c rest ih =>
    intro s s1 hall hb h
    simp only [addHeroChain] at h
    cases hone : addHeroChainOne s c with
    | none => simp [hone] at h
    | some s2 =>
      simp only [hone] at h
      obtain ⟨e1, e2, e3, _, hkept, hchain⟩ := addHeroChainOne_spec s s2 c hone
      have e4 : s2.chainMask = s.chainMask := by
        unfold addHeroChainOne at hone
        revert hone
        cases s.nodes.node c.carrierParent with
        | none => simp
        | some carrier =>
          simp only
          cases getOrCreateNodeOpt s.nodes carrier.coord carrier.layer c.actor with
          | none =>
            simp only [Option.some.injEq]
            rintro rfl
            rfl
          | some res =>
            obtain ⟨exchangePtr, nodes1⟩ := res
            simp only
            cases nodes1.node exchangePtr with
            | none => simp
            | some exchangeNode =>
              simp only
              split_ifs
              · simp only [Option.some.injEq]
                rintro rfl
                rfl
              · simp only [Option.some.injEq]
                rintro rfl
                rfl
              · cases commitExchangeNode nodes1 exchangePtr c with
                | none => simp
                | some nodes2 =>
                  simp only [Option.some.injEq]
                  rintro rfl
                  rfl
      have hc : c.turns ≤ bound := hall c (List.mem_cons_self _ _)
      have hkept2 := turnsKept_mono hc hkept
      have hb2 : HeroChainTurnsBounded bound s2 := by
        intro p hp
        have hold : ∀ q ∈ s.heroChain, ∃ n, s2.nodes.node q = some n ∧ n.turns ≤ bound := by
          intro q hq
          obtain ⟨n, hn, ht⟩ := hb q hq
          obtain ⟨n1, hn1, ht1⟩ := hkept2 q n hn
          exact ⟨n1, hn1, by omega⟩
        rcases hchain with hsame | ⟨p1, n, hp1, hn, ht, _⟩
        · rw [hsame] at hp
          exact hold p hp
        · rw [hp1, List.mem_append, List.mem_singleton] at hp
          rcases hp with hp | rfl
          · exact hold p hp
          · exact ⟨n, hn, by omega⟩
      obtain ⟨f1, f2, f3, f4, hb3⟩ :=
        ih s2 s1 (fun c hc => hall c (List.mem_cons_of_mem _ hc)) hb2 h
      exact ⟨f1.trans e1, f2.trans e2, f3.trans e3, f4.trans e4, hb3⟩

theorem calculateHeroChainTile_spec (sort : List SlotInfo → List SlotInfo)
    (raw : Nat → ChainActor) (rawCandidate : ExchangeCandidate)
    (heroFightingStrength : ActorPtr → ℚ) (storageBefore : Bool) (layer : EPathfindingLayer)
    (s s1 : AINodeStorage) (pos : int3)
    (hb : HeroChainTurnsBounded s.heroChainTurn s)
    (h : calculateHeroChainTile sort raw rawCandidate heroFightingStrength storageBefore layer
      s pos = some s1) :
    s1.heroChainTurn = s.heroChainTurn ∧ s1.heroChainMaxTurns = s.heroChainMaxTurns ∧
    s1.heroChainPass = s.heroChainPass ∧ s1.chainMask = s.chainMask ∧
    HeroChainTurnsBounded s.heroChainTurn s1 := by
  unfold calculateHeroChainTile at h
  simp only at h
  cases hcar : calculateHeroChainCarriers sort raw rawCandidate
      { heroChainTurn := s.heroChainTurn, chainMask := s.chainMask } s.nodes
      (existingChainsOf s.heroChainTurn pos layer (s.nodes pos layer))
      (existingChainsOf s.heroChainTurn pos layer (s.nodes pos layer)) ([], s.arena) with
  | none => simp [hcar] at h
  | some res =>
    obtain ⟨newChains, arena1⟩ := res
    simp only [hcar] at h
    cases hcl : cleanupInefectiveChains { s with arena := arena1 } heroFightingStrength
        storageBefore newChains with
    | none => simp [hcl] at h
    | some newChains1 =>
      simp only [hcl] at h
      have hturns : ∀ c ∈ newChains1, c.turns ≤ s.heroChainTurn := by
        intro c hc
        have hc1 : c ∈ newChains := by
          rcases removeIfLoop_mem _ newChains [] [] newChains1 hcl c hc with hk | hr
          · simp at hk
          · exact hr
        rcases calculateHeroChainCarriers_candidates sort raw rawCandidate _ s.nodes _ _
          ([], s.arena) (newChains, arena1) hcar c hc1 with hnil | ⟨srcPtr, hsrc, hex⟩
        · simp at hnil
        · obtain ⟨otherPtr, carrier, other, newActor, mv, hcn, _, hot, rfl⟩ := hex
          obtain ⟨n, hn, hnt, _⟩ := existingChainsOf_mem s.heroChainTurn s.nodes pos layer
            srcPtr hsrc
          rw [hcn] at hn
          cases hn
          rw [calculateExchange_turns]
          simp only at hot
          exact max_le hnt hot
      exact addHeroChain_spec s.heroChainTurn newChains1 { s with arena := arena1 } s1 hturns
        hb h

theorem calculateHeroChainLayer_spec (sort : List SlotInfo → List SlotInfo)
    (raw : Nat → ChainActor) (rawCandidate : ExchangeCandidate)
    (heroFightingStrength : ActorPtr → ℚ) (storageBefore : Bool) (layer : EPathfindingLayer)
    (tiles : List int3) :
    ∀ (s s1 : AINodeStorage), HeroChainTurnsBounded s.heroChainTurn s →
      calculateHeroChainLayer sort raw rawCandidate heroFightingStrength storageBefore layer
        tiles s = some s1 →
      s1.heroChainTurn = s.heroChainTurn ∧ s1.heroChainMaxTurns = s.heroChainMaxTurns ∧
      s1.heroChainPass = s.heroChainPass ∧ s1.chainMask = s.chainMask ∧
      HeroChainTurnsBounded s.heroChainTurn s1 := by
  induction tiles with
  | nil =>
    intro s s1 hb h
    simp only [calculateHeroChainLayer, Option.some.injEq] at h
    subst h
    exact ⟨rfl, rfl, rfl, rfl, hb⟩
  | cons pos tiles ih =>
    intro s s1 hb h
    simp only [calculateHeroChainLayer] at h
    cases ht : calculateHeroChainTile sort raw rawCandidate heroFightingStrength storageBefore
        layer s pos with
    | none => simp [ht] at h
    | some s2 =>
      simp only [ht] at h
      obtain ⟨e1, e2, e3, e4, hb2⟩ := calculateHeroChainTile_spec sort raw rawCandidate
        heroFightingStrength storageBefore layer s s2 pos hb ht
      obtain ⟨f1, f2, f3, f4, hb3⟩ := ih s2 s1 (by rw [e1]; exact hb2) h
      exact ⟨f1.trans e1, f2.trans e2, f3.trans e3, f4.trans e4, by rw [← e1]; exact hb3⟩

/-- C17. Starting from `clear()`, after any number of calls of
`increaseHeroChainTurnLimit` `heroChainTurn ≤ heroChainMaxTurns`; a CHAIN pass
(`calculateHeroChain()`) changes neither counter, and every exchange node it
commits (the nodes of `heroChain` after the pass) has `turns ≤ heroChainTurn`,
hence `turns ≤ heroChainMaxTurns`. -/
theorem calculateHeroChainPass_turn_cap (sort : List SlotInfo → List SlotInfo)
    (raw : Nat → ChainActor) (rawCandidate : ExchangeCandidate)
    (heroFightingStrength : ActorPtr → ℚ) (storageBefore : Bool) (tiles : List int3) :
    (∀ (s0 : AINodeStorage) (n : Nat),
      ((fun t => (increaseHeroChainTurnLimit t).2)^[n] s0.clear).heroChainTurn
        ≤ ((fun t => (increaseHeroChainTurnLimit t).2)^[n] s0.clear).heroChainMaxTurns) ∧
    ∀ (s s1 : AINodeStorage) (changed : Bool),
      s.heroChainTurn ≤ s.heroChainMaxTurns →
      calculateHeroChainPass sort raw rawCandidate heroFightingStrength storageBefore tiles s
        = some (changed, s1) →
      s1.heroChainTurn = s.heroChainTurn ∧ s1.heroChainMaxTurns = s.heroChainMaxTurns ∧
      ∀ p ∈ s1.heroChain, ∃ n, s1.nodes.node p = some n ∧
        n.turns ≤ s1.heroChainTurn ∧ n.turns ≤ s1.heroChainMaxTurns := by
  constructor
  · intro s0 n
    exact increaseHeroChainTurnLimit_iterate n s0.clear (by simp [AINodeStorage.clear])
  · intro s s1 changed hle h
    unfold calculateHeroChainPass at h
    simp only at h
    cases hland : calculateHeroChainLayer sort raw rawCandidate heroFightingStrength
        storageBefore EPathfindingLayer.LAND tiles
        { s with heroChainPass := EHeroChainPass.CHAIN, heroChain := [] } with
    | none => simp [hland] at h
    | some s2 =>
      simp only [hland] at h
      cases hsail : calculateHeroChainLayer sort raw rawCandidate heroFightingStrength
          storageBefore EPathfindingLayer.SAIL tiles s2 with
      | none => simp [hsail] at h
      | some s3 =>
        simp only [hsail, Option.some.injEq, Prod.mk.injEq] at h
        obtain ⟨_, rfl⟩ := h
        obtain ⟨e1, e2, _, _, hb2⟩ := calculateHeroChainLayer_spec sort raw rawCandidate
          heroFightingStrength storageBefore EPathfindingLayer.LAND tiles _ s2
          (by intro p hp; simp at hp) hland
        obtain ⟨f1, f2, _, _, hb3⟩ := calculateHeroChainLayer_spec sort raw rawCandidate
          heroFightingStrength storageBefore EPathfindingLayer.SAIL tiles s2 s3
          (by rw [e1]; exact hb2) hsail
        simp only at e1 e2 hb2
        refine ⟨f1.trans e1, f2.trans e2, ?_⟩
        intro p hp
        obtain ⟨n, hn, ht⟩ := hb3 p hp
        have h1 : s3.heroChainTurn = s.heroChainTurn := f1.trans e1
        have h2 : s3.heroChainMaxTurns = s.heroChainMaxTurns := f2.trans e2
        exact ⟨n, hn, by omega, by omega⟩

theorem chainPassResult_eq : chainPassResult = some (true, chainStateChained) := by
  have hsome : chainPassResult.map (fun r => r.1) = some true := by decide
  unfold chainStateChained
  cases h : chainPassResult with
  | none =>
    rw [h] at hsome
    exact absurd hsome (by decide)
  | some r =>
    rw [h] at hsome
    obtain ⟨b, s⟩ := r
    simp only [Option.map_some', Option.some.injEq] at hsome
    subst hsome
    rfl

theorem calculateHeroChainPass_turn_cap_witness :
    ((fun t => (increaseHeroChainTurnLimit t).2)^[3] chainState.clear).heroChainTurn
      ≤ ((fun t => (increaseHeroChainTurnLimit t).2)^[3] chainState.clear).heroChainMaxTurns ∧
    chainState.heroChainTurn ≤ chainState.heroChainMaxTurns ∧
    chainStateChained.heroChain = [meetingSlot 2] ∧
    (chainStateChained.nodes.node (meetingSlot 2)).map (fun n => (n.turns, n.actor))
      = some (0, some 16) ∧
    chainStateChained.heroChainTurn = chainState.heroChainTurn ∧
    chainStateChained.heroChainMaxTurns = chainState.heroChainMaxTurns ∧
    ∀ p ∈ chainStateChained.heroChain, ∃ n, chainStateChained.nodes.node p = some n ∧
      n.turns ≤ chainStateChained.heroChainTurn ∧
      n.turns ≤ chainStateChained.heroChainMaxTurns :=
  have h := calculateHeroChainPass_turn_cap sortByPower (fun _ => rawActor) rawCandidate0
    (fun _ => 0) false [⟨3, 3, 0⟩]
  ⟨h.1 chainState 3, by decide, by decide, by decide,
    h.2 chainState chainStateChained true (by decide) chainPassResult_eq⟩

/-! ### Removal of dominated exchange candidates -/

/-- C18 fails on the code for a candidate on the SAIL layer.  On the water tile
(5, 5, 0) the SAIL layer holds a committed node of the battle variant of the
merged actor (same chain mask 3, army value 25584 without loss, cost 1), which
`hasBetterChain` finds better than the candidate (army loss 100, cost 2); but
`cleanupInefectiveChains` reads the LAND layer of the tile, finds nothing there,
and keeps the candidate. -/
theorem cleanupInefectiveChains_keeps_dominated :
    sailState.heroChainPass = EHeroChainPass.CHAIN ∧
    sailCandidate.layer = EPathfindingLayer.SAIL ∧
    (sailState.arena.actors[16]?).map (fun a => (a.chainMask, a.armyValue))
      = some (3, 25584) ∧
    (sailState.arena.actors[17]?).map (fun a => (a.chainMask, a.armyValue, a.hero.isSome))
      = some (3, 25584, true) ∧
    hasBetterChain sailState.heroChainPass (fun _ => 0) sailState.arena
      sailCandidate.toAIPathNode
      ((sailState.nodes sailCandidate.coord sailCandidate.layer).map
        (fun node => (false, node))) = some true ∧
    cleanupInefectiveChains sailState (fun _ => 0) false [sailCandidate]
      = some [sailCandidate] :=
  ⟨by decide, by decide, by decide, by decide, by decide, by decide⟩

theorem betterChainNode_before (heroChainPass : EHeroChainPass)
    (heroFightingStrength : ActorPtr → ℚ) (arena : ActorArena) (candidateNode : AIPathNode)
    (b b1 : Bool) (node : AIPathNode) (hpass : heroChainPass ≠ EHeroChainPass.FINAL) :
    betterChainNode heroChainPass heroFightingStrength arena candidateNode b node =
      betterChainNode heroChainPass heroFightingStrength arena candidateNode b1 node := by
  unfold betterChainNode
  simp only [hpass, false_and, if_false]

theorem hasBetterChain_false_iff (heroChainPass : EHeroChainPass)
    (heroFightingStrength : ActorPtr → ℚ) (arena : ActorArena) (candidateNode : AIPathNode)
    (chains : List (Bool × AIPathNode)) :
    hasBetterChain heroChainPass heroFightingStrength arena candidateNode chains = some false ↔
      ∀ e ∈ chains,
        betterChainNode heroChainPass heroFightingStrength arena candidateNode e.1 e.2
          = some false := by
  induction chains with
  | nil => simp [hasBetterChain]
  | cons e rest ih =>
    obtain ⟨b, node⟩ := e
    simp only [hasBetterChain, List.mem_cons, forall_eq_or_imp]
    cases hb : betterChainNode heroChainPass heroFightingStrength arena candidateNode b node with
    | none => simp
    | some r =>
      cases r with
      | true => simp
      | false => simpa using ih

/-- Every element `remove_if` keeps was tested, with the answer `false`, against a
vector that held every element kept in the end. -/
theorem removeIfLoop_tested
    (pred : List ExchangeCandidate → Nat → ExchangeCandidate → Option Bool)
    (rest : List ExchangeCandidate) :
    ∀ (kept stale out : List ExchangeCandidate),
      removeIfLoop pred kept stale rest = some out →
      ∀ x ∈ out, x ∈ kept ∨
        ∃ view i, pred view i x = some false ∧ ∀ y ∈ out, y ∈ view := by
  induction rest with
  | nil =>
    intro kept stale out h x hx
    simp only [removeIfLoop, Option.some.injEq] at h
    subst h
    exact Or.inl hx
  | cons y rest ih =>
    intro kept stale out h x hx
    have hmem := removeIfLoop_mem pred (y :: rest) kept stale out h
    simp only [removeIfLoop] at h
    cases hp : pred (kept ++ (stale ++ y :: rest)) (kept.length + stale.length) y with
    | none => simp [hp] at h
    | some b =>
      have hview : ∀ z ∈ out, z ∈ kept ++ (stale ++ y :: rest) := by
        intro z hz
        rcases hmem z hz with hk | hr
        · exact List.mem_append_left _ hk
        · exact List.mem_append_right _ (List.mem_append_right _ hr)
      cases b with
      | true =>
        simp only [hp] at h
        exact ih kept (stale ++ [y]) out h x hx
      | false =>
        simp only [hp] at h
        have hnew : ∀ stale1, removeIfLoop pred (kept ++ [y]) stale1 rest = some out →
            x ∈ kept ∨ ∃ view i, pred view i x = some false ∧ ∀ y ∈ out, y ∈ view := by
          intro stale1 h1
          rcases ih (kept ++ [y]) stale1 out h1 x hx with hk | hv
          · rcases List.mem_append.mp hk with hk | hk
            · exact Or.inl hk
            · simp only [List.mem_singleton] at hk
              subst hk
              exact Or.inr ⟨_, _, hp, hview⟩
          · exact Or.inr hv
        cases stale with
        | nil => exact hnew _ h
        | cons z staleTail => exact hnew _ h

/-- What `cleanupInefectiveChains` does achieve outside the FINAL pass: every
candidate it keeps is a candidate of the batch, is not dominated by a node of
the LAND layer of its tile, and is not dominated by a candidate that is kept. -/
theorem cleanupInefectiveChains_sound (s : AINodeStorage)
    (heroFightingStrength : ActorPtr → ℚ) (storageBefore : Bool)
    (result out : List ExchangeCandidate)
    (hpass : s.heroChainPass ≠ EHeroChainPass.FINAL)
    (h : cleanupInefectiveChains s heroFightingStrength storageBefore result = some out) :
    ∀ x ∈ out, x ∈ result ∧
      hasBetterChain s.heroChainPass heroFightingStrength s.arena x.toAIPathNode
        ((s.nodes x.coord EPathfindingLayer.LAND).map (fun node => (storageBefore, node)))
        = some false ∧
      ∀ i, hasBetterChain s.heroChainPass heroFightingStrength s.arena x.toAIPathNode
        (batchRange out i) = some false := by
  intro x hx
  unfold cleanupInefectiveChains at h
  have hin : x ∈ result := by
    rcases removeIfLoop_mem _ result [] [] out h x hx with hk | hr
    · simp at hk
    · exact hr
  rcases removeIfLoop_tested _ result [] [] out h x hx with hk | ⟨view, i, hp, hview⟩
  · simp at hk
  · unfold isInefectiveChain at hp
    simp only at hp
    cases h1 : hasBetterChain s.heroChainPass heroFightingStrength s.arena x.toAIPathNode
        ((s.nodes x.coord EPathfindingLayer.LAND).map (fun node => (storageBefore, node))) with
    | none => simp [h1] at hp
    | some b =>
      cases b with
      | true => simp [h1] at hp
      | false =>
        simp only [h1] at hp
        refine ⟨hin, rfl, ?_⟩
        intro j
        rw [hasBetterChain_false_iff] at hp ⊢
        intro e he
        unfold batchRange at he
        obtain ⟨e1, he1, rfl⟩ := List.mem_map.mp he
        obtain ⟨k, y⟩ := e1
        have hy : y ∈ out := by
          have := List.mk_mem_enum_iff_getElem?.mp he1
          exact List.getElem?_mem this
        obtain ⟨k1, hk1⟩ := List.getElem?_of_mem (hview y hy)
        have hmem1 : (decide (k1 < i), y.toAIPathNode) ∈ batchRange view i := by
          unfold batchRange
          exact List.mem_map.mpr ⟨(k1, y), List.mk_mem_enum_iff_getElem?.mpr hk1, rfl⟩
        have := hp _ hmem1
        simp only at this ⊢
        rw [betterChainNode_before _ _ _ _ _ (decide (k1 < i)) _ hpass]
        exact this

/-! ### Town portal: which towns get a node -/

theorem minElementByFunLoop_min {α : Type} (f : α → Int) (xs : List α) :
    ∀ best : α, (minElementByFunLoop f xs best = best ∨ minElementByFunLoop f xs best ∈ xs) ∧
      f (minElementByFunLoop f xs best) ≤ f best ∧
      ∀ t ∈ xs, f (minElementByFunLoop f xs best) ≤ f t := by
  induction xs with
  | nil =>
    intro best
    simp [minElementByFunLoop]
  | cons x xs ih =>
    intro best
    simp only [minElementByFunLoop]
    by_cases hx : f x < f best
    · simp only [hx, if_true]
      obtain ⟨h1, h2, h3⟩ := ih x
      refine ⟨Or.inr ?_, by omega, ?_⟩
      · rcases h1 with h1 | h1
        · rw [h1]
          exact List.mem_cons_self _ _
        · exact List.mem_cons_of_mem _ h1
      · intro t ht
        rcases List.mem_cons.mp ht with rfl | ht
        · exact h2
        · exact h3 t ht
    · simp only [hx, if_false]
      obtain ⟨h1, h2, h3⟩ := ih best
      refine ⟨?_, h2, ?_⟩
      · rcases h1 with h1 | h1
        · exact Or.inl h1
        · exact Or.inr (List.mem_cons_of_mem _ h1)
      · intro t ht
        rcases List.mem_cons.mp ht with rfl | ht
        · omega
        · exact h3 t ht

/-- The element `minElementByFun` returns is an element of the range with the
least value. -/
theorem minElementByFun_min {α : Type} (f : α → Int) (l : List α) (r : α)
    (h : minElementByFun f l = some r) : r ∈ l ∧ ∀ t ∈ l, f r ≤ f t := by
  cases l with
  | nil => simp [minElementByFun] at h
  | cons x xs =>
    simp only [minElementByFun, Option.some.injEq] at h
    obtain ⟨h1, h2, h3⟩ := minElementByFunLoop_min f xs x
    rw [h] at h1 h2 h3
    constructor
    · rcases h1 with h1 | h1
      · rw [h1]
        exact List.mem_cons_self _ _
      · exact List.mem_cons_of_mem _ h1
    · intro t ht
      rcases List.mem_cons.mp ht with rfl | ht
      · exact h2
      · exact h3 t ht

theorem getBestInitialNodeStep_advanced (finder : TowmPortalFinder) (nodes : AISharedStorage)
    (arena : ActorArena) (t1 t2 : CGTownInstance) (bestNode : Option NodePtr)
    (nodePtr : NodePtr) (hlevel : SecSkillLevel.ADVANCED ≤ finder.townPortalSkillLevel) :
    getBestInitialNodeStep finder nodes arena t1 bestNode nodePtr =
      getBestInitialNodeStep finder nodes arena t2 bestNode nodePtr := by
  have hr : ∀ (node : AIPathNode) (t : CGTownInstance),
      isTownInRange finder node t = some true := by
    intro node t
    unfold isTownInRange
    have : ¬ finder.townPortalSkillLevel < SecSkillLevel.ADVANCED := by omega
    simp only [this, if_false]
  unfold getBestInitialNodeStep
  cases nodes.node nodePtr with
  | none => rfl
  | some node => simp only [hr]

theorem getBestInitialNode_advanced (finder : TowmPortalFinder) (nodes : AISharedStorage)
    (arena : ActorArena) (t1 t2 : CGTownInstance)
    (hlevel : SecSkillLevel.ADVANCED ≤ finder.townPortalSkillLevel)
    (initialNodes : List NodePtr) :
    ∀ bestNode : Option NodePtr,
      getBestInitialNodeForTownPortal finder nodes arena t1 initialNodes bestNode =
        getBestInitialNodeForTownPortal finder nodes arena t2 initialNodes bestNode := by
  induction initialNodes with
  | nil =>
    intro bestNode
    rfl
  | cons p rest ih =>
    intro bestNode
    simp only [getBestInitialNodeForTownPortal]
    rw [getBestInitialNodeStep_advanced finder nodes arena t1 t2 bestNode p hlevel]
    cases getBestInitialNodeStep finder nodes arena t2 bestNode p with
    | none => rfl
    | some b => exact ih b

theorem getBestInitialNodeStep_basic (finder : TowmPortalFinder) (nodes : AISharedStorage)
    (arena : ActorArena) (town : CGTownInstance) (bestNode bestNode1 : Option NodePtr)
    (nodePtr : NodePtr) (hlevel : finder.townPortalSkillLevel < SecSkillLevel.ADVANCED)
    (h : getBestInitialNodeStep finder nodes arena town bestNode nodePtr = some bestNode1) :
    bestNode1 = bestNode ∨
      (bestNode1 = some nodePtr ∧ ∃ node, nodes.node nodePtr = some node ∧
        town ∈ finder.targetTowns ∧ ∀ t ∈ finder.targetTowns,
          node.coord.dist2dSQ town.visitablePos ≤ node.coord.dist2dSQ t.visitablePos) := by
  unfold getBestInitialNodeStep at h
  cases hn : nodes.node nodePtr with
  | none => simp [hn] at h
  | some node =>
    simp only [hn] at h
    cases hsrc : isTownPortalSource finder arena node with
    | none => simp [hsrc] at h
    | some b =>
      cases b with
      | false =>
        simp only [hsrc, Option.some.injEq] at h
        exact Or.inl h.symm
      | true =>
        simp only [hsrc] at h
        cases hr : isTownInRange finder node town with
        | none => simp [hr] at h
        | some b1 =>
          cases b1 with
          | false =>
            simp only [hr, Option.some.injEq] at h
            exact Or.inl h.symm
          | true =>
            simp only [hr] at h
            have hnear : town ∈ finder.targetTowns ∧ ∀ t ∈ finder.targetTowns,
                node.coord.dist2dSQ town.visitablePos ≤ node.coord.dist2dSQ t.visitablePos := by
              unfold isTownInRange at hr
              simp only [hlevel, if_true] at hr
              cases hm : minElementByFun
                  (fun t : CGTownInstance => node.coord.dist2dSQ t.visitablePos)
                  finder.targetTowns with
              | none => simp [hm] at hr
              | some nearest =>
                simp only [hm, Option.some.injEq, decide_eq_true_eq] at hr
                subst hr
                exact minElementByFun_min _ _ _ hm
            cases bestNode with
            | none =>
              simp only [Option.some.injEq] at h
              exact Or.inr ⟨h.symm, node, rfl, hnear⟩
            | some best =>
              simp only at h
              cases hb : nodes.node best with
              | none => simp [hb] at h
              | some bestN =>
                simp only [hb] at h
                by_cases hc : bestN.cost > node.cost
                · simp only [hc, if_true, Option.some.injEq] at h
                  exact Or.inr ⟨h.symm, node, rfl, hnear⟩
                · simp only [hc, if_false, Option.some.injEq] at h
                  exact Or.inl h.symm

theorem getBestInitialNode_basic (finder : TowmPortalFinder) (nodes : AISharedStorage)
    (arena : ActorArena) (town : CGTownInstance)
    (hlevel : finder.townPortalSkillLevel < SecSkillLevel.ADVANCED)
    (initialNodes : List NodePtr) :
    ∀ (bestNode : Option NodePtr) (p : NodePtr),
      getBestInitialNodeForTownPortal finder nodes arena town initialNodes bestNode
        = some (some p) →
      bestNode = some p ∨ IsNearestSource finder nodes initialNodes town p := by
  induction initialNodes with
  | nil =>
    intro bestNode p h
    simp only [getBestInitialNodeForTownPortal, Option.some.injEq] at h
    exact Or.inl h
  | cons q rest ih =>
    intro bestNode p h
    simp only [getBestInitialNodeForTownPortal] at h
    cases hstep : getBestInitialNodeStep finder nodes arena town bestNode q with
    | none => simp [hstep] at h
    | some b =>
      simp only [hstep] at h
      have hmono : IsNearestSource finder nodes rest town p →
          IsNearestSource finder nodes (q :: rest) town p := by
        rintro ⟨node, h1, h2, h3⟩
        exact ⟨node, h1, List.mem_cons_of_mem _ h2, h3⟩
      rcases ih b p h with hb | hnear
      · rcases getBestInitialNodeStep_basic finder nodes arena town bestNode b q hlevel hstep
          with hsame | ⟨hq, node, hn, hnear⟩
        · rw [hsame] at hb
          exact Or.inl hb
        · rw [hq] at hb
          simp only [Option.some.injEq] at hb
          subst hb
          exact Or.inr ⟨node, hn, List.mem_cons_self _ _, hnear⟩
      · exact Or.inr (hmono hnear)

theorem createTownPortalNode_source (finder : TowmPortalFinder) (s : AINodeStorage)
    (initialNodes : List NodePtr) (town : CGTownInstance) (q : NodePtr)
    (nodes1 : AISharedStorage)
    (h : createTownPortalNode finder s initialNodes town = some (some q, nodes1)) :
    ∃ p, getBestInitialNodeForTownPortal finder s.nodes s.arena town initialNodes none
      = some (some p) := by
  unfold createTownPortalNode at h
  cases hb : getBestInitialNodeForTownPortal finder s.nodes s.arena town initialNodes none with
  | none => simp [hb] at h
  | some b =>
    cases b with
    | none => simp [hb] at h
    | some p => exact ⟨p, rfl⟩

/-- C19 fails as stated: a hero with advanced town portal, standing next to
`nearTown` and far from `farTown`, gets a teleport node for both towns (the
vector of initial nodes grows by the nodes at (4, 3, 0) and (30, 30, 0)). -/
theorem calculateTownPortalTeleportations_advanced :
    (portalFinder SecSkillLevel.ADVANCED).townPortalSkillLevel = SecSkillLevel.ADVANCED ∧
    int3.dist2dSQ ⟨3, 3, 0⟩ nearTown.visitablePos = 1 ∧
    int3.dist2dSQ ⟨3, 3, 0⟩ farTown.visitablePos = 1458 ∧
    (calculateTownPortalTeleportations (portalEnv SecSkillLevel.ADVANCED [nearTown, farTown])
        portalState [meetingSlot 0]).map (fun r => r.2)
      = some [meetingSlot 0, ⟨⟨4, 3, 0⟩, EPathfindingLayer.LAND, 0⟩,
          ⟨⟨30, 30, 0⟩, EPathfindingLayer.LAND, 0⟩] ∧
    (calculateTownPortalTeleportations (portalEnv SecSkillLevel.ADVANCED [nearTown, farTown])
        portalState [meetingSlot 0]).map
      (fun r => (r.1.nodes.node ⟨⟨30, 30, 0⟩, EPathfindingLayer.LAND, 0⟩).map
        (fun n => (n.action, n.actor, n.moveRemains, n.theNodeBefore)))
      = some (some (ENodeAction.TELEPORT_NORMAL, some 2, 200, some (meetingSlot 0))) ∧
    (calculateTownPortalTeleportations (portalEnv SecSkillLevel.ADVANCED [nearTown, farTown])
        portalState [meetingSlot 0]).map
      (fun r => (r.1.nodes.node ⟨⟨30, 30, 0⟩, EPathfindingLayer.LAND, 0⟩).map
        (fun n => n.specialAction))
      = some (some (some (SpecialAction.townPortal 2))) :=
  ⟨by decide, by decide, by decide, by decide, by decide, by decide⟩

/-- C19 (amended). During town-portal enumeration for an actor: if the town-portal
school level of the hero is advanced or expert, the source node of a teleport
does not depend on the target town, so a teleport node is attempted for every
eligible town alike; for the lower levels (none or basic) a node is created for
a town only from a source node to which that town is the Euclidean-closest of
the target towns. -/
theorem createTownPortalNode_towns (finder : TowmPortalFinder) (s : AINodeStorage)
    (initialNodes : List NodePtr) :
    (SecSkillLevel.ADVANCED ≤ finder.townPortalSkillLevel →
      ∀ t1 t2 : CGTownInstance,
        getBestInitialNodeForTownPortal finder s.nodes s.arena t1 initialNodes none =
          getBestInitialNodeForTownPortal finder s.nodes s.arena t2 initialNodes none) ∧
    (finder.townPortalSkillLevel < SecSkillLevel.ADVANCED →
      ∀ (town : CGTownInstance) (q : NodePtr) (nodes1 : AISharedStorage),
        createTownPortalNode finder s initialNodes town = some (some q, nodes1) →
        ∃ p, getBestInitialNodeForTownPortal finder s.nodes s.arena town initialNodes none
            = some (some p) ∧
          IsNearestSource finder s.nodes initialNodes town p) := by
  constructor
  · intro hlevel t1 t2
    exact getBestInitialNode_advanced finder s.nodes s.arena t1 t2 hlevel initialNodes none
  · intro hlevel town q nodes1 h
    obtain ⟨p, hp⟩ := createTownPortalNode_source finder s initialNodes town q nodes1 h
    refine ⟨p, hp, ?_⟩
    rcases getBestInitialNode_basic finder s.nodes s.arena town hlevel initialNodes none p hp
      with hnone | hnear
    · simp at hnone
    · exact hnear

theorem createTownPortalNode_towns_witness :
    (calculateTownPortalTeleportations (portalEnv SecSkillLevel.BASIC [nearTown, farTown])
        portalState [meetingSlot 0]).map (fun r => r.2)
      = some [meetingSlot 0, ⟨⟨4, 3, 0⟩, EPathfindingLayer.LAND, 0⟩] ∧
    (getBestInitialNodeForTownPortal (portalFinder SecSkillLevel.ADVANCED) portalState.nodes
        portalState.arena farTown [meetingSlot 0] none = some (some (meetingSlot 0)) ∧
      getBestInitialNodeForTownPortal (portalFinder SecSkillLevel.ADVANCED) portalState.nodes
        portalState.arena nearTown [meetingSlot 0] none =
      getBestInitialNodeForTownPortal (portalFinder SecSkillLevel.ADVANCED) portalState.nodes
        portalState.arena farTown [meetingSlot 0] none) ∧
    ((createTownPortalNode (portalFinder SecSkillLevel.BASIC) portalState [meetingSlot 0]
        nearTown).map (fun r => r.1) = some (some ⟨⟨4, 3, 0⟩, EPathfindingLayer.LAND, 0⟩) ∧
      ∃ p, getBestInitialNodeForTownPortal (portalFinder SecSkillLevel.BASIC) portalState.nodes
          portalState.arena nearTown [meetingSlot 0] none = some (some p) ∧
        IsNearestSource (portalFinder SecSkillLevel.BASIC) portalState.nodes [meetingSlot 0]
          nearTown p) := by
  have hq : (createTownPortalNode (portalFinder SecSkillLevel.BASIC) portalState
      [meetingSlot 0] nearTown).map (fun r => r.1)
      = some (some ⟨⟨4, 3, 0⟩, EPathfindingLayer.LAND, 0⟩) := by decide
  refine ⟨by decide, ⟨by decide,
    (createTownPortalNode_towns (portalFinder SecSkillLevel.ADVANCED) portalState
      [meetingSlot 0]).1 (by decide) nearTown farTown⟩, hq, ?_⟩
  cases h : createTownPortalNode (portalFinder SecSkillLevel.BASIC) portalState
      [meetingSlot 0] nearTown with
  | none =>
    rw [h] at hq
    simp at hq
  | some r =>
    obtain ⟨oq, nodes1⟩ := r
    rw [h] at hq
    simp only [Option.map_some', Option.some.injEq] at hq
    subst hq
    exact (createTownPortalNode_towns (portalFinder SecSkillLevel.BASIC) portalState
      [meetingSlot 0]).2 (by decide) nearTown _ nodes1 h

/-! ### Town portal: towns with a visiting hero -/

/-- C20 fails as stated: `heroStrong` (actor 0, mask 1) stands in `homeTown`, so
the town is visited by the hero of the actor itself; the town is skipped, and
the enumeration with expert town portal adds a node for `farTown` only. -/
theorem calculateTownPortalTeleportations_own_town :
    homeTown.visitingHero = some heroStrong ∧
    (twoHeroArena.actors[0]?).map (fun a => (a.hero, a.chainMask))
      = some (some heroStrong, 1) ∧
    townPortalMaskMap portalState.arena portalState.actors []
      = some [(heroWeak, 2), (heroStrong, 1)] ∧
    townIsSkipped [(heroWeak, 2), (heroStrong, 1)] strongBaseActor homeTown = true ∧
    (calculateTownPortalTeleportations (portalEnv SecSkillLevel.EXPERT [homeTown, farTown])
        portalState [meetingSlot 0]).map (fun r => r.2)
      = some [meetingSlot 0, ⟨⟨30, 30, 0⟩, EPathfindingLayer.LAND, 0⟩] ∧
    (calculateTownPortalTeleportations (portalEnv SecSkillLevel.EXPERT [homeTown, farTown])
        portalState [meetingSlot 0]).map
      (fun r => (r.1.nodes ⟨3, 3, 0⟩ EPathfindingLayer.LAND).map
        (fun n => (n.action, n.actor)))
      = some [(ENodeAction.NORMAL, some 0), (ENodeAction.UNKNOWN, none)] :=
  ⟨by decide, by decide, by decide, by decide, by decide, by decide⟩

/-- C20 (amended). During town-portal enumeration for an actor, a target town is
skipped if and only if it has a visiting hero and either the chain mask of the
actor equals the mask stored for that hero (the actor is the visiting hero's own
primitive actor) or the mask of the actor has no bit in common with it (the
visiting hero is not a member of the actor's chain; the stored mask is 0 for a
hero without actor).  A skipped town changes nothing; for any other town
`createTownPortalNode` is called and its node, if any, is appended to
`initialNodes`. -/
theorem townIsSkipped_iff (finder : TowmPortalFinder) (maskMap : List (CGHeroInstance × Int))
    (actor : ChainActor) (targetTown : CGTownInstance)
    (acc : AINodeStorage × List NodePtr) :
    (townIsSkipped maskMap actor targetTown = true ↔
      ∃ h, targetTown.visitingHero = some h ∧
        (actor.chainMask = toUint64 (maskMapLookup maskMap h) ∨
          actor.chainMask &&& toUint64 (maskMapLookup maskMap h) = 0)) ∧
    (townIsSkipped maskMap actor targetTown = true →
      townPortalTowns finder maskMap actor [targetTown] acc = some acc) ∧
    (townIsSkipped maskMap actor targetTown = false →
      townPortalTowns finder maskMap actor [targetTown] acc =
        match createTownPortalNode finder acc.1 acc.2 targetTown with
        | none => none
        | some (none, nodes1) => some ({ acc.1 with nodes := nodes1 }, acc.2)
        | some (some nodePtr, nodes1) =>
            some ({ acc.1 with nodes := nodes1 }, acc.2 ++ [nodePtr])) := by
  refine ⟨?_, ?_, ?_⟩
  · unfold townIsSkipped
    cases hv : targetTown.visitingHero with
    | none => simp
    | some h =>
      simp only [Bool.or_eq_true, decide_eq_true_eq, Bool.not_eq_true', decide_eq_false_iff_not,
        ne_eq, not_not, Option.some.injEq, exists_eq_left']
  · intro hs
    simp only [townPortalTowns, hs, if_true]
  · intro hs
    simp only [townPortalTowns, hs, Bool.false_eq_true, if_false]

theorem townIsSkipped_iff_witness :
    townIsSkipped [(heroWeak, 2), (heroStrong, 1)] strongBaseActor homeTown = true ∧
    (∃ h, homeTown.visitingHero = some h ∧
      (strongBaseActor.chainMask = toUint64 (maskMapLookup [(heroWeak, 2), (heroStrong, 1)] h) ∨
        strongBaseActor.chainMask &&&
          toUint64 (maskMapLookup [(heroWeak, 2), (heroStrong, 1)] h) = 0)) ∧
    townPortalTowns (portalFinder SecSkillLevel.EXPERT) [(heroWeak, 2), (heroStrong, 1)]
      strongBaseActor [homeTown] (portalState, [meetingSlot 0])
      = some (portalState, [meetingSlot 0]) :=
  have h := townIsSkipped_iff (portalFinder SecSkillLevel.EXPERT)
    [(heroWeak, 2), (heroStrong, 1)] strongBaseActor homeTown (portalState, [meetingSlot 0])
  ⟨by decide, h.1.mp (by decide), h.2.1 (by decide)⟩

/-! ### Distance limit -/

/-- C21 fails as stated.  In the INITIAL pass a destination of the main hero
reached after 200 turns is not cut although the configured main limit is
`10 × (0 + 1)`; and in the CHAIN pass with `heroChainTurn = 1` a destination of a
scout reached after 1 turn is not cut although the scout limit is 0. -/
theorem isDistanceLimitReached_no_main_limit :
    mainTurnDistanceLimit 10 ScanDepth.SMALL = some 10 ∧
    mainThenScouts 0 = HeroRole.MAIN ∧
    ((distantState EHeroChainPass.INITIAL 0 3).nodes.node (meetingSlot 0)).map
      (fun n => (n.actor, n.turns)) = some (some 0, 200) ∧
    isDistanceLimitReached (distantState EHeroChainPass.INITIAL 0 3) mainThenScouts
      (distantDestination 0) = some false ∧
    mainThenScouts 8 = HeroRole.SCOUT ∧
    ((distantState EHeroChainPass.CHAIN 1 0).nodes.node (meetingSlot 1)).map
      (fun n => (n.actor, n.turns)) = some (some 8, 1) ∧
    isDistanceLimitReached (distantState EHeroChainPass.CHAIN 1 0) mainThenScouts
      (distantDestination 1) = some false :=
  ⟨by decide, by decide, by decide, by decide, by decide, by decide, by decide⟩

/-- C21 (amended). `isDistanceLimitReached` returns true exactly in two cases: in
the CHAIN pass, when the turns of the destination exceed `heroChainTurn`; in the
INITIAL and FINAL passes, when the actor of the destination is a SCOUT and the
turns exceed `scoutTurnDistanceLimit`.  No main turn distance limit is
tested. -/
theorem isDistanceLimitReached_iff (s : AINodeStorage) (heroRole : ActorPtr → HeroRole)
    (destination : CDestinationNodeInfo) (node : AIPathNode) (actor : ActorPtr)
    (hnode : s.nodes.node destination.node = some node) (hactor : node.actor = some actor) :
    ∃ b, isDistanceLimitReached s heroRole destination = some b ∧
      (b = true ↔
        (s.heroChainPass = EHeroChainPass.CHAIN ∧ node.turns > s.heroChainTurn) ∨
        (s.heroChainPass ≠ EHeroChainPass.CHAIN ∧ heroRole actor = HeroRole.SCOUT ∧
          node.turns > s.scoutTurnDistanceLimit)) := by
  unfold isDistanceLimitReached
  simp only [hnode, hactor]
  by_cases h1 : s.heroChainPass = EHeroChainPass.CHAIN ∧ node.turns > s.heroChainTurn
  · refine ⟨true, by simp only [h1, and_self, if_true], ?_⟩
    simp [h1]
  · simp only [h1, if_false]
    by_cases h2 : heroRole actor = HeroRole.SCOUT ∧ node.turns > s.scoutTurnDistanceLimit
    · cases hp : s.heroChainPass with
      | CHAIN =>
        refine ⟨false, rfl, ?_⟩
        rw [hp] at h1
        simp at h1
        simp
      | INITIAL =>
        refine ⟨true, by simp only [h2, and_self, if_true], ?_⟩
        simp [h2]
      | FINAL =>
        refine ⟨true, by simp only [h2, and_self, if_true], ?_⟩
        simp [h2]
    · cases hp : s.heroChainPass with
      | CHAIN =>
        refine ⟨false, rfl, ?_⟩
        rw [hp] at h1
        simp at h1
        simp
      | INITIAL =>
        refine ⟨false, by simp only [h2, if_false], ?_⟩
        simp
        intro h3
        by_contra h4
        exact h2 ⟨h3, by omega⟩
      | FINAL =>
        refine ⟨false, by simp only [h2, if_false], ?_⟩
        simp
        intro h3
        by_contra h4
        exact h2 ⟨h3, by omega⟩

theorem isDistanceLimitReached_iff_witness :
    isDistanceLimitReached (distantState EHeroChainPass.FINAL 1 0) mainThenScouts
      (distantDestination 1) = some true ∧
    ∃ b, isDistanceLimitReached (distantState EHeroChainPass.FINAL 1 0) mainThenScouts
        (distantDestination 1) = some b ∧
      (b = true ↔
        ((distantState EHeroChainPass.FINAL 1 0).heroChainPass = EHeroChainPass.CHAIN ∧
          ({ meetingNode 8 500 with turns := 1 } : AIPathNode).turns
            > (distantState EHeroChainPass.FINAL 1 0).heroChainTurn) ∨
        ((distantState EHeroChainPass.FINAL 1 0).heroChainPass ≠ EHeroChainPass.CHAIN ∧
          mainThenScouts 8 = HeroRole.SCOUT ∧
          ({ meetingNode 8 500 with turns := 1 } : AIPathNode).turns
            > (distantState EHeroChainPass.FINAL 1 0).scoutTurnDistanceLimit)) :=
  ⟨by decide,
    isDistanceLimitReached_iff (distantState EHeroChainPass.FINAL 1 0) mainThenScouts
      (distantDestination 1) { meetingNode 8 500 with turns := 1 } 8 rfl rfl⟩

/-! ### Locked heroes after `resetAiState` -/

/-- C22 fails as stated: hero 1 is locked with reason DEFENCE before
`resetAiState` and is reported NOT_LOCKED after it. -/
theorem resetAiState_unlocks_defence :
    getHeroLockedReason
      { lockedResources := TResources.zero, scanDepth := ScanDepth.MEDIUM
        lockedHeroes := [(1, HeroLockedReason.DEFENCE), (2, HeroLockedReason.STARTUP)] } 1
      = HeroLockedReason.DEFENCE ∧
    getHeroLockedReason (resetAiState
      { lockedResources := TResources.zero, scanDepth := ScanDepth.MEDIUM
        lockedHeroes := [(1, HeroLockedReason.DEFENCE), (2, HeroLockedReason.STARTUP)] }) 1
      = HeroLockedReason.NOT_LOCKED := by
  decide

/-- C22 (amended). After `resetAiState`, `lockedResources` is the zero vector,
`scanDepth = SMALL`, and every hero, whatever its lock before the call (DEFENCE
included), is reported NOT_LOCKED by `getHeroLockedReason`. -/
theorem resetAiState_clears (ai : NullkillerState) (hero : Nat) :
    (resetAiState ai).lockedResources = TResources.zero ∧
    (resetAiState ai).scanDepth = ScanDepth.SMALL ∧
    getHeroLockedReason (resetAiState ai) hero = HeroLockedReason.NOT_LOCKED :=
  ⟨rfl, rfl, rfl⟩

/-! ### Artifact value -/

/-- The value `evaluateArtifactArmyValue` computes for an artifact other than the
spell scroll: the larger of the class value and the weighted bonuses, in which
the defence bonus has the weight 1400. -/
theorem evaluateArtifactArmyValue_eq (art : CArtifactInstance)
    (hscroll : art.isSpellScroll = false) :
    evaluateArtifactArmyValue art =
      toUint64 (max (artifactStatsValueOnce art + 700 * art.defence)
        (artifactClassValue art)) := by
  have hstats : artifactStatsValue art = artifactStatsValueOnce art + 700 * art.defence := by
    unfold artifactStatsValue artifactStatsValueOnce
    ring
  unfold evaluateArtifactArmyValue
  simp only [hscroll, Bool.false_eq_true, if_false, hstats]
  congr 1
  by_cases h : artifactStatsValueOnce art + 700 * art.defence > artifactClassValue art
  · simp only [h, if_true]
    exact (max_eq_left (le_of_lt h)).symm
  · simp only [h, if_false]
    exact (max_eq_right (not_lt.mp h)).symm

/-- C23 fails on an artifact with a defence bonus: for a treasure-class artifact
whose only bonus is +3 defence the specified value is `max(700 × 3, 0) = 2100`,
and `evaluateArtifactArmyValue` returns 4200. -/
theorem evaluateArtifactArmyValue_defence_twice :
    shieldOfDefence.isSpellScroll = false ∧
    max (artifactStatsValueOnce shieldOfDefence) (artifactClassValue shieldOfDefence) = 2100 ∧
    evaluateArtifactArmyValue shieldOfDefence = 4200 := by
  decide

/-! ### Buying an army -/

/-- The fold of `TResources::operator/` is below its start value and below every
quotient it visits, and it is not negative when neither are they. -/
theorem div_foldl_spec (a b : TResources) (l : List Nat) (init : Int) :
    l.foldl (TResources.divStep a b) init ≤ init ∧
    (∀ i ∈ l, ∀ h : i < RESOURCE_QUANTITY, b ⟨i, h⟩ ≠ 0 →
      l.foldl (TResources.divStep a b) init ≤ (a ⟨i, h⟩).tdiv (b ⟨i, h⟩)) ∧
    (0 ≤ init → (∀ r, b r ≠ 0 → 0 ≤ (a r).tdiv (b r)) →
      0 ≤ l.foldl (TResources.divStep a b) init) := by
  induction l generalizing init with
  | nil => exact ⟨le_refl _, fun i hi => absurd hi (List.not_mem_nil i), fun h _ => h⟩
  | cons x rest ih =>
    simp only [List.foldl_cons]
    obtain ⟨h1, h2, h3⟩ := ih (TResources.divStep a b init x)
    have hle : TResources.divStep a b init x ≤ init := by
      unfold TResources.divStep
      split_ifs
      · exact min_le_left _ _
      · exact le_refl _
      · exact le_refl _
    refine ⟨le_trans h1 hle, ?_, ?_⟩
    · intro i hi h hb
      rcases List.mem_cons.mp hi with rfl | hi
      · refine le_trans h1 ?_
        unfold TResources.divStep
        rw [dif_pos h, if_pos hb]
        exact min_le_right _ _
      · exact h2 i hi h hb
    · intro h0 hq
      apply h3 _ hq
      unfold TResources.divStep
      split_ifs with hx1 hx2
      · exact le_min h0 (hq _ hx2)
      · exact h0
      · exact h0

/-- The quotient of two resource vectors without negative amounts is not
negative. -/
theorem div_nonneg_of_nonneg (a b : TResources) (ha : ∀ r, 0 ≤ a r) (hb : ∀ r, 0 ≤ b r) :
    0 ≤ a.div b := by
  have h := (div_foldl_spec a b (List.range RESOURCE_QUANTITY) INT_MAX).2.2
  apply h (by decide)
  intro r _
  rw [Int.tdiv_eq_ediv (ha r) (hb r)]
  exact Int.ediv_nonneg (ha r) (hb r)

/-- A count up to the quotient is affordable in every resource kind. -/
theorem mul_le_of_le_div (a b : TResources) (ha : ∀ r, 0 ≤ a r) (hb : ∀ r, 0 ≤ b r)
    (n : Int) (hn : n ≤ a.div b) (r : Fin RESOURCE_QUANTITY) :
    b r * n ≤ a r := by
  by_cases h0 : b r = 0
  · rw [h0, zero_mul]
    exact ha r
  · have h := (div_foldl_spec a b (List.range RESOURCE_QUANTITY) INT_MAX).2.1 r.val
      (List.mem_range.mpr r.isLt) r.isLt h0
    have hpos : 0 < b r := lt_of_le_of_ne (hb r) (Ne.symm h0)
    have hq : n ≤ a r / b r := by
      rw [← Int.tdiv_eq_ediv (ha r) (hb r)]
      exact le_trans hn h
    have := (Int.le_ediv_iff_mul_le hpos).mp hq
    rw [mul_comm]
    exact this

/-- The two outcomes of one tier: nothing changes, or the creature of the tier is
on offer, a slot is available for it, and the affordable count is recorded when
it is not zero. -/
theorem getArmyAvailableToBuyStep_spec (cost : CCreature → TResources) (hero : CCreatureSet)
    (st : BuyLoop) (i : Nat) (dc : Nat × List CCreature) :
    getArmyAvailableToBuyStep cost hero st i dc = st ∨
    ∃ cre, dc.2.getLast? = some cre ∧ dc.1 ≠ 0 ∧
      (hero.hasStackOf cre = false → st.freeHeroSlots ≠ 0) ∧
      ((min (dc.1 : Int) (st.availableRes.div (cost cre)) = 0 ∧
        getArmyAvailableToBuyStep cost hero st i dc =
          { st with freeHeroSlots :=
              if hero.hasStackOf cre = false then st.freeHeroSlots - 1
              else st.freeHeroSlots }) ∨
       (min (dc.1 : Int) (st.availableRes.div (cost cre)) ≠ 0 ∧
        getArmyAvailableToBuyStep cost hero st i dc =
          { availableRes := st.availableRes.sub
              ((cost cre).mul (min (dc.1 : Int) (st.availableRes.div (cost cre))))
            creaturesInDwellings := st.creaturesInDwellings ++
              [{ count := min (dc.1 : Int) (st.availableRes.div (cost cre))
                 cre := some cre
                 level := (i : Int) }]
            freeHeroSlots :=
              if hero.hasStackOf cre = false then st.freeHeroSlots - 1
              else st.freeHeroSlots })) := by
  unfold getArmyAvailableToBuyStep infoFromDC
  cases hcre : dc.2.getLast? with
  | none => exact Or.inl rfl
  | some cre =>
    simp only []
    by_cases hc : (dc.1 : Int) = 0
    · simp only [hc, if_true]
      exact Or.inl trivial
    · simp only [hc, if_false]
      by_cases hs : hero.hasStackOf cre = false ∧ st.freeHeroSlots = 0
      · simp only [hs, and_self, if_true]
        exact Or.inl trivial
      · simp only [hs, if_false]
        refine Or.inr ⟨cre, rfl, ?_, ?_, ?_⟩
        · intro h
          exact hc (by rw [h]; rfl)
        · intro h1 h2
          exact hs ⟨h1, h2⟩
        · by_cases hz : min (dc.1 : Int) (st.availableRes.div (cost cre)) = 0
          · simp only [hz, if_true]
            exact Or.inl ⟨trivial, trivial⟩
          · simp only [hz, if_false]
            first
              | exact Or.inr ⟨hz, rfl⟩
              | exact Or.inr ⟨hz, trivial⟩

/-- A property kept by every tier of the loop holds after the loop. -/
theorem getArmyAvailableToBuyLoop_inv (cost : CCreature → TResources) (hero : CCreatureSet)
    (P : BuyLoop → Prop) (tiers : List (Nat × (Nat × List CCreature)))
    (hstep : ∀ st i dc, (i, dc) ∈ tiers → P st →
      P (getArmyAvailableToBuyStep cost hero st i dc))
    (st : BuyLoop) (h : P st) :
    P (getArmyAvailableToBuyLoop cost hero st tiers) := by
  induction tiers generalizing st with
  | nil => exact h
  | cons t rest ih =>
    obtain ⟨i, dc⟩ := t
    simp only [getArmyAvailableToBuyLoop]
    apply ih
    · intro st2 i2 dc2 hmem hp
      exact hstep st2 i2 dc2 (List.mem_cons_of_mem _ hmem) hp
    · exact hstep st i dc (List.mem_cons_self _ _) h

/-- Cost of a list of `creInfo` extended by one entry. -/
theorem totalCost_append (cost : CCreature → TResources) (l : List creInfo) (count : Int)
    (cre : CCreature) (level : Int) (r : Fin RESOURCE_QUANTITY) :
    totalCost cost (l ++ [{ count := count, cre := some cre, level := level }]) r
      = totalCost cost l r + cost cre r * count := by
  simp [totalCost, List.map_append, List.sum_append]

/-- The entries of new creature types of a list of `creInfo` extended by one
entry. -/
theorem newTypes_append (hero : CCreatureSet) (l : List creInfo) (count : Int)
    (cre : CCreature) (level : Int) :
    (newTypes hero (l ++ [{ count := count, cre := some cre, level := level }])).length
      = (newTypes hero l).length + (if hero.hasStackOf cre = false then 1 else 0) := by
  unfold newTypes
  rw [List.filter_append, List.length_append]
  cases h : hero.hasStackOf cre <;> simp [List.filter, h]

/-- Every entry of the buy list was built from a tier of the dwelling: its level
is the index of the tier, its creature the last creature type of the tier, and
its count is not zero and at most the count on offer. -/
theorem getArmyAvailableToBuy_entries (cost : CCreature → TResources)
    (availableRes : TResources) (hero : CCreatureSet) (dwelling : CGDwelling) :
    ∀ ci ∈ getArmyAvailableToBuy cost availableRes hero dwelling,
      ∃ (i : Nat) (dc : Nat × List CCreature) (cre : CCreature),
        ci.level = (i : Int) ∧ dwelling.creatures[i]? = some dc ∧
        dc.2.getLast? = some cre ∧ ci.cre = some cre ∧
        ci.count ≠ 0 ∧ ci.count ≤ (dc.1 : Int) := by
  unfold getArmyAvailableToBuy
  apply getArmyAvailableToBuyLoop_inv cost hero
    (fun st => ∀ ci ∈ st.creaturesInDwellings,
      ∃ (i : Nat) (dc : Nat × List CCreature) (cre : CCreature),
        ci.level = (i : Int) ∧ dwelling.creatures[i]? = some dc ∧
        dc.2.getLast? = some cre ∧ ci.cre = some cre ∧
        ci.count ≠ 0 ∧ ci.count ≤ (dc.1 : Int))
  · intro st i dc hmem hst
    rw [List.mem_reverse] at hmem
    have hget := List.mk_mem_enum_iff_getElem?.mp hmem
    rcases getArmyAvailableToBuyStep_spec cost hero st i dc with h | ⟨cre, hcre, _, _, h | h⟩
    · rw [h]
      exact hst
    · rw [h.2]
      exact hst
    · rw [h.2]
      intro ci hci
      rcases List.mem_append.mp hci with hci | hci
      · exact hst ci hci
      · rw [List.mem_singleton] at hci
        subst hci
        exact ⟨i, dc, cre, rfl, hget, hcre, rfl, h.1, min_le_left _ _⟩
  · intro ci hci
    cases hci

/-- The free slots never run below zero, and together with the entries of new
creature types they never exceed the slots that were free at the start. -/
theorem getArmyAvailableToBuy_slots (cost : CCreature → TResources)
    (availableRes : TResources) (hero : CCreatureSet) (dwelling : CGDwelling)
    (hcap : hero.slots.length ≤ ARMY_SIZE) :
    ((newTypes hero (getArmyAvailableToBuy cost availableRes hero dwelling)).length : Int)
      ≤ (ARMY_SIZE : Int) - (hero.slots.length : Int) := by
  have key := getArmyAvailableToBuyLoop_inv cost hero
    (fun st => 0 ≤ st.freeHeroSlots ∧
      ((newTypes hero st.creaturesInDwellings).length : Int) + st.freeHeroSlots
        ≤ (ARMY_SIZE : Int) - (hero.slots.length : Int))
    dwelling.creatures.enum.reverse
    (by
      intro st i dc _ hst
      obtain ⟨h0, hsum⟩ := hst
      rcases getArmyAvailableToBuyStep_spec cost hero st i dc with h | ⟨cre, _, _, hfree, h | h⟩
      · rw [h]
        exact ⟨h0, hsum⟩
      · rw [h.2]
        simp only []
        cases hs : hero.hasStackOf cre with
        | false =>
          have := hfree hs
          simp only [if_true]
          constructor <;> omega
        | true =>
          simp only [Bool.true_eq_false, if_false]
          exact ⟨h0, hsum⟩
      · rw [h.2]
        simp only [newTypes_append]
        cases hs : hero.hasStackOf cre with
        | false =>
          have := hfree hs
          simp only [if_true]
          constructor
          · omega
          · push_cast
            omega
        | true =>
          simp only [Bool.true_eq_false, if_false]
          exact ⟨h0, by simpa using hsum⟩)
    { availableRes := availableRes
      creaturesInDwellings := []
      freeHeroSlots := (ARMY_SIZE : Int) - (hero.slots.length : Int) }
    (by
      constructor
      · simp only []
        omega
      · simp [newTypes])
  unfold getArmyAvailableToBuy
  have h1 := key.1
  have h2 := key.2
  omega

/-- C24. With a hero army of at most 7 stacks: when the hero has 7 stacks and no
creature type the dwelling offers has a stack in the hero's army,
`getArmyAvailableToBuy` returns the empty list whatever the resources; and in
general the number of returned entries whose creature type has no stack in the
hero's army is at most `7 − stacksCount`. -/
theorem getArmyAvailableToBuy_free_slots (cost : CCreature → TResources)
    (availableRes : TResources) (hero : CCreatureSet) (dwelling : CGDwelling)
    (hcap : hero.slots.length ≤ 7) :
    (hero.slots.length = 7 →
      (∀ dc ∈ dwelling.creatures, ∀ c, dc.2.getLast? = some c → hero.hasStackOf c = false) →
      getArmyAvailableToBuy cost availableRes hero dwelling = []) ∧
    (newTypes hero (getArmyAvailableToBuy cost availableRes hero dwelling)).length
      ≤ 7 - hero.slots.length := by
  have hslots := getArmyAvailableToBuy_slots cost availableRes hero dwelling hcap
  simp only [ARMY_SIZE] at hslots
  refine ⟨?_, by omega⟩
  intro hfull hnone
  have hall : newTypes hero (getArmyAvailableToBuy cost availableRes hero dwelling)
      = getArmyAvailableToBuy cost availableRes hero dwelling := by
    unfold newTypes
    rw [List.filter_eq_self]
    intro ci hci
    obtain ⟨i, dc, cre, _, hget, hlast, hcre, _, _⟩ :=
      getArmyAvailableToBuy_entries cost availableRes hero dwelling ci hci
    rw [hcre]
    simp only [hnone dc (List.getElem?_mem hget) cre hlast, Bool.not_false]
  rw [hall] at hslots
  apply List.eq_nil_of_length_eq_zero
  omega

theorem getArmyAvailableToBuy_free_slots_witness :
    (sevenTypes.slots.length = 7 ∧
      (∀ dc ∈ gremlinWorkshop.creatures, ∀ c, dc.2.getLast? = some c →
        sevenTypes.hasStackOf c = false) ∧
      getArmyAvailableToBuy goldCost (goldOnly 2000) sevenTypes gremlinWorkshop = []) ∧
    (newTypes sevenTypes
        (getArmyAvailableToBuy goldCost (goldOnly 2000) sevenTypes gremlinWorkshop)).length
      ≤ 7 - sevenTypes.slots.length :=
  have h := getArmyAvailableToBuy_free_slots goldCost (goldOnly 2000) sevenTypes
    gremlinWorkshop (by decide)
  ⟨⟨by decide, by decide, h.1 (by decide) (by decide)⟩, h.2⟩

/-- C25. With available resources `R ≥ 0` (and creature costs that are not
negative) the list `getArmyAvailableToBuy` returns is jointly affordable: in
every resource kind the sum over the entries of `count × cost` is at most `R`;
and every entry has a count of at least 1 and at most the count the dwelling
offers in the tier of the entry. -/
theorem getArmyAvailableToBuy_affordable (cost : CCreature → TResources) (R : TResources)
    (hero : CCreatureSet) (dwelling : CGDwelling)
    (hR : ∀ r, 0 ≤ R r) (hcost : ∀ c r, 0 ≤ cost c r) :
    (∀ r, totalCost cost (getArmyAvailableToBuy cost R hero dwelling) r ≤ R r) ∧
    ∀ ci ∈ getArmyAvailableToBuy cost R hero dwelling,
      1 ≤ ci.count ∧
      ∃ (i : Nat) (dc : Nat × List CCreature),
        ci.level = (i : Int) ∧ dwelling.creatures[i]? = some dc ∧
        ci.cre = dc.2.getLast? ∧ ci.count ≤ (dc.1 : Int) := by
  have key := getArmyAvailableToBuyLoop_inv cost hero
    (fun st => (∀ r, 0 ≤ st.availableRes r) ∧
      (∀ r, totalCost cost st.creaturesInDwellings r + st.availableRes r = R r) ∧
      ∀ ci ∈ st.creaturesInDwellings, 0 ≤ ci.count)
    dwelling.creatures.enum.reverse
    (by
      intro st i dc _ hst
      obtain ⟨hres, hsum, hcount⟩ := hst
      rcases getArmyAvailableToBuyStep_spec cost hero st i dc with h | ⟨cre, _, _, _, h | h⟩
      · rw [h]
        exact ⟨hres, hsum, hcount⟩
      · rw [h.2]
        exact ⟨hres, hsum, hcount⟩
      · rw [h.2]
        have hdiv := div_nonneg_of_nonneg st.availableRes (cost cre) hres (hcost cre)
        have hmin : 0 ≤ min (dc.1 : Int) (st.availableRes.div (cost cre)) :=
          le_min (Int.ofNat_nonneg _) hdiv
        have hmul := mul_le_of_le_div st.availableRes (cost cre) hres (hcost cre)
          (min (dc.1 : Int) (st.availableRes.div (cost cre))) (min_le_right _ _)
        refine ⟨?_, ?_, ?_⟩
        · intro r
          have := hmul r
          simp only [TResources.sub, TResources.mul]
          omega
        · intro r
          have := hsum r
          simp only [totalCost_append, TResources.sub, TResources.mul]
          omega
        · intro ci hci
          rcases List.mem_append.mp hci with hci | hci
          · exact hcount ci hci
          · rw [List.mem_singleton] at hci
            subst hci
            exact hmin)
    { availableRes := R
      creaturesInDwellings := []
      freeHeroSlots := (ARMY_SIZE : Int) - (hero.slots.length : Int) }
    ⟨hR, by intro r; simp [totalCost], by intro ci hci; cases hci⟩
  obtain ⟨hres, hsum, hcount⟩ := key
  refine ⟨?_, ?_⟩
  · intro r
    have h1 := hres r
    have h2 := hsum r
    unfold getArmyAvailableToBuy
    omega
  · intro ci hci
    obtain ⟨i, dc, cre, hlevel, hget, hlast, hcre, hne, hle⟩ :=
      getArmyAvailableToBuy_entries cost R hero dwelling ci hci
    have h0 := hcount ci hci
    refine ⟨by omega, i, dc, hlevel, hget, ?_, hle⟩
    rw [hcre, hlast]

theorem getArmyAvailableToBuy_affordable_witness :
    getArmyAvailableToBuy goldCost (goldOnly 2000) griffinHero gremlinWorkshop
      = [{ count := 12, cre := some gargoyle, level := 1 },
         { count := 2, cre := some gremlin, level := 0 }] ∧
    (∀ r, totalCost goldCost
        (getArmyAvailableToBuy goldCost (goldOnly 2000) griffinHero gremlinWorkshop) r
      ≤ goldOnly 2000 r) ∧
    ∀ ci ∈ getArmyAvailableToBuy goldCost (goldOnly 2000) griffinHero gremlinWorkshop,
      1 ≤ ci.count ∧
      ∃ (i : Nat) (dc : Nat × List CCreature),
        ci.level = (i : Int) ∧ gremlinWorkshop.creatures[i]? = some dc ∧
        ci.cre = dc.2.getLast? ∧ ci.count ≤ (dc.1 : Int) :=
  ⟨by decide,
    getArmyAvailableToBuy_affordable goldCost (goldOnly 2000) griffinHero gremlinWorkshop
      (by intro r; unfold goldOnly; split_ifs <;> decide)
      (by intro c r; unfold goldCost; split_ifs <;> decide)⟩

/-! ### Choice of a task for a behavior -/

/-- The task `choseBestTask(tasks)` returns has the highest priority of the
tasks. -/
theorem choseBestTask_max (tasks : List TTask) (best : TTask)
    (h : choseBestTask tasks = some best) : ∀ t ∈ tasks, t.priority ≤ best.priority := by
  induction tasks generalizing best with
  | nil => intro t ht; cases ht
  | cons t rest ih =>
    simp only [choseBestTask] at h
    cases hr : choseBestTask rest with
    | none =>
      simp only [hr, Option.some.injEq] at h
      subst h
      intro t2 ht2
      rcases List.mem_cons.mp ht2 with rfl | ht2
      · exact le_refl _
      · cases rest with
        | nil => cases ht2
        | cons a r =>
          obtain ⟨b, hb⟩ := choseBestTask_cons a r
          rw [hb] at hr
          cases hr
    | some b =>
      simp only [hr] at h
      by_cases hlt : t.priority < b.priority
      · simp only [hlt, if_true, Option.some.injEq] at h
        subst h
        intro t2 ht2
        rcases List.mem_cons.mp ht2 with rfl | ht2
        · exact le_of_lt hlt
        · exact ih b hr t2 ht2
      · simp only [hlt, if_false, Option.some.injEq] at h
        subst h
        intro t2 ht2
        rcases List.mem_cons.mp ht2 with rfl | ht2
        · exact le_refl _
        · exact le_trans (ih b hr t2 ht2) (not_lt.mp hlt)

/-- C26. `choseBestTask(behavior, maxDepth)` returns a result; the result is the
Invalid task if and only if the decomposition yields no elementary goal;
otherwise it is the task of one of the goals and its priority is at least the
priority of the task of every goal, where the priority of the task of a goal is
the preset priority when that is positive and `evaluate(goal)` otherwise. -/
theorem choseBestTaskOfBehavior_spec {Behavior : Type}
    (decompose : Behavior → Int → List TTask) (evaluate : TTask → ℚ)
    (behavior : Behavior) (decompositionMaxDepth : Int) :
    (∀ goal, (taskOfGoal evaluate goal).priority
        = if goal.priority > 0 then goal.priority else evaluate goal) ∧
    ∃ r, choseBestTaskOfBehavior decompose evaluate behavior decompositionMaxDepth = some r ∧
      (r = ChosenTask.Invalid ↔ decompose behavior decompositionMaxDepth = []) ∧
      (decompose behavior decompositionMaxDepth ≠ [] →
        ∃ goal ∈ decompose behavior decompositionMaxDepth,
          r = ChosenTask.task (taskOfGoal evaluate goal) ∧
          ∀ other ∈ decompose behavior decompositionMaxDepth,
            (taskOfGoal evaluate other).priority ≤ (taskOfGoal evaluate goal).priority) := by
  constructor
  · intro goal
    unfold taskOfGoal
    by_cases h : goal.priority ≤ 0
    · simp only [h, if_true, gt_iff_lt, not_lt.mpr h, if_false]
    · simp only [h, if_false, gt_iff_lt, not_le.mp h, if_true]
  · unfold choseBestTaskOfBehavior
    cases hg : decompose behavior decompositionMaxDepth with
    | nil =>
      refine ⟨ChosenTask.Invalid, by simp, by simp, fun h => absurd rfl h⟩
    | cons g rest =>
      obtain ⟨best, hbest⟩ :=
        choseBestTask_cons (taskOfGoal evaluate g) (rest.map (taskOfGoal evaluate))
      have hmem := choseBestTask_mem _ _ hbest
      have hmax := choseBestTask_max _ _ hbest
      rw [← List.map_cons] at hmem hmax hbest
      obtain ⟨goal, hgoal, hgb⟩ := List.mem_map.mp hmem
      refine ⟨ChosenTask.task best, ?_, by simp, ?_⟩
      · simp only [List.isEmpty_cons, List.map_cons, Bool.false_eq_true, if_false]
        rw [List.map_cons] at hbest
        rw [hbest]
        rfl
      · intro _
        refine ⟨goal, hgoal, by rw [hgb], ?_⟩
        intro other hother
        rw [hgb]
        exact hmax _ (List.mem_map_of_mem _ hother)

/-! ### Masks of the primitive actors -/

/-- The mask initialiser is defined for up to 31 earlier actors, and is the
single bit `2 ^ n` for fewer than 31. -/
theorem shiftOneInt_spec (n : Nat) (h : n ≤ 31) :
    ∃ mask, shiftOneInt n = some mask ∧ (n < 31 → mask = 2 ^ n) := by
  unfold shiftOneInt
  by_cases h1 : n < 31
  · exact ⟨2 ^ n, by simp only [h1, if_true], fun _ => rfl⟩
  · have h2 : n = 31 := by omega
    subst h2
    exact ⟨toUint64 (toInt32 (2 ^ 31)), rfl, fun h3 => absurd h3 h1⟩

/-- Appending an actor whose mask is the bit of its index keeps the mask
invariant, when the actors already present keep their masks. -/
theorem maskInv_push (s : AINodeStorage) (arena1 : ActorArena) (p : ActorPtr)
    (h : MaskInv s)
    (hext : ∀ (q : Nat) (a : ChainActor), s.arena.actors[q]? = some a →
      ∃ a1, arena1.actors[q]? = some a1 ∧ a1.chainMask = a.chainMask)
    (hnew : ∃ a, arena1.actors[p]? = some a ∧ a.chainMask = 2 ^ s.actors.length) :
    MaskInv { s with arena := arena1, actors := s.actors ++ [p] } := by
  intro i q hq
  simp only at hq ⊢
  rcases getElem?_append_cases _ _ _ _ hq with hq | ⟨k, hk, hq⟩
  · obtain ⟨a, ha, hmask⟩ := h i q hq
    obtain ⟨a1, ha1, hm1⟩ := hext q a ha
    exact ⟨a1, ha1, by rw [hm1, hmask]⟩
  · cases k with
    | zero =>
      simp only [List.getElem?_cons_zero, Option.some.injEq] at hq
      subst hq
      rw [hk, Nat.add_zero]
      exact hnew
    | succ k => simp at hq

/-- One hero: with fewer than 31 earlier actors the step is defined, appends one
actor and keeps the mask invariant. -/
theorem setHeroesStep_spec (raw : ActorPtr → Nat → ChainActor) (aiPlayerID : Nat)
    (s : AINodeStorage) (hero : CGHeroInstance × HeroRole)
    (hlen : s.actors.length < 31) (h : MaskInv s) :
    ∃ s1, setHeroesStep raw aiPlayerID s hero = some s1 ∧
      s1.actors.length = s.actors.length + 1 ∧ MaskInv s1 := by
  obtain ⟨mask, hshift, hmask⟩ := shiftOneInt_spec s.actors.length (by omega)
  have hm := hmask hlen
  unfold setHeroesStep
  simp only [hshift]
  refine ⟨_, rfl, by simp, ?_⟩
  obtain ⟨v, hv, _, _, _, _, _, _, _, _, _, hvmask, _⟩ :=
    construct_variant_fields (fun k => raw s.arena.actors.length (k + 1)) s.arena
      (fun self => ChainActor.ofHero (raw s.arena.actors.length 0) self hero.1 mask) 0
  have hself : (HeroActor.ofHero (raw s.arena.actors.length) s.arena hero.1 mask).1
      = s.arena.actors.length := rfl
  have hv2 : (HeroActor.ofHero (raw s.arena.actors.length) s.arena hero.1 mask).2.actors[
      s.arena.actors.length]? = some v := by
    simpa using hv
  have hvm : v.chainMask = 2 ^ s.actors.length := by
    rw [hvmask, ← hm]
    rfl
  have hold : ∀ (q : Nat) (a : ChainActor), s.arena.actors[q]? = some a →
      (HeroActor.ofHero (raw s.arena.actors.length) s.arena hero.1 mask).2.actors[q]?
        = some a := by
    intro q a ha
    exact getElem?_append_of_some _ _ _ _ ha
  apply maskInv_push s _ _ h
  · intro q a ha
    have hq := (List.getElem?_eq_some_iff.mp ha).1
    by_cases hown : hero.1.tempOwner ≠ aiPlayerID
    · simp only [hown, ne_eq, not_false_eq_true, if_true]
      rw [hself, List.getElem?_modify_ne _ _ (by omega)]
      exact ⟨a, hold q a ha, rfl⟩
    · simp only [hown, if_false]
      exact ⟨a, hold q a ha, rfl⟩
  · by_cases hown : hero.1.tempOwner ≠ aiPlayerID
    · simp only [hown, ne_eq, not_false_eq_true, if_true]
      rw [hself, List.getElem?_modify_eq, hv2]
      exact ⟨_, rfl, hvm⟩
    · simp only [hown, if_false]
      rw [hself]
      exact ⟨v, hv2, hvm⟩

/-- An immobile actor appended with the mask of its index keeps the mask
invariant. -/
theorem maskInv_newObject (raw : ChainActor) (s : AINodeStorage) (visitablePos : int3)
    (creatureSet : CCreatureSet) (h : MaskInv s) :
    MaskInv { s with
      arena := (ChainActor.newObject raw s.arena visitablePos creatureSet
        (2 ^ s.actors.length) 0).2
      actors := s.actors ++ [(ChainActor.newObject raw s.arena visitablePos creatureSet
        (2 ^ s.actors.length) 0).1] } := by
  apply maskInv_push s _ _ h
  · intro q a ha
    exact ⟨a, getElem?_append_of_some _ _ _ _ ha, rfl⟩
  · refine ⟨ChainActor.ofObject raw s.arena.actors.length visitablePos creatureSet
      (2 ^ s.actors.length) 0, ?_, rfl⟩
    simp [ChainActor.newObject]

/-- One town: while the actors stay at most 31 the step is defined, appends an
actor exactly for a town without garrison hero, and keeps the mask invariant. -/
theorem setTownsStep_spec (raw : ActorPtr → Nat → ChainActor)
    (getUpperArmy : CGTownInstance → CCreatureSet) (s : AINodeStorage) (town : CGTownInstance)
    (hlen : s.actors.length + (if town.garrisonHero = none then 1 else 0) ≤ 31)
    (h : MaskInv s) :
    ∃ s1, setTownsStep raw getUpperArmy s town = some s1 ∧
      s1.actors.length = s.actors.length + (if town.garrisonHero = none then 1 else 0) ∧
      MaskInv s1 := by
  obtain ⟨mask, hshift, hmask⟩ := shiftOneInt_spec s.actors.length (by omega)
  unfold setTownsStep
  simp only [hshift]
  by_cases hg : town.garrisonHero = none
  · simp only [hg, if_true] at hlen ⊢
    have hm := hmask (by omega)
    subst hm
    exact ⟨_, rfl, by simp, maskInv_newObject _ s _ _ h⟩
  · simp only [hg, if_false]
    exact ⟨s, rfl, rfl, h⟩

/-- One visitable object: while the actors stay at most 31 the step is defined,
appends an actor exactly for a hill fort, and keeps the mask invariant. -/
theorem setHillFortsStep_spec (raw : ActorPtr → Nat → ChainActor) (HILL_FORT : Nat)
    (hillFortArmy : CGObjectInstance → CCreatureSet) (s : AINodeStorage)
    (obj : CGObjectInstance)
    (hlen : s.actors.length + (if obj.ID = HILL_FORT then 1 else 0) ≤ 31)
    (h : MaskInv s) :
    ∃ s1, setHillFortsStep raw HILL_FORT hillFortArmy s obj = some s1 ∧
      s1.actors.length = s.actors.length + (if obj.ID = HILL_FORT then 1 else 0) ∧
      MaskInv s1 := by
  unfold setHillFortsStep
  by_cases hg : obj.ID = HILL_FORT
  · simp only [hg, if_true] at hlen ⊢
    obtain ⟨mask, hshift, hmask⟩ := shiftOneInt_spec s.actors.length (by omega)
    simp only [hshift]
    have hm := hmask (by omega)
    subst hm
    exact ⟨_, rfl, by simp, maskInv_newObject _ s _ _ h⟩
  · simp only [hg, if_false]
    exact ⟨s, rfl, rfl, h⟩

/-- The loop of `setHeroes`: with at most 31 actors at its end it is defined,
appends one actor per hero and keeps the mask invariant. -/
theorem setHeroes_spec (raw : ActorPtr → Nat → ChainActor) (aiPlayerID : Nat)
    (heroes : List (CGHeroInstance × HeroRole)) (s : AINodeStorage)
    (hlen : s.actors.length + heroes.length ≤ 31) (h : MaskInv s) :
    ∃ s1, setHeroes raw aiPlayerID s heroes = some s1 ∧
      s1.actors.length = s.actors.length + heroes.length ∧ MaskInv s1 := by
  induction heroes generalizing s with
  | nil => exact ⟨s, rfl, rfl, h⟩
  | cons hero rest ih =>
    simp only [List.length_cons] at hlen
    obtain ⟨s1, hstep, hl1, hinv1⟩ :=
      setHeroesStep_spec raw aiPlayerID s hero (by omega) h
    obtain ⟨s2, hrest, hl2, hinv2⟩ := ih s1 (by omega) hinv1
    refine ⟨s2, ?_, ?_, hinv2⟩
    · simp only [setHeroes, hstep]
      exact hrest
    · simp only [List.length_cons]
      omega

/-- The loop over the towns: with at most 31 actors at its end it is defined,
appends one actor per town without garrison hero and keeps the mask invariant. -/
theorem setTowns_spec (raw : ActorPtr → Nat → ChainActor)
    (getUpperArmy : CGTownInstance → CCreatureSet)
    (towns : List CGTownInstance) (s : AINodeStorage)
    (hlen : s.actors.length
      + (towns.filter (fun town => decide (town.garrisonHero = none))).length ≤ 31)
    (h : MaskInv s) :
    ∃ s1, setTowns raw getUpperArmy s towns = some s1 ∧
      s1.actors.length = s.actors.length
        + (towns.filter (fun town => decide (town.garrisonHero = none))).length ∧
      MaskInv s1 := by
  induction towns generalizing s with
  | nil => exact ⟨s, rfl, rfl, h⟩
  | cons town rest ih =>
    have hf : ((town :: rest).filter (fun town => decide (town.garrisonHero = none))).length
        = (if town.garrisonHero = none then 1 else 0)
          + (rest.filter (fun town => decide (town.garrisonHero = none))).length := by
      by_cases hg : town.garrisonHero = none
      · simp [List.filter, hg]
        omega
      · simp [List.filter, hg]
    rw [hf] at hlen ⊢
    obtain ⟨s1, hstep, hl1, hinv1⟩ :=
      setTownsStep_spec raw getUpperArmy s town (by omega) h
    obtain ⟨s2, hrest, hl2, hinv2⟩ := ih s1 (by omega) hinv1
    refine ⟨s2, ?_, by omega, hinv2⟩
    simp only [setTowns, hstep]
    exact hrest

/-- The loop over the visitable objects: with at most 31 actors at its end it is
defined, appends one actor per hill fort and keeps the mask invariant. -/
theorem setHillForts_spec (raw : ActorPtr → Nat → ChainActor) (HILL_FORT : Nat)
    (hillFortArmy : CGObjectInstance → CCreatureSet)
    (objs : List CGObjectInstance) (s : AINodeStorage)
    (hlen : s.actors.length
      + (objs.filter (fun obj => decide (obj.ID = HILL_FORT))).length ≤ 31)
    (h : MaskInv s) :
    ∃ s1, setHillForts raw HILL_FORT hillFortArmy s objs = some s1 ∧
      s1.actors.length = s.actors.length
        + (objs.filter (fun obj => decide (obj.ID = HILL_FORT))).length ∧
      MaskInv s1 := by
  induction objs generalizing s with
  | nil => exact ⟨s, rfl, rfl, h⟩
  | cons obj rest ih =>
    have hf : ((obj :: rest).filter (fun obj => decide (obj.ID = HILL_FORT))).length
        = (if obj.ID = HILL_FORT then 1 else 0)
          + (rest.filter (fun obj => decide (obj.ID = HILL_FORT))).length := by
      by_cases hg : obj.ID = HILL_FORT
      · simp [List.filter, hg]
        omega
      · simp [List.filter, hg]
    rw [hf] at hlen ⊢
    obtain ⟨s1, hstep, hl1, hinv1⟩ :=
      setHillFortsStep_spec raw HILL_FORT hillFortArmy s obj (by omega) h
    obtain ⟨s2, hrest, hl2, hinv2⟩ := ih s1 (by omega) hinv1
    refine ⟨s2, ?_, by omega, hinv2⟩
    simp only [setHillForts, hstep]
    exact hrest

/-- C27 fails for 32 actors: after `clear()` and `setTownsAndDwellings` on 32
towns without garrison hero the mask of the last actor, which
`uint64_t mask = 1 << actors.size()` computes by shifting the `int` 1, is
`2 ^ 64 - 2 ^ 31`: not the single bit `2 ^ 31` of a 64-bit value (it has 33
bits set). -/
theorem setTownsAndDwellings_mask_overflow :
    (setTownsAndDwellings (fun _ _ => rawActor) (fun _ => sevenTypes) 35
        (fun _ => sevenTypes) noActors.clear (emptyTowns 32) []).map
      (fun s => (actorMasks s)[31]?) = some (some (2 ^ 64 - 2 ^ 31)) ∧
    (∀ k < 64, 2 ^ 64 - 2 ^ 31 ≠ 2 ^ k) ∧
    ((List.range 64).filter (fun k => Nat.testBit (2 ^ 64 - 2 ^ 31) k)).length = 33 :=
  ⟨by decide, by decide, by decide⟩

/-- Where the shift of the `int` 1 is exact: when the heroes, the towns without
garrison hero and the hill forts number at most 31 in total, then `clear()`,
`setHeroes` and `setTownsAndDwellings` are defined and create that many actors,
the actor at index `i` of `actors` has the chain mask `2 ^ i`, a single bit of a
64-bit value, and actors at different indexes have different masks. -/
theorem setTownsAndDwellings_masks (raw : ActorPtr → Nat → ChainActor) (aiPlayerID : Nat)
    (getUpperArmy : CGTownInstance → CCreatureSet) (HILL_FORT : Nat)
    (hillFortArmy : CGObjectInstance → CCreatureSet) (s : AINodeStorage)
    (heroes : List (CGHeroInstance × HeroRole)) (towns : List CGTownInstance)
    (visitableObjs : List CGObjectInstance)
    (hcount : primitiveActorCount HILL_FORT heroes towns visitableObjs ≤ 31) :
    ∃ s1 s2, setHeroes raw aiPlayerID s.clear heroes = some s1 ∧
      setTownsAndDwellings raw getUpperArmy HILL_FORT hillFortArmy s1 towns visitableObjs
        = some s2 ∧
      s2.actors.length = primitiveActorCount HILL_FORT heroes towns visitableObjs ∧
      (∀ (i : Nat) (p : ActorPtr), s2.actors[i]? = some p →
        ∃ a, s2.arena.actors[p]? = some a ∧ a.chainMask = 2 ^ i ∧ i < 64) ∧
      (∀ (i j : Nat) (pi pj : ActorPtr) (ai aj : ChainActor),
        s2.actors[i]? = some pi → s2.actors[j]? = some pj →
        s2.arena.actors[pi]? = some ai → s2.arena.actors[pj]? = some aj →
        i ≠ j → ai.chainMask ≠ aj.chainMask) := by
  unfold primitiveActorCount at hcount ⊢
  have h0 : MaskInv s.clear := by
    intro i p hp
    simp [AINodeStorage.clear] at hp
  have hl0 : s.clear.actors.length = 0 := rfl
  obtain ⟨s1, hs1, hl1, hinv1⟩ := setHeroes_spec raw aiPlayerID heroes s.clear (by omega) h0
  obtain ⟨s2, hs2, hl2, hinv2⟩ := setTowns_spec raw getUpperArmy towns s1 (by omega) hinv1
  obtain ⟨s3, hs3, hl3, hinv3⟩ :=
    setHillForts_spec raw HILL_FORT hillFortArmy visitableObjs s2 (by omega) hinv2
  have hmask : ∀ (i : Nat) (p : ActorPtr), s3.actors[i]? = some p →
      ∃ a, s3.arena.actors[p]? = some a ∧ a.chainMask = 2 ^ i ∧ i < 64 := by
    intro i p hp
    obtain ⟨a, ha, hm⟩ := hinv3 i p hp
    have hi := (List.getElem?_eq_some_iff.mp hp).1
    exact ⟨a, ha, hm, by omega⟩
  refine ⟨s1, s3, hs1, ?_, by omega, hmask, ?_⟩
  · simp only [setTownsAndDwellings, hs2]
    exact hs3
  · intro i j pi pj ai aj hi hj hai haj hne heq
    obtain ⟨a, ha, hm, _⟩ := hmask i pi hi
    obtain ⟨b, hb, hmb, _⟩ := hmask j pj hj
    rw [hai] at ha
    rw [haj] at hb
    cases ha
    cases hb
    rw [hm, hmb] at heq
    exact hne (Nat.pow_right_injective (le_refl 2) heq)

theorem setTownsAndDwellings_masks_witness :
    primitiveActorCount 35 [(heroStrong, HeroRole.MAIN), (heroWeak, HeroRole.SCOUT)]
      (emptyTowns 2) [{ ID := 35, visitablePos := ⟨9, 9, 0⟩ }] ≤ 31 ∧
    ∃ s1 s2, setHeroes (fun _ _ => rawActor) 0 noActors.clear
        [(heroStrong, HeroRole.MAIN), (heroWeak, HeroRole.SCOUT)] = some s1 ∧
      setTownsAndDwellings (fun _ _ => rawActor) (fun _ => sevenTypes) 35
        (fun _ => sevenTypes) s1 (emptyTowns 2) [{ ID := 35, visitablePos := ⟨9, 9, 0⟩ }]
        = some s2 ∧
      s2.actors.length = primitiveActorCount 35
        [(heroStrong, HeroRole.MAIN), (heroWeak, HeroRole.SCOUT)]
        (emptyTowns 2) [{ ID := 35, visitablePos := ⟨9, 9, 0⟩ }] ∧
      (∀ (i : Nat) (p : ActorPtr), s2.actors[i]? = some p →
        ∃ a, s2.arena.actors[p]? = some a ∧ a.chainMask = 2 ^ i ∧ i < 64) ∧
      (∀ (i j : Nat) (pi pj : ActorPtr) (ai aj : ChainActor),
        s2.actors[i]? = some pi → s2.actors[j]? = some pj →
        s2.arena.actors[pi]? = some ai → s2.arena.actors[pj]? = some aj →
        i ≠ j → ai.chainMask ≠ aj.chainMask) :=
  ⟨by decide,
    setTownsAndDwellings_masks (fun _ _ => rawActor) 0 (fun _ => sevenTypes) 35
      (fun _ => sevenTypes) noActors
      [(heroStrong, HeroRole.MAIN), (heroWeak, HeroRole.SCOUT)]
      (emptyTowns 2) [{ ID := 35, visitablePos := ⟨9, 9, 0⟩ }] (by decide)⟩

/-! ### Chain slots of a tile -/

/-- Slots that are all free are in order: the state `resetTile` leaves. -/
theorem chainsOrdered_of_free (l : List AIPathNode) (h : ∀ m ∈ l, m.actor = none) :
    ChainsOrdered l := by
  induction l with
  | nil => trivial
  | cons node rest ih =>
    have hrest : ∀ m ∈ rest, m.actor = none := fun m hm => h m (List.mem_cons_of_mem _ hm)
    exact ⟨fun _ => hrest, fun m hm hne => absurd (hrest m hm) hne, ih hrest⟩

/-- Writing the same slots back leaves the storage as it is. -/
theorem setTile_self (nodes : AISharedStorage) (pos : int3) (layer : EPathfindingLayer) :
    nodes.setTile pos layer (nodes pos layer) = nodes := by
  funext c l
  unfold AISharedStorage.setTile
  by_cases h : c = pos ∧ l = layer
  · simp only [h, and_self, if_true]
  · simp only [h, if_false]

/-- The slot of an actor that holds one is found, and the slots are not written. -/
theorem getOrCreateNodeLoop_existing (l : List AIPathNode) (h : ChainsOrdered l) :
    ∀ (idx : Nat) (actor : ActorPtr) (i : Nat) (n : AIPathNode),
      l[i]? = some n → n.actor = some actor →
      getOrCreateNodeLoop l idx actor = some (idx + i, l) := by
  induction l with
  | nil =>
    intro idx actor i n hn
    simp at hn
  | cons node rest ih =>
    intro idx actor i n hn hactor
    obtain ⟨hfree, hdup, hrest⟩ := h
    cases i with
    | zero =>
      simp only [List.getElem?_cons_zero, Option.some.injEq] at hn
      subst hn
      simp only [getOrCreateNodeLoop, hactor, if_true, Nat.add_zero]
    | succ j =>
      simp only [List.getElem?_cons_succ] at hn
      have hmem : n ∈ rest := List.getElem?_mem hn
      have h1 : node.actor ≠ some actor := by
        intro hc
        have := hdup n hmem (by rw [hactor]; simp)
        exact this (by rw [hactor, hc])
      have h2 : node.actor ≠ none := by
        intro hc
        have := hfree hc n hmem
        rw [hactor] at this
        cases this
      simp only [getOrCreateNodeLoop, h1, h2, if_false, ih hrest (idx + 1) actor j n hn hactor]
      congr 2
      omega

/-- An actor without a slot gets the first free slot. -/
theorem getOrCreateNodeLoop_free (l : List AIPathNode) :
    ∀ (idx : Nat) (actor : ActorPtr) (i : Nat) (n : AIPathNode),
      (∀ m ∈ l, m.actor ≠ some actor) →
      l[i]? = some n → n.actor = none →
      (∀ j < i, ∀ m, l[j]? = some m → m.actor ≠ none) →
      getOrCreateNodeLoop l idx actor
        = some (idx + i, l.modify (fun node => { node with actor := some actor }) i) := by
  induction l with
  | nil =>
    intro idx actor i n _ hn
    simp at hn
  | cons node rest ih =>
    intro idx actor i n hnot hn hactor hfirst
    have h1 : node.actor ≠ some actor := hnot node (List.mem_cons_self _ _)
    cases i with
    | zero =>
      simp only [List.getElem?_cons_zero, Option.some.injEq] at hn
      subst hn
      simp only [getOrCreateNodeLoop, h1, hactor, if_false, if_true, Nat.add_zero]
      rfl
    | succ j =>
      simp only [List.getElem?_cons_succ] at hn
      have h2 : node.actor ≠ none := hfirst 0 (by omega) node (by simp)
      have hrec := ih (idx + 1) actor j n
        (fun m hm => hnot m (List.mem_cons_of_mem _ hm)) hn hactor
        (fun k hk m hm => hfirst (k + 1) (by omega) m (by simpa using hm))
      simp only [getOrCreateNodeLoop, h1, h2, if_false, hrec, List.modify_succ_cons]
      congr 2
      omega

/-- No slot is returned exactly when every slot is held by another actor. -/
theorem getOrCreateNodeLoop_none_iff (l : List AIPathNode) :
    ∀ (idx : Nat) (actor : ActorPtr),
      getOrCreateNodeLoop l idx actor = none ↔
        ∀ m ∈ l, ∃ a, m.actor = some a ∧ a ≠ actor := by
  induction l with
  | nil =>
    intro idx actor
    simp [getOrCreateNodeLoop]
  | cons node rest ih =>
    intro idx actor
    simp only [getOrCreateNodeLoop]
    by_cases h1 : node.actor = some actor
    · simp only [h1, if_true]
      constructor
      · intro h
        cases h
      · intro h
        obtain ⟨a, ha, hne⟩ := h node (List.mem_cons_self _ _)
        rw [h1] at ha
        cases ha
        exact absurd rfl hne
    · simp only [h1, if_false]
      by_cases h2 : node.actor = none
      · simp only [h2, if_true]
        constructor
        · intro h
          cases h
        · intro h
          obtain ⟨a, ha, _⟩ := h node (List.mem_cons_self _ _)
          rw [h2] at ha
          cases ha
      · simp only [h2, if_false]
        have hnode : ∃ a, node.actor = some a ∧ a ≠ actor := by
          cases ha : node.actor with
          | none => exact absurd ha h2
          | some a =>
            refine ⟨a, rfl, ?_⟩
            intro hc
            exact h1 (by rw [ha, hc])
        cases hr : getOrCreateNodeLoop rest (idx + 1) actor with
        | none =>
          refine ⟨fun _ => ?_, fun _ => rfl⟩
          intro m hm
          rcases List.mem_cons.mp hm with rfl | hm
          · exact hnode
          · exact (ih (idx + 1) actor).mp hr m hm
        | some res =>
          obtain ⟨i, rest1⟩ := res
          constructor
          · intro h
            cases h
          · intro hall
            have := (ih (idx + 1) actor).mpr
              (fun m hm => hall m (List.mem_cons_of_mem _ hm))
            rw [hr] at this
            cases this

/-- The actors of the slots after the loop are those before it and the actor the
loop was called for. -/
theorem getOrCreateNodeLoop_actors (l : List AIPathNode) :
    ∀ (idx : Nat) (actor : ActorPtr) (i : Nat) (l1 : List AIPathNode),
      getOrCreateNodeLoop l idx actor = some (i, l1) →
      ∀ m ∈ l1, m.actor = some actor ∨ ∃ m0 ∈ l, m0.actor = m.actor := by
  induction l with
  | nil =>
    intro idx actor i l1 h
    simp [getOrCreateNodeLoop] at h
  | cons node rest ih =>
    intro idx actor i l1 h m hm
    simp only [getOrCreateNodeLoop] at h
    by_cases h1 : node.actor = some actor
    · simp only [h1, if_true, Option.some.injEq, Prod.mk.injEq] at h
      obtain ⟨_, rfl⟩ := h
      exact Or.inr ⟨m, hm, rfl⟩
    · simp only [h1, if_false] at h
      by_cases h2 : node.actor = none
      · simp only [h2, if_true, Option.some.injEq, Prod.mk.injEq] at h
        obtain ⟨_, rfl⟩ := h
        rcases List.mem_cons.mp hm with rfl | hm
        · exact Or.inl rfl
        · exact Or.inr ⟨m, List.mem_cons_of_mem _ hm, rfl⟩
      · simp only [h2, if_false] at h
        cases hr : getOrCreateNodeLoop rest (idx + 1) actor with
        | none => simp [hr] at h
        | some res =>
          obtain ⟨i1, rest1⟩ := res
          simp only [hr, Option.some.injEq, Prod.mk.injEq] at h
          obtain ⟨_, rfl⟩ := h
          rcases List.mem_cons.mp hm with rfl | hm
          · exact Or.inr ⟨m, List.mem_cons_self _ _, rfl⟩
          · rcases ih (idx + 1) actor i1 rest1 hr m hm with hl | ⟨m0, hm0, he⟩
            · exact Or.inl hl
            · exact Or.inr ⟨m0, List.mem_cons_of_mem _ hm0, he⟩

/-- The loop keeps the slots in order, and a second run for the same actor
returns the same slot without writing. -/
theorem getOrCreateNodeLoop_keeps (l : List AIPathNode) (h : ChainsOrdered l) :
    ∀ (idx : Nat) (actor : ActorPtr) (i : Nat) (l1 : List AIPathNode),
      getOrCreateNodeLoop l idx actor = some (i, l1) →
      ChainsOrdered l1 ∧ getOrCreateNodeLoop l1 idx actor = some (i, l1) := by
  induction l with
  | nil =>
    intro idx actor i l1 hl
    simp [getOrCreateNodeLoop] at hl
  | cons node rest ih =>
    intro idx actor i l1 hl
    obtain ⟨hfree, hdup, hrest⟩ := h
    have hl0 := hl
    simp only [getOrCreateNodeLoop] at hl
    by_cases h1 : node.actor = some actor
    · simp only [h1, if_true, Option.some.injEq, Prod.mk.injEq] at hl
      obtain ⟨rfl, rfl⟩ := hl
      exact ⟨⟨hfree, hdup, hrest⟩, hl0⟩
    · simp only [h1, if_false] at hl
      by_cases h2 : node.actor = none
      · simp only [h2, if_true, Option.some.injEq, Prod.mk.injEq] at hl
        obtain ⟨rfl, rfl⟩ := hl
        have hnone := hfree h2
        constructor
        · refine ⟨?_, ?_, chainsOrdered_of_free rest hnone⟩
          · intro hc
            cases hc
          · intro m hm hne
            exact absurd (hnone m hm) hne
        · simp only [getOrCreateNodeLoop, if_true]
      · simp only [h2, if_false] at hl
        cases hr : getOrCreateNodeLoop rest (idx + 1) actor with
        | none => simp [hr] at hl
        | some res =>
          obtain ⟨i1, rest1⟩ := res
          simp only [hr, Option.some.injEq, Prod.mk.injEq] at hl
          obtain ⟨rfl, rfl⟩ := hl
          obtain ⟨hord1, hagain⟩ := ih hrest (idx + 1) actor i1 rest1 hr
          refine ⟨⟨fun hc => absurd hc h2, ?_, hord1⟩, ?_⟩
          · intro m hm hne
            rcases getOrCreateNodeLoop_actors rest (idx + 1) actor i1 rest1 hr m hm
              with hl | ⟨m0, hm0, he⟩
            · rw [hl]
              exact fun hc => h1 hc.symm
            · rw [← he]
              exact hdup m0 hm0 (by rw [he]; exact hne)
          · simp only [getOrCreateNodeLoop, h1, h2, if_false, hagain]

/-- C28. For a tile and layer whose chain slots are in order (the held slots
form a prefix and no actor holds two), `getOrCreateNode(pos, layer, actor)`
returns the slot of the actor when it holds one, leaving the storage as it is;
otherwise it gives the first free slot to the actor and returns it; it returns
nothing, and then has written nothing, if and only if every slot of the tile is
held by another actor; and after a successful call the slots are still in order
and a second call for the same actor returns the same node and writes nothing. -/
theorem getOrCreateNode_ordered (nodes : AISharedStorage) (pos : int3)
    (layer : EPathfindingLayer) (actor : ActorPtr)
    (h : ChainsOrdered (nodes pos layer)) :
    (∀ (i : Nat) (n : AIPathNode), (nodes pos layer)[i]? = some n → n.actor = some actor →
      getOrCreateNode nodes pos layer actor
        = some ({ coord := pos, layer := layer, chain := i }, nodes)) ∧
    ((∀ m ∈ nodes pos layer, m.actor ≠ some actor) →
      ∀ (i : Nat) (n : AIPathNode), (nodes pos layer)[i]? = some n → n.actor = none →
      (∀ j < i, ∀ m, (nodes pos layer)[j]? = some m → m.actor ≠ none) →
      getOrCreateNode nodes pos layer actor
        = some ({ coord := pos, layer := layer, chain := i },
            nodes.modify { coord := pos, layer := layer, chain := i }
              (fun node => { node with actor := some actor }))) ∧
    (getOrCreateNode nodes pos layer actor = none ↔
      ∀ m ∈ nodes pos layer, ∃ a, m.actor = some a ∧ a ≠ actor) ∧
    (∀ (ptr : NodePtr) (nodes1 : AISharedStorage),
      getOrCreateNode nodes pos layer actor = some (ptr, nodes1) →
      ChainsOrdered (nodes1 pos layer) ∧
      getOrCreateNode nodes1 pos layer actor = some (ptr, nodes1)) := by
  have hsame : ∀ chains : List AIPathNode, (nodes.setTile pos layer chains) pos layer = chains := by
    intro chains
    simp [AISharedStorage.setTile]
  refine ⟨?_, ?_, ?_, ?_⟩
  · intro i n hn hactor
    unfold getOrCreateNode
    rw [getOrCreateNodeLoop_existing _ h 0 actor i n hn hactor]
    simp only [Nat.zero_add, setTile_self]
  · intro hnot i n hn hactor hfirst
    unfold getOrCreateNode
    rw [getOrCreateNodeLoop_free _ 0 actor i n hnot hn hactor hfirst]
    simp only [Nat.zero_add]
    rfl
  · rw [← getOrCreateNodeLoop_none_iff (nodes pos layer) 0 actor]
    unfold getOrCreateNode
    cases hl : getOrCreateNodeLoop (nodes pos layer) 0 actor with
    | none => simp
    | some res => simp
  · intro ptr nodes1 hres
    unfold getOrCreateNode at hres
    cases hl : getOrCreateNodeLoop (nodes pos layer) 0 actor with
    | none => simp [hl] at hres
    | some res =>
      obtain ⟨i, chains⟩ := res
      simp only [hl, Option.some.injEq, Prod.mk.injEq] at hres
      obtain ⟨rfl, rfl⟩ := hres
      obtain ⟨hord, hagain⟩ := getOrCreateNodeLoop_keeps _ h 0 actor i chains hl
      refine ⟨by rw [hsame]; exact hord, ?_⟩
      unfold getOrCreateNode
      rw [hsame, hagain]
      simp only [Option.some.injEq, Prod.mk.injEq, true_and]
      funext c l
      unfold AISharedStorage.setTile
      by_cases hc : c = pos ∧ l = layer
      · simp only [hc, and_self, if_true]
      · simp only [hc, if_false]

theorem getOrCreateNode_ordered_witness :
    ChainsOrdered (chainState.nodes ⟨3, 3, 0⟩ EPathfindingLayer.LAND) ∧
    getOrCreateNode chainState.nodes ⟨3, 3, 0⟩ EPathfindingLayer.LAND 8
      = some (meetingSlot 1, chainState.nodes) ∧
    getOrCreateNode chainState.nodes ⟨3, 3, 0⟩ EPathfindingLayer.LAND 16
      = some (meetingSlot 2, chainState.nodes.modify (meetingSlot 2)
          (fun node => { node with actor := some 16 })) :=
  have h := getOrCreateNode_ordered chainState.nodes ⟨3, 3, 0⟩ EPathfindingLayer.LAND
  ⟨by decide,
    (h 8 (by decide)).1 1 (meetingNode 8 500) (by decide) (by decide),
    (getOrCreateNode_ordered chainState.nodes ⟨3, 3, 0⟩ EPathfindingLayer.LAND 16
      (by decide)).2.1 (by decide) 2 freeNode (by decide) (by decide) (by decide)⟩

/-! ### Dominance rules of `hasBetterChain` -/

/-- The loop of `hasBetterChain` returns true at a node for which its body does,
when the body is defined for the nodes before it. -/
theorem hasBetterChain_true_of_node (heroChainPass : EHeroChainPass)
    (heroFightingStrength : ActorPtr → ℚ) (arena : ActorArena) (candidateNode : AIPathNode)
    (pre post : List (Bool × AIPathNode)) (before : Bool) (node : AIPathNode)
    (hpre : ∀ e ∈ pre,
      betterChainNode heroChainPass heroFightingStrength arena candidateNode e.1 e.2 ≠ none)
    (hnode : betterChainNode heroChainPass heroFightingStrength arena candidateNode before node
      = some true) :
    hasBetterChain heroChainPass heroFightingStrength arena candidateNode
      (pre ++ (before, node) :: post) = some true := by
  induction pre with
  | nil => simp only [List.nil_append, hasBetterChain, hnode]
  | cons e rest ih =>
    obtain ⟨b, n⟩ := e
    have hrest := ih (fun e he => hpre e (List.mem_cons_of_mem _ he))
    have he := hpre (b, n) (List.mem_cons_self _ _)
    simp only [List.cons_append, hasBetterChain]
    cases hb : betterChainNode heroChainPass heroFightingStrength arena candidateNode b n with
    | none => exact absurd hb he
    | some r =>
      cases r with
      | true => rfl
      | false => exact hrest

/-- The body of the loop returns true for a cheaper node of no greater danger
whose actor has the actor of the candidate as its battle actor. -/
theorem betterChainNode_battle (heroChainPass : EHeroChainPass)
    (heroFightingStrength : ActorPtr → ℚ) (arena : ActorArena) (c n : AIPathNode)
    (before : Bool) (nodeActorPtr : ActorPtr) (nodeActor : ChainActor)
    (hdiff : n.actor ≠ c.actor) (haction : n.action ≠ ENodeAction.UNKNOWN)
    (hactor : n.actor = some nodeActorPtr) (harena : arena.actors[nodeActorPtr]? = some nodeActor)
    (hhero : nodeActor.hero.isNone = false)
    (hbattle : c.actor = some nodeActor.battleActor)
    (hdanger : n.danger ≤ c.danger) (hcost : n.cost < c.cost) :
    betterChainNode heroChainPass heroFightingStrength arena c before n = some true := by
  unfold betterChainNode
  simp only [hdiff, haction, or_self, if_false]
  simp only [hactor, harena, hhero, Bool.false_eq_true, if_false]
  simp only [hdanger, hbattle, hcost, and_self, if_true]

/-- The body of the loop returns true for a node of no greater cost with the
stronger army after losses, in the FINAL pass or when the masks are equal. -/
theorem betterChainNode_stronger (heroChainPass : EHeroChainPass)
    (heroFightingStrength : ActorPtr → ℚ) (arena : ActorArena) (c n : AIPathNode)
    (before : Bool) (nodeActorPtr candidateActorPtr : ActorPtr)
    (nodeActor candidateActor : ChainActor)
    (hdiff : n.actor ≠ c.actor) (haction : n.action ≠ ENodeAction.UNKNOWN)
    (hactor : n.actor = some nodeActorPtr) (harena : arena.actors[nodeActorPtr]? = some nodeActor)
    (hhero : nodeActor.hero.isNone = false)
    (hcactor : c.actor = some candidateActorPtr)
    (hcarena : arena.actors[candidateActorPtr]? = some candidateActor)
    (hpass : heroChainPass = EHeroChainPass.FINAL
      ∨ candidateActor.chainMask = nodeActor.chainMask)
    (harmy : sub64 nodeActor.armyValue n.armyLoss
      > sub64 candidateActor.armyValue c.armyLoss)
    (hcost : n.cost ≤ c.cost) :
    betterChainNode heroChainPass heroFightingStrength arena c before n = some true := by
  unfold betterChainNode
  simp only [hdiff, haction, or_self, if_false]
  simp only [hactor, harena, hhero, Bool.false_eq_true, if_false]
  by_cases hb : n.danger ≤ c.danger ∧ c.actor = some nodeActor.battleActor ∧ n.cost < c.cost
  · simp only [hb, and_self, if_true]
  · simp only [hb, if_false]
    simp only [hcactor, hcarena]
    have hskip : ¬ (candidateActor.chainMask ≠ nodeActor.chainMask
        ∧ heroChainPass ≠ EHeroChainPass.FINAL) := by
      intro hc
      rcases hpass with hp | hp
      · exact hc.2 hp
      · exact hc.1 hp
    simp only [hskip, if_false, harmy, hcost, and_self, if_true]

/-- C29 fails as stated.  Actor 1 is the battle actor of actor 0; the settled
node `n` of actor 1 has less danger and a lower cost than the candidate `c` of
actor 0, and `hasBetterChain` does not report `c` as dominated in the INITIAL
pass nor in the CHAIN pass. -/
theorem hasBetterChain_battle_node_not_dominating :
    (twoHeroArena.actors[0]?).map ChainActor.battleActor = some 1 ∧
    (settledNode 1 0 1).actor = some 1 ∧ (settledNode 0 5 2).actor = some 0 ∧
    (settledNode 1 0 1).action ≠ ENodeAction.UNKNOWN ∧
    (twoHeroArena.actors[1]?).map (fun a => a.hero.isSome) = some true ∧
    (settledNode 1 0 1).danger ≤ (settledNode 0 5 2).danger ∧
    (settledNode 1 0 1).cost < (settledNode 0 5 2).cost ∧
    hasBetterChain EHeroChainPass.INITIAL (fun _ => 0) twoHeroArena (settledNode 0 5 2)
      [(false, settledNode 1 0 1)] = some false ∧
    hasBetterChain EHeroChainPass.CHAIN (fun _ => 0) twoHeroArena (settledNode 0 5 2)
      [(false, settledNode 1 0 1)] = some false :=
  ⟨by decide, by decide, by decide, by decide, by decide, by decide, by decide, by decide,
    by decide⟩

/-- C29 (amended). For a candidate `c` and a settled node `n` of the range with a
different actor, a hero and an action other than UNKNOWN: if the actor of `c` is
the battle actor of the actor of `n` (`c.actor = n.actor.battleActor`),
`n.danger ≤ c.danger` and `n.cost < c.cost`, then `hasBetterChain` returns true,
provided the loop body is defined for the nodes before `n`. -/
theorem hasBetterChain_battle_actor (heroChainPass : EHeroChainPass)
    (heroFightingStrength : ActorPtr → ℚ) (arena : ActorArena) (c n : AIPathNode)
    (pre post : List (Bool × AIPathNode)) (before : Bool)
    (nodeActorPtr : ActorPtr) (nodeActor : ChainActor)
    (hpre : ∀ e ∈ pre,
      betterChainNode heroChainPass heroFightingStrength arena c e.1 e.2 ≠ none)
    (hdiff : n.actor ≠ c.actor) (haction : n.action ≠ ENodeAction.UNKNOWN)
    (hactor : n.actor = some nodeActorPtr) (harena : arena.actors[nodeActorPtr]? = some nodeActor)
    (hhero : nodeActor.hero.isSome = true)
    (hbattle : c.actor = some nodeActor.battleActor)
    (hdanger : n.danger ≤ c.danger) (hcost : n.cost < c.cost) :
    hasBetterChain heroChainPass heroFightingStrength arena c (pre ++ (before, n) :: post)
      = some true := by
  apply hasBetterChain_true_of_node _ _ _ _ _ _ _ _ hpre
  apply betterChainNode_battle heroChainPass heroFightingStrength arena c n before
    nodeActorPtr nodeActor hdiff haction hactor harena _ hbattle hdanger hcost
  cases hh : nodeActor.hero with
  | none => rw [hh] at hhero; cases hhero
  | some _ => rfl

theorem hasBetterChain_battle_actor_witness :
    hasBetterChain EHeroChainPass.INITIAL (fun _ => 0) twoHeroArena (settledNode 1 5 2)
      ([] ++ (false, settledNode 0 0 1) :: []) = some true :=
  hasBetterChain_battle_actor EHeroChainPass.INITIAL (fun _ => 0) twoHeroArena
    (settledNode 1 5 2) (settledNode 0 0 1) [] [] false 0 strongBaseActor
    (by intro e he; cases he) (by decide) (by decide) (by decide) (by decide) (by decide)
    (by decide) (by decide) (by decide)

/-- C30 fails in the CHAIN pass.  The settled node `n` of actor 0 (mask 1, army
24000) costs less than the candidate `c` of actor 8 (mask 2, army 1600) and has
no losses, and `hasBetterChain` returns false for `c` in the CHAIN pass. -/
theorem hasBetterChain_chain_pass_other_mask :
    (twoHeroArena.actors[0]?).map (fun a => (a.chainMask, a.armyValue, a.hero.isSome))
      = some (1, 24000, true) ∧
    (twoHeroArena.actors[8]?).map (fun a => (a.chainMask, a.armyValue))
      = some (2, 1600) ∧
    (settledNode 0 0 1).armyLoss = 0 ∧ (settledNode 8 0 2).armyLoss = 0 ∧
    (settledNode 0 0 1).action ≠ ENodeAction.UNKNOWN ∧
    (settledNode 0 0 1).cost ≤ (settledNode 8 0 2).cost ∧
    hasBetterChain EHeroChainPass.CHAIN (fun _ => 0) twoHeroArena (settledNode 8 0 2)
      [(false, settledNode 0 0 1)] = some false :=
  ⟨by decide, by decide, by decide, by decide, by decide, by decide, by decide⟩

/-- C30 (amended). For a candidate `c` and a settled hero node `n` of the range
with a different actor and an action other than UNKNOWN: in the FINAL pass, and
in every pass when the chain masks of the two actors are equal, if the army of
`n` after losses is greater than that of `c` (`uint64_t` differences) and
`n.cost ≤ c.cost`, then `hasBetterChain` returns true, provided the loop body is
defined for the nodes before `n`. -/
theorem hasBetterChain_stronger_army (heroChainPass : EHeroChainPass)
    (heroFightingStrength : ActorPtr → ℚ) (arena : ActorArena) (c n : AIPathNode)
    (pre post : List (Bool × AIPathNode)) (before : Bool)
    (nodeActorPtr candidateActorPtr : ActorPtr) (nodeActor candidateActor : ChainActor)
    (hpre : ∀ e ∈ pre,
      betterChainNode heroChainPass heroFightingStrength arena c e.1 e.2 ≠ none)
    (hdiff : n.actor ≠ c.actor) (haction : n.action ≠ ENodeAction.UNKNOWN)
    (hactor : n.actor = some nodeActorPtr) (harena : arena.actors[nodeActorPtr]? = some nodeActor)
    (hhero : nodeActor.hero.isSome = true)
    (hcactor : c.actor = some candidateActorPtr)
    (hcarena : arena.actors[candidateActorPtr]? = some candidateActor)
    (hpass : heroChainPass = EHeroChainPass.FINAL
      ∨ candidateActor.chainMask = nodeActor.chainMask)
    (harmy : sub64 nodeActor.armyValue n.armyLoss
      > sub64 candidateActor.armyValue c.armyLoss)
    (hcost : n.cost ≤ c.cost) :
    hasBetterChain heroChainPass heroFightingStrength arena c (pre ++ (before, n) :: post)
      = some true := by
  apply hasBetterChain_true_of_node _ _ _ _ _ _ _ _ hpre
  apply betterChainNode_stronger heroChainPass heroFightingStrength arena c n before
    nodeActorPtr candidateActorPtr nodeActor candidateActor hdiff haction hactor harena _
    hcactor hcarena hpass harmy hcost
  cases hh : nodeActor.hero with
  | none => rw [hh] at hhero; cases hhero
  | some _ => rfl

theorem hasBetterChain_stronger_army_witness :
    hasBetterChain EHeroChainPass.FINAL (fun _ => 0) twoHeroArena (settledNode 8 0 2)
      ([] ++ (false, settledNode 0 0 1) :: []) = some true :=
  hasBetterChain_stronger_army EHeroChainPass.FINAL (fun _ => 0) twoHeroArena
    (settledNode 8 0 2) (settledNode 0 0 1) [] [] false 0 8 strongBaseActor weakBaseActor
    (by intro e he; cases he) (by decide) (by decide) (by decide) (by decide) (by decide)
    (by decide) (by decide) (Or.inl rfl) (by decide) (by decide)

/-! ### Total army -/

/-- No entry the first loop of `update` builds has a creature or a power. -/
theorem totalArmyAddCount_blank (m : List (Nat × SlotInfo)) (creatureID count : Nat)
    (h : ∀ e ∈ m, e.2.creature = none ∧ e.2.power = 0) :
    ∀ e ∈ totalArmyAddCount m creatureID count, e.2.creature = none ∧ e.2.power = 0 := by
  induction m with
  | nil =>
    intro e he
    simp only [totalArmyAddCount, List.mem_singleton] at he
    subst he
    exact ⟨rfl, rfl⟩
  | cons x rest ih =>
    obtain ⟨key, slotInfo⟩ := x
    intro e he
    simp only [totalArmyAddCount] at he
    by_cases hk : key = creatureID
    · simp only [hk, if_true, List.mem_cons] at he
      rcases he with rfl | he
      · exact h (key, slotInfo) (List.mem_cons_self _ _)
      · exact h e (List.mem_cons_of_mem _ he)
    · simp only [hk, if_false, List.mem_cons] at he
      rcases he with rfl | he
      · exact h (key, slotInfo) (List.mem_cons_self _ _)
      · exact ih (fun e he => h e (List.mem_cons_of_mem _ he)) e he

/-- An entry found by `lookup` is an entry of the list. -/
theorem lookup_some_mem {β : Type} (l : List (Nat × β)) (k : Nat) (v : β)
    (h : l.lookup k = some v) : (k, v) ∈ l := by
  induction l with
  | nil => simp at h
  | cons x rest ih =>
    obtain ⟨k1, v1⟩ := x
    by_cases hk : k = k1
    · subst hk
      simp only [List.lookup_cons, beq_self_eq_true, Option.some.injEq] at h
      subst h
      exact List.mem_cons_self _ _
    · have hb : (k == k1) = false := by simpa using hk
      simp only [List.lookup_cons, hb] at h
      exact List.mem_cons_of_mem _ (ih h)

/-- After `update` every entry of `totalArmy` has a null creature and power 0:
`getTotalCreaturesAvailable` never returns a creature or a power. -/
theorem update_blank (toCreature : Nat → Option CCreature) (heroes towns : List CCreatureSet)
    (creatureID : Nat) :
    (getTotalCreaturesAvailable (ArmyManager.update toCreature heroes towns)
        creatureID).creature = none ∧
    (getTotalCreaturesAvailable (ArmyManager.update toCreature heroes towns)
        creatureID).power = 0 := by
  have hslots : ∀ (slots : List CStackInstance) (m : List (Nat × SlotInfo)),
      (∀ e ∈ m, e.2.creature = none ∧ e.2.power = 0) →
      ∀ e ∈ slots.foldl (fun m slot => totalArmyAddCount m slot.type.idNumber slot.count) m,
        e.2.creature = none ∧ e.2.power = 0 := by
    intro slots
    induction slots with
    | nil => exact fun m h => h
    | cons s rest ih =>
      intro m h
      exact ih _ (totalArmyAddCount_blank m _ _ h)
  have htotal : ∀ (total : List CCreatureSet) (m : List (Nat × SlotInfo)),
      (∀ e ∈ m, e.2.creature = none ∧ e.2.power = 0) →
      ∀ e ∈ total.foldl
          (fun totalArmy army =>
            army.slots.foldl
              (fun m slot => totalArmyAddCount m slot.type.idNumber slot.count) totalArmy) m,
        e.2.creature = none ∧ e.2.power = 0 := by
    intro total
    induction total with
    | nil => exact fun m h => h
    | cons a rest ih =>
      intro m h
      exact ih _ (hslots a.slots m h)
  unfold getTotalCreaturesAvailable ArmyManager.update totalArmyCounts
  simp only
  cases hl : List.lookup creatureID ((heroes ++ towns).foldl
      (fun totalArmy army =>
        army.slots.foldl
          (fun m slot => totalArmyAddCount m slot.type.idNumber slot.count) totalArmy) []) with
  | none => exact ⟨rfl, rfl⟩
  | some info =>
    have hmem : (creatureID, info) ∈ (heroes ++ towns).foldl
        (fun totalArmy army =>
          army.slots.foldl
            (fun m slot => totalArmyAddCount m slot.type.idNumber slot.count) totalArmy) [] := by
      exact lookup_some_mem _ _ _ hl
    exact htotal _ [] (by intro e he; cases he) _ hmem

/-- C35 fails for every creature an army holds.  With one hero holding ten
pikemen (AI value 10), `getTotalCreaturesAvailable` returns after `update` the
count 10 with a null creature and power 0, where the claim has the creature
pikeman and the power 100. -/
theorem update_drops_creature_and_power :
    getTotalCreaturesAvailable (ArmyManager.update creatureById [tenPikemen] []) pikeman.idNumber
      = { creature := none, count := 10, power := 0 } ∧
    creatureById pikeman.idNumber = some pikeman ∧
    evaluateStackPower pikeman 10 = 100 ∧
    updateLoopCopies creatureById (ArmyManager.update creatureById [tenPikemen] [])
      = [(pikeman.idNumber, { creature := some pikeman, count := 10, power := 100 })] := by
  decide

/-! ### Definedness of the army merge -/

/-- C39 fails on two empty creature sets when a rear guard is asked for: the
weakest stack of the empty merge is the `end()` iterator, and reading its count
is undefined. -/
theorem getBestArmy_empty_rear_guard :
    getSortedSlots sortByPower { slots := [], needsLastStack := false }
      { slots := [], needsLastStack := true } = [] ∧
    getWeakestCreature ([] : List SlotInfo) = none ∧
    getBestArmy sortByPower { slots := [], needsLastStack := false }
      { slots := [], needsLastStack := true } = none := by
  decide

/-- C39 (amended). For creature sets without empty stacks, and a merge that is
not empty when `source.needsLastStack` holds, `getBestArmy` is defined; and when
it takes the rear guard from the weakest stack, that stack exists in the merge
and its count is at least 1, so the division `power / count`, done only when the
count is not 1, has a count of at least 2. -/
theorem getBestArmy_defined {sort : List SlotInfo → List SlotInfo} (hsort : IsBoostSort sort)
    (target source : CCreatureSet) (ht : target.valid) (hs : source.valid)
    (hne : source.needsLastStack = true → target.slots ++ source.slots ≠ []) :
    (∃ r, getBestArmy sort target source = some r) ∧
    ((getSortedSlots sort target source).length ≤ ARMY_SIZE →
      source.needsLastStack = true →
      ∃ i w, getWeakestCreature (getSortedSlots sort target source) = some i ∧
        (getSortedSlots sort target source)[i]? = some w ∧ 1 ≤ w.count ∧
        (w.count ≠ 1 → 2 ≤ w.count)) := by
  have hsome := getBestArmy_isSome hsort target source ht hs hne
  obtain ⟨r, hr⟩ := Option.isSome_iff_exists.mp hsome
  refine ⟨⟨r, hr⟩, ?_⟩
  intro hlen hlast
  rcases getBestArmy_cases sort target source r hr with h | h | h
  · have := h.1
    omega
  · rw [hlast] at h
    exact absurd h.2.1 (by decide)
  · obtain ⟨_, _, i, w, hi, hw, _⟩ := h
    have hpos := getSortedSlots_count_pos hsort target source ht hs w (List.getElem?_mem hw)
    exact ⟨i, w, hi, hw, hpos, fun h1 => by omega⟩

theorem getBestArmy_defined_witness :
    (∃ r, getBestArmy sortByPower tenPikemen griffinHero = some r) ∧
    ((getSortedSlots sortByPower tenPikemen griffinHero).length ≤ ARMY_SIZE →
      griffinHero.needsLastStack = true →
      ∃ i w, getWeakestCreature (getSortedSlots sortByPower tenPikemen griffinHero) = some i ∧
        (getSortedSlots sortByPower tenPikemen griffinHero)[i]? = some w ∧ 1 ≤ w.count ∧
        (w.count ≠ 1 → 2 ≤ w.count)) :=
  getBestArmy_defined sortByPower_isBoostSort tenPikemen griffinHero (by decide) (by decide)
    (by decide)

/-! ### Tie-break of the FINAL pass -/

/-- In the FINAL pass the body of the loop returns true for a node with the same
army after losses, at least the fighting strength and at most the cost of the
candidate, unless both are equal and the node lies before the candidate. -/
theorem betterChainNode_final (heroFightingStrength : ActorPtr → ℚ) (arena : ActorArena)
    (c n : AIPathNode) (before : Bool) (nodeActorPtr candidateActorPtr : ActorPtr)
    (nodeActor candidateActor : ChainActor)
    (hdiff : n.actor ≠ c.actor) (haction : n.action ≠ ENodeAction.UNKNOWN)
    (hactor : n.actor = some nodeActorPtr) (harena : arena.actors[nodeActorPtr]? = some nodeActor)
    (hhero : nodeActor.hero.isNone = false)
    (hcactor : c.actor = some candidateActorPtr)
    (hcarena : arena.actors[candidateActorPtr]? = some candidateActor)
    (harmy : sub64 nodeActor.armyValue n.armyLoss
      = sub64 candidateActor.armyValue c.armyLoss)
    (hstrength : heroFightingStrength nodeActorPtr ≥ heroFightingStrength candidateActorPtr)
    (hcost : n.cost ≤ c.cost) :
    betterChainNode EHeroChainPass.FINAL heroFightingStrength arena c before n
      = some (decide (¬ (heroFightingStrength nodeActorPtr
            = heroFightingStrength candidateActorPtr
          ∧ n.cost = c.cost ∧ before = true))) := by
  unfold betterChainNode
  simp only [hdiff, haction, or_self, if_false]
  simp only [hactor, harena, hhero, Bool.false_eq_true, if_false]
  by_cases hb : n.danger ≤ c.danger ∧ c.actor = some nodeActor.battleActor ∧ n.cost < c.cost
  · simp only [hb, and_self, if_true]
    have hne : n.cost ≠ c.cost := ne_of_lt hb.2.2
    simp [hne]
  · simp only [hb, if_false]
    simp only [hcactor, hcarena, ne_eq, not_true_eq_false, and_false, if_false, harmy,
      gt_iff_lt, lt_self_iff_false, false_and, true_and, hstrength, hcost]
    by_cases ht : heroFightingStrength nodeActorPtr = heroFightingStrength candidateActorPtr
        ∧ n.cost = c.cost ∧ before = true
    · simp only [ht, and_self, not_true_eq_false, if_false, decide_False]
    · simp only [ht, not_false_eq_true, if_true, decide_True]

/-- C31. In the FINAL pass, for a candidate `c` and a settled hero node `n` of
the range with a different actor whose army after losses equals that of `c`
(`uint64_t` differences), with `n.fightingStrength ≥ c.fightingStrength` and
`n.cost ≤ c.cost`: if one of the two inequalities is strict, `hasBetterChain`
returns true for `c` (provided the loop body is defined for the nodes before
`n`); if fighting strength and cost are both equal and `c` is a settled hero
node too, the loop body returns true for exactly one of the two orders: with
`before` the outcome of `&n < &c`, and its negation that of `&c < &n`, the node
`n` dominates `c` iff `n` does not lie before `c`, and `c` dominates `n` iff `n`
lies before `c`. -/
theorem hasBetterChain_final_tie_break (heroFightingStrength : ActorPtr → ℚ)
    (arena : ActorArena) (c n : AIPathNode) (pre post : List (Bool × AIPathNode))
    (before : Bool) (nodeActorPtr candidateActorPtr : ActorPtr)
    (nodeActor candidateActor : ChainActor)
    (hpre : ∀ e ∈ pre,
      betterChainNode EHeroChainPass.FINAL heroFightingStrength arena c e.1 e.2 ≠ none)
    (hdiff : n.actor ≠ c.actor) (haction : n.action ≠ ENodeAction.UNKNOWN)
    (hactor : n.actor = some nodeActorPtr) (harena : arena.actors[nodeActorPtr]? = some nodeActor)
    (hhero : nodeActor.hero.isSome = true)
    (hcactor : c.actor = some candidateActorPtr)
    (hcarena : arena.actors[candidateActorPtr]? = some candidateActor)
    (harmy : sub64 nodeActor.armyValue n.armyLoss
      = sub64 candidateActor.armyValue c.armyLoss)
    (hstrength : heroFightingStrength nodeActorPtr ≥ heroFightingStrength candidateActorPtr)
    (hcost : n.cost ≤ c.cost) :
    (heroFightingStrength nodeActorPtr > heroFightingStrength candidateActorPtr
        ∨ n.cost < c.cost →
      hasBetterChain EHeroChainPass.FINAL heroFightingStrength arena c
        (pre ++ (before, n) :: post) = some true) ∧
    (heroFightingStrength nodeActorPtr = heroFightingStrength candidateActorPtr →
      n.cost = c.cost → c.action ≠ ENodeAction.UNKNOWN → candidateActor.hero.isSome = true →
      betterChainNode EHeroChainPass.FINAL heroFightingStrength arena c before n
        = some (!before) ∧
      betterChainNode EHeroChainPass.FINAL heroFightingStrength arena n (!before) c
        = some before) := by
  have hnone : ∀ a : ChainActor, a.hero.isSome = true → a.hero.isNone = false := by
    intro a ha
    cases hh : a.hero with
    | none => rw [hh] at ha; cases ha
    | some _ => rfl
  have hbody := betterChainNode_final heroFightingStrength arena c n before nodeActorPtr
    candidateActorPtr nodeActor candidateActor hdiff haction hactor harena (hnone _ hhero)
    hcactor hcarena harmy hstrength hcost
  constructor
  · intro hstrict
    apply hasBetterChain_true_of_node _ _ _ _ _ _ _ _ hpre
    rw [hbody]
    have : ¬ (heroFightingStrength nodeActorPtr = heroFightingStrength candidateActorPtr
        ∧ n.cost = c.cost ∧ before = true) := by
      intro ht
      rcases hstrict with hs | hs
      · exact absurd ht.1 (ne_of_gt hs)
      · exact absurd ht.2.1 (ne_of_lt hs)
    simp only [this, not_false_eq_true, decide_True]
  · intro hfs hc hcaction hchero
    constructor
    · rw [hbody]
      cases before <;> simp [hfs, hc]
    · rw [betterChainNode_final heroFightingStrength arena n c (!before) candidateActorPtr
        nodeActorPtr candidateActor nodeActor (fun h => hdiff h.symm) hcaction hcactor hcarena
        (hnone _ hchero) hactor harena harmy.symm (le_of_eq hfs) (le_of_eq hc.symm)]
      cases before <;> simp [hfs, hc]

theorem hasBetterChain_final_tie_break_witness :
    hasBetterChain EHeroChainPass.FINAL (fun _ => 0) twoHeroArena
      { settledNode 8 0 2 with armyLoss := 0 }
      ([] ++ (false, { settledNode 0 0 1 with armyLoss := 22400 }) :: []) = some true ∧
    betterChainNode EHeroChainPass.FINAL (fun _ => 0) twoHeroArena
      { settledNode 8 0 1 with armyLoss := 0 } true
      { settledNode 0 0 1 with armyLoss := 22400 } = some (!true) ∧
    betterChainNode EHeroChainPass.FINAL (fun _ => 0) twoHeroArena
      { settledNode 0 0 1 with armyLoss := 22400 } (!true)
      { settledNode 8 0 1 with armyLoss := 0 } = some true :=
  ⟨(hasBetterChain_final_tie_break (fun _ => 0) twoHeroArena
      { settledNode 8 0 2 with armyLoss := 0 } { settledNode 0 0 1 with armyLoss := 22400 }
      [] [] false 0 8 strongBaseActor weakBaseActor (by intro e he; cases he) (by decide)
      (by decide) (by decide) (by decide) (by decide) (by decide) (by decide) (by decide)
      (le_refl _) (by decide)).1 (Or.inr (by decide)),
    (hasBetterChain_final_tie_break (fun _ => 0) twoHeroArena
      { settledNode 8 0 1 with armyLoss := 0 } { settledNode 0 0 1 with armyLoss := 22400 }
      [] [] true 0 8 strongBaseActor weakBaseActor (by intro e he; cases he) (by decide)
      (by decide) (by decide) (by decide) (by decide) (by decide) (by decide) (by decide)
      (le_refl _) (by decide)).2 rfl (by decide) (by decide) (by decide)⟩

/-! ### Frame of `addHeroChain` -/

/-- The slot the loop of `getOrCreateNode` returns held the actor already, and
then nothing is written, or was free, and then only its actor is written. -/
theorem getOrCreateNodeLoop_outcome (l : List AIPathNode) :
    ∀ (idx : Nat) (actor : ActorPtr) (i : Nat) (l1 : List AIPathNode),
      getOrCreateNodeLoop l idx actor = some (i, l1) →
      idx ≤ i ∧ ∃ n0, l[i - idx]? = some n0 ∧
        ((n0.actor = some actor ∧ l1 = l) ∨
         (n0.actor = none ∧
          l1 = l.modify (fun node => { node with actor := some actor }) (i - idx))) := by
  induction l with
  | nil =>
    intro idx actor i l1 h
    simp [getOrCreateNodeLoop] at h
  | cons node rest ih =>
    intro idx actor i l1 h
    simp only [getOrCreateNodeLoop] at h
    by_cases h1 : node.actor = some actor
    · simp only [h1, if_true, Option.some.injEq, Prod.mk.injEq] at h
      obtain ⟨rfl, rfl⟩ := h
      exact ⟨le_refl _, node, by simp, Or.inl ⟨h1, rfl⟩⟩
    · simp only [h1, if_false] at h
      by_cases h2 : node.actor = none
      · simp only [h2, if_true, Option.some.injEq, Prod.mk.injEq] at h
        obtain ⟨rfl, rfl⟩ := h
        refine ⟨le_refl _, node, by simp, Or.inr ⟨h2, ?_⟩⟩
        simp
      · simp only [h2, if_false] at h
        cases hr : getOrCreateNodeLoop rest (idx + 1) actor with
        | none => simp [hr] at h
        | some res =>
          obtain ⟨j, rest1⟩ := res
          simp only [hr, Option.some.injEq, Prod.mk.injEq] at h
          obtain ⟨rfl, rfl⟩ := h
          obtain ⟨hle, n0, hn0, hcase⟩ := ih (idx + 1) actor j rest1 hr
          have hj : j - idx = (j - (idx + 1)) + 1 := by omega
          refine ⟨by omega, n0, ?_, ?_⟩
          · rw [hj, List.getElem?_cons_succ]
            exact hn0
          · rcases hcase with ⟨ha, hl⟩ | ⟨ha, hl⟩
            · exact Or.inl ⟨ha, by rw [hl]⟩
            · refine Or.inr ⟨ha, ?_⟩
              rw [hj, List.modify_succ_cons, hl]

/-- The node `getOrCreateNode` for an actor pointer that may be null returns: it
lies on the tile asked for, and either held the actor (nothing is written) or
was free and got the actor. -/
theorem getOrCreateNodeOpt_outcome (nodes nodes1 : AISharedStorage) (pos : int3)
    (layer : EPathfindingLayer) (actor : Option ActorPtr) (ptr : NodePtr)
    (h : getOrCreateNodeOpt nodes pos layer actor = some (ptr, nodes1)) :
    ptr.coord = pos ∧ ptr.layer = layer ∧
    ∃ n0, nodes.node ptr = some n0 ∧
      ((n0.actor = actor ∧ nodes1 = nodes) ∨
       (n0.actor = none ∧ ∃ a, actor = some a ∧
        nodes1 = nodes.modify ptr (fun node => { node with actor := some a }))) := by
  unfold getOrCreateNodeOpt at h
  cases actor with
  | some a =>
    simp only [getOrCreateNode] at h
    cases hl : getOrCreateNodeLoop (nodes pos layer) 0 a with
    | none => simp [hl] at h
    | some res =>
      obtain ⟨i, chains⟩ := res
      simp only [hl, Option.some.injEq, Prod.mk.injEq] at h
      obtain ⟨rfl, rfl⟩ := h
      obtain ⟨_, n0, hn0, hcase⟩ := getOrCreateNodeLoop_outcome _ 0 a i chains hl
      simp only [Nat.sub_zero] at hn0 hcase
      refine ⟨rfl, rfl, n0, hn0, ?_⟩
      rcases hcase with ⟨ha, hl1⟩ | ⟨ha, hl1⟩
      · left
        refine ⟨ha, ?_⟩
        rw [hl1]
        exact setTile_self nodes pos layer
      · right
        refine ⟨ha, a, rfl, ?_⟩
        rw [hl1]
        rfl
  | none =>
    simp only at h
    cases hf : (nodes pos layer).findIdx? (fun node => node.actor.isNone) with
    | none => simp [hf] at h
    | some i =>
      simp only [hf, Option.some.injEq, Prod.mk.injEq] at h
      obtain ⟨rfl, rfl⟩ := h
      have hspec := List.findIdx?_eq_some_iff_getElem.mp hf
      obtain ⟨hi, hp, _⟩ := hspec
      refine ⟨rfl, rfl, (nodes pos layer)[i], ?_, Or.inl ⟨?_, rfl⟩⟩
      · simp only [AISharedStorage.node]
        exact List.getElem?_eq_getElem hi
      · cases hx : ((nodes pos layer)[i]).actor with
        | none => rfl
        | some _ => simp [hx] at hp

/-- With an existing carrier the writes of `addHeroChain` to an exchange node are
defined and change no other node. -/
theorem commitExchangeNode_defined (nodes : AISharedStorage) (exchangePtr : NodePtr)
    (chainInfo : ExchangeCandidate) (carrier : AIPathNode)
    (hc : nodes.node chainInfo.carrierParent = some carrier) :
    ∃ nodes1, commitExchangeNode nodes exchangePtr chainInfo = some nodes1 ∧
      ∀ q, q ≠ exchangePtr → nodes1.node q = nodes.node q := by
  unfold commitExchangeNode
  simp only [hc]
  have hframe : ∀ (X : AISharedStorage) (f : AIPathNode → AIPathNode) (q : NodePtr),
      q ≠ exchangePtr → (X.modify exchangePtr f).node q = X.node q := by
    intro X f q hq
    rw [node_modify]
    cases hx : X.node q with
    | none => rfl
    | some n => simp [Ne.symm hq]
  cases hc1 : (nodes.modify exchangePtr (fun exchangeNode =>
      commitNode exchangeNode carrier carrier.action chainInfo.turns chainInfo.moveRemains
        chainInfo.cost)).node chainInfo.carrierParent with
  | none =>
    rw [node_modify, hc] at hc1
    simp at hc1
  | some carrier1 =>
    simp only []
    refine ⟨_, rfl, ?_⟩
    intro q hq
    rw [hframe _ _ q hq]
    by_cases hsp : carrier1.specialAction.isSome ∨ carrier1.chainOther.isSome
    · simp only [hsp, if_true]
      rw [hframe _ _ q hq, hframe _ _ q hq]
    · simp only [hsp, if_false]
      rw [hframe _ _ q hq]

/-- One candidate of `addHeroChain`, on a tile whose free slots are as
`resetTile` leaves them: a candidate whose slot cannot be allocated, whose slot
has an action other than UNKNOWN, or whose slot holds a set cost below that of
the candidate, leaves the storage and `heroChain` as they are; any other
candidate is accepted: its slot had the action UNKNOWN, gets the cost, turns,
movement points and army loss of the candidate and the other parent as
`chainOther`, is appended once to `heroChain`, and no other node changes but
for the actor of the slot. -/
theorem addHeroChainOne_cases (s : AINodeStorage) (chainInfo : ExchangeCandidate)
    (carrier : AIPathNode)
    (hcarrier : s.nodes.node chainInfo.carrierParent = some carrier)
    (hfree : FreeSlotsReset (s.nodes carrier.coord carrier.layer)) :
    (getOrCreateNodeOpt s.nodes carrier.coord carrier.layer chainInfo.actor = none →
      addHeroChainOne s chainInfo = some s) ∧
    (∀ ptr nodes1 n0,
      getOrCreateNodeOpt s.nodes carrier.coord carrier.layer chainInfo.actor
        = some (ptr, nodes1) →
      s.nodes.node ptr = some n0 →
      (n0.action ≠ ENodeAction.UNKNOWN ∨ (n0.turns ≠ 255 ∧ n0.cost < chainInfo.cost) →
        addHeroChainOne s chainInfo = some s) ∧
      (n0.action = ENodeAction.UNKNOWN → ¬ (n0.turns ≠ 255 ∧ n0.cost < chainInfo.cost) →
        ∃ s1 n, addHeroChainOne s chainInfo = some s1 ∧
          s1.heroChain = s.heroChain ++ [ptr] ∧
          s1.nodes.node ptr = some n ∧ n.cost = chainInfo.cost ∧
          n.turns = chainInfo.turns ∧ n.moveRemains = chainInfo.moveRemains ∧
          n.armyLoss = chainInfo.armyLoss ∧ n.chainOther = some chainInfo.otherParent ∧
          n.actor = chainInfo.actor ∧
          ∀ q, q ≠ ptr → s1.nodes.node q = s.nodes.node q)) := by
  constructor
  · intro hnone
    unfold addHeroChainOne
    simp only [hcarrier, hnone]
  · intro ptr nodes1 n0 hget hn0
    obtain ⟨hcoord, hlayer, m0, hm0, hcase⟩ :=
      getOrCreateNodeOpt_outcome _ _ _ _ _ _ hget
    rw [hn0] at hm0
    cases hm0
    have hmem : n0 ∈ s.nodes carrier.coord carrier.layer := by
      have := hn0
      simp only [AISharedStorage.node, hcoord, hlayer] at this
      exact List.getElem?_mem this
    -- the node behind the pointer after the allocation
    have hnode1 : ∃ x, nodes1.node ptr = some x ∧ x.action = n0.action ∧
        x.turns = n0.turns ∧ x.cost = n0.cost ∧ x.actor = chainInfo.actor := by
      rcases hcase with ⟨ha, rfl⟩ | ⟨_, a, ha, rfl⟩
      · exact ⟨n0, hn0, rfl, rfl, rfl, ha⟩
      · exact ⟨{ n0 with actor := some a }, by rw [node_modify_same, hn0]; rfl, rfl, rfl, rfl,
          ha.symm⟩
    obtain ⟨x, hx, hxa, hxt, hxc, hxactor⟩ := hnode1
    constructor
    · intro hrej
      have hsame : nodes1 = s.nodes := by
        rcases hcase with ⟨_, h1⟩ | ⟨hfreeSlot, _⟩
        · exact h1
        · obtain ⟨hu, ht⟩ := hfree n0 hmem hfreeSlot
          rcases hrej with hr | hr
          · exact absurd hu hr
          · exact absurd ht hr.1
      unfold addHeroChainOne
      simp only [hcarrier, hget, hx]
      rw [hsame]
      rcases hrej with hr | hr
      · have : x.action ≠ ENodeAction.UNKNOWN := by rw [hxa]; exact hr
        simp only [this, ne_eq, not_false_eq_true, if_true]
      · by_cases hact : x.action ≠ ENodeAction.UNKNOWN
        · simp only [hact, ne_eq, not_false_eq_true, if_true]
        · have h2 : x.turns ≠ 255 ∧ x.cost < chainInfo.cost := by
            rw [hxt, hxc]
            exact hr
          simp only [hact, if_false, h2, ne_eq, not_false_eq_true, and_self, if_true]
    · intro hunknown hnot
      have hc1 : ∃ c1, nodes1.node chainInfo.carrierParent = some c1 := by
        rcases hcase with ⟨_, rfl⟩ | ⟨_, a, _, rfl⟩
        · exact ⟨carrier, hcarrier⟩
        · rw [node_modify, hcarrier]
          exact ⟨_, rfl⟩
      obtain ⟨c1, hc1⟩ := hc1
      obtain ⟨nodes2, hcommit, hframe2⟩ :=
        commitExchangeNode_defined nodes1 ptr chainInfo c1 hc1
      obtain ⟨_, n, hn, hnt, hnc, hnm, hnl, hno, hnactor⟩ :=
        commitExchangeNode_spec nodes1 nodes2 ptr chainInfo x hx hcommit
      have hact : ¬ (x.action ≠ ENodeAction.UNKNOWN) := by
        rw [hxa]
        exact fun h => h hunknown
      have h2 : ¬ (x.turns ≠ 255 ∧ x.cost < chainInfo.cost) := by
        rw [hxt, hxc]
        exact hnot
      refine ⟨{ s with nodes := nodes2, heroChain := s.heroChain ++ [ptr] }, n, ?_, rfl, hn,
        hnc, hnt, hnm, hnl, hno, hnactor.trans hxactor, ?_⟩
      · unfold addHeroChainOne
        simp only [hcarrier, hget, hx, hact, h2, if_false, hcommit]
      · intro q hq
        simp only []
        rw [hframe2 q hq]
        rcases hcase with ⟨_, rfl⟩ | ⟨_, a, _, rfl⟩
        · rfl
        · rw [node_modify]
          cases hqn : s.nodes.node q with
          | none => rfl
          | some y => simp [Ne.symm hq]

/-- One candidate with an actor, on a storage whose free slots are reset: the step
is defined, leaves every node with a known action as it is, keeps the free slots
reset and keeps every node in place. -/
theorem addHeroChainOne_step (s : AINodeStorage) (chainInfo : ExchangeCandidate)
    (carrier : AIPathNode)
    (hcarrier : s.nodes.node chainInfo.carrierParent = some carrier)
    (hactor : chainInfo.actor ≠ none)
    (hreset : StorageReset s.nodes) :
    ∃ s1, addHeroChainOne s chainInfo = some s1 ∧
      (∀ q n, s.nodes.node q = some n → n.action ≠ ENodeAction.UNKNOWN →
        s1.nodes.node q = some n) ∧
      StorageReset s1.nodes ∧
      (∀ q, (s.nodes.node q).isSome = true → (s1.nodes.node q).isSome = true) := by
  obtain ⟨hnone, hsome⟩ :=
    addHeroChainOne_cases s chainInfo carrier hcarrier (hreset carrier.coord carrier.layer)
  cases hget : getOrCreateNodeOpt s.nodes carrier.coord carrier.layer chainInfo.actor with
  | none => exact ⟨s, hnone hget, fun q n hq _ => hq, hreset, fun q hq => hq⟩
  | some res =>
    obtain ⟨ptr, nodes1⟩ := res
    obtain ⟨_, _, n0, hn0, _⟩ := getOrCreateNodeOpt_outcome _ _ _ _ _ _ hget
    obtain ⟨hrej, hacc⟩ := hsome ptr nodes1 n0 hget hn0
    by_cases hr : n0.action ≠ ENodeAction.UNKNOWN ∨ (n0.turns ≠ 255 ∧ n0.cost < chainInfo.cost)
    · exact ⟨s, hrej hr, fun q n hq _ => hq, hreset, fun q hq => hq⟩
    · have hu : n0.action = ENodeAction.UNKNOWN := by
        by_contra hc
        exact hr (Or.inl hc)
      obtain ⟨s1, n, hs1, _, hn, _, _, _, _, _, hnactor, hframe⟩ :=
        hacc hu (fun hc => hr (Or.inr hc))
      refine ⟨s1, hs1, ?_, ?_, ?_⟩
      · intro q m hq hm
        by_cases hqp : q = ptr
        · subst hqp
          rw [hn0] at hq
          cases hq
          exact absurd hu hm
        · rw [hframe q hqp]
          exact hq
      · intro pos layer node hmem hfreeSlot
        obtain ⟨i, hi⟩ := List.getElem?_of_mem hmem
        have hq : s1.nodes.node ⟨pos, layer, i⟩ = some node := hi
        by_cases hqp : (⟨pos, layer, i⟩ : NodePtr) = ptr
        · rw [hqp, hn] at hq
          cases hq
          rw [hnactor] at hfreeSlot
          exact absurd hfreeSlot hactor
        · rw [hframe _ hqp] at hq
          exact hreset pos layer node (List.getElem?_mem hq) hfreeSlot
      · intro q hq
        by_cases hqp : q = ptr
        · rw [hqp, hn]
          rfl
        · rw [hframe q hqp]
          exact hq

/-- C40. On a storage whose free slots are as `resetTile` leaves them (no actor
means action UNKNOWN and turn `0xFF`): `addHeroChain`, called with candidates
that have an actor and an existing carrier node, returns and leaves every node
whose action was not UNKNOWN before the call as it was.  For one candidate: if
its slot cannot be allocated, or the slot has an action other than UNKNOWN, or
the slot holds a set cost (turn not `0xFF`) strictly below the cost of the
candidate, the storage and `heroChain` are unchanged; otherwise the candidate is
accepted, its node gets the cost, turns, movement points and army loss of the
candidate and `chainOther` = the other parent, the node is appended to
`heroChain` once, and no other node is written. -/
theorem addHeroChain_frame (s : AINodeStorage) (result : List ExchangeCandidate)
    (hreset : StorageReset s.nodes)
    (hresult : ∀ c ∈ result,
      (s.nodes.node c.carrierParent).isSome = true ∧ c.actor ≠ none) :
    (∃ s1, addHeroChain s result = some s1 ∧
      ∀ q n, s.nodes.node q = some n → n.action ≠ ENodeAction.UNKNOWN →
        s1.nodes.node q = some n) ∧
    (∀ (chainInfo : ExchangeCandidate) (carrier : AIPathNode),
      s.nodes.node chainInfo.carrierParent = some carrier →
      (getOrCreateNodeOpt s.nodes carrier.coord carrier.layer chainInfo.actor = none →
        addHeroChainOne s chainInfo = some s) ∧
      (∀ ptr nodes1 n0,
        getOrCreateNodeOpt s.nodes carrier.coord carrier.layer chainInfo.actor
          = some (ptr, nodes1) →
        s.nodes.node ptr = some n0 →
        (n0.action ≠ ENodeAction.UNKNOWN ∨ (n0.turns ≠ 255 ∧ n0.cost < chainInfo.cost) →
          addHeroChainOne s chainInfo = some s) ∧
        (n0.action = ENodeAction.UNKNOWN → ¬ (n0.turns ≠ 255 ∧ n0.cost < chainInfo.cost) →
          ∃ s1 n, addHeroChainOne s chainInfo = some s1 ∧
            s1.heroChain = s.heroChain ++ [ptr] ∧
            s1.nodes.node ptr = some n ∧ n.cost = chainInfo.cost ∧
            n.turns = chainInfo.turns ∧ n.moveRemains = chainInfo.moveRemains ∧
            n.armyLoss = chainInfo.armyLoss ∧ n.chainOther = some chainInfo.otherParent ∧
            n.actor = chainInfo.actor ∧
            ∀ q, q ≠ ptr → s1.nodes.node q = s.nodes.node q))) := by
  constructor
  · induction result generalizing s with
    | nil => exact ⟨s, rfl, fun q n hq _ => hq⟩
    | cons c rest ih =>
      obtain ⟨hc, hca⟩ := hresult c (List.mem_cons_self _ _)
      obtain ⟨carrier, hcarrier⟩ := Option.isSome_iff_exists.mp hc
      obtain ⟨s1, hs1, hkeep, hreset1, hexists⟩ :=
        addHeroChainOne_step s c carrier hcarrier hca hreset
      obtain ⟨s2, hs2, hkeep2⟩ := ih s1 hreset1
        (fun c2 hc2 =>
          ⟨hexists _ (hresult c2 (List.mem_cons_of_mem _ hc2)).1,
            (hresult c2 (List.mem_cons_of_mem _ hc2)).2⟩)
      refine ⟨s2, ?_, ?_⟩
      · simp only [addHeroChain, hs1]
        exact hs2
      · intro q n hq hn
        exact hkeep2 q n (hkeep q n hq hn) hn
  · intro chainInfo carrier hcarrier
    exact addHeroChainOne_cases s chainInfo carrier hcarrier
      (hreset carrier.coord carrier.layer)

/-- The free slots of the scenario `chainState` are reset. -/
theorem chainState_reset : StorageReset chainState.nodes := by
  intro pos layer
  unfold chainState
  simp only
  by_cases h : pos = ⟨3, 3, 0⟩ ∧ layer = EPathfindingLayer.LAND
  · rw [if_pos h]
    decide
  · rw [if_neg h]
    intro node hnode
    cases hnode

theorem addHeroChain_frame_witness :
    StorageReset chainState.nodes ∧
    (∀ c ∈ [chainCandidate],
      (chainState.nodes.node c.carrierParent).isSome = true ∧ c.actor ≠ none) ∧
    ∃ s1, addHeroChain chainState [chainCandidate] = some s1 ∧
      ∀ q n, chainState.nodes.node q = some n → n.action ≠ ENodeAction.UNKNOWN →
        s1.nodes.node q = some n :=
  ⟨chainState_reset, by decide,
    (addHeroChain_frame chainState [chainCandidate] chainState_reset (by decide)).1⟩

/-! ### The rule after a tentative step -/

/-- Without a blocking reason `process` returns the destination and the storage
as they are. -/
theorem process_no_blocker (env : RuleEnv) (s : AINodeStorage) (source : PathNodeInfo)
    (destination : CDestinationNodeInfo)
    (hineff : env.isMovementIneficient s source destination = false)
    (hblocker : env.getBlockingReason source destination = BlockingReason.NONE) :
    process env s source destination = some (destination, s) := by
  unfold process
  simp only [hineff, Bool.false_eq_true, if_false, hblocker, if_true]

/-- With a blocking reason, a step that is not movement-inefficient and whose
distance limit is reached ends blocked. -/
theorem process_blocker_limit (env : RuleEnv) (s : AINodeStorage) (source : PathNodeInfo)
    (destination destination1 : CDestinationNodeInfo) (allowBypass : Bool)
    (nodes1 : AISharedStorage)
    (hineff : env.isMovementIneficient s source destination = false)
    (hblocker : env.getBlockingReason source destination ≠ BlockingReason.NONE)
    (hbypass : processBypass env s (env.getBlockingReason source destination) source
      destination = some (allowBypass, destination1, nodes1))
    (hlimit : isDistanceLimitReached { s with nodes := nodes1 } env.heroRole destination1
      = some true) :
    ∃ r, process env s source destination = some r ∧ r.1.blocked = true := by
  unfold process
  simp only [hineff, Bool.false_eq_true, if_false, hblocker, hbypass]
  cases allowBypass with
  | true =>
    simp only [Bool.not_true, Bool.false_eq_true, if_false, hlimit]
    exact ⟨_, rfl, rfl⟩
  | false =>
    simp only [Bool.not_false, if_true]
    exact ⟨_, rfl, rfl⟩

/-- C33 fails for a step without blocking reason.  In the FINAL pass with a scout
limit of 0 the destination on tile (3, 3, 0), a node of the scout actor 8 reached
after 1 turn, is beyond the distance limit; the step is not movement-inefficient
and has no blocking reason, and `process` leaves the destination unblocked, while
the same step with a blocking reason ends blocked.  The same holds when the
scout node is alone on its tile and `isMovementIneficient` is
`hasBetterChain(source, destination)`, which returns false there. -/
theorem process_no_blocker_ignores_limit :
    isDistanceLimitReached (distantState EHeroChainPass.FINAL 1 0)
      (ruleEnv BlockingReason.NONE).heroRole (distantDestination 1) = some true ∧
    (ruleEnv BlockingReason.NONE).isMovementIneficient (distantState EHeroChainPass.FINAL 1 0)
      distantSource (distantDestination 1) = false ∧
    (ruleEnv BlockingReason.NONE).getBlockingReason distantSource (distantDestination 1)
      = BlockingReason.NONE ∧
    (distantDestination 1).blocked = false ∧
    (process (ruleEnv BlockingReason.NONE) (distantState EHeroChainPass.FINAL 1 0)
      distantSource (distantDestination 1)).map (fun r => r.1.blocked) = some false ∧
    (process (ruleEnv BlockingReason.DESTINATION_BLOCKED)
      (distantState EHeroChainPass.FINAL 1 0)
      distantSource (distantDestination 1)).map (fun r => r.1.blocked) = some true ∧
    loneScoutState.nodes ⟨3, 3, 0⟩ EPathfindingLayer.LAND
      = [{ meetingNode 8 500 with turns := 1 }] ∧
    hasBetterChainStep loneScoutState (fun _ => 0) (fun i => decide (i < 0)) scoutSource
      (distantDestination 0) = some false ∧
    (chainRuleEnv BlockingReason.NONE).isMovementIneficient loneScoutState scoutSource
      (distantDestination 0) = false ∧
    isDistanceLimitReached loneScoutState (chainRuleEnv BlockingReason.NONE).heroRole
      (distantDestination 0) = some true ∧
    (distantDestination 0).blocked = false ∧
    (process (chainRuleEnv BlockingReason.NONE) loneScoutState scoutSource
      (distantDestination 0)).map (fun r => r.1.blocked) = some false ∧
    (process (chainRuleEnv BlockingReason.DESTINATION_BLOCKED) loneScoutState scoutSource
      (distantDestination 0)).map (fun r => r.1.blocked) = some true := by
  refine ⟨by decide, by decide, by decide, by decide, by decide, by decide, by decide,
    by decide, by decide, by decide, by decide, by decide, by decide⟩

/-- A node that has an actor is not written by `getOrCreateNode`. -/
theorem getOrCreateNode_keeps_held (nodes nodes1 : AISharedStorage) (pos : int3)
    (layer : EPathfindingLayer) (actor : ActorPtr) (ptr : NodePtr)
    (h : getOrCreateNode nodes pos layer actor = some (ptr, nodes1))
    (q : NodePtr) (n : AIPathNode) (hq : nodes.node q = some n) (hn : n.actor ≠ none) :
    nodes1.node q = some n := by
  have h1 : getOrCreateNodeOpt nodes pos layer (some actor) = some (ptr, nodes1) := h
  obtain ⟨_, _, n0, hn0, hcase⟩ := getOrCreateNodeOpt_outcome _ _ _ _ _ _ h1
  rcases hcase with ⟨_, rfl⟩ | ⟨hfree, a, _, rfl⟩
  · exact hq
  · by_cases hqp : q = ptr
    · subst hqp
      rw [hn0] at hq
      cases hq
      exact absurd hfree hn
    · rw [node_modify, hq]
      simp [Ne.symm hqp]

/-- The test `guardsAlreadyBypassed && srcNode->actor->allowBattle`. -/
theorem guardsBypassed_iff (env : GuardEnv) (destGuardians : List Nat) (source : PathNodeInfo)
    (srcActor : ChainActor) :
    (((destGuardians.filter
        (fun destGuard => !(env.getGuardingCreatures source.coord).contains destGuard)).isEmpty
      && !(env.getGuardingCreatures source.coord).isEmpty) && srcActor.allowBattle) = true
    ↔ GuardsBypassed env destGuardians source srcActor := by
  unfold GuardsBypassed
  have hfilter : (destGuardians.filter
        (fun destGuard => !(env.getGuardingCreatures source.coord).contains destGuard)).isEmpty
      = true ↔ ∀ g ∈ destGuardians, g ∈ env.getGuardingCreatures source.coord := by
    rw [List.isEmpty_iff, List.filter_eq_nil_iff]
    constructor
    · intro h g hg
      have := h g hg
      simpa using this
    · intro h g hg
      simpa using h g hg
  have hsrc : (!(env.getGuardingCreatures source.coord).isEmpty) = true
      ↔ env.getGuardingCreatures source.coord ≠ [] := by
    cases env.getGuardingCreatures source.coord with
    | nil => simp
    | cons _ _ => simp
  rw [Bool.and_eq_true, Bool.and_eq_true, hfilter, hsrc, and_assoc]

/-- With the nodes and actors of the step in place, the commit of the battle node
is defined. -/
theorem commitDestination_defined (env : GuardEnv) (arena : ActorArena)
    (nodes : AISharedStorage) (destination : CDestinationNodeInfo) (source : PathNodeInfo)
    (srcNode dstNode : AIPathNode) (actorPtr : ActorPtr)
    (hsrc : nodes.node source.node = some srcNode)
    (hdst : nodes.node destination.node = some dstNode)
    (hactor : dstNode.actor = some actorPtr)
    (harena : (arena.actors[actorPtr]?).isSome = true) :
    ∃ nodes1, commitDestination env arena nodes destination source = some nodes1 := by
  unfold commitDestination
  simp only [hsrc, hdst]
  obtain ⟨a, ha⟩ := Option.isSome_iff_exists.mp harena
  generalize hy : (if srcNode.specialAction.isSome || srcNode.chainOther.isSome then
      { commitNode dstNode srcNode destination.action destination.turn
          destination.movementLeft destination.cost with
        theNodeBefore := some source.node }
    else commitNode dstNode srcNode destination.action destination.turn
      destination.movementLeft destination.cost) = y
  have hya : y.actor = some actorPtr := by
    rw [← hy]
    split_ifs <;> exact hactor
  cases hsp : y.specialAction with
  | none => exact ⟨_, rfl⟩
  | some action =>
    simp only [hya, ha]
    exact ⟨_, rfl⟩

/-- The outcome of `bypassDestinationGuards` on a guarded destination: the call
is defined, returns true exactly in the cases (a) and (b), and when it returns
false it leaves the destination info and the destination node as they are. -/
theorem bypassDestinationGuards_cases (env : GuardEnv) (arena : ActorArena)
    (nodes : AISharedStorage) (destGuardians : List Nat) (source : PathNodeInfo)
    (destination : CDestinationNodeInfo)
    (srcNode destNode : AIPathNode) (srcActor destActor : ChainActor)
    (hguard : destGuardians ≠ [])
    (hsrc : nodes.node source.node = some srcNode)
    (hsa : srcNode.actor.bind (fun p => arena.actors[p]?) = some srcActor)
    (hdst : nodes.node destination.node = some destNode)
    (hda : destNode.actor.bind (fun p => arena.actors[p]?) = some destActor)
    (hbattle : (arena.actors[destActor.battleActor]?).isSome = true) :
    ∃ b dest1 nodes1,
      bypassDestinationGuards env arena nodes destGuardians source destination
        = some (b, dest1, nodes1) ∧
      (b = true ↔ GuardsBypassed env destGuardians source srcActor
        ∨ BattleAffordable env nodes destination destNode destActor srcNode srcActor) ∧
      (b = false → dest1 = destination ∧ nodes1.node destination.node = some destNode) := by
  have hsrcActor : srcNode.actor ≠ none := by
    intro hc
    rw [hc] at hsa
    cases hsa
  have hdstActor : destNode.actor ≠ none := by
    intro hc
    rw [hc] at hda
    cases hda
  have hempty : destGuardians.isEmpty = false := by
    cases destGuardians with
    | nil => exact absurd rfl hguard
    | cons _ _ => rfl
  unfold bypassDestinationGuards
  simp only [hempty, Bool.false_eq_true, if_false, hsrc, hsa, hdst, hda]
  by_cases hA : (((destGuardians.filter
        (fun destGuard => !(env.getGuardingCreatures source.coord).contains destGuard)).isEmpty
      && !(env.getGuardingCreatures source.coord).isEmpty) && srcActor.allowBattle) = true
  · simp only [hA, if_true]
    refine ⟨true, destination, nodes, rfl, ?_, fun h => by cases h⟩
    exact ⟨fun _ => Or.inl ((guardsBypassed_iff _ _ _ _).mp hA), fun _ => rfl⟩
  · have hnA : ¬ GuardsBypassed env destGuardians source srcActor :=
      fun h => hA ((guardsBypassed_iff _ _ _ _).mpr h)
    simp only [hA, if_false, Bool.false_eq_true]
    cases hg : getOrCreateNode nodes destination.coord destNode.layer
        destActor.battleActor with
    | none =>
      refine ⟨false, destination, nodes, rfl, ?_, fun _ => ⟨rfl, hdst⟩⟩
      constructor
      · intro h
        cases h
      · rintro (h | ⟨p, n1, bn, hB, _⟩)
        · exact absurd h hnA
        · rw [hg] at hB
          cases hB
    | some res =>
      obtain ⟨battlePtr, nodesA⟩ := res
      obtain ⟨⟨bn, hbn, hbna⟩, _⟩ := getOrCreateNode_spec nodes nodesA _ _ _ battlePtr hg
      have hsrcA : nodesA.node source.node = some srcNode :=
        getOrCreateNode_keeps_held _ _ _ _ _ _ hg _ _ hsrc hsrcActor
      have hdstA : nodesA.node destination.node = some destNode :=
        getOrCreateNode_keeps_held _ _ _ _ _ _ hg _ _ hdst hdstActor
      simp only [hbn, hsrcA]
      by_cases hlocked : bn.locked = true
      · simp only [hlocked, if_true]
        refine ⟨false, destination, nodesA, rfl, ?_, fun _ => ⟨rfl, hdstA⟩⟩
        constructor
        · intro h
          cases h
        · rintro (h | ⟨p, n1, bn1, hB, hB1, hB2, _⟩)
          · exact absurd h hnA
          · rw [hg] at hB
            simp only [Option.some.injEq, Prod.mk.injEq] at hB
            obtain ⟨rfl, rfl⟩ := hB
            rw [hbn] at hB1
            cases hB1
            rw [hlocked] at hB2
            cases hB2
      · have hunlocked : bn.locked = false := by
          cases hb : bn.locked with
          | true => exact absurd hb hlocked
          | false => rfl
        simp only [hlocked, if_false, Bool.false_eq_true]
        by_cases hloss : env.evaluateArmyLoss srcActor.hero
            (sub64 srcActor.armyValue srcNode.armyLoss)
            (env.evaluateDanger destination.coord srcActor.hero true)
              < sub64 srcActor.armyValue srcNode.armyLoss
        · simp only [hloss, if_true]
          obtain ⟨nodes2, hcommit⟩ := commitDestination_defined env arena nodesA
            { destination with node := battlePtr } source srcNode bn destActor.battleActor
            hsrcA hbn hbna hbattle
          simp only [hcommit]
          refine ⟨true, _, _, rfl, ?_, fun h => by cases h⟩
          exact ⟨fun _ => Or.inr ⟨battlePtr, nodesA, bn, hg, hbn, hunlocked, hloss⟩,
            fun _ => rfl⟩
        · simp only [hloss, if_false]
          refine ⟨false, destination, nodesA, rfl, ?_, fun _ => ⟨rfl, hdstA⟩⟩
          constructor
          · intro h
            cases h
          · rintro (h | ⟨p, n1, bn1, hB, _, _, hB3⟩)
            · exact absurd h hnA
            · exact absurd hB3 hloss

/-- C32. For a step that is not movement-inefficient onto a guarded destination
(blocking reason DESTINATION_GUARDED, at least one guardian), with the nodes and
actors of the step in place: `bypassDestinationGuards` returns, and it returns
true if and only if (a) every guardian of the destination also guards the
source, the source has a guardian and the actor of the source node has
`allowBattle`, or (b) a node for the battle actor can be allocated on the
destination tile, is not locked, and `evaluateArmyLoss(hero, armyValue −
srcArmyLoss, danger) < armyValue − srcArmyLoss` (`uint64_t` differences); and
when it returns false, `process` leaves the destination blocked and its node
locked. -/
theorem bypassDestinationGuards_iff (env : RuleEnv) (s : AINodeStorage)
    (source : PathNodeInfo) (destination : CDestinationNodeInfo)
    (srcNode destNode : AIPathNode) (srcActor destActor : ChainActor)
    (hineff : env.isMovementIneficient s source destination = false)
    (hblocker : env.getBlockingReason source destination
      = BlockingReason.DESTINATION_GUARDED)
    (hguard : env.guard.getGuardingCreatures destination.coord ≠ [])
    (hsrc : s.nodes.node source.node = some srcNode)
    (hsa : srcNode.actor.bind (fun p => s.arena.actors[p]?) = some srcActor)
    (hdst : s.nodes.node destination.node = some destNode)
    (hda : destNode.actor.bind (fun p => s.arena.actors[p]?) = some destActor)
    (hbattle : (s.arena.actors[destActor.battleActor]?).isSome = true) :
    ∃ b dest1 nodes1,
      bypassDestinationGuards env.guard s.arena s.nodes
        (env.guard.getGuardingCreatures destination.coord) source destination
        = some (b, dest1, nodes1) ∧
      (b = true ↔
        GuardsBypassed env.guard (env.guard.getGuardingCreatures destination.coord) source
          srcActor
        ∨ BattleAffordable env.guard s.nodes destination destNode destActor srcNode srcActor) ∧
      (b = false →
        ∃ dest2 s2 n, process env s source destination = some (dest2, s2) ∧
          dest2.blocked = true ∧ dest2.node = destination.node ∧
          s2.nodes.node destination.node = some n ∧ n.locked = true) := by
  obtain ⟨b, dest1, nodes1, hcall, hiff, hfalse⟩ :=
    bypassDestinationGuards_cases env.guard s.arena s.nodes
      (env.guard.getGuardingCreatures destination.coord) source destination
      srcNode destNode srcActor destActor hguard hsrc hsa hdst hda hbattle
  refine ⟨b, dest1, nodes1, hcall, hiff, ?_⟩
  intro hb
  subst hb
  obtain ⟨hd, hn⟩ := hfalse rfl
  subst hd
  refine ⟨{ dest1 with blocked := true },
    { s with nodes := nodes1.modify dest1.node (fun node => { node with locked := true }) },
    { destNode with locked := true }, ?_, rfl, rfl, ?_, rfl⟩
  · unfold process
    simp only [hineff, Bool.false_eq_true, if_false, hblocker, processBypass, hcall]
    rfl
  · simp only []
    rw [node_modify_same, hn]
    rfl

theorem bypassDestinationGuards_iff_witness :
    ∃ b dest1 nodes1,
      bypassDestinationGuards (ruleEnv BlockingReason.DESTINATION_GUARDED).guard
        guardedState.arena guardedState.nodes
        ((ruleEnv BlockingReason.DESTINATION_GUARDED).guard.getGuardingCreatures
          guardedDestination.coord) guardedSource guardedDestination
        = some (b, dest1, nodes1) ∧
      (b = true ↔
        GuardsBypassed (ruleEnv BlockingReason.DESTINATION_GUARDED).guard
          ((ruleEnv BlockingReason.DESTINATION_GUARDED).guard.getGuardingCreatures
            guardedDestination.coord) guardedSource (mergedArena.actors[16]?.getD rawActor)
        ∨ BattleAffordable (ruleEnv BlockingReason.DESTINATION_GUARDED).guard
          guardedState.nodes guardedDestination
          { meetingNode 16 0 with coord := ⟨4, 4, 0⟩, action := ENodeAction.UNKNOWN }
          (mergedArena.actors[16]?.getD rawActor) (exchangeNodeWith 1000)
          (mergedArena.actors[16]?.getD rawActor)) ∧
      (b = false →
        ∃ dest2 s2 n, process (ruleEnv BlockingReason.DESTINATION_GUARDED) guardedState
            guardedSource guardedDestination = some (dest2, s2) ∧
          dest2.blocked = true ∧ dest2.node = guardedDestination.node ∧
          s2.nodes.node guardedDestination.node = some n ∧ n.locked = true) :=
  bypassDestinationGuards_iff (ruleEnv BlockingReason.DESTINATION_GUARDED) guardedState
    guardedSource guardedDestination (exchangeNodeWith 1000)
    { meetingNode 16 0 with coord := ⟨4, 4, 0⟩, action := ENodeAction.UNKNOWN }
    (mergedArena.actors[16]?.getD rawActor) (mergedArena.actors[16]?.getD rawActor)
    (by decide) (by decide) (by decide) (by decide) (by decide) (by decide) (by decide)
    (by decide)

/-! ### Town portal: the node written -/

/-- One round of the loop of `getBestInitialNodeForTownPortal`: a node that fails
a test leaves `bestNode` alone; a node that passes replaces a null `bestNode`
and a `bestNode` of greater cost. -/
theorem getBestInitialNodeStep_spec (finder : TowmPortalFinder) (nodes : AISharedStorage)
    (arena : ActorArena) (town : CGTownInstance) (best best1 : Option NodePtr)
    (nodePtr : NodePtr)
    (h : getBestInitialNodeStep finder nodes arena town best nodePtr = some best1) :
    ∃ node, nodes.node nodePtr = some node ∧
      ((¬ IsPortalSource finder arena town node ∧ best1 = best) ∨
       (IsPortalSource finder arena town node ∧
        ((best = none ∧ best1 = some nodePtr) ∨
         ∃ b bn, best = some b ∧ nodes.node b = some bn ∧
           ((bn.cost > node.cost ∧ best1 = some nodePtr) ∨
            (¬ bn.cost > node.cost ∧ best1 = best))))) := by
  unfold getBestInitialNodeStep at h
  cases hn : nodes.node nodePtr with
  | none => simp [hn] at h
  | some node =>
    refine ⟨node, rfl, ?_⟩
    simp only [hn] at h
    unfold IsPortalSource
    cases hs : isTownPortalSource finder arena node with
    | none => simp [hs] at h
    | some bs =>
      cases bs with
      | false =>
        simp only [hs, Option.some.injEq] at h
        exact Or.inl ⟨by simp, h.symm⟩
      | true =>
        simp only [hs] at h
        cases hr : isTownInRange finder node town with
        | none => simp [hr] at h
        | some br =>
          cases br with
          | false =>
            simp only [hr, Option.some.injEq] at h
            exact Or.inl ⟨by simp, h.symm⟩
          | true =>
            simp only [hr] at h
            right
            refine ⟨⟨rfl, rfl⟩, ?_⟩
            cases best with
            | none =>
              simp only [Option.some.injEq] at h
              exact Or.inl ⟨rfl, h.symm⟩
            | some b =>
              right
              simp only at h
              cases hb : nodes.node b with
              | none => simp [hb] at h
              | some bn =>
                simp only [hb] at h
                refine ⟨b, bn, rfl, hb, ?_⟩
                by_cases hc : bn.cost > node.cost
                · simp only [hc, if_true, Option.some.injEq] at h
                  exact Or.inl ⟨hc, h.symm⟩
                · simp only [hc, if_false, Option.some.injEq] at h
                  exact Or.inr ⟨hc, h.symm⟩

/-- The node `getBestInitialNodeForTownPortal` returns passes both tests and has
the least cost of the nodes of the list that pass them (and of the start value
of `bestNode`). -/
theorem getBestInitialNode_min (finder : TowmPortalFinder) (nodes : AISharedStorage)
    (arena : ActorArena) (town : CGTownInstance) :
    ∀ (l : List NodePtr) (best : Option NodePtr) (r : NodePtr),
      getBestInitialNodeForTownPortal finder nodes arena town l best = some (some r) →
      (∀ b, best = some b → ∃ bn, nodes.node b = some bn ∧
        IsPortalSource finder arena town bn) →
      ∃ rn, nodes.node r = some rn ∧ IsPortalSource finder arena town rn ∧
        (r ∈ l ∨ best = some r) ∧
        (∀ p ∈ l, ∀ n, nodes.node p = some n → IsPortalSource finder arena town n →
          rn.cost ≤ n.cost) ∧
        (∀ b bn, best = some b → nodes.node b = some bn → rn.cost ≤ bn.cost) := by
  intro l
  induction l with
  | nil =>
    intro best r h hbest
    simp only [getBestInitialNodeForTownPortal, Option.some.injEq] at h
    obtain ⟨bn, hbn, hq⟩ := hbest r h
    refine ⟨bn, hbn, hq, Or.inr h, ?_, ?_⟩
    · intro p hp
      cases hp
    · intro b bn2 hb hbn2
      rw [h] at hb
      cases hb
      rw [hbn] at hbn2
      cases hbn2
      exact le_refl _
  | cons nodePtr rest ih =>
    intro best r h hbest
    simp only [getBestInitialNodeForTownPortal] at h
    cases hstep : getBestInitialNodeStep finder nodes arena town best nodePtr with
    | none => simp [hstep] at h
    | some best1 =>
      simp only [hstep] at h
      obtain ⟨node, hnode, hcase⟩ :=
        getBestInitialNodeStep_spec finder nodes arena town best best1 nodePtr hstep
      have hbest1 : ∀ b, best1 = some b → ∃ bn, nodes.node b = some bn ∧
          IsPortalSource finder arena town bn := by
        intro b hb
        rcases hcase with ⟨_, h1⟩ | ⟨hq, ⟨_, h1⟩ | ⟨b0, bn0, _, _, ⟨_, h1⟩ | ⟨_, h1⟩⟩⟩
        · exact hbest b (h1 ▸ hb)
        · rw [h1] at hb
          cases hb
          exact ⟨node, hnode, hq⟩
        · rw [h1] at hb
          cases hb
          exact ⟨node, hnode, hq⟩
        · exact hbest b (h1 ▸ hb)
      obtain ⟨rn, hrn, hrq, hmem, hmin, hminb⟩ := ih best1 r h hbest1
      refine ⟨rn, hrn, hrq, ?_, ?_, ?_⟩
      · rcases hmem with hm | hm
        · exact Or.inl (List.mem_cons_of_mem _ hm)
        · rcases hcase with ⟨_, h1⟩ | ⟨_, ⟨_, h1⟩ | ⟨b0, bn0, _, _, ⟨_, h1⟩ | ⟨_, h1⟩⟩⟩
          · exact Or.inr (h1 ▸ hm)
          · rw [h1] at hm
            cases hm
            exact Or.inl (List.mem_cons_self _ _)
          · rw [h1] at hm
            cases hm
            exact Or.inl (List.mem_cons_self _ _)
          · exact Or.inr (h1 ▸ hm)
      · intro p hp n hn hq
        rcases List.mem_cons.mp hp with rfl | hp
        · rw [hnode] at hn
          cases hn
          rcases hcase with ⟨hnq, _⟩ | ⟨_, ⟨_, h1⟩ | ⟨b0, bn0, hb0, hbn0, ⟨_, h1⟩ | ⟨hc, h1⟩⟩⟩
          · exact absurd hq hnq
          · exact hminb p _ h1 hnode
          · exact hminb p _ h1 hnode
          · have := hminb b0 bn0 (h1.trans hb0) hbn0
            exact le_trans this (not_lt.mp hc)
        · exact hmin p hp n hn hq
      · intro b bn hb hbn
        rcases hcase with ⟨_, h1⟩ | ⟨_, ⟨h0, _⟩ | ⟨b0, bn0, hb0, hbn0, ⟨hc, h1⟩ | ⟨_, h1⟩⟩⟩
        · exact hminb b bn (h1.trans hb) hbn
        · rw [h0] at hb
          cases hb
        · rw [hb0] at hb
          cases hb
          rw [hbn0] at hbn
          cases hbn
          exact le_trans (hminb nodePtr node h1 hnode) (le_of_lt hc)
        · exact hminb b bn (h1.trans hb) hbn

/-- The movement points left after the teleport, for a source with movement
points in the range of a non-negative `int` that passed the movement test. -/
theorem portal_moveRemains (m : Int) (needed : Nat) (h0 : 0 ≤ m) (h1 : m < 2 ^ 31)
    (h2 : ¬ toUint64 m < needed) :
    toInt32 (sub64 (toUint64 m) needed) = m - (needed : Int) ∧ 0 ≤ m - (needed : Int) := by
  obtain ⟨n, rfl⟩ := Int.eq_ofNat_of_zero_le h0
  have hn : n < 2 ^ 31 := by exact_mod_cast h1
  have hu : toUint64 (n : Int) = n := by
    unfold toUint64 UINT64
    have : ((n : Int) % ((2 ^ 64 : Nat) : Int)) = ((n % 2 ^ 64 : Nat) : Int) := by
      push_cast
      rfl
    rw [this, Int.toNat_ofNat]
    apply Nat.mod_eq_of_lt
    omega
  rw [hu] at h2 ⊢
  have hle : needed ≤ n := by omega
  have hs : sub64 n needed = n - needed := by
    unfold sub64 UINT64
    norm_num
    omega
  rw [hs]
  constructor
  · unfold toInt32
    have hlt : (n - needed) % 2 ^ 32 < 2 ^ 31 := by
      norm_num
      omega
    have hmod : (n - needed) % 2 ^ 32 = n - needed := by
      norm_num
      omega
    rw [if_pos hlt, hmod]
    omega
  · omega

/-- What passing the first test of the loop says of a node. -/
theorem isTownPortalSource_true (finder : TowmPortalFinder) (arena : ActorArena)
    (node : AIPathNode) (h : isTownPortalSource finder arena node = some true) :
    node.actor ≠ none ∧ node.layer = EPathfindingLayer.LAND ∧
    ¬ toUint64 node.moveRemains < finder.movementNeeded := by
  unfold isTownPortalSource at h
  cases ha : node.actor with
  | none => simp [ha] at h
  | some a =>
    simp only [ha] at h
    cases hb : arena.actors[a]? with
    | none => simp [hb] at h
    | some aiActor =>
      simp only [hb, Option.some.injEq, Bool.not_eq_true', Bool.or_eq_false_iff,
        decide_eq_false_iff_not, ne_eq, not_not] at h
      exact ⟨by simp, h.1.2, h.2⟩

/-- C34 fails below the advanced level.  With basic town portal and the target
`farTown`, the initial node on tile (3, 3, 0) (same actor, on land, 500 movement
points for 300 needed, cost 0) is not the source of the teleport: the node
written at `farTown` has the node on tile (29, 30, 0), of cost 5, as its
predecessor, because `farTown` is not the town nearest to (3, 3, 0). -/
theorem createTownPortalNode_source_not_cheapest :
    (portalFinder SecSkillLevel.BASIC).movementNeeded = 300 ∧
    isTownPortalSource (portalFinder SecSkillLevel.BASIC) twoSourceState.arena
      (meetingNode 0 500) = some true ∧
    twoSourceState.nodes.node (meetingSlot 0) = some (meetingNode 0 500) ∧
    (meetingNode 0 500).cost = 0 ∧
    (twoSourceState.nodes.node ⟨⟨29, 30, 0⟩, EPathfindingLayer.LAND, 0⟩).map
      (fun n => (n.cost, n.moveRemains)) = some (5, 500) ∧
    (createTownPortalNode (portalFinder SecSkillLevel.BASIC) twoSourceState
        [meetingSlot 0, ⟨⟨29, 30, 0⟩, EPathfindingLayer.LAND, 0⟩] farTown).map
      (fun r => (r.1, (r.2.node ⟨⟨30, 30, 0⟩, EPathfindingLayer.LAND, 0⟩).map
        (fun n => (n.action, n.theNodeBefore, n.moveRemains))))
      = some (some ⟨⟨30, 30, 0⟩, EPathfindingLayer.LAND, 0⟩,
          some (ENodeAction.TELEPORT_NORMAL,
            some ⟨⟨29, 30, 0⟩, EPathfindingLayer.LAND, 0⟩, 200)) :=
  ⟨by decide, by decide, by decide, by decide, by decide, by decide⟩

/-- C34 (amended). When `createTownPortalNode` returns a node `q` for a target
town, its source is a node of `initialNodes` that passes the tests of the loop
(same base actor, on LAND, enough movement points, and below the advanced level
the target town is the nearest town to it) and has the least cost of the initial
nodes that pass them.  If the node at `q` had the action UNKNOWN or a cost
strictly greater than the new cost, it is written: action TELEPORT_NORMAL, the
turns of the source, `moveRemains = source.moveRemains − movementNeeded ≥ 0`,
cost `movementNeeded / maxMovePoints(LAND) + source.cost`, the source as
predecessor; otherwise its action, cost, turns and movement points stay.  The
movement points of the initial nodes are taken in the range of a non-negative
`int`. -/
theorem createTownPortalNode_written (finder : TowmPortalFinder) (s : AINodeStorage)
    (initialNodes : List NodePtr) (town : CGTownInstance) (q : NodePtr)
    (nodes1 : AISharedStorage)
    (hrange : ∀ p ∈ initialNodes, ∀ n, s.nodes.node p = some n →
      0 ≤ n.moveRemains ∧ n.moveRemains < 2 ^ 31)
    (h : createTownPortalNode finder s initialNodes town = some (some q, nodes1)) :
    ∃ p src n0,
      p ∈ initialNodes ∧ s.nodes.node p = some src ∧
      IsPortalSource finder s.arena town src ∧
      (∀ p2 ∈ initialNodes, ∀ n2, s.nodes.node p2 = some n2 →
        IsPortalSource finder s.arena town n2 → src.cost ≤ n2.cost) ∧
      s.nodes.node q = some n0 ∧
      (n0.action = ENodeAction.UNKNOWN
          ∨ n0.cost > (finder.movementNeeded : ℚ)
              / (finder.hero.maxMovePoints EPathfindingLayer.LAND : ℚ) + src.cost →
        ∃ n, nodes1.node q = some n ∧ n.action = ENodeAction.TELEPORT_NORMAL ∧
          n.turns = src.turns ∧
          n.moveRemains = src.moveRemains - (finder.movementNeeded : Int) ∧
          0 ≤ n.moveRemains ∧
          n.cost = (finder.movementNeeded : ℚ)
              / (finder.hero.maxMovePoints EPathfindingLayer.LAND : ℚ) + src.cost ∧
          n.theNodeBefore = some p) ∧
      (¬ (n0.action = ENodeAction.UNKNOWN
          ∨ n0.cost > (finder.movementNeeded : ℚ)
              / (finder.hero.maxMovePoints EPathfindingLayer.LAND : ℚ) + src.cost) →
        ∃ n, nodes1.node q = some n ∧ n.action = n0.action ∧ n.cost = n0.cost ∧
          n.turns = n0.turns ∧ n.moveRemains = n0.moveRemains) := by
  unfold createTownPortalNode at h
  cases hb : getBestInitialNodeForTownPortal finder s.nodes s.arena town initialNodes none with
  | none => simp [hb] at h
  | some best =>
    cases best with
    | none => simp [hb] at h
    | some p =>
      simp only [hb] at h
      obtain ⟨src, hsrc, hq, hmem, hmin, _⟩ :=
        getBestInitialNode_min finder s.nodes s.arena town initialNodes none p hb
          (by intro b hb0; cases hb0)
      have hpmem : p ∈ initialNodes := by
        rcases hmem with hm | hm
        · exact hm
        · cases hm
      obtain ⟨hsrcActor, _, hmove⟩ := isTownPortalSource_true finder s.arena src hq.1
      cases ha : s.arena.actors[finder.actor]? with
      | none => simp [ha] at h
      | some actorObj =>
        simp only [ha] at h
        cases hg : getOrCreateNode s.nodes town.visitablePos EPathfindingLayer.LAND
            actorObj.castActor with
        | none => simp [hg] at h
        | some res =>
          obtain ⟨nodePtr, nodesA⟩ := res
          simp only [hg] at h
          have hg1 : getOrCreateNodeOpt s.nodes town.visitablePos EPathfindingLayer.LAND
              (some actorObj.castActor) = some (nodePtr, nodesA) := hg
          obtain ⟨_, _, n0, hn0, hcase⟩ := getOrCreateNodeOpt_outcome _ _ _ _ _ _ hg1
          have hsrcA : nodesA.node p = some src :=
            getOrCreateNode_keeps_held _ _ _ _ _ _ hg _ _ hsrc hsrcActor
          have hnodeA : ∃ x, nodesA.node nodePtr = some x ∧ x.action = n0.action ∧
              x.cost = n0.cost ∧ x.turns = n0.turns ∧ x.moveRemains = n0.moveRemains := by
            rcases hcase with ⟨_, rfl⟩ | ⟨_, a, _, rfl⟩
            · exact ⟨n0, hn0, rfl, rfl, rfl, rfl⟩
            · exact ⟨{ n0 with actor := some a }, by rw [node_modify_same, hn0]; rfl,
                rfl, rfl, rfl, rfl⟩
          obtain ⟨x, hx, hxa, hxc, hxt, hxm⟩ := hnodeA
          simp only [hx, hsrcA] at h
          obtain ⟨hm0, hm1⟩ := hrange p hpmem src hsrc
          obtain ⟨hrem, hrem0⟩ := portal_moveRemains src.moveRemains finder.movementNeeded
            hm0 hm1 hmove
          by_cases hcond : x.action = ENodeAction.UNKNOWN
              ∨ x.cost > (finder.movementNeeded : ℚ)
                  / (finder.hero.maxMovePoints EPathfindingLayer.LAND : ℚ) + src.cost
          · simp only [hcond, if_true, Option.some.injEq, Prod.mk.injEq] at h
            obtain ⟨rfl, rfl⟩ := h
            refine ⟨p, src, n0, hpmem, hsrc, hq, hmin, hn0, ?_, ?_⟩
            · intro _
              refine ⟨{ commitNode x src ENodeAction.TELEPORT_NORMAL src.turns
                    (toInt32 (sub64 (toUint64 src.moveRemains) finder.movementNeeded))
                    ((finder.movementNeeded : ℚ)
                      / (finder.hero.maxMovePoints EPathfindingLayer.LAND : ℚ) + src.cost) with
                  theNodeBefore := some p
                  specialAction := some (SpecialAction.townPortal town.id) },
                by rw [node_modify_same, hx]; rfl, rfl, rfl, ?_, ?_, rfl, rfl⟩
              · exact hrem
              · show 0 ≤ toInt32 (sub64 (toUint64 src.moveRemains) finder.movementNeeded)
                rw [hrem]
                exact hrem0
            · intro hnot
              rw [hxa, hxc] at hcond
              exact absurd hcond hnot
          · simp only [hcond, if_false, Option.some.injEq, Prod.mk.injEq] at h
            obtain ⟨rfl, rfl⟩ := h
            refine ⟨p, src, n0, hpmem, hsrc, hq, hmin, hn0, ?_, ?_⟩
            · intro hyes
              rw [← hxa, ← hxc] at hyes
              exact absurd hyes hcond
            · intro _
              exact ⟨x, hx, hxa, hxc, hxt, hxm⟩

theorem createTownPortalNode_written_witness :
    ∃ q nodes1,
      createTownPortalNode (portalFinder SecSkillLevel.BASIC) twoSourceState
        [meetingSlot 0, ⟨⟨29, 30, 0⟩, EPathfindingLayer.LAND, 0⟩] farTown
        = some (some q, nodes1) ∧
      ∃ p src n0,
        p ∈ [meetingSlot 0, ⟨⟨29, 30, 0⟩, EPathfindingLayer.LAND, 0⟩] ∧
        twoSourceState.nodes.node p = some src ∧
        IsPortalSource (portalFinder SecSkillLevel.BASIC) twoSourceState.arena farTown src ∧
        (∀ p2 ∈ [meetingSlot 0, ⟨⟨29, 30, 0⟩, EPathfindingLayer.LAND, 0⟩], ∀ n2,
          twoSourceState.nodes.node p2 = some n2 →
          IsPortalSource (portalFinder SecSkillLevel.BASIC) twoSourceState.arena farTown n2 →
          src.cost ≤ n2.cost) ∧
        twoSourceState.nodes.node q = some n0 ∧
        (n0.action = ENodeAction.UNKNOWN
            ∨ n0.cost > ((portalFinder SecSkillLevel.BASIC).movementNeeded : ℚ)
                / ((portalFinder SecSkillLevel.BASIC).hero.maxMovePoints
                    EPathfindingLayer.LAND : ℚ) + src.cost →
          ∃ n, nodes1.node q = some n ∧ n.action = ENodeAction.TELEPORT_NORMAL ∧
            n.turns = src.turns ∧
            n.moveRemains
              = src.moveRemains - ((portalFinder SecSkillLevel.BASIC).movementNeeded : Int) ∧
            0 ≤ n.moveRemains ∧
            n.cost = ((portalFinder SecSkillLevel.BASIC).movementNeeded : ℚ)
                / ((portalFinder SecSkillLevel.BASIC).hero.maxMovePoints
                    EPathfindingLayer.LAND : ℚ) + src.cost ∧
            n.theNodeBefore = some p) ∧
        (¬ (n0.action = ENodeAction.UNKNOWN
            ∨ n0.cost > ((portalFinder SecSkillLevel.BASIC).movementNeeded : ℚ)
                / ((portalFinder SecSkillLevel.BASIC).hero.maxMovePoints
                    EPathfindingLayer.LAND : ℚ) + src.cost) →
          ∃ n, nodes1.node q = some n ∧ n.action = n0.action ∧ n.cost = n0.cost ∧
            n.turns = n0.turns ∧ n.moveRemains = n0.moveRemains) := by
  have hq : (createTownPortalNode (portalFinder SecSkillLevel.BASIC) twoSourceState
      [meetingSlot 0, ⟨⟨29, 30, 0⟩, EPathfindingLayer.LAND, 0⟩] farTown).map (fun r => r.1)
      = some (some ⟨⟨30, 30, 0⟩, EPathfindingLayer.LAND, 0⟩) := by decide
  have hrange : ∀ p ∈ [meetingSlot 0, (⟨⟨29, 30, 0⟩, EPathfindingLayer.LAND, 0⟩ : NodePtr)],
      ∀ n, twoSourceState.nodes.node p = some n →
        0 ≤ n.moveRemains ∧ n.moveRemains < 2 ^ 31 := by
    intro p hp n hn
    simp only [List.mem_cons, List.mem_singleton, List.not_mem_nil, or_false] at hp
    rcases hp with rfl | rfl
    · have h0 : twoSourceState.nodes.node (meetingSlot 0) = some (meetingNode 0 500) := by
        decide
      rw [h0] at hn
      cases hn
      decide
    · have h0 : (twoSourceState.nodes.node ⟨⟨29, 30, 0⟩, EPathfindingLayer.LAND, 0⟩).map
          (fun n => n.moveRemains) = some 500 := by decide
      rw [hn] at h0
      simp only [Option.map_some', Option.some.injEq] at h0
      rw [h0]
      decide
  cases h : createTownPortalNode (portalFinder SecSkillLevel.BASIC) twoSourceState
      [meetingSlot 0, ⟨⟨29, 30, 0⟩, EPathfindingLayer.LAND, 0⟩] farTown with
  | none =>
    rw [h] at hq
    simp at hq
  | some r =>
    obtain ⟨oq, nodes1⟩ := r
    rw [h] at hq
    simp only [Option.map_some', Option.some.injEq] at hq
    subst hq
    exact ⟨_, nodes1, rfl,
      createTownPortalNode_written (portalFinder SecSkillLevel.BASIC) twoSourceState
        [meetingSlot 0, ⟨⟨29, 30, 0⟩, EPathfindingLayer.LAND, 0⟩] farTown _ nodes1 hrange h⟩

/-! ### Termination of the strategical value -/

/-- C38 fails for a hit map with two enemy heroes that reach each other: on
`mutualThreatEnv` no depth of recursion suffices, the call for hero 1 (and for
hero 2) never returns. -/
theorem getStrategicalValue_mutual_threat :
    mutualThreatEnv.isEnemyHero 1 = true ∧ mutualThreatEnv.isEnemyHero 2 = true ∧
    mutualThreatEnv.getOneTurnAccessibleObjects 1 = [2] ∧
    mutualThreatEnv.getOneTurnAccessibleObjects 2 = [1] ∧
    ∀ fuel, getStrategicalValue mutualThreatEnv fuel (some 1) = none ∧
      getStrategicalValue mutualThreatEnv fuel (some 2) = none := by
  refine ⟨by decide, by decide, rfl, rfl, ?_⟩
  intro fuel
  induction fuel with
  | zero => exact ⟨rfl, rfl⟩
  | succ f ih =>
    obtain ⟨h1, h2⟩ := ih
    constructor
    · simp [getStrategicalValue, getEnemyHeroStrategicalValueWith, mutualThreatEnv, amaxValue]
      simp [mutualThreatEnv] at h2
      rw [h2]
    · simp [getStrategicalValue, getEnemyHeroStrategicalValueWith, mutualThreatEnv, amaxValue]
      simp [mutualThreatEnv] at h1
      rw [h1]

/-- The loop of `getEnemyHeroStrategicalValue` returns when every call in it
does. -/
theorem amaxValue_foldl_some (value : Option Nat → Option ℚ) (l : List Nat)
    (h : ∀ o ∈ l, ∃ v, value (some o) = some v) :
    ∀ acc : ℚ, ∃ r, l.foldl (fun objectValue obj => amaxValue objectValue (value (some obj)))
      (some acc) = some r := by
  induction l with
  | nil => exact fun acc => ⟨acc, rfl⟩
  | cons o rest ih =>
    intro acc
    obtain ⟨v, hv⟩ := h o (List.mem_cons_self _ _)
    simp only [List.foldl_cons, hv, amaxValue]
    exact ih (fun o2 ho2 => h o2 (List.mem_cons_of_mem _ ho2)) _

/-- With a rank that falls from an enemy hero to every enemy hero it reaches
within one turn, a recursion depth of `rank + 2` (and any greater depth)
suffices for an enemy hero, and a depth of 1 for any other target. -/
theorem getStrategicalValue_some (env : StrategyEnv) (rank : Nat → Nat)
    (hrank : ∀ t, env.isEnemyHero t = true →
      ∀ o ∈ env.getOneTurnAccessibleObjects t, env.isEnemyHero o = true → rank o < rank t) :
    ∀ (fuel : Nat) (t : Nat), 1 ≤ fuel → (env.isEnemyHero t = true → rank t + 2 ≤ fuel) →
      ∃ v, getStrategicalValue env fuel (some t) = some v := by
  intro fuel
  induction fuel with
  | zero =>
    intro t h1
    omega
  | succ f ih =>
    intro t _ hfuel
    simp only [getStrategicalValue]
    by_cases htown : env.ID t = env.TOWN
    · simp only [htown, if_true]
      exact ⟨_, rfl⟩
    · simp only [htown, if_false]
      by_cases hhero : env.ID t = env.HERO
      · simp only [hhero, if_true]
        by_cases henemy : env.getPlayerRelations (env.tempOwner t) env.playerID
            = PlayerRelations.ENEMIES
        · simp only [henemy, if_true]
          have hE : env.isEnemyHero t = true := by
            unfold StrategyEnv.isEnemyHero
            rw [Bool.and_eq_true, Bool.and_eq_true]
            exact ⟨⟨decide_eq_true htown, decide_eq_true hhero⟩, decide_eq_true henemy⟩
          have hf := hfuel hE
          unfold getEnemyHeroStrategicalValueWith
          obtain ⟨r, hr⟩ := amaxValue_foldl_some (getStrategicalValue env f)
            (env.getOneTurnAccessibleObjects t)
            (fun o ho => ih o (by omega)
              (fun hoE => by
                have := hrank t hE o ho hoE
                omega)) 0
          simp only [hr]
          exact ⟨_, rfl⟩
        · simp only [henemy, if_false]
          exact ⟨_, rfl⟩
      · simp only [hhero, if_false]
        exact ⟨_, rfl⟩

/-- The loop of `getEnemyHeroStrategicalValue` gives the same result when the
calls in it that returned give the same values. -/
theorem amaxValue_foldl_mono (value value1 : Option Nat → Option ℚ) (l : List Nat)
    (h : ∀ o v, value (some o) = some v → value1 (some o) = some v) :
    ∀ (acc : Option ℚ) (r : ℚ),
      l.foldl (fun objectValue obj => amaxValue objectValue (value (some obj))) acc = some r →
      l.foldl (fun objectValue obj => amaxValue objectValue (value1 (some obj))) acc
        = some r := by
  induction l with
  | nil => exact fun acc r hr => hr
  | cons o rest ih =>
    intro acc r hr
    simp only [List.foldl_cons] at hr ⊢
    cases hv : value (some o) with
    | none =>
      have hnone : ∀ (l : List Nat),
          l.foldl (fun objectValue obj => amaxValue objectValue (value (some obj))) none
            = none := by
        intro l
        induction l with
        | nil => rfl
        | cons x xs ihx => simpa [amaxValue] using ihx
      rw [hv] at hr
      have hacc : amaxValue acc none = none := by
        cases acc <;> rfl
      rw [hacc, hnone] at hr
      cases hr
    | some v =>
      rw [h o v hv]
      rw [hv] at hr
      exact ih _ r hr

/-- One level of `getStrategicalValue` for a target that is not null. -/
theorem getStrategicalValue_succ (env : StrategyEnv) (fuel t : Nat) :
    getStrategicalValue env (fuel + 1) (some t) =
      if env.ID t = env.TOWN then
        some (if env.tempOwner t = env.NEUTRAL then 1 / 2 else 1)
      else if env.ID t = env.HERO then
        if env.getPlayerRelations (env.tempOwner t) env.playerID = PlayerRelations.ENEMIES then
          getEnemyHeroStrategicalValueWith env (getStrategicalValue env fuel) t
        else some 0
      else some 0 := rfl

/-- A call that returns with some recursion depth returns the same value with a
greater depth. -/
theorem getStrategicalValue_mono (env : StrategyEnv) :
    ∀ (fuel : Nat) (target : Option Nat) (v : ℚ),
      getStrategicalValue env fuel target = some v →
      getStrategicalValue env (fuel + 1) target = some v := by
  intro fuel
  induction fuel with
  | zero =>
    intro target v h
    cases h
  | succ f ih =>
    intro target v h
    cases target with
    | none => exact h
    | some t =>
      rw [getStrategicalValue_succ] at h ⊢
      by_cases htown : env.ID t = env.TOWN
      · simp only [htown, if_true] at h ⊢
        exact h
      · simp only [htown, if_false] at h ⊢
        by_cases hhero : env.ID t = env.HERO
        · simp only [hhero, if_true] at h ⊢
          by_cases henemy : env.getPlayerRelations (env.tempOwner t) env.playerID
              = PlayerRelations.ENEMIES
          · simp only [henemy, if_true] at h ⊢
            unfold getEnemyHeroStrategicalValueWith at h ⊢
            cases hfold : (env.getOneTurnAccessibleObjects t).foldl
                (fun objectValue obj =>
                  amaxValue objectValue (getStrategicalValue env f (some obj))) (some 0) with
            | none => simp [hfold] at h
            | some r =>
              have := amaxValue_foldl_mono (getStrategicalValue env f)
                (getStrategicalValue env (f + 1)) (env.getOneTurnAccessibleObjects t)
                (fun o w hw => ih (some o) w hw) (some 0) r hfold
              simp only [hfold] at h
              simp only [this]
              exact h
          · simp only [henemy, if_false] at h ⊢
            exact h
        · simp only [hhero, if_false] at h ⊢
          exact h

/-- C38 (amended). `getStrategicalValue` returns a value for every target (the
null target included) whenever the hit map is such that no chain of enemy heroes
reaching one another within one turn comes back to its start, stated with a rank
that falls from an enemy hero to every enemy hero among its one-turn-accessible
objects: a recursion depth of `rank target + 2` suffices.  This covers every hit
map whose one-turn-accessible objects contain no enemy hero. -/
theorem getStrategicalValue_terminates (env : StrategyEnv) (rank : Nat → Nat)
    (hrank : ∀ t, env.isEnemyHero t = true →
      ∀ o ∈ env.getOneTurnAccessibleObjects t, env.isEnemyHero o = true → rank o < rank t)
    (target : Option Nat) :
    ∃ fuel v, getStrategicalValue env fuel target = some v ∧
      ∀ fuel2, fuel ≤ fuel2 → getStrategicalValue env fuel2 target = some v := by
  have hstable : ∀ (fuel : Nat) (v : ℚ), getStrategicalValue env fuel target = some v →
      ∀ fuel2, fuel ≤ fuel2 → getStrategicalValue env fuel2 target = some v := by
    intro fuel v hv fuel2 hle
    induction fuel2 with
    | zero =>
      have : fuel = 0 := by omega
      rw [this] at hv
      exact hv
    | succ g ihg =>
      by_cases hg : fuel = g + 1
      · rw [← hg]
        exact hv
      · exact getStrategicalValue_mono env g target v (ihg (by omega))
  cases target with
  | none => exact ⟨1, 0, rfl, hstable 1 0 rfl⟩
  | some t =>
    obtain ⟨v, hv⟩ := getStrategicalValue_some env rank hrank (rank t + 2) t (by omega)
      (fun _ => le_refl _)
    exact ⟨rank t + 2, v, hv, hstable _ v hv⟩

/-- On `townThreatEnv` no enemy hero reaches an enemy hero. -/
theorem townThreatEnv_rank (t : Nat) (_ht : townThreatEnv.isEnemyHero t = true) :
    ∀ o ∈ townThreatEnv.getOneTurnAccessibleObjects t,
      townThreatEnv.isEnemyHero o = true → (fun _ : Nat => 0) o < (fun _ : Nat => 0) t := by
  intro o ho hoE
  have ho3 : o = 3 := by
    simp only [townThreatEnv] at ho
    by_cases h1 : t = 1
    · simpa [h1] using ho
    · simp [h1] at ho
  subst ho3
  exact absurd hoE (by decide)

theorem getStrategicalValue_terminates_witness :
    townThreatEnv.isEnemyHero 1 = true ∧
    townThreatEnv.getOneTurnAccessibleObjects 1 = [3] ∧
    ∃ fuel v, getStrategicalValue townThreatEnv fuel (some 1) = some v ∧
      ∀ fuel2, fuel ≤ fuel2 → getStrategicalValue townThreatEnv fuel2 (some 1) = some v :=
  ⟨by decide, rfl,
    getStrategicalValue_terminates townThreatEnv (fun _ => 0) townThreatEnv_rank (some 1)⟩

/-! ## Selection of the active actor -/

theorem maxElementByFunLoop_first (l : List (Nat × ChainActor)) :
    ∀ best : Nat × ChainActor, (∀ x ∈ l, best.1 < x.1) →
      l.Pairwise (fun x y => x.1 < y.1) →
      (maxElementByFunLoop (fun actor => actor.2.armyValue) l best = best
        ∨ maxElementByFunLoop (fun actor => actor.2.armyValue) l best ∈ l)
      ∧ ∀ x, (x = best ∨ x ∈ l) →
          x.2.armyValue
              < (maxElementByFunLoop (fun actor => actor.2.armyValue) l best).2.armyValue
          ∨ (x.2.armyValue
              = (maxElementByFunLoop (fun actor => actor.2.armyValue) l best).2.armyValue
            ∧ (maxElementByFunLoop (fun actor => actor.2.armyValue) l best).1 ≤ x.1) := by
  induction l with
  | nil =>
    intro best _ _
    refine ⟨Or.inl rfl, ?_⟩
    intro x hx
    rcases hx with hx | hx
    · subst hx
      exact Or.inr ⟨rfl, le_refl _⟩
    · cases hx
  | cons y ys ih =>
    intro best hlt hs
    rw [List.pairwise_cons] at hs
    have hby : best.1 < y.1 := hlt y (List.mem_cons_self _ _)
    by_cases hc : best.2.armyValue < y.2.armyValue
    · have hr : maxElementByFunLoop (fun actor => actor.2.armyValue) (y :: ys) best
          = maxElementByFunLoop (fun actor => actor.2.armyValue) ys y := by
        simp only [maxElementByFunLoop, hc, if_true]
      rw [hr]
      obtain ⟨h1, h2⟩ := ih y hs.1 hs.2
      refine ⟨Or.inr ?_, ?_⟩
      · rcases h1 with h1 | h1
        · rw [h1]
          exact List.mem_cons_self _ _
        · exact List.mem_cons_of_mem _ h1
      · intro x hx
        rcases hx with hx | hx
        · subst hx
          have := h2 y (Or.inl rfl)
          omega
        · rcases List.mem_cons.mp hx with hx | hx
          · exact h2 x (Or.inl hx)
          · exact h2 x (Or.inr hx)
    · have hr : maxElementByFunLoop (fun actor => actor.2.armyValue) (y :: ys) best
          = maxElementByFunLoop (fun actor => actor.2.armyValue) ys best := by
        simp only [maxElementByFunLoop, hc, if_false]
      rw [hr]
      obtain ⟨h1, h2⟩ :=
        ih best (fun x hx => hlt x (List.mem_cons_of_mem _ hx)) hs.2
      refine ⟨?_, ?_⟩
      · rcases h1 with h1 | h1
        · exact Or.inl h1
        · exact Or.inr (List.mem_cons_of_mem _ h1)
      · intro x hx
        rcases hx with hx | hx
        · exact h2 x (Or.inl hx)
        · rcases List.mem_cons.mp hx with hx | hx
          · subst hx
            have := h2 best (Or.inl rfl)
            omega
          · exact h2 x (Or.inr hx)

theorem selectNextLoop_some (cur : Nat × ChainActor) (l : List (Nat × ChainActor)) :
    ∀ nx : Nat × ChainActor, (∀ x ∈ l, nx.1 < x.1) →
      l.Pairwise (fun x y => x.1 < y.1) →
      ∃ r, selectNextLoop cur l (some nx) = some r
        ∧ (r = nx ∨ (r ∈ l
            ∧ ¬ (r.2.armyValue > cur.2.armyValue
                ∨ (r.2.armyValue = cur.2.armyValue ∧ r.1 ≤ cur.1))))
        ∧ ∀ x, (x = nx ∨ (x ∈ l
            ∧ ¬ (x.2.armyValue > cur.2.armyValue
                ∨ (x.2.armyValue = cur.2.armyValue ∧ x.1 ≤ cur.1)))) →
            x.2.armyValue < r.2.armyValue
            ∨ (x.2.armyValue = r.2.armyValue ∧ r.1 ≤ x.1) := by
  induction l with
  | nil =>
    intro nx _ _
    refine ⟨nx, rfl, Or.inl rfl, ?_⟩
    intro x hx
    rcases hx with hx | hx
    · subst hx
      exact Or.inr ⟨rfl, le_refl _⟩
    · cases hx.1
  | cons y ys ih =>
    intro nx hlt hs
    rw [List.pairwise_cons] at hs
    have hny : nx.1 < y.1 := hlt y (List.mem_cons_self _ _)
    have hrest : ∀ x ∈ ys, nx.1 < x.1 := fun x hx => hlt x (List.mem_cons_of_mem _ hx)
    by_cases hskip : y.2.armyValue > cur.2.armyValue
        ∨ (y.2.armyValue = cur.2.armyValue ∧ y.1 ≤ cur.1)
    · have hr : selectNextLoop cur (y :: ys) (some nx) = selectNextLoop cur ys (some nx) := by
        simp only [selectNextLoop, hskip, if_true]
      rw [hr]
      obtain ⟨r, h0, h1, h2⟩ := ih nx hrest hs.2
      refine ⟨r, h0, ?_, ?_⟩
      · rcases h1 with h1 | h1
        · exact Or.inl h1
        · exact Or.inr ⟨List.mem_cons_of_mem _ h1.1, h1.2⟩
      · intro x hx
        rcases hx with hx | hx
        · exact h2 x (Or.inl hx)
        · rcases List.mem_cons.mp hx.1 with hxy | hxy
          · subst hxy
            exact absurd hskip hx.2
          · exact h2 x (Or.inr ⟨hxy, hx.2⟩)
    · by_cases hc : y.2.armyValue > nx.2.armyValue
      · have hr : selectNextLoop cur (y :: ys) (some nx)
            = selectNextLoop cur ys (some y) := by
          simp only [selectNextLoop, hskip, if_false, hc, if_true]
        rw [hr]
        obtain ⟨r, h0, h1, h2⟩ := ih y hs.1 hs.2
        refine ⟨r, h0, Or.inr ?_, ?_⟩
        · rcases h1 with h1 | h1
          · rw [h1]
            exact ⟨List.mem_cons_self _ _, hskip⟩
          · exact ⟨List.mem_cons_of_mem _ h1.1, h1.2⟩
        · intro x hx
          rcases hx with hx | hx
          · subst hx
            have := h2 y (Or.inl rfl)
            omega
          · rcases List.mem_cons.mp hx.1 with hxy | hxy
            · exact h2 x (Or.inl hxy)
            · exact h2 x (Or.inr ⟨hxy, hx.2⟩)
      · have hr : selectNextLoop cur (y :: ys) (some nx)
            = selectNextLoop cur ys (some nx) := by
          simp only [selectNextLoop, hskip, if_false, hc]
        rw [hr]
        obtain ⟨r, h0, h1, h2⟩ := ih nx hrest hs.2
        refine ⟨r, h0, ?_, ?_⟩
        · rcases h1 with h1 | h1
          · exact Or.inl h1
          · exact Or.inr ⟨List.mem_cons_of_mem _ h1.1, h1.2⟩
        · intro x hx
          rcases hx with hx | hx
          · exact h2 x (Or.inl hx)
          · rcases List.mem_cons.mp hx.1 with hxy | hxy
            · subst hxy
              have := h2 nx (Or.inl rfl)
              omega
            · exact h2 x (Or.inr ⟨hxy, hx.2⟩)

theorem selectNextLoop_none (cur : Nat × ChainActor) (l : List (Nat × ChainActor))
    (hs : l.Pairwise (fun x y => x.1 < y.1)) :
    ((∀ x ∈ l, x.2.armyValue > cur.2.armyValue
          ∨ (x.2.armyValue = cur.2.armyValue ∧ x.1 ≤ cur.1))
        ∧ selectNextLoop cur l none = none)
    ∨ ∃ r, selectNextLoop cur l none = some r ∧ r ∈ l
        ∧ ¬ (r.2.armyValue > cur.2.armyValue
            ∨ (r.2.armyValue = cur.2.armyValue ∧ r.1 ≤ cur.1))
        ∧ ∀ x ∈ l, ¬ (x.2.armyValue > cur.2.armyValue
              ∨ (x.2.armyValue = cur.2.armyValue ∧ x.1 ≤ cur.1)) →
            x.2.armyValue < r.2.armyValue
            ∨ (x.2.armyValue = r.2.armyValue ∧ r.1 ≤ x.1) := by
  induction l with
  | nil =>
    left
    exact ⟨fun x hx => (by cases hx), rfl⟩
  | cons y ys ih =>
    rw [List.pairwise_cons] at hs
    by_cases hskip : y.2.armyValue > cur.2.armyValue
        ∨ (y.2.armyValue = cur.2.armyValue ∧ y.1 ≤ cur.1)
    · have hr : selectNextLoop cur (y :: ys) none = selectNextLoop cur ys none := by
        simp only [selectNextLoop, hskip, if_true]
      rw [hr]
      rcases ih hs.2 with ⟨h1, h2⟩ | ⟨r, h0, h1, h2, h3⟩
      · left
        refine ⟨?_, h2⟩
        intro x hx
        rcases List.mem_cons.mp hx with hxy | hxy
        · subst hxy
          exact hskip
        · exact h1 x hxy
      · right
        refine ⟨r, h0, List.mem_cons_of_mem _ h1, h2, ?_⟩
        intro x hx hcand
        rcases List.mem_cons.mp hx with hxy | hxy
        · subst hxy
          exact absurd hskip hcand
        · exact h3 x hxy hcand
    · have hr : selectNextLoop cur (y :: ys) none = selectNextLoop cur ys (some y) := by
        simp only [selectNextLoop, hskip, if_false]
      rw [hr]
      right
      obtain ⟨r, h0, h1, h2⟩ := selectNextLoop_some cur ys y hs.1 hs.2
      refine ⟨r, h0, ?_, ?_, ?_⟩
      · rcases h1 with h1 | h1
        · rw [h1]
          exact List.mem_cons_self _ _
        · exact List.mem_cons_of_mem _ h1.1
      · rcases h1 with h1 | h1
        · rw [h1]
          exact hskip
        · exact h1.2
      · intro x hx hcand
        rcases List.mem_cons.mp hx with hxy | hxy
        · exact h2 x (Or.inl hxy)
        · exact h2 x (Or.inr ⟨hxy, hcand⟩)

theorem enum_sorted (acts : List ChainActor) :
    acts.enum.Pairwise (fun x y => x.1 < y.1) := by
  have h := List.pairwise_lt_range acts.length
  rw [← List.enum_map_fst acts, List.pairwise_map] at h
  exact h

theorem mem_enum_fields (acts : List ChainActor) (x : Nat × ChainActor)
    (hx : x ∈ acts.enum) :
    x.1 < acts.length ∧ acts[x.1]? = some x.2
      ∧ x.2.armyValue = (acts[x.1]?.map ChainActor.armyValue).getD 0
      ∧ x.2.chainMask = maskAt acts x.1 := by
  obtain ⟨i, a⟩ := x
  have h : acts[i]? = some a := List.mk_mem_enum_iff_getElem?.mp hx
  have hi : i < acts.length := by
    by_contra hge
    rw [List.getElem?_eq_none (by omega)] at h
    cases h
  refine ⟨hi, h, ?_, ?_⟩
  · simp only [h, Option.map_some', Option.getD_some]
  · simp only [maskAt, h, Option.map_some', Option.getD_some]

theorem followActors_length (arena : ActorArena) (ps : List ActorPtr) :
    ∀ acts, followActors arena ps = some acts → acts.length = ps.length := by
  induction ps with
  | nil =>
    intro acts h
    simp only [followActors, Option.some.injEq] at h
    subst h
    rfl
  | cons p ps ih =>
    intro acts h
    simp only [followActors] at h
    cases ha : arena.actors[p]? with
    | none => simp only [ha] at h; cases h
    | some a =>
      cases hr : followActors arena ps with
      | none => simp only [ha, hr] at h; cases h
      | some rest =>
        simp only [ha, hr, Option.some.injEq] at h
        subst h
        simp only [List.length_cons, ih rest hr]

theorem maskAt_inj (acts : List ChainActor)
    (hmask : (acts.map ChainActor.chainMask).Nodup) (i j : Nat)
    (hi : i < acts.length) (hj : j < acts.length)
    (h : maskAt acts i = maskAt acts j) : i = j := by
  have hi2 : i < (acts.map ChainActor.chainMask).length := by
    rw [List.length_map]; exact hi
  have hj2 : j < (acts.map ChainActor.chainMask).length := by
    rw [List.length_map]; exact hj
  have h2 : (acts.map ChainActor.chainMask)[i] = (acts.map ChainActor.chainMask)[j] := by
    simp only [maskAt, List.getElem?_eq_getElem hi, List.getElem?_eq_getElem hj,
      Option.map_some', Option.getD_some] at h
    simp only [List.getElem_map]
    exact h
  exact (List.Nodup.getElem_inj_iff hmask).mp h2

theorem find_current (acts : List ChainActor)
    (hmask : (acts.map ChainActor.chainMask).Nodup) (cur : Nat) (hcur : cur < acts.length) :
    ∃ a, acts[cur]? = some a
      ∧ acts.enum.find? (fun actor => decide (actor.2.chainMask = maskAt acts cur))
          = some (cur, a) := by
  refine ⟨acts[cur], List.getElem?_eq_getElem hcur, ?_⟩
  have hmem : (cur, acts[cur]) ∈ acts.enum :=
    List.mk_mem_enum_iff_getElem?.mpr (List.getElem?_eq_getElem hcur)
  cases hf : acts.enum.find? (fun actor => decide (actor.2.chainMask = maskAt acts cur)) with
  | none =>
    have h := List.find?_eq_none.mp hf _ hmem
    exact absurd (decide_eq_true (mem_enum_fields acts _ hmem).2.2.2) h
  | some x =>
    have hx := List.mem_of_find?_eq_some hf
    have hp0 : decide (x.2.chainMask = maskAt acts cur) = true :=
      @List.find?_some _ (fun actor => decide (actor.2.chainMask = maskAt acts cur)) x _ hf
    have hp := of_decide_eq_true hp0
    obtain ⟨hi, hget, _, hm⟩ := mem_enum_fields acts x hx
    have hidx : x.1 = cur := maskAt_inj acts hmask x.1 cur hi hcur (hm.symm.trans hp)
    obtain ⟨i, a⟩ := x
    simp only at hidx hget
    subst hidx
    rw [List.getElem?_eq_getElem hcur] at hget
    simp only [Option.some.injEq] at hget
    rw [hget]

theorem comesBefore_irrefl (acts : List ChainActor) (i : Nat) : ¬ ComesBefore acts i i := by
  unfold ComesBefore
  omega

theorem comesBefore_trans (acts : List ChainActor) (i j k : Nat)
    (h1 : ComesBefore acts i j) (h2 : ComesBefore acts j k) : ComesBefore acts i k := by
  unfold ComesBefore at *
  omega

theorem positionsAfter_lt (acts : List ChainActor) (cur nxt : Nat)
    (hn : nxt < acts.length) (h : ComesBefore acts cur nxt) :
    positionsAfter acts nxt < positionsAfter acts cur := by
  unfold positionsAfter
  have hsub : ((List.range acts.length).filter
      (fun y => decide (ComesBefore acts nxt y))).Sublist
      ((List.range acts.length).filter (fun y => decide (ComesBefore acts cur y))) := by
    apply List.monotone_filter_right
    intro y hy
    exact decide_eq_true (comesBefore_trans acts cur nxt y h (of_decide_eq_true hy))
  rcases Nat.lt_or_ge
      ((List.range acts.length).filter (fun y => decide (ComesBefore acts nxt y))).length
      ((List.range acts.length).filter (fun y => decide (ComesBefore acts cur y))).length
    with hlt | hge
  · exact hlt
  · have heq := hsub.eq_of_length (le_antisymm hsub.length_le hge)
    have hin : nxt ∈ (List.range acts.length).filter
        (fun y => decide (ComesBefore acts cur y)) := by
      rw [List.mem_filter]
      exact ⟨List.mem_range.mpr hn, decide_eq_true h⟩
    rw [← heq, List.mem_filter] at hin
    exact absurd (of_decide_eq_true hin.2) (comesBefore_irrefl acts nxt)

theorem positionsAfter_lt_length (acts : List ChainActor) (cur : Nat)
    (hcur : cur < acts.length) : positionsAfter acts cur < acts.length := by
  unfold positionsAfter
  have h : ((List.range acts.length).filter
      (fun y => decide (ComesBefore acts cur y))).length < (List.range acts.length).length := by
    rw [List.length_filter_lt_length_iff_exists]
    refine ⟨cur, List.mem_range.mpr hcur, ?_⟩
    intro hd
    exact comesBefore_irrefl acts cur (of_decide_eq_true hd)
  rw [List.length_range] at h
  exact h

theorem selectNextActor_spec (s : AINodeStorage) (acts : List ChainActor) (cur : Nat)
    (hres : followActors s.arena s.actors = some acts)
    (hmask : (acts.map ChainActor.chainMask).Nodup)
    (hcur : cur < acts.length) (hm : s.chainMask = maskAt acts cur) :
    ((∀ y, y < acts.length → ¬ ComesBefore acts cur y)
      ∧ selectNextActor s = some (false, s))
    ∨ ∃ nxt, nxt < acts.length ∧ ComesBefore acts cur nxt
        ∧ (∀ y, y < acts.length → ComesBefore acts cur y → y = nxt ∨ ComesBefore acts nxt y)
        ∧ selectNextActor s = some (true, { s with chainMask := maskAt acts nxt }) := by
  obtain ⟨a, hget, hfind⟩ := find_current acts hmask cur hcur
  have hval : a.armyValue = (acts[cur]?.map ChainActor.armyValue).getD 0 := by
    simp only [hget, Option.map_some', Option.getD_some]
  have hstep : selectNextActor s
      = match selectNextLoop (cur, a) acts.enum none with
        | some nextActor => some (true, { s with chainMask := nextActor.2.chainMask })
        | none => some (false, s) := by
    simp only [selectNextActor, resolveActors, hres, Option.map_some', hm, hfind]
  rcases selectNextLoop_none (cur, a) acts.enum (enum_sorted acts) with
    ⟨hall, hloop⟩ | ⟨r, hloop, hmem, hcand, hbest⟩
  · left
    refine ⟨?_, ?_⟩
    · intro y hy hb
      have hymem : (y, acts[y]) ∈ acts.enum :=
        List.mk_mem_enum_iff_getElem?.mpr (List.getElem?_eq_getElem hy)
      have hskip := hall _ hymem
      obtain ⟨_, _, hv, _⟩ := mem_enum_fields acts _ hymem
      simp only at hskip hv
      unfold ComesBefore at hb
      omega
    · rw [hstep, hloop]
  · right
    obtain ⟨hr1, _, hrv, hrm⟩ := mem_enum_fields acts r hmem
    refine ⟨r.1, hr1, ?_, ?_, ?_⟩
    · simp only at hcand
      unfold ComesBefore
      omega
    · intro y hy hb
      have hymem : (y, acts[y]) ∈ acts.enum :=
        List.mk_mem_enum_iff_getElem?.mpr (List.getElem?_eq_getElem hy)
      obtain ⟨_, _, hv, _⟩ := mem_enum_fields acts _ hymem
      simp only at hv
      have hycand : ¬ ((y, acts[y]).2.armyValue > (cur, a).2.armyValue
          ∨ ((y, acts[y]).2.armyValue = (cur, a).2.armyValue
            ∧ (y, acts[y]).1 ≤ (cur, a).1)) := by
        simp only
        unfold ComesBefore at hb
        omega
      have h := hbest _ hymem hycand
      simp only at h
      unfold ComesBefore
      omega
    · rw [hstep, hloop]
      simp only [hrm]

theorem selectFirstActor_spec (s : AINodeStorage) (acts : List ChainActor)
    (hres : followActors s.arena s.actors = some acts) (hne : acts ≠ []) :
    ∃ first, first < acts.length
      ∧ (∀ y, y < acts.length → y = first ∨ ComesBefore acts first y)
      ∧ selectFirstActor s = some (true, { s with chainMask := maskAt acts first }) := by
  have hlen := followActors_length _ _ _ hres
  have hpos : 0 < acts.length := List.length_pos.mpr hne
  have hs := enum_sorted acts
  cases hE : acts.enum with
  | nil =>
    have := congrArg List.length hE
    simp only [List.enum_length, List.length_nil] at this
    omega
  | cons x rest =>
    rw [hE, List.pairwise_cons] at hs
    obtain ⟨h1, h2⟩ := maxElementByFunLoop_first rest x hs.1 hs.2
    have hmem : maxElementByFunLoop (fun actor => actor.2.armyValue) rest x ∈ acts.enum := by
      rw [hE]
      rcases h1 with h1 | h1
      · rw [h1]
        exact List.mem_cons_self _ _
      · exact List.mem_cons_of_mem _ h1
    obtain ⟨hr1, _, hrv, hrm⟩ := mem_enum_fields acts _ hmem
    refine ⟨(maxElementByFunLoop (fun actor => actor.2.armyValue) rest x).1, hr1, ?_, ?_⟩
    · intro y hy
      have hymem : (y, acts[y]) ∈ acts.enum :=
        List.mk_mem_enum_iff_getElem?.mpr (List.getElem?_eq_getElem hy)
      obtain ⟨_, _, hv, _⟩ := mem_enum_fields acts _ hymem
      simp only at hv
      have h := h2 (y, acts[y]) (by
        rw [hE] at hymem
        rcases List.mem_cons.mp hymem with h | h
        · exact Or.inl h
        · exact Or.inr h)
      simp only at h
      unfold ComesBefore
      omega
    · have hz : ¬ s.actors.length = 0 := by omega
      simp only [selectFirstActor, hz, if_false, resolveActors, hres, Option.map_some', hE,
        hrm]

theorem selectNextActors_spec (acts : List ChainActor)
    (hmask : (acts.map ChainActor.chainMask).Nodup) :
    ∀ (fuel : Nat) (s : AINodeStorage) (cur : Nat),
      followActors s.arena s.actors = some acts → cur < acts.length →
      s.chainMask = maskAt acts cur → positionsAfter acts cur < fuel →
      ∃ order : List Nat, selectNextActors fuel s = some (order.map (maskAt acts))
        ∧ (∀ i ∈ order, i < acts.length ∧ ComesBefore acts cur i)
        ∧ (∀ y, y < acts.length → ComesBefore acts cur y → y ∈ order)
        ∧ order.Pairwise (ComesBefore acts) := by
  intro fuel
  induction fuel with
  | zero =>
    intro s cur _ _ _ hf
    omega
  | succ fuel ih =>
    intro s cur hres hcur hm hf
    rcases selectNextActor_spec s acts cur hres hmask hcur hm with
      ⟨hlast, hstep⟩ | ⟨nxt, hn, hb, hleast, hstep⟩
    · refine ⟨[], ?_, ?_, ?_, List.Pairwise.nil⟩
      · simp only [selectNextActors, hstep, List.map_nil]
      · intro i hi
        cases hi
      · intro y hy hby
        exact absurd hby (hlast y hy)
    · have hlt := positionsAfter_lt acts cur nxt hn hb
      obtain ⟨order, h1, h2, h3, h4⟩ :=
        ih { s with chainMask := maskAt acts nxt } nxt hres hn rfl (by omega)
      refine ⟨nxt :: order, ?_, ?_, ?_, ?_⟩
      · simp only [selectNextActors, hstep, h1, Option.map_some', List.map_cons]
      · intro i hi
        rcases List.mem_cons.mp hi with hi | hi
        · rw [hi]
          exact ⟨hn, hb⟩
        · exact ⟨(h2 i hi).1, comesBefore_trans acts cur nxt i hb (h2 i hi).2⟩
      · intro y hy hby
        rcases hleast y hy hby with h | h
        · rw [h]
          exact List.mem_cons_self _ _
        · exact List.mem_cons_of_mem _ (h3 y hy h)
      · rw [List.pairwise_cons]
        exact ⟨fun i hi => (h2 i hi).2, h4⟩

/-- C36: when the chain masks of the actors are pairwise distinct,
`selectFirstActor` returns false exactly when there are no actors, and calling
it and then `selectNextActor` until that returns false makes every actor the
active one exactly once, in the order of decreasing army value and, among equal
army values, of increasing position in `actors`; for `n ≥ 1` actors exactly
`n - 1` calls of `selectNextActor` return true and the next one returns false. -/
theorem selectActors_strongest_first (s : AINodeStorage) (acts : List ChainActor)
    (hres : followActors s.arena s.actors = some acts)
    (hmask : (acts.map ChainActor.chainMask).Nodup) :
    (selectFirstActor s).map Prod.fst = some (decide (s.actors ≠ []))
    ∧ ∃ order : List Nat,
        selectActors acts.length s = some (order.map (maskAt acts))
        ∧ (∀ i, i ∈ order ↔ i < acts.length)
        ∧ order.Nodup
        ∧ order.Pairwise (ComesBefore acts)
        ∧ (∀ s1, selectFirstActor s = some (true, s1) →
            (selectNextActors acts.length s1).map List.length = some (acts.length - 1)) := by
  have hlen := followActors_length _ _ _ hres
  by_cases hne : acts = []
  · subst hne
    have hz : s.actors.length = 0 := by
      rw [← hlen]
      rfl
    have hnil : s.actors = [] := List.length_eq_zero.mp hz
    have hfirst : selectFirstActor s = some (false, s) := by
      simp only [selectFirstActor, hz, if_true]
    refine ⟨?_, [], ?_, ?_, List.nodup_nil, List.Pairwise.nil, ?_⟩
    · rw [hfirst, hnil]
      rfl
    · simp only [selectActors, hfirst, List.map_nil]
    · intro i
      simp only [List.not_mem_nil, List.length_nil, Nat.not_lt_zero]
    · intro s1 h1
      rw [hfirst] at h1
      cases h1
  · obtain ⟨first, hf, hleast, hfirst⟩ := selectFirstActor_spec s acts hres hne
    obtain ⟨order, h1, h2, h3, h4⟩ :=
      selectNextActors_spec acts hmask acts.length
        { s with chainMask := maskAt acts first } first hres hf rfl
        (positionsAfter_lt_length acts first hf)
    have hpair : (first :: order).Pairwise (ComesBefore acts) := by
      rw [List.pairwise_cons]
      exact ⟨fun i hi => (h2 i hi).2, h4⟩
    have hnodup : (first :: order).Nodup := by
      refine List.Pairwise.imp ?_ hpair
      intro a b hab heq
      rw [heq] at hab
      exact comesBefore_irrefl acts b hab
    have hmem : ∀ i, i ∈ first :: order ↔ i < acts.length := by
      intro i
      constructor
      · intro hi
        rcases List.mem_cons.mp hi with hi | hi
        · rw [hi]
          exact hf
        · exact (h2 i hi).1
      · intro hi
        rcases hleast i hi with h | h
        · rw [h]
          exact List.mem_cons_self _ _
        · exact List.mem_cons_of_mem _ (h3 i hi h)
    have hperm : (first :: order).Perm (List.range acts.length) := by
      rw [List.perm_ext_iff_of_nodup hnodup (List.nodup_range _)]
      intro i
      rw [hmem i, List.mem_range]
    have hcount : order.length = acts.length - 1 := by
      have := hperm.length_eq
      simp only [List.length_cons, List.length_range] at this
      omega
    have hsa : s.actors ≠ [] := by
      intro h
      rw [h] at hlen
      exact hne (List.length_eq_zero.mp hlen)
    refine ⟨?_, first :: order, ?_, hmem, hnodup, hpair, ?_⟩
    · rw [hfirst]
      simp only [Option.map_some', hsa, ne_eq, not_false_eq_true, decide_True]
    · simp only [selectActors, hfirst, h1, Option.map_some', List.map_cons]
    · intro s1 hs1
      rw [hfirst] at hs1
      simp only [Option.some.injEq, Prod.mk.injEq, true_and] at hs1
      rw [← hs1, h1]
      simp only [Option.map_some', List.length_map, hcount]

theorem selectActors_strongest_first_witness :
    followActors chainState.arena chainState.actors = some chainActors
    ∧ (chainActors.map ChainActor.chainMask).Nodup
    ∧ (selectFirstActor chainState).map Prod.fst = some (decide (chainState.actors ≠ []))
    ∧ ∃ order : List Nat,
        selectActors chainActors.length chainState = some (order.map (maskAt chainActors))
        ∧ (∀ i, i ∈ order ↔ i < chainActors.length)
        ∧ order.Nodup
        ∧ order.Pairwise (ComesBefore chainActors)
        ∧ (∀ s1, selectFirstActor chainState = some (true, s1) →
            (selectNextActors chainActors.length s1).map List.length
              = some (chainActors.length - 1)) :=
  ⟨by decide, by decide,
    selectActors_strongest_first chainState chainActors (by decide) (by decide)⟩

/-! ### Variants of exchanged actors -/

theorem isHeroAt_ext (arena arena1 : ActorArena) (r : ActorPtr)
    (hext : ArenaExt arena arena1) (h : IsHeroAt arena r) : IsHeroAt arena1 r := by
  intro k hk
  obtain ⟨a, ha, hrest⟩ := h k hk
  exact ⟨a, hext _ _ ha, hrest⟩

theorem construct_isHeroAt (raw : Nat → ChainActor) (arena : ActorArena)
    (mkBase : ActorPtr → ChainActor)
    (hbase : (mkBase arena.actors.length).baseActor = arena.actors.length) :
    IsHeroAt (HeroActor.construct raw arena mkBase).2 arena.actors.length := by
  intro k hk
  have hk8 : k < 8 := by
    simp only [SPECIAL_ACTORS_COUNT] at hk
    omega
  obtain ⟨v, hv, h1, h2, h3, _⟩ := construct_variant_fields raw arena mkBase ⟨k, hk8⟩
  obtain ⟨x, hx, _, hxb⟩ := construct_variant raw arena mkBase hbase k hk
  have hself : (HeroActor.construct raw arena mkBase).1 = arena.actors.length := rfl
  rw [hself] at hv hx
  simp only at hv
  rw [hv] at hx
  cases hx
  exact ⟨v, hv, hxb, h1, h2, h3⟩

theorem construct_exchangeMapOf (raw : Nat → ChainActor) (arena : ActorArena)
    (mkBase : ActorPtr → ChainActor) (p : ActorPtr) :
    (HeroActor.construct raw arena mkBase).2.exchangeMapOf p
      = if p = arena.actors.length then
          some { actor := arena.actors.length, canExchangeCache := [], exchangeMap := [] }
        else arena.exchangeMapOf p := by
  simp only [HeroActor.construct, ActorArena.exchangeMapOf, List.lookup_cons]
  by_cases h : p = arena.actors.length
  · subst h
    simp only [beq_self_eq_true, if_true]
  · have : (p == arena.actors.length) = false := by simpa using h
    simp only [this, h, if_false]

theorem construct_variantInv (raw : Nat → ChainActor) (arena : ActorArena)
    (mkBase : ActorPtr → ChainActor)
    (hbase : (mkBase arena.actors.length).baseActor = arena.actors.length)
    (hinv : VariantInv arena) : VariantInv (HeroActor.construct raw arena mkBase).2 := by
  have hext := construct_ext raw arena mkBase
  constructor
  · intro p em hp
    rw [construct_exchangeMapOf] at hp
    split_ifs at hp with h
    · cases hp
      exact h.symm
    · exact hinv.owner p em hp
  · intro p em hp
    rw [construct_exchangeMapOf] at hp
    split_ifs at hp with h
    · rw [h]
      exact construct_isHeroAt raw arena mkBase hbase
    · exact isHeroAt_ext _ _ p hext (hinv.hero p em hp)
  · intro p em o r hp ho
    rw [construct_exchangeMapOf] at hp
    split_ifs at hp with h
    · cases hp
      cases ho
    · obtain ⟨h1, rb, h2, h3, h4⟩ := hinv.memo p em o r hp ho
      refine ⟨?_, rb, hext _ _ h2, h3, h4⟩
      rw [construct_exchangeMapOf]
      split_ifs
      · rfl
      · exact h1

theorem emptyArena_variantInv : VariantInv emptyArena := by
  constructor
  · intro p em h
    simp [emptyArena, ActorArena.exchangeMapOf] at h
  · intro p em h
    simp [emptyArena, ActorArena.exchangeMapOf] at h
  · intro p em o r h
    simp [emptyArena, ActorArena.exchangeMapOf] at h

theorem twoHeroArena_variantInv : VariantInv twoHeroArena :=
  construct_variantInv _ _ _ rfl (construct_variantInv _ _ _ rfl emptyArena_variantInv)

theorem setCache_variantInv (arena : ActorArena) (p : ActorPtr) (em : HeroExchangeMap)
    (cache : List (ActorPtr × Bool)) (hem : arena.exchangeMapOf p = some em)
    (hinv : VariantInv arena) :
    VariantInv (arena.setExchangeMap p { em with canExchangeCache := cache }) := by
  constructor
  · intro q em1 hq
    rw [exchangeMapOf_setExchangeMap] at hq
    split_ifs at hq with h
    · cases hq
      subst h
      exact hinv.owner _ em hem
    · exact hinv.owner q em1 hq
  · intro q em1 hq
    rw [exchangeMapOf_setExchangeMap] at hq
    split_ifs at hq with h
    · subst h
      exact hinv.hero _ em hem
    · exact hinv.hero q em1 hq
  · intro q em1 o r hq ho
    have hkeep : ∀ x, (arena.exchangeMapOf x).isSome = true →
        ((arena.setExchangeMap p { em with canExchangeCache := cache }).exchangeMapOf x).isSome
          = true := by
      intro x hx
      rw [exchangeMapOf_setExchangeMap]
      split_ifs
      · rfl
      · exact hx
    rw [exchangeMapOf_setExchangeMap] at hq
    split_ifs at hq with h
    · cases hq
      subst h
      obtain ⟨h1, h2⟩ := hinv.memo _ em o r hem ho
      exact ⟨hkeep r h1, h2⟩
    · obtain ⟨h1, h2⟩ := hinv.memo q em1 o r hq ho
      exact ⟨hkeep r h1, h2⟩

theorem setMemo_variantInv (arena : ActorArena) (p o r : ActorPtr) (em : HeroExchangeMap)
    (hem : arena.exchangeMapOf p = some em) (hinv : VariantInv arena)
    (hnew : (arena.exchangeMapOf r).isSome = true
      ∧ ∃ rb, arena.actors[r]? = some rb ∧ rb.carrierParent = some p
          ∧ rb.otherParent = some o) :
    VariantInv (arena.setExchangeMap p { em with exchangeMap := (o, r) :: em.exchangeMap }) := by
  have hkeep : ∀ x, (arena.exchangeMapOf x).isSome = true →
      ((arena.setExchangeMap p
        { em with exchangeMap := (o, r) :: em.exchangeMap }).exchangeMapOf x).isSome
        = true := by
    intro x hx
    rw [exchangeMapOf_setExchangeMap]
    split_ifs
    · rfl
    · exact hx
  constructor
  · intro q em1 hq
    rw [exchangeMapOf_setExchangeMap] at hq
    split_ifs at hq with h
    · cases hq
      subst h
      exact hinv.owner _ em hem
    · exact hinv.owner q em1 hq
  · intro q em1 hq
    rw [exchangeMapOf_setExchangeMap] at hq
    split_ifs at hq with h
    · subst h
      exact hinv.hero _ em hem
    · exact hinv.hero q em1 hq
  · intro q em1 o1 r1 hq ho
    rw [exchangeMapOf_setExchangeMap] at hq
    split_ifs at hq with h
    · cases hq
      subst h
      simp only [List.lookup_cons] at ho
      by_cases ho1 : o1 = o
      · subst ho1
        simp only [beq_self_eq_true, Option.some.injEq] at ho
        subst ho
        exact ⟨hkeep _ hnew.1, hnew.2⟩
      · have : (o1 == o) = false := by simpa using ho1
        simp only [this] at ho
        obtain ⟨h1, h2⟩ := hinv.memo _ em o1 r1 hem ho
        exact ⟨hkeep r1 h1, h2⟩
    · obtain ⟨h1, h2⟩ := hinv.memo q em1 o1 r1 hq ho
      exact ⟨hkeep r1 h1, h2⟩

theorem exchangeMap_exchange_memo (sort : List SlotInfo → List SlotInfo)
    (raw : Nat → ChainActor) (arena : ActorArena) (p other r : ActorPtr)
    (em : HeroExchangeMap) (hem : arena.exchangeMapOf p = some em)
    (hl : em.exchangeMap.lookup other = some r) :
    HeroExchangeMap.exchange sort raw arena p other = some (r, arena) := by
  simp only [HeroExchangeMap.exchange, hem, hl]

theorem exchangeMap_exchange_variant (sort : List SlotInfo → List SlotInfo)
    (raw : Nat → ChainActor) (arena : ActorArena) (p other : ActorPtr)
    (em : HeroExchangeMap) (pa oa : ChainActor) (hinv : VariantInv arena)
    (hem : arena.exchangeMapOf p = some em)
    (hpa : arena.actors[p]? = some pa) (hoa : arena.actors[other]? = some oa)
    (harmy : (pickBestCreatures sort pa.creatureSet oa.creatureSet).isSome = true) :
    ∃ r arena1 em1, HeroExchangeMap.exchange sort raw arena p other = some (r, arena1)
      ∧ VariantInv arena1 ∧ ArenaExt arena arena1
      ∧ arena1.exchangeMapOf p = some em1 ∧ em1.exchangeMap.lookup other = some r := by
  have hown := hinv.owner p em hem
  cases hc : em.exchangeMap.lookup other with
  | some cached =>
    exact ⟨cached, arena, em, exchangeMap_exchange_memo sort raw arena p other cached em hem hc,
      hinv, ArenaExt.refl _, hem, hc⟩
  | none =>
    cases hp : pickBestCreatures sort pa.creatureSet oa.creatureSet with
    | none =>
      rw [hp] at harmy
      cases harmy
    | some newArmy =>
      have hplt : p < arena.actors.length := (List.getElem?_eq_some_iff.mp hpa).1
      have hext : ArenaExt arena (HeroActor.ofExchange raw arena p pa other oa newArmy).2 :=
        construct_ext _ arena _
      have hinv1 : VariantInv (HeroActor.ofExchange raw arena p pa other oa newArmy).2 :=
        construct_variantInv _ arena _ rfl hinv
      have hem1 : (HeroActor.ofExchange raw arena p pa other oa newArmy).2.exchangeMapOf p
          = some em := by
        unfold HeroActor.ofExchange
        rw [construct_exchangeMapOf, if_neg (Nat.ne_of_lt hplt)]
        exact hem
      have hself : ((HeroActor.ofExchange raw arena p pa other oa newArmy).2.exchangeMapOf
          arena.actors.length).isSome = true := by
        unfold HeroActor.ofExchange
        rw [construct_exchangeMapOf, if_pos rfl]
        rfl
      have hbase : ∃ rb,
          (HeroActor.ofExchange raw arena p pa other oa newArmy).2.actors[arena.actors.length]?
            = some rb ∧ rb.carrierParent = some p ∧ rb.otherParent = some other := by
        have h0 := construct_actor_at (fun k => raw (k + 1)) arena
          (fun self => ChainActor.ofExchange (raw 0) self p pa other oa newArmy) 0
        rw [setupSpecialActors_eq] at h0
        refine ⟨_, h0, rfl, rfl⟩
      refine ⟨arena.actors.length,
        (HeroActor.ofExchange raw arena p pa other oa newArmy).2.setExchangeMap p
          { em with exchangeMap := (other, arena.actors.length) :: em.exchangeMap },
        { em with exchangeMap := (other, arena.actors.length) :: em.exchangeMap },
        ?_, ?_, ?_, ?_, ?_⟩
      · simp only [HeroExchangeMap.exchange, hem, hc, hown, hpa, hoa, hp]
        rfl
      · exact setMemo_variantInv _ p other _ em hem1 hinv1 ⟨hself, hbase⟩
      · intro q a hq
        exact hext q a hq
      · rw [exchangeMapOf_setExchangeMap, if_pos rfl]
      · simp only [List.lookup_cons, beq_self_eq_true]

theorem actor_exchange_at (sort : List SlotInfo → List SlotInfo)
    (raw : Nat → ChainActor) (arena arena1 : ActorArena) (p k q r : Nat)
    (oa : ChainActor) (hinv : VariantInv arena)
    (hhero : (arena.exchangeMapOf p).isSome = true) (hk : k ≤ SPECIAL_ACTORS_COUNT)
    (ho : arena.actors[q]? = some oa)
    (hx : HeroExchangeMap.exchange sort raw arena p oa.baseActor = some (r, arena1)) :
    ChainActor.exchange sort raw arena (p + k) q = some (r + k, arena1) := by
  cases hem : arena.exchangeMapOf p with
  | none =>
    rw [hem] at hhero
    cases hhero
  | some em =>
    obtain ⟨a, ha, hb, _⟩ := hinv.hero p em hem k hk
    simp only [ChainActor.exchange, ha, hb, hem, HeroActor.exchange, ho, hx]
    simp only [SPECIAL_ACTORS_COUNT] at hk ⊢
    by_cases h0 : k = 0
    · subst h0
      simp only [Nat.add_zero, if_true]
    · have h1 : ¬ p + k = p := by omega
      have h2 : p < p + k ∧ p + k ≤ p + 7 := by omega
      have h3 : r + 1 + (p + k - p - 1) = r + k := by omega
      simp only [h1, if_false, h2, and_self, if_true, h3]

/-- C37: in an arena built by the constructors and by `exchange`, for the
variant `p + k` of the hero actor `p` and any actor `q` whose base actor can be
merged with `p`, `exchange` returns the variant `r + k` of the merged hero actor
`r` (built from `p` and the base actor of `q`), which has the same three
permission flags as `p + k`; `r` is memoised for the pair of base actors, so
every variant of `p` exchanged with any actor of the same base as `q`
afterwards gets its variant of the same `r` and the arena stays as it is. -/
theorem exchange_keeps_permissions (sort : List SlotInfo → List SlotInfo)
    (raw : Nat → ChainActor) (arena : ActorArena) (p k q : Nat)
    (pa oa ob : ChainActor) (hinv : VariantInv arena)
    (hhero : (arena.exchangeMapOf p).isSome = true) (hk : k ≤ SPECIAL_ACTORS_COUNT)
    (hpa : arena.actors[p]? = some pa) (ho : arena.actors[q]? = some oa)
    (hob : arena.actors[oa.baseActor]? = some ob)
    (harmy : (pickBestCreatures sort pa.creatureSet ob.creatureSet).isSome = true) :
    ∃ r arena1 sa ra rb,
      ChainActor.exchange sort raw arena (p + k) q = some (r + k, arena1)
      ∧ arena.actors[p + k]? = some sa
      ∧ arena1.actors[r + k]? = some ra ∧ ra.baseActor = r
      ∧ ra.allowBattle = sa.allowBattle ∧ ra.allowSpellCast = sa.allowSpellCast
      ∧ ra.allowUseResources = sa.allowUseResources
      ∧ arena1.actors[r]? = some rb ∧ rb.carrierParent = some p
      ∧ rb.otherParent = some oa.baseActor
      ∧ VariantInv arena1 ∧ ArenaExt arena arena1
      ∧ ∀ (k2 q2 : Nat) (o2 : ChainActor), k2 ≤ SPECIAL_ACTORS_COUNT →
          arena1.actors[q2]? = some o2 → o2.baseActor = oa.baseActor →
          ChainActor.exchange sort raw arena1 (p + k2) q2 = some (r + k2, arena1) := by
  cases hem : arena.exchangeMapOf p with
  | none =>
    rw [hem] at hhero
    cases hhero
  | some em =>
    obtain ⟨r, arena1, em1, hx, hinv1, hext, hem1, hl⟩ :=
      exchangeMap_exchange_variant sort raw arena p oa.baseActor em pa ob hinv hem hpa hob
        harmy
    obtain ⟨sa, hsa, _, hs1, hs2, hs3⟩ := hinv.hero p em hem k hk
    obtain ⟨hrmap, rb, hrb, hrc, hro⟩ := hinv1.memo p em1 oa.baseActor r hem1 hl
    cases hemr : arena1.exchangeMapOf r with
    | none =>
      rw [hemr] at hrmap
      cases hrmap
    | some emr =>
      obtain ⟨ra, hra, hrab, hr1, hr2, hr3⟩ := hinv1.hero r emr hemr k hk
      refine ⟨r, arena1, sa, ra, rb,
        actor_exchange_at sort raw arena arena1 p k q r oa hinv hhero hk ho hx,
        hsa, hra, hrab, by rw [hr1, hs1], by rw [hr2, hs2], by rw [hr3, hs3],
        hrb, hrc, hro, hinv1, hext, ?_⟩
      intro k2 q2 o2 hk2 ho2 hbase
      have hhero1 : (arena1.exchangeMapOf p).isSome = true := by
        rw [hem1]
        rfl
      refine actor_exchange_at sort raw arena1 arena1 p k2 q2 r o2 hinv1 hhero1 hk2 ho2 ?_
      rw [hbase]
      exact exchangeMap_exchange_memo sort raw arena1 p oa.baseActor r em1 hem1 hl

theorem exchange_keeps_permissions_witness :
    ∃ r arena1 sa ra rb,
      ChainActor.exchange sortByPower (fun _ => rawActor) twoHeroArena (0 + 3) 13
        = some (r + 3, arena1)
      ∧ twoHeroArena.actors[0 + 3]? = some sa
      ∧ arena1.actors[r + 3]? = some ra ∧ ra.baseActor = r
      ∧ ra.allowBattle = sa.allowBattle ∧ ra.allowSpellCast = sa.allowSpellCast
      ∧ ra.allowUseResources = sa.allowUseResources
      ∧ arena1.actors[r]? = some rb ∧ rb.carrierParent = some 0
      ∧ rb.otherParent = some (actorAt twoHeroArena 13).baseActor
      ∧ VariantInv arena1 ∧ ArenaExt twoHeroArena arena1
      ∧ ∀ (k2 q2 : Nat) (o2 : ChainActor), k2 ≤ SPECIAL_ACTORS_COUNT →
          arena1.actors[q2]? = some o2 → o2.baseActor = (actorAt twoHeroArena 13).baseActor →
          ChainActor.exchange sortByPower (fun _ => rawActor) arena1 (0 + k2) q2
            = some (r + k2, arena1) :=
  exchange_keeps_permissions sortByPower (fun _ => rawActor) twoHeroArena 0 3 13
    (actorAt twoHeroArena 0) (actorAt twoHeroArena 13) (actorAt twoHeroArena 8)
    twoHeroArena_variantInv (by decide) (by decide) (by decide) (by decide) (by decide)
    (by decide)

end Nullkiller
